import Mathlib

/-! # Oberon-07 compiler and RISC interpreter: verification development

A shallow embedding of parts of `risc.c`, `org.c`, `orb.c`, `orp.c` and `ors.c`, followed by
theorems about them.

Conventions of the embedding.

* A C `int` / `int32_t` value is a Lean `Int`.  Where the C code stores a result in a 32-bit
  object the value is reduced with `wrap32` (two's complement, modulo 2^32).
* Bitwise operators on variable operands go through the 32-bit pattern of the operands
  (`toWord`); shifts and masks by constants are written with `*`, `/` and `%`.
* `g_mem` is one array shared by the code generator and the interpreter: `Nat → Int`, with the
  bound `kMemSz / 4` checked at every access.
* A function returns `none` where the C code leaves the defined behaviour of the embedding:
  a failed `assert`, an access outside `g_mem`, a shift count outside 0..31.
* The console of the interpreter is part of its state (`Console`): what has been handed to
  `printf` and `putchar` is recorded, and the values that the functions of the C library
  return are the replies of the environment, one per call.
* `ORS_Mark` is embedded by its effect on the error count, together with the list of the
  messages it was called with.
* In the scanner a character is a signed `char` (-128 .. 127) and `EOF` is -1; the source file
  is the list of the bytes that `fgetc` has still to deliver.  `none` is also the exit of the
  program in `Consume`, an index outside `g_traits`, `g_line` or the digit buffer, and an
  overflow of the `int` sums of `Number`.
* The type declarations of the parser work on types kept by address (`Parser`), so that an
  assignment to `type->base` is seen through every pointer to the type.  `ArrayType` and the
  field layout of `RecordType` (`RecordTypeDecl`) build a new type from types that are
  complete, and work on the values `type_t` and `object_t`; the results of the parsing
  procedures they call (`Expr`, `Type`, `QualIdent`, `CheckExport`) are their arguments.
* Storage that `Pool_Alloc` returns is not cleared: a field that the code does not assign
  keeps the value of an argument `raw`.
* The entries of `g_str` and `g_pool` are signed `char`s as well.  The `memset` of `ORG_Close`
  is embedded by its effect on `g_mem` alone (see `ORG_Close` and `memsetEnd`).
-/

namespace Oberon

/-! ## Part I: definitions -/

/-! ### 32-bit words -/

/-- The `int32_t` value that has the same low 32 bits as `x`. -/
def wrap32 (x : Int) : Int := (x + 2147483648) % 4294967296 - 2147483648

/-- The 32-bit pattern (two's complement) of `x`, as a natural number below 2^32. -/
def toWord (x : Int) : Nat := (x % 4294967296).toNat

/-- The `int32_t` value of a 32-bit pattern. -/
def ofWord (w : Nat) : Int := wrap32 (w : Int)

/-- C `x & y` on 32-bit operands. -/
def bitAnd (x y : Int) : Int := ofWord (toWord x &&& toWord y)

/-- C `x | y` on 32-bit operands. -/
def bitOr (x y : Int) : Int := ofWord (toWord x ||| toWord y)

/-- C `x ^ y` on 32-bit operands. -/
def bitXor (x y : Int) : Int := ofWord (toWord x ^^^ toWord y)

/-- C `~x`. -/
def bitNot (x : Int) : Int := -x - 1

/-- C `x << k` on a 32-bit operand, for a count `k` in 0..31. -/
def shl (x : Int) (k : Nat) : Int := wrap32 (x * 2 ^ k)

/-- C `x >> k` on a signed operand (arithmetic shift), for a count `k` in 0..31. -/
def asr (x : Int) (k : Nat) : Int := x / 2 ^ k

/-! ### Constants of `risc.h` -/

def kRegMT : Int := 12
def kRegSB : Int := 13
def kRegSP : Int := 14
def kRegLNK : Int := 15
def kMemSz : Int := 4096

def kCondMI : Int := 0
def kCondEQ : Int := 1
def kCondCS : Int := 2
def kCondVS : Int := 3
def kCondLS : Int := 4
def kCondLT : Int := 5
def kCondLE : Int := 6
def kCondTrue : Int := 7
def kCondPL : Int := 8
def kCondNE : Int := 9
def kCondCC : Int := 10
def kCondVC : Int := 11
def kCondHI : Int := 12
def kCondGE : Int := 13
def kCondGT : Int := 14
def kCondFalse : Int := 15

def kTrapNilPtr : Int := -1
def kTrapIndexOutOfBounds : Int := -2
def kTrapDivByZero : Int := -3
def kTrapAssert : Int := -4
def kTrapIO : Int := -5

def kOpMov : Int := 0
def kOpLsl : Int := 1
def kOpAsr : Int := 2
def kOpRor : Int := 3
def kOpAnd : Int := 4
def kOpAnn : Int := 5
def kOpIor : Int := 6
def kOpXor : Int := 7
def kOpAdd : Int := 8
def kOpSub : Int := 9
def kOpMul : Int := 10
def kOpDiv : Int := 11
def kOpCmp : Int := 9
def kOpLdr : Int := 8
def kOpStr : Int := 10
def kOpBr : Int := 0
def kOpBlr : Int := 1
def kOpBc : Int := 2
def kOpBl : Int := 3

/-- Limit on the number of executed instructions (`risc.c`). -/
def kMaxSteps : Int := 100000

/-- The value `EOF` of `<stdio.h>`. -/
def kEOF : Int := -1

/-! ### Instruction decoding (`risc.c`) -/

/-- Decoding `g_ir & kInsnMsb`: bit 31. -/
def insnMsb (ir : Int) : Bool := decide (ir / 2147483648 % 2 = 1)

/-- Decoding `g_ir & kInsnQ`: bit 30. -/
def insnQ (ir : Int) : Bool := decide (ir / 1073741824 % 2 = 1)

/-- Decoding `g_ir & kInsnU`: bit 29. -/
def insnU (ir : Int) : Bool := decide (ir / 536870912 % 2 = 1)

/-- Decoding `g_ir & kInsnV`: bit 28. -/
def insnV (ir : Int) : Bool := decide (ir / 268435456 % 2 = 1)

/-- Decoding `(g_ir >> 24) & 0xF`. -/
def fieldA (ir : Int) : Int := ir / 16777216 % 16

/-- Decoding `(g_ir >> 20) & 0xF`. -/
def fieldB (ir : Int) : Int := ir / 1048576 % 16

/-- Decoding `(g_ir >> 16) & 0xF`. -/
def fieldOp (ir : Int) : Int := ir / 65536 % 16

/-- Decoding `g_ir & 0xF`. -/
def fieldC (ir : Int) : Int := ir % 16

/-! ### Interpreter state (`risc.c`) -/

/-- What the interpreter hands to standard output: the argument of `printf("%d", ...)` or
the argument of `putchar`. -/
inductive Output where
  | number (v : Int)
  | character (c : Int)
  deriving DecidableEq, Repr

/-- The console of the interpreter.  `printf`, `putchar`, `scanf` and `getchar` are functions
of the C library: what they return is not determined by the program, and is taken from the
state, `reply k` being the answer to the `k`-th request (counted from 0).  `calls` is the
number of answers used so far and `out` what has been handed to standard output, in order. -/
structure Console where
  reply : Nat → Int
  calls : Nat
  out : List Output

/-- The next answer of the C library, and the console after it. -/
def Console.next (c : Console) : Int × Console :=
  (c.reply c.calls, { c with calls := c.calls + 1 })

/-- A call of `printf` or `putchar` with the argument `o`: the value returned and the console
after it. -/
def Console.write (o : Output) (c : Console) : Int × Console :=
  (c.reply c.calls, { c with calls := c.calls + 1, out := c.out ++ [o] })

/-- The registers of the interpreter: `g_pc`, `g_ir`, `g_reg`, `g_h`, the four bits of
`g_cond`, and the memory `g_mem`; and the console. -/
structure VM where
  pc : Int
  ir : Int
  reg : Nat → Int
  h : Int
  flagN : Bool
  flagZ : Bool
  flagC : Bool
  flagV : Bool
  mem : Nat → Int
  io : Console

/-- The value of `g_cond`: the flags `[N, Z, C, V]` as the bit mask 8, 4, 2, 1. -/
def condWord (s : VM) : Int :=
  (if s.flagN then 8 else 0) + (if s.flagZ then 4 else 0) + (if s.flagC then 2 else 0)
    + (if s.flagV then 1 else 0)

/-- Translation of `IsTrue` (`risc.c`). -/
def IsTrue (s : VM) (cond : Int) : Bool :=
  (cond == kCondTrue) ||
  (cond == kCondMI && s.flagN) ||
  (cond == kCondEQ && s.flagZ) ||
  (cond == kCondVS && s.flagV) ||
  (cond == kCondLT && (s.flagN != s.flagV)) ||
  (cond == kCondLE && ((s.flagN != s.flagV) || s.flagZ)) ||
  (cond == kCondPL && !s.flagN) ||
  (cond == kCondNE && !s.flagZ) ||
  (cond == kCondVC && !s.flagV) ||
  (cond == kCondGE && (s.flagN == s.flagV)) ||
  (cond == kCondGT && ((s.flagN == s.flagV) && !s.flagZ))

/-- Translation of `SetN` followed by `SetZ` on the 64-bit result `val`. -/
def setNZ (s : VM) (val : Int) : VM :=
  { s with flagN := decide (val < 0), flagZ := decide (val = 0) }

/-- First operand `b = g_reg[(g_ir >> 20) & 0xF]` of a register or memory instruction. -/
def operandB (s : VM) (ir : Int) : Int := s.reg (fieldB ir).toNat

/-- Second operand `n` of a register instruction: `R.c` in format F0, the immediate in
format F1, to which `0xFFFF0000` is added when the `v` bit is set. -/
def operandN (s : VM) (ir : Int) : Int :=
  if !insnQ ir then s.reg (fieldC ir).toNat
  else if insnV ir then wrap32 (ir % 65536 + 4294901760)
  else ir % 65536

/-- The `switch (op)` of `RISC_Interpret`: the 64-bit result `val` and the state with `V` and
`H` updated.  Signed 32-bit arithmetic that overflows wraps modulo 2^32. -/
def execAlu (s : VM) (ir op b n : Int) : Option (Int × VM) :=
  if op = kOpMov then
    if insnU ir then
      if insnQ ir then some (shl n 16, s)
      else some (if insnV ir then condWord s else s.h, s)
    else some (n, s)
  else if op = kOpRor then
    if 0 < n ∧ n < 32 then
      some (bitOr (bitAnd (asr b n.toNat) (bitNot (shl (-1) (32 - n).toNat)))
              (shl b (32 - n).toNat), s)
    else none
  else if op = kOpLsl then
    if 0 ≤ n ∧ n < 32 then some (shl b n.toNat, s) else none
  else if op = kOpAsr then
    if 0 ≤ n ∧ n < 32 then some (asr b n.toNat, s) else none
  else if op = kOpAnd then some (bitAnd b n, s)
  else if op = kOpAnn then some (bitAnd b (bitNot n), s)
  else if op = kOpIor then some (bitOr b n, s)
  else if op = kOpXor then some (bitXor b n, s)
  else if op = kOpAdd then
    let val := wrap32 (b + n)
    if b < 0 ∧ n < 0 ∧ ¬ (val < 0) then some (val, { s with flagV := true })
    else if ¬ (b < 0) ∧ ¬ (n < 0) ∧ val < 0 then some (val, { s with flagV := true })
    else some (val, { s with flagV := false })
  else if op = kOpSub then
    let val := wrap32 (b - n)
    if b < 0 ∧ ¬ (n < 0) ∧ ¬ (val < 0) then some (val, { s with flagV := true })
    else if ¬ (b < 0) ∧ n < 0 ∧ val < 0 then some (val, { s with flagV := true })
    else some (val, { s with flagV := false })
  else if op = kOpMul then
    let val := wrap32 (b * n)
    some (val, { s with h := wrap32 (val / 4294967296 % 4294967296) })
  else if op = kOpDiv then
    if n = 0 then none
    else some (wrap32 (Int.tdiv b n), { s with h := Int.tmod b n })
  else none

/-- The loop `do ... while (ch)` of `WriteStr`, entered with `base` and the bit count `i`:
every pass hands one byte of `g_mem[base]` to `putchar`, and the loop ends behind a byte 0 or
with `g_pc = kTrapIO` when `putchar` returns `EOF`.  `none` is the read of a word outside
`g_mem`.  Every pass but the last moves on by one byte, so that `kMemSz` passes lead out of
the memory; the first argument bounds the number of passes. -/
def writeStrLoop : Nat → Int → Int → VM → Option VM
  | 0, _, _, _ => none
  | fuel + 1, base, i, s =>
    if base < 0 ∨ kMemSz / 4 ≤ base then none
    else
      let ch := asr (s.mem base.toNat) i.toNat % 256
      let r := s.io.write (.character ch)
      let s1 := { s with io := r.2 }
      if r.1 = kEOF then some { s1 with pc := kTrapIO }
      else
        let i1 := i + 8
        let p := if i1 = 32 then (0, base + 1) else (i1, base)
        if ch ≠ 0 then writeStrLoop fuel p.2 p.1 s1 else some s1

/-- Translation of `WriteStr`. -/
def WriteStr (a : Int) (s : VM) : Option VM :=
  writeStrLoop (kMemSz.toNat + 1) (Int.tdiv (s.reg a.toNat) 4) 0 s

/-- The output branch of a store instruction, `n < 0` being the port: -1 writes the integer
`R.a`, -2 the character `R.a`, -3 the string at the address `R.a`, -4 a line break; any other
port fails the assertion.  A call that reports an error sets `g_pc` to `kTrapIO`. -/
def execOutput (n a : Int) (s : VM) : Option VM :=
  if n = -1 then
    let r := s.io.write (.number (s.reg a.toNat))
    some (if r.1 < 0 then { s with io := r.2, pc := kTrapIO } else { s with io := r.2 })
  else if n = -2 then
    let r := s.io.write (.character (s.reg a.toNat % 256))
    some (if r.1 = kEOF then { s with io := r.2, pc := kTrapIO } else { s with io := r.2 })
  else if n = -3 then WriteStr a s
  else if n = -4 then
    let r := s.io.write (.character 10)
    some (if r.1 = kEOF then { s with io := r.2, pc := kTrapIO } else { s with io := r.2 })
  else none

/-- The input branch of a load instruction, `n < 0` being the port: -1 reads an integer with
`scanf("%d", g_reg + a)`, which stores a number when it returns 1; -2 reads a character with
`getchar`, whose result is assigned to `R.a` in any case; any other port fails the assertion.
A call that returns `EOF` sets `g_pc` to `kTrapIO`.  The flags are left as they are. -/
def execInput (n a : Int) (s : VM) : Option VM :=
  if n = -1 then
    let r := s.io.next
    if r.1 = kEOF then some { s with io := r.2, pc := kTrapIO }
    else if r.1 = 1 then
      let v := r.2.next
      some { s with io := v.2, reg := Function.update s.reg a.toNat (wrap32 v.1) }
    else some { s with io := r.2 }
  else if n = -2 then
    let r := s.io.next
    let s1 := { s with io := r.2, reg := Function.update s.reg a.toNat (wrap32 r.1) }
    some (if wrap32 r.1 = kEOF then { s1 with pc := kTrapIO } else s1)
  else none

/-- One pass through the body of the `do ... while` loop of `RISC_Interpret`: fetch
`g_mem[g_pc++]`, decode and execute.  `none` is the failure of an assertion or an operation
without defined behaviour (an access outside `g_mem`, a shift by a count outside 0 .. 31). -/
def step (s : VM) : Option VM :=
  if s.pc < 0 ∨ kMemSz / 4 ≤ s.pc then none
  else
    let ir := s.mem s.pc.toNat
    let s := { s with ir := ir, pc := s.pc + 1 }
    let a := fieldA ir
    if !insnMsb ir || !insnQ ir then
      let b := operandB s ir
      if !insnMsb ir then
        match execAlu s ir (fieldOp ir) b (operandN s ir) with
        | none => none
        | some (val, s1) =>
          some (setNZ { s1 with reg := Function.update s1.reg a.toNat (wrap32 val) } val)
      else
        let n := wrap32 (b + ir % 1048576)
        if insnU ir then
          if 0 ≤ n then
            if kMemSz / 4 ≤ n / 4 then none
            else if insnV ir then
              let w := bitOr (s.mem (n / 4).toNat) (shl (s.reg a.toNat % 256) ((n % 4) * 8).toNat)
              some { s with mem := Function.update s.mem (n / 4).toNat w }
            else
              some { s with mem := Function.update s.mem (n / 4).toNat (s.reg a.toNat) }
          else execOutput n a s
        else
          if 0 ≤ n then
            if kMemSz / 4 ≤ n / 4 then none
            else
              let val := if insnV ir then asr (s.mem (n / 4).toNat) ((n % 4) * 8).toNat % 256
                         else s.mem (n / 4).toNat
              some (setNZ { s with reg := Function.update s.reg a.toNat (wrap32 val) } val)
          else execInput n a s
    else
      if IsTrue s a then
        let s1 := if insnV ir then
                    { s with reg := Function.update s.reg kRegLNK.toNat (wrap32 (s.pc * 4)) }
                  else s
        if insnU ir then
          some { s1 with pc := s1.pc + asr (shl (ir % 16777216) 16) 16 }
        else
          some { s1 with pc := Int.tdiv (s1.reg (fieldC ir).toNat) 4 }
      else some s

/-! ### Symbols of the scanner (`ors.h`) used by the code generator -/

def kSymTimes : Int := 1
def kSymRDiv : Int := 2
def kSymDiv : Int := 3
def kSymMod : Int := 4
def kSymAnd : Int := 5
def kSymPlus : Int := 6
def kSymMinus : Int := 7
def kSymOr : Int := 8
def kSymEql : Int := 9
def kSymNeq : Int := 10
def kSymLss : Int := 11
def kSymLeq : Int := 12
def kSymGtr : Int := 13
def kSymGeq : Int := 14

/-- The code generator's table `g_relmap` (`org.c`), in the order of the symbols
`kSymEql .. kSymGeq`. -/
def g_relmap : List Int := [kCondEQ, kCondNE, kCondLT, kCondLE, kCondGT, kCondGE]

/-- The table access `g_relmap[rel - kSymEql]` of `ORG_IntRel`; `none` outside the table. -/
def relmapAt (rel : Int) : Option Int :=
  if rel < kSymEql then none else g_relmap.get? (rel - kSymEql).toNat

/-! ### Diagnostics (`ors.c`) -/

/-- The part of the scanner state that `ORS_Mark` changes: `g_errcnt`, and the messages
passed to `ORS_Mark` so far, in call order. -/
structure Diag where
  errcnt : Int
  marks : List String

/-- Translation of `ORS_Mark`: the error count grows by one on every call. -/
def ORS_Mark (msg : String) (d : Diag) : Diag :=
  { errcnt := d.errcnt + 1, marks := d.marks ++ [msg] }

/-! ### Objects and types (`orb.h`) -/

/-- Object tags. -/
inductive class_t where
  | kObjHead | kObjConst | kObjVar | kObjParam | kObjField | kObjType | kObjSProc | kObjSFunc
  | kObjMod
  deriving DecidableEq, Repr

/-- Type tags. -/
inductive form_t where
  | kTypeByte | kTypeBool | kTypeChar | kTypeInt | kTypeSet | kTypePointer | kTypeNil
  | kTypeNone | kTypeProc | kTypeString | kTypeArray | kTypeRecord
  deriving DecidableEq, Repr

mutual
/-- Structure `type_s`.  `addr` is the address of the structure: two `type_t *` are equal in C
exactly when they have the same address.  `dlink` is the `rlink`-chain of parameters or
fields; `len` is the union `u` (`len`, `nofpar`, `ext`); `typobj` keeps the name of the
identifier object, if any. -/
inductive type_t where
  | mk (addr : Nat) (base : Option type_t) (typobj : Option String) (dlink : List object_t)
      (size : Int) (tag : form_t) (len : Int) : type_t
/-- Structure `object_s`.  The `rlink` chain an object sits on is the list that contains it;
`dlink` is the chain of declarations of a module object. -/
inductive object_t where
  | mk (name : String) (tag : class_t) (type : type_t) (dlink : List object_t) (level : Int)
      (expo : Bool) (rdo : Bool) (val : Int) : object_t
end

def type_t.addr : type_t → Nat
  | .mk a _ _ _ _ _ _ => a

def type_t.base : type_t → Option type_t
  | .mk _ b _ _ _ _ _ => b

def type_t.typobj : type_t → Option String
  | .mk _ _ o _ _ _ _ => o

def type_t.dlink : type_t → List object_t
  | .mk _ _ _ d _ _ _ => d

def type_t.size : type_t → Int
  | .mk _ _ _ _ sz _ _ => sz

def type_t.tag : type_t → form_t
  | .mk _ _ _ _ _ t _ => t

def type_t.len : type_t → Int
  | .mk _ _ _ _ _ _ l => l

def object_t.name : object_t → String
  | .mk n _ _ _ _ _ _ _ => n

def object_t.tag : object_t → class_t
  | .mk _ t _ _ _ _ _ _ => t

def object_t.type : object_t → type_t
  | .mk _ _ ty _ _ _ _ _ => ty

def object_t.dlink : object_t → List object_t
  | .mk _ _ _ d _ _ _ _ => d

def object_t.level : object_t → Int
  | .mk _ _ _ _ l _ _ _ => l

def object_t.expo : object_t → Bool
  | .mk _ _ _ _ _ e _ _ => e

def object_t.rdo : object_t → Bool
  | .mk _ _ _ _ _ _ r _ => r

def object_t.val : object_t → Int
  | .mk _ _ _ _ _ _ _ v => v

/-- Pointer equality `t0 == t1` of two possibly null `type_t *`. -/
def sameType : Option type_t → Option type_t → Bool
  | none, none => true
  | some a, some b => a.addr == b.addr
  | _, _ => false

/-- Macro `TYPE(tag, size)` of `orb.c` for the predeclared types, placed at address `addr`. -/
def predeclared (addr : Nat) (tag : form_t) (size : Int) : type_t :=
  .mk addr none none [] size tag 0

def g_byte_type : type_t := predeclared 1 .kTypeInt 1
def g_bool_type : type_t := predeclared 2 .kTypeBool 1
def g_char_type : type_t := predeclared 3 .kTypeChar 1
def g_int_type : type_t := predeclared 4 .kTypeInt 4
def g_set_type : type_t := predeclared 5 .kTypeSet 4
def g_nil_type : type_t := predeclared 6 .kTypeNil 4
def g_no_type : type_t := predeclared 7 .kTypeNone 4
def g_str_type : type_t := predeclared 8 .kTypeString 8

/-! ### Items and code generator state (`org.h`, `org.c`) -/

/-- Addressing modes. -/
inductive mode_t where
  | kModeImmediate | kModeDirect | kModeParam | kModeType | kModeReg | kModeRegI | kModeCond
  deriving DecidableEq, Repr

/-- Structure `item_t`. -/
structure item_t where
  mode : mode_t
  type : type_t
  a : Int
  b : Int
  r : Int
  rdo : Bool

def kMaxCode : Int := 256
def kMaxStrx : Int := 512
def kModV : Int := 4096
def kModU : Int := 8192

/-- The private state of `org.c` (`g_pc`, `g_varsize`, `g_rh`, `g_frame`, `g_pool`, `g_strx`),
the shared memory `g_mem`, and the diagnostics of the scanner. -/
structure CG where
  pc : Int
  varsize : Int
  rh : Int
  frame : Int
  pool : Nat → Int
  strx : Int
  mem : Nat → Int
  diag : Diag

/-- A call of `ORS_Mark` from the code generator. -/
def CG.mark (msg : String) (s : CG) : CG := { s with diag := ORS_Mark msg s.diag }

/-- The statement `g_mem[g_pc++] = w`. -/
def emit (w : Int) (s : CG) : Option CG :=
  if s.pc < 0 ∨ kMemSz / 4 ≤ s.pc then none
  else some { s with mem := Function.update s.mem s.pc.toNat (wrap32 w), pc := s.pc + 1 }

/-- Translation of `Put0`. -/
def Put0 (op a b c : Int) (s : CG) : Option CG :=
  if ¬ (0 ≤ a ∧ a ≤ 15) then none
  else if ¬ (0 ≤ b ∧ b ≤ 15) then none
  else if ¬ (0 ≤ c ∧ c ≤ 15) then none
  else emit (bitOr (bitOr (bitOr (shl a 24) (shl b 20)) (shl op 16)) c) s

/-- Translation of `Put1`. -/
def Put1 (op a b im : Int) (s : CG) : Option CG :=
  if ¬ (0 ≤ a ∧ a ≤ 15) then none
  else if ¬ (0 ≤ b ∧ b ≤ 15) then none
  else
    let op := if im < 0 then op + kModV else op
    emit (bitOr (bitOr (bitOr (shl (a + 64) 24) (shl b 20)) (shl op 16)) (im % 65536)) s

/-- Translation of `Put1a`. -/
def Put1a (op a b im : Int) (s : CG) : Option CG :=
  if -65536 ≤ im ∧ im ≤ 65535 then Put1 op a b im s
  else
    (Put1 (kOpMov + kModU) s.rh 0 (asr im 16 % 65536) s).bind fun s1 =>
    (if im % 65536 ≠ 0 then Put1 kOpIor s1.rh s1.rh (im % 65536) s1 else some s1).bind fun s2 =>
    Put0 op a b s2.rh s2

/-- Translation of `Put2`. -/
def Put2 (op a b off : Int) (s : CG) : Option CG :=
  if ¬ (op = kOpLdr ∨ op = kOpLdr + 1 ∨ op = kOpStr ∨ op = kOpStr + 1) then none
  else if ¬ (0 ≤ a ∧ a ≤ 15) then none
  else if ¬ (0 ≤ b ∧ b ≤ 15) then none
  else emit (bitOr (bitOr (bitOr (shl op 28) (shl a 24)) (shl b 20)) (off % 65536)) s

/-- Translation of `Put3`. -/
def Put3 (op cond off : Int) (s : CG) : Option CG :=
  if ¬ (0 ≤ cond ∧ cond ≤ 15) then none
  else emit (bitOr (bitOr (shl (op + 12) 28) (shl cond 24)) (off % 16777216)) s

/-- Translation of `IncR`. -/
def IncR (s : CG) : CG :=
  if s.rh < kRegMT - 1 then { s with rh := s.rh + 1 }
  else s.mark "register stack overflow"

/-- Translation of `SetCC`. -/
def SetCC (x : item_t) (cond : Int) : item_t :=
  { x with mode := .kModeCond, a := 0, b := 0, r := cond }

/-- Translation of `Trap`. -/
def Trap (cond addr : Int) (s : CG) : Option CG :=
  if ¬ (addr < 0) then none
  else Put3 kOpBc cond (addr - s.pc - 1) s

/-- Translation of `Negated`. -/
def Negated (cond : Int) : Int := if cond < 8 then cond + 8 else cond - 8

/-- Translation of `Fix`: the assertion that `g_mem[at]` has format F3, then the new value
`(g_mem[at] & ~0xFFFFFF) | (with & 0xFFFFFF)`. -/
def Fix (at_ with_ : Int) (s : CG) : Option CG :=
  if at_ < 0 ∨ kMemSz / 4 ≤ at_ then none
  else
    let w := s.mem at_.toNat
    if ¬ (asr w 30 % 4 = 3) then none
    else
      let w1 := bitOr (w - w % 16777216) (with_ % 16777216)
      some { s with mem := Function.update s.mem at_.toNat w1 }

/-- Translation of `ORG_FixOne`. -/
def ORG_FixOne (at_ : Int) (s : CG) : Option CG := Fix at_ (s.pc - at_ - 1) s

/-- The loop of `ORG_FixLink`, run for at most `fuel` links; `none` when links remain. -/
def FixLinkLoop : Nat → Int → CG → Option CG
  | 0, l0, s => if l0 ≠ 0 then none else some s
  | fuel + 1, l0, s =>
    if l0 ≠ 0 then
      if l0 < 0 ∨ kMemSz / 4 ≤ l0 then none
      else
        let l1 := s.mem l0.toNat % 262144
        (Fix l0 (s.pc - l0 - 1) s).bind fun s1 => FixLinkLoop fuel l1 s1
    else some s

/-- Number of loop iterations granted to the chain walks: the number of words of `g_mem`,
which bounds the length of every chain of distinct addresses. -/
def chainFuel : Nat := 1024

/-- Translation of `ORG_FixLink`. -/
def ORG_FixLink (l0 : Int) (s : CG) : Option CG := FixLinkLoop chainFuel l0 s

/-- The loop of `FixLinkWith`, run for at most `fuel` links. -/
def FixLinkWithLoop (dst : Int) : Nat → Int → CG → Option CG
  | 0, l0, s => if l0 ≠ 0 then none else some s
  | fuel + 1, l0, s =>
    if l0 ≠ 0 then
      if l0 < 0 ∨ kMemSz / 4 ≤ l0 then none
      else
        let l1 := s.mem l0.toNat % 16777216
        (Fix l0 (dst - l0 - 1) s).bind fun s1 => FixLinkWithLoop dst fuel l1 s1
    else some s

/-- Translation of `FixLinkWith`. -/
def FixLinkWith (l0 dst : Int) (s : CG) : Option CG := FixLinkWithLoop dst chainFuel l0 s

/-- The `do ... while (l3 != 0)` loop of `Merged`: the last link `l2` of the chain that
starts at `l3`. -/
def lastLink (s : CG) : Nat → Int → Option Int
  | 0, _ => none
  | fuel + 1, l3 =>
    if l3 < 0 ∨ kMemSz / 4 ≤ l3 then none
    else
      let l2 := l3
      let l3 := s.mem l2.toNat % 262144
      if l3 ≠ 0 then lastLink s fuel l3 else some l2

/-- Translation of `Merged`: the returned head and the new state. -/
def Merged (l0 l1 : Int) (s : CG) : Option (Int × CG) :=
  if l1 = 0 then none
  else if l0 ≠ 0 then
    (lastLink s chainFuel l0).bind fun l2 =>
      some (l0, { s with mem := Function.update s.mem l2.toNat (wrap32 (s.mem l2.toNat + l1)) })
  else some (l1, s)

/-- Translation of `NilCheck`. -/
def NilCheck (s : CG) : Option CG := Trap kCondEQ (-1) s

/-- The part of `Load` that emits the instructions for an item that is neither in mode `Reg`
nor in mode `RegI`. -/
def loadCode (x : item_t) (op : Int) (s : CG) : Option CG :=
  if x.mode = .kModeImmediate then
    if x.type.tag = .kTypeProc then
      if x.r > 0 then some (s.mark "not allowed")
      else if x.r ≠ 0 then none
      else
        (Put3 kOpBl kCondTrue 0 s).bind fun s1 =>
        Put1a kOpSub s1.rh kRegLNK (s1.pc * 4 - x.a) s1
    else if x.a ≤ 65535 ∧ x.a ≥ -65536 then Put1 kOpMov s.rh 0 x.a s
    else
      (Put1 (kOpMov + kModU) s.rh 0 (asr x.a 16 % 65536) s).bind fun s1 =>
      if x.a % 65536 ≠ 0 then Put1 kOpIor s1.rh s1.rh (x.a % 65536) s1 else some s1
  else if x.mode = .kModeDirect then
    if x.r > 0 then Put2 op s.rh kRegSP (x.a + s.frame) s
    else Put2 op s.rh kRegSB x.a s
  else if x.mode = .kModeParam then
    (Put2 kOpLdr s.rh kRegSP (x.a + s.frame) s).bind fun s1 =>
    Put2 op s1.rh s1.rh x.b s1
  else if x.mode = .kModeCond then
    (Put3 kOpBc (Negated x.r) 2 s).bind fun s1 =>
    (ORG_FixLink x.b s1).bind fun s2 =>
    (Put1 kOpMov s2.rh 0 1 s2).bind fun s3 =>
    (Put3 kOpBc kCondTrue 1 s3).bind fun s4 =>
    (ORG_FixLink x.a s4).bind fun s5 =>
    Put1 kOpMov s5.rh 0 0 s5
  else none

/-- Translation of `Load`. -/
def Load (x : item_t) (s : CG) : Option (item_t × CG) :=
  if x.mode = .kModeReg then some (x, s)
  else
    let op := if x.type.size = 1 then kOpLdr + 1 else kOpLdr
    if x.mode = .kModeRegI then
      (Put2 op x.r x.r x.a s).bind fun s1 => some ({ x with mode := .kModeReg }, s1)
    else
      (loadCode x op s).bind fun s1 =>
        some ({ x with r := s1.rh, mode := .kModeReg }, IncR s1)

/-- Translation of `LoadCond`. -/
def LoadCond (x : item_t) (s : CG) : Option (item_t × CG) :=
  if x.type.tag ≠ .kTypeBool then some (x, s.mark "not a Boolean?")
  else if x.mode = .kModeImmediate then
    if ¬ (x.a = 0 ∨ x.a = 1) then none
    else some ({ x with r := 15 - x.a * 8, mode := .kModeCond, a := 0, b := 0 }, s)
  else
    (Load x s).bind fun (x1, s1) =>
    (Put1 kOpCmp x1.r x1.r 0 s1).bind fun s2 =>
      some ({ x1 with r := kCondNE, mode := .kModeCond, a := 0, b := 0 },
            { s2 with rh := s2.rh - 1 })

/-- The test `if (x->mode != kModeCond) LoadCond(x)` that opens the Boolean operators. -/
def condOf (x : item_t) (s : CG) : Option (item_t × CG) :=
  if x.mode ≠ .kModeCond then LoadCond x s else some (x, s)

/-- Translation of `ORG_MakeConst`; the fields `r` and `rdo` keep what the caller's item
held. -/
def ORG_MakeConst (x : item_t) (type : type_t) (val : Int) : item_t :=
  { x with mode := .kModeImmediate, type := type, a := val, b := 0 }

/-- Translation of `ORG_And1`. -/
def ORG_And1 (x : item_t) (s : CG) : Option (item_t × CG) :=
  (condOf x s).bind fun (x, s) =>
  (Put3 kOpBc (Negated x.r) x.a s).bind fun s1 =>
  let x := { x with a := s1.pc - 1 }
  (ORG_FixLink x.b s1).bind fun s2 =>
  some ({ x with b := 0 }, s2)

/-- Translation of `ORG_And2`. -/
def ORG_And2 (x y : item_t) (s : CG) : Option (item_t × CG) :=
  if x.mode ≠ .kModeCond then none
  else
    (condOf y s).bind fun (y, s) =>
    (Merged y.a x.a s).bind fun (l, s1) =>
    some ({ x with a := l, b := y.b, r := y.r }, s1)

/-- Translation of `ORG_Or1`. -/
def ORG_Or1 (x : item_t) (s : CG) : Option (item_t × CG) :=
  (condOf x s).bind fun (x, s) =>
  (Put3 kOpBc x.r x.b s).bind fun s1 =>
  let x := { x with b := s1.pc - 1 }
  (ORG_FixLink x.a s1).bind fun s2 =>
  some ({ x with a := 0 }, s2)

/-- Translation of `ORG_Or2`. -/
def ORG_Or2 (x y : item_t) (s : CG) : Option (item_t × CG) :=
  if x.mode ≠ .kModeCond then none
  else
    (condOf y s).bind fun (y, s) =>
    (Merged y.b x.b s).bind fun (l, s1) =>
    some ({ x with a := y.a, b := l, r := y.r }, s1)

/-- Translation of `ORG_CFJump`. -/
def ORG_CFJump (x : item_t) (s : CG) : Option (item_t × CG) :=
  (condOf x s).bind fun (x, s) =>
  (Put3 kOpBc (Negated x.r) x.a s).bind fun s1 =>
  (ORG_FixLink x.b s1).bind fun s2 =>
  some ({ x with a := s2.pc - 1 }, s2)

/-- Translation of `ORG_Fixup`. -/
def ORG_Fixup (x : item_t) (s : CG) : Option CG := ORG_FixLink x.a s

/-- Translation of `ORG_Assert`. -/
def ORG_Assert (x : item_t) (s : CG) : Option (item_t × CG) :=
  (condOf x s).bind fun (x, s) =>
  if x.a = 0 then
    (Trap (Negated x.r) kTrapAssert s).bind fun s1 =>
    (ORG_FixLink x.b s1).bind fun s2 => some (x, s2)
  else
    (Put3 kOpBc x.r x.b s).bind fun s1 =>
    let x := { x with b := s1.pc - 1 }
    (ORG_FixLink x.a s1).bind fun s2 =>
    (Trap kCondTrue kTrapAssert s2).bind fun s3 =>
    (ORG_FixLink x.b s3).bind fun s4 => some (x, s4)

/-- The loop of `Log2`, run at most `fuel` times: the odd factor and the exponent. -/
def Log2Loop : Nat → Int → Int → Option (Int × Int)
  | 0, _, _ => none
  | fuel + 1, m, exp =>
    if Int.tmod m 2 = 0 then Log2Loop fuel (Int.tdiv m 2) (exp + 1) else some (m, exp)

/-- Translation of `Log2`: the returned odd factor and `*exp`.  A non-zero `int` is halved at
most 31 times; the loop does not end for 0. -/
def Log2 (m : Int) : Option (Int × Int) := Log2Loop 32 m 0

/-- The assertion `x->mode == kModeImmediate || x->mode == kModeReg` that closes the
arithmetic operators. -/
def assertImmOrReg (r : item_t × CG) : Option (item_t × CG) :=
  if r.1.mode = .kModeImmediate ∨ r.1.mode = .kModeReg then some r else none

/-- Translation of `ORG_AddOp`. -/
def ORG_AddOp (op : Int) (x y : item_t) (s : CG) : Option (item_t × CG) :=
  if x.type.tag ≠ .kTypeInt ∨ y.type.tag ≠ .kTypeInt then none
  else
    (if x.mode = .kModeImmediate ∧ y.mode = .kModeImmediate then
      if op = kSymPlus then
        let s1 := if x.a > 0 ∧ y.a > 2147483647 - x.a then s.mark "overflow" else s
        some ({ x with a := wrap32 (x.a + y.a) }, s1)
      else if op ≠ kSymMinus then none
      else
        let s1 := if x.a < 0 ∧ y.a > -2147483648 - x.a then s.mark "underflow" else s
        some ({ x with a := wrap32 (x.a - y.a) }, s1)
    else if y.mode = .kModeImmediate then
      (Load x s).bind fun (x, s1) =>
      if y.a ≠ 0 then
        (Put1a (if op = kSymPlus then kOpAdd else kOpSub) x.r x.r y.a s1).bind fun s2 =>
          some (x, s2)
      else some (x, s1)
    else
      (Load x s).bind fun (x, s1) =>
      (Load y s1).bind fun (y, s2) =>
      (Put0 (if op = kSymPlus then kOpAdd else kOpSub) (s2.rh - 2) x.r y.r s2).bind fun s3 =>
        some ({ x with r := s3.rh - 1 - 1 }, { s3 with rh := s3.rh - 1 })).bind assertImmOrReg

/-- Translation of `ORG_MulOp`. -/
def ORG_MulOp (x y : item_t) (s : CG) : Option (item_t × CG) :=
  if x.type.tag ≠ .kTypeInt ∨ y.type.tag ≠ .kTypeInt then none
  else
    (if x.mode = .kModeImmediate ∧ y.mode = .kModeImmediate then
      some ({ x with a := wrap32 (x.a * y.a) }, s)
    else if y.mode = .kModeImmediate then
      (Load x s).bind fun (x, s1) =>
      if y.a ≥ 2 then
        (Log2 y.a).bind fun (m, exp) =>
          if m = 1 then (Put1 kOpLsl x.r x.r exp s1).bind fun s2 => some (x, s2)
          else if y.a ≠ 1 then (Put1 kOpMul x.r x.r y.a s1).bind fun s2 => some (x, s2)
          else some (x, s1)
      else if y.a ≠ 1 then (Put1 kOpMul x.r x.r y.a s1).bind fun s2 => some (x, s2)
      else some (x, s1)
    else if x.mode = .kModeImmediate then
      (Load y s).bind fun (y, s1) =>
      (if x.a ≥ 2 then
        (Log2 x.a).bind fun (m, exp) =>
          if m = 1 then Put1 kOpLsl y.r y.r exp s1
          else if x.a ≠ 1 then Put1 kOpMul y.r y.r x.a s1
          else some s1
      else if x.a ≠ 1 then Put1 kOpMul y.r y.r x.a s1
      else some s1).bind fun s2 =>
        some ({ x with mode := .kModeReg, r := y.r }, s2)
    else
      (Load x s).bind fun (x, s1) =>
      (Load y s1).bind fun (y, s2) =>
      (Put0 kOpMul (s2.rh - 2) x.r y.r s2).bind fun s3 =>
        some ({ x with r := s3.rh - 1 - 1 }, { s3 with rh := s3.rh - 1 })).bind assertImmOrReg

/-- The code of `ORG_DivOp` for a run-time divisor: check, division, and for `MOD` the move
of the remainder `H`. -/
def divRuntime (isMod : Bool) (x y : item_t) (s : CG) : Option (item_t × CG) :=
  (Load y s).bind fun (y, s1) =>
  (Trap kCondLE kTrapDivByZero s1).bind fun s2 =>
  (Load x s2).bind fun (x, s3) =>
  (Put0 kOpDiv (s3.rh - 2) x.r y.r s3).bind fun s4 =>
  (if isMod then Put0 (kOpMov + kModU) (s4.rh - 2) 0 0 s4 else some s4).bind fun s5 =>
    some ({ x with r := s5.rh - 1 - 1 }, { s5 with rh := s5.rh - 1 })

/-- Translation of `ORG_DivOp`. -/
def ORG_DivOp (op : Int) (x y : item_t) (s : CG) : Option (item_t × CG) :=
  if x.type.tag ≠ .kTypeInt ∨ y.type.tag ≠ .kTypeInt then none
  else
    (if op = kSymDiv then
      if y.mode = .kModeImmediate then
        if y.a ≤ 0 then some (x, s.mark "bad divisor")
        else if x.mode = .kModeImmediate then some ({ x with a := wrap32 (Int.tdiv x.a y.a) }, s)
        else
          (Load x s).bind fun (x, s1) =>
          (if y.a ≥ 2 then
            (Log2 y.a).bind fun (m, exp) =>
              if m = 1 then Put1 kOpAsr x.r x.r exp s1 else Put1a kOpDiv x.r x.r y.a s1
          else Put1a kOpDiv x.r x.r y.a s1).bind fun s2 => some (x, s2)
      else divRuntime false x y s
    else if op ≠ kSymMod then none
    else
      if y.mode = .kModeImmediate then
        if y.a ≤ 0 then some (x, s.mark "bad modulus")
        else if x.mode = .kModeImmediate then some ({ x with a := Int.tmod x.a y.a }, s)
        else
          (Load x s).bind fun (x, s1) =>
          (if y.a ≥ 2 then
            (Log2 y.a).bind fun (m, exp) =>
              if m = 1 then
                if exp ≤ 16 then Put1 kOpAnd x.r x.r (y.a - 1) s1
                else
                  (Put1 kOpLsl x.r x.r (32 - exp) s1).bind fun s2 =>
                  Put1 kOpRor x.r x.r (32 - exp) s2
              else
                (Load x s1).bind fun (x, s2) =>
                (Put1a kOpDiv x.r x.r y.a s2).bind fun s3 =>
                Put0 (kOpMov + kModU) x.r 0 0 s3
          else
            (Load x s1).bind fun (x, s2) =>
            (Put1a kOpDiv x.r x.r y.a s2).bind fun s3 =>
            Put0 (kOpMov + kModU) x.r 0 0 s3).bind fun s2 => some (x, s2)
      else divRuntime true x y s).bind assertImmOrReg

/-- Translation of `ORG_IntRel`. -/
def ORG_IntRel (rel : Int) (x y : item_t) (s : CG) : Option (item_t × CG) :=
  if x.type.tag ≠ .kTypeInt ∨ y.type.tag ≠ .kTypeInt then none
  else
    (if y.mode = .kModeImmediate ∧ y.type.tag ≠ .kTypeProc then
      (Load x s).bind fun (x, s1) =>
      (if y.a ≠ 0 ∨ (rel ≠ kSymEql ∧ rel ≠ kSymNeq) then Put1a kOpCmp x.r x.r y.a s1
       else some s1).bind fun s2 =>
        some (x, { s2 with rh := s2.rh - 1 })
    else
      let s0 := if x.mode = .kModeCond ∨ y.mode = .kModeCond then s.mark "not implemented" else s
      (Load x s0).bind fun (x, s1) =>
      (Load y s1).bind fun (y, s2) =>
      (Put0 kOpCmp x.r x.r y.r s2).bind fun s3 =>
        some (x, { s3 with rh := s3.rh - 2 })).bind fun (x, s4) =>
    (relmapAt rel).bind fun cond => some (SetCC x cond, s4)

/-- The run-time branch of `ORG_Index` after the bounds check: scaling of the index in `R.y`
and the addition of the base. -/
def indexAddress (scale : Int) (x y : item_t) (s : CG) : Option (item_t × CG) :=
  (if scale = 4 then Put1 kOpLsl y.r y.r 2 s
   else if scale > 1 then Put1a kOpMul y.r y.r scale s
   else some s).bind fun s1 =>
  if x.mode = .kModeDirect then
    (if x.r > 0 then
      (Put0 kOpAdd y.r kRegSP y.r s1).bind fun s2 => some ({ x with a := x.a + s2.frame }, s2)
    else if x.r = 0 then
      (Put0 kOpAdd y.r kRegSB y.r s1).bind fun s2 => some (x, s2)
    else
      (Put1a kOpAdd s1.rh kRegSB x.a s1).bind fun s2 =>
      (Put0 kOpAdd y.r s2.rh y.r s2).bind fun s3 => some ({ x with a := 0 }, s3)).bind
      fun (x, s4) => some ({ x with r := y.r, mode := .kModeRegI }, s4)
  else if x.mode = .kModeParam then
    (Put2 kOpLdr s1.rh kRegSP (x.a + s1.frame) s1).bind fun s2 =>
    (Put0 kOpAdd y.r s2.rh y.r s2).bind fun s3 =>
      some ({ x with mode := .kModeRegI, r := y.r, a := x.b }, s3)
  else if x.mode = .kModeRegI then
    (Put0 kOpAdd x.r x.r y.r s1).bind fun s2 => some (x, { s2 with rh := s2.rh - 1 })
  else none

/-- The bounds check that `ORG_Index` emits for a run-time index: load of the index, trap on
`MI`, comparison with the length, trap on `GT`. -/
def indexCheck (lim : Int) (x y : item_t) (s : CG) : Option (item_t × CG) :=
  (Load y s).bind fun (y, s1) =>
  (Trap kCondMI kTrapIndexOutOfBounds s1).bind fun s2 =>
  (if lim ≥ 0 then Put1a kOpCmp s2.rh y.r lim s2
   else if x.mode = .kModeDirect ∨ x.mode = .kModeParam then
     (Put2 kOpLdr s2.rh kRegSP (x.a + 4 + s2.frame) s2).bind fun s3 =>
     Put0 kOpCmp s3.rh y.r s3.rh s3
   else some (s2.mark "error in Index")).bind fun s4 =>
  (Trap kCondGT kTrapIndexOutOfBounds s4).bind fun s5 => some (y, s5)

/-- Translation of `ORG_Index`. -/
def ORG_Index (x y : item_t) (s : CG) : Option (item_t × CG) :=
  if x.type.tag ≠ .kTypeArray then none
  else if x.mode = .kModeImmediate ∨ x.mode = .kModeReg then none
  else if y.type.tag ≠ .kTypeInt then none
  else
    match x.type.base with
    | none => none
    | some base =>
      let lim := x.type.len
      let scale := base.size
      if y.mode = .kModeImmediate ∧ lim ≥ 0 then
        let s1 := if y.a < 0 ∨ y.a ≥ lim then s.mark "bad index" else s
        if x.mode = .kModeDirect ∨ x.mode = .kModeRegI then
          some ({ x with a := wrap32 (x.a + scale * y.a) }, s1)
        else if x.mode = .kModeParam then
          some ({ x with b := wrap32 (x.b + scale * y.a) }, s1)
        else some (x, s1)
      else
        (indexCheck lim x y s).bind fun (y, s1) => indexAddress scale x y s1

/-! ### The fetch-execute loop and the final report (`risc.c`) -/

/-- The table `g_trap` of run-time error messages. -/
def g_trap : List String :=
  ["", "nil pointer", "index out of bounds", "division by zero", "assert failure",
   "I/O exception"]

/-- The `do ... while (g_pc > 0 && g_pc < sb && ++cnt != kMaxSteps)` loop, with the value of
`cnt` on entry to the body; the result is the final state and the final `cnt`.  The first
argument bounds the number of passes; `kMaxSteps - cnt` passes always suffice. -/
def interpLoop (sb : Int) : Nat → Int → VM → Option (VM × Int)
  | 0, _, _ => none
  | fuel + 1, cnt, s =>
    match step s with
    | none => none
    | some s1 =>
      if s1.pc > 0 ∧ s1.pc < sb then
        if cnt + 1 ≠ kMaxSteps then interpLoop sb fuel (cnt + 1) s1
        else some (s1, cnt + 1)
      else some (s1, cnt)

/-- What `RISC_Interpret` writes to `stderr` after the loop: nothing when `g_pc` is 0. -/
def finalReport (pc cnt : Int) : Option String :=
  if pc ≠ 0 then
    if cnt = kMaxSteps then some "Execution aborted"
    else if pc < 0 ∧ pc ≥ kTrapIO then
      (g_trap.get? pc.natAbs).map fun m => "Trap: " ++ m
    else some "Illegal code address"
  else none

/-- The initialisation at the start of `RISC_Interpret` applied to the registers and memory
in `s`. -/
def interpInit (sb entry : Int) (s : VM) : VM :=
  { s with
    pc := entry, flagN := false, flagZ := false, flagC := false, flagV := false
    reg := Function.update (Function.update (Function.update s.reg kRegSB.toNat (wrap32 (sb * 4)))
      kRegSP.toNat kMemSz) kRegLNK.toNat 0 }

/-- Runs `step` n times: the execution of n instructions in a row. -/
def stepN : Nat → VM → Option VM
  | 0, s => some s
  | n + 1, s => (step s).bind (stepN n)

/-! ### Symbol table (`orb.c`) -/

/-- The state of `orb.c` and of the diagnostics: `g_top_scope` as the stack of open scopes,
innermost first, each scope being the `rlink`-chain of its head; the empty stack is the null
pointer. -/
structure SymTab where
  top_scope : List (List object_t)
  diag : Diag

/-- The loop `for (it = sc->rlink; it && strcmp(it->name, g_id); it = it->rlink)`. -/
def findInScope (id : String) : List object_t → Option object_t
  | [] => none
  | it :: rest => if it.name = id then some it else findInScope id rest

/-- The `do ... while (!it && sc)` loop of `ORB_This` from scope `sc` outward. -/
def thisFrom (id : String) : List object_t → List (List object_t) → Option object_t
  | sc, [] => findInScope id sc
  | sc, up :: rest =>
    match findInScope id sc with
    | some it => some it
    | none => thisFrom id up rest

/-- Translation of `ORB_This` for the identifier `id` held in `g_id`.  The outer `none` is the
failed assertion `g_top_scope`; the inner option is the returned pointer. -/
def ORB_This (id : String) (t : SymTab) : Option (Option object_t) :=
  match t.top_scope with
  | [] => none
  | sc :: rest => some (thisFrom id sc rest)

/-- Translation of `ORB_OpenScope`. -/
def ORB_OpenScope (t : SymTab) : SymTab := { t with top_scope := [] :: t.top_scope }

/-- Translation of `ORB_CloseScope`. -/
def ORB_CloseScope (t : SymTab) : Option SymTab :=
  match t.top_scope with
  | [] => none
  | _ :: rest => some { t with top_scope := rest }

/-- Translation of `ORB_New`.  `raw` is the content of the storage that `Pool_Alloc` returns,
which fixes the fields that `ORB_New` does not assign (`level`, `expo`, `val`). -/
def ORB_New (raw : object_t) (id : String) (tag : class_t) (t : SymTab) :
    Option (object_t × SymTab) :=
  match t.top_scope with
  | [] => none
  | sc :: rest =>
    match findInScope id sc with
    | some it => some (it, { t with diag := ORS_Mark "mult def" t.diag })
    | none =>
      let new := object_t.mk id tag g_no_type [] raw.level raw.expo false raw.val
      some (new, { t with top_scope := (sc ++ [new]) :: rest })

/-! ### Assignment compatibility (`orp.c`) -/

/-- The recursion of `IsExtension` on a non-null `t1`. -/
def isExtensionOf (t0 : Option type_t) : type_t → Bool
  | .mk a b o d sz tg l =>
    sameType t0 (some (.mk a b o d sz tg l)) ||
      (match b with
       | none => sameType t0 none
       | some b1 => isExtensionOf t0 b1)

/-- Translation of `IsExtension`: `(t0 == t1) || (t1 && IsExtension(t0, t1->base))`. -/
def IsExtension (t0 t1 : Option type_t) : Bool :=
  match t1 with
  | none => sameType t0 none
  | some t => isExtensionOf t0 t

/-- Translation of `MatchingArrayTypes`. -/
def MatchingArrayTypes (t0 t1 : type_t) : Bool :=
  (t0.tag == .kTypeArray) && (t1.tag == .kTypeArray) && (t0.len == t1.len) &&
    sameType t0.base t1.base

/-- Translation of `MatchingRecordTypes`. -/
def MatchingRecordTypes (t0 t1 : type_t) : Bool :=
  (t0.tag == .kTypeRecord) && (t1.tag == .kTypeRecord) && IsExtension (some t0) (some t1)

/-- Translation of `MatchingPointerTypes`. -/
def MatchingPointerTypes (t0 t1 : type_t) : Bool :=
  (t0.tag == .kTypePointer) && (t1.tag == .kTypePointer) && IsExtension t0.base t1.base

mutual
/-- Translation of `EqualSignatures`.  `none` is a failed assertion on the tags, or the read
of `p1->tag` through a null `p1` when the second list is shorter than the first. -/
def EqualSignatures : type_t → type_t → Option Bool
  | .mk _ b0 _ d0 _ tg0 l0, t1 =>
    if ¬ (tg0 = .kTypeProc ∧ t1.tag = .kTypeProc) then none
    else if !sameType b0 t1.base || l0 ≠ t1.len then some false
    else equalParams d0 t1.dlink
/-- The `for` loop of `EqualSignatures` over the two parameter lists.  The call of
`MatchingProcTypes` on the parameter types is written out: the test of the two tags followed
by `EqualSignatures`. -/
def equalParams : List object_t → List object_t → Option Bool
  | [], _ => some true
  | _ :: _, [] => none
  | (.mk _ tg0 ty0 _ _ _ r0 _) :: ps0, p1 :: ps1 =>
    if (tg0 ≠ p1.tag || r0 ≠ p1.rdo || !sameType (some ty0) (some p1.type))
        && !MatchingArrayTypes ty0 p1.type then
      if ty0.tag = .kTypeProc ∧ p1.type.tag = .kTypeProc then
        match EqualSignatures ty0 p1.type with
        | none => none
        | some true => equalParams ps0 ps1
        | some false => some false
      else some false
    else equalParams ps0 ps1
end

/-- Translation of `MatchingProcTypes`. -/
def MatchingProcTypes (t0 t1 : type_t) : Option Bool :=
  if t0.tag = .kTypeProc ∧ t1.tag = .kTypeProc then EqualSignatures t0 t1 else some false

/-- Translation of `CompatibleTypes`. -/
def CompatibleTypes (t0 t1 : type_t) (varpar : Bool) : Option Bool :=
  if sameType (some t0) (some t1) || MatchingArrayTypes t0 t1 || MatchingRecordTypes t0 t1 then
    some true
  else if varpar then some false
  else if MatchingPointerTypes t0 t1 then some true
  else
    (MatchingProcTypes t0 t1).bind fun m =>
      if m then some true
      else some ((t0.tag == .kTypePointer || t0.tag == .kTypeProc) && (t1.tag == .kTypeNil))

/-- Translation of `IsOpenArray`. -/
def IsOpenArray (type : type_t) : Bool := type.tag == .kTypeArray && decide (type.len < 0)

/-- Translation of `IsCharArray`; `none` is the read of `base->tag` through a null `base`. -/
def IsCharArray (x : item_t) : Option Bool :=
  if x.type.tag = .kTypeArray then
    match x.type.base with
    | none => none
    | some b => some (b.tag == .kTypeChar)
  else some false

/-- The branch that `AssignmentStmt` takes for the designator `x` and the expression `y`. -/
inductive assign_t where
  | store | storeStruct | copyString | strToCharStore | illegalAssignment
  deriving DecidableEq, Repr

/-- The `if ... else if` chain of `AssignmentStmt` that follows `Expr(&y)`: which generator
procedure is called, or the report of "illegal assignment". -/
def AssignmentStmt (x y : item_t) : Option assign_t :=
  (CompatibleTypes x.type y.type false).bind fun c =>
    if c then
      if x.type.tag = .kTypeByte ∨ x.type.tag = .kTypeBool ∨ x.type.tag = .kTypeChar ∨
          x.type.tag = .kTypeInt ∨ x.type.tag = .kTypeSet ∨ x.type.tag = .kTypePointer ∨
          x.type.tag = .kTypeProc then some .store
      else some .storeStruct
    else if IsOpenArray y.type && (x.type.tag == .kTypeArray) && sameType x.type.base y.type.base
      then some .storeStruct
    else
      (IsCharArray x).bind fun ca =>
        if ca && (y.type.tag == .kTypeString) then some .copyString
        else if x.type.tag = .kTypeInt ∧ y.type.tag = .kTypeInt then some .store
        else if x.type.tag = .kTypeChar ∧ y.type.tag = .kTypeString ∧ y.b = 2 then
          some .strToCharStore
        else some .illegalAssignment

mutual
/-- Well-formedness of the type structures that the parser builds: an array type has an
element type, and a procedure type records in `nofpar` the length of its parameter list, the
parameter types being well formed in turn. -/
def wellFormed : type_t → Bool
  | .mk _ b _ d _ tg l =>
    (tg != .kTypeArray || b.isSome) &&
    (tg != .kTypeProc || (l == (d.length : Int) && wellFormedParams d))
/-- Well-formedness of the types of all parameters on a list. -/
def wellFormedParams : List object_t → Bool
  | [] => true
  | (.mk _ _ ty _ _ _ _ _) :: ps => wellFormed ty && wellFormedParams ps
end

/-! ### Instruction words -/

/-- The word of a format-F1 instruction: `01uv | a | b | op | im`. -/
def wordF1 (m a b o im : Int) : Int :=
  1073741824 + m * 268435456 + a * 16777216 + b * 1048576 + o * 65536 + im

/-- The word of a format-F3 instruction: `11uv | cond | off`, as an `int32_t`. -/
def wordF3 (op cond off : Int) : Int :=
  -1073741824 + op * 268435456 + cond * 16777216 + off

/-! ### Branch chains and straight-line code -/

/-- The six condition codes that `g_relmap` assigns to relations. -/
def isRelCond (r : Int) : Prop :=
  r = kCondEQ ∨ r = kCondNE ∨ r = kCondLT ∨ r = kCondLE ∨ r = kCondGT ∨ r = kCondGE

/-- `isChain mem head addrs`: the chain that starts at `head` runs through the addresses
`addrs`, in this order.  Every address is a code address that holds a `BC` instruction, the
offset field of which is the address of the next instruction of the chain; the offset field of
the last one is 0, and `head` is 0 for the empty chain. -/
def isChain (mem : Nat → Int) : Int → List Int → Bool
  | h, [] => decide (h = 0)
  | h, a :: rest =>
    decide (h = a) && decide (0 < a ∧ a < 1024) &&
    decide (mem a.toNat = wordF3 kOpBc (fieldA (mem a.toNat)) (mem a.toNat % 262144)) &&
    isChain mem (mem a.toNat % 262144) rest

/-- The memory in which every branch of the chain `addrs` has been given the offset that
leads to `target`, the condition of each branch being kept. -/
def fixedMem (target : Int) : (Nat → Int) → List Int → (Nat → Int)
  | mem, [] => mem
  | mem, a :: rest =>
    fixedMem target
      (Function.update mem a.toNat
        (wordF3 kOpBc (fieldA (mem a.toNat)) ((target - a - 1) % 16777216))) rest

/-- Emission of the words `ws` one after the other: straight-line code produced between two
calls of the generator. -/
def emitAll : List Int → CG → Option CG
  | [], s => some s
  | w :: ws, s => (emit w s).bind (emitAll ws)

/-- A Boolean constant item as built by `ORG_MakeConst` (`FALSE` is 0, `TRUE` is 1). -/
def boolConst (val : Int) : item_t :=
  ORG_MakeConst { mode := .kModeType, type := g_no_type, a := 0, b := 0, r := 0, rdo := false }
    g_bool_type val

/-- A condition item with empty chains, as `SetCC` builds it for the relation code `r`. -/
def condItem (r : Int) : item_t :=
  SetCC { mode := .kModeReg, type := g_bool_type, a := 0, b := 0, r := 0, rdo := false } r

/-! ### The compatibility table as the specification words it -/

/-- Specification: `t2` is equal to `t1` or an extension of it, that is, `t1` is reached
from `t2` along the chain of base types. -/
def specExtends : type_t → type_t → Bool
  | .mk a b _ _ _ _ _, t1 =>
    a == t1.addr ||
      (match b with
       | none => false
       | some b1 => specExtends b1 t1)

mutual
/-- Specification of equal signatures: identical return types, the same number of
parameters, and every pair of corresponding parameters of the same kind, with the same
read-only flag, and with types that are identical, matching arrays, or procedure types with
equal signatures. -/
def specEqualSignatures : type_t → type_t → Bool
  | .mk _ b0 _ d0 _ _ l0, t1 =>
    sameType b0 t1.base && (l0 == t1.len) && specEqualParams d0 t1.dlink
/-- Specification of equal signatures, on the two parameter lists. -/
def specEqualParams : List object_t → List object_t → Bool
  | [], [] => true
  | [], _ :: _ => false
  | _ :: _, [] => false
  | (.mk _ tg0 ty0 _ _ _ r0 _) :: ps0, p1 :: ps1 =>
    (tg0 == p1.tag) && (r0 == p1.rdo) &&
      (sameType (some ty0) (some p1.type) || MatchingArrayTypes ty0 p1.type ||
        ((ty0.tag == .kTypeProc) && (p1.type.tag == .kTypeProc) &&
          specEqualSignatures ty0 p1.type)) &&
      specEqualParams ps0 ps1
end

/-- Specification of the compatibility table for `v : t1 := e : t2`, entry by entry; `yb` is
the length recorded in the item of a string expression (2 for one character). -/
def specAssignable (t1 t2 : type_t) (yb : Int) : Bool :=
  sameType (some t1) (some t2) ||
  ((t1.tag == .kTypeArray) && (t2.tag == .kTypeArray) && (t1.len == t2.len) &&
    sameType t1.base t2.base) ||
  ((t1.tag == .kTypeRecord) && (t2.tag == .kTypeRecord) && specExtends t2 t1) ||
  ((t1.tag == .kTypePointer) && (t2.tag == .kTypePointer) &&
    (match t1.base, t2.base with
     | some b1, some b2 => specExtends b2 b1
     | _, _ => false)) ||
  ((t1.tag == .kTypeProc) && (t2.tag == .kTypeProc) && specEqualSignatures t1 t2) ||
  (((t1.tag == .kTypePointer) || (t1.tag == .kTypeProc)) && (t2.tag == .kTypeNil)) ||
  ((t2.tag == .kTypeArray) && decide (t2.len < 0) && (t1.tag == .kTypeArray) &&
    sameType t1.base t2.base) ||
  ((t1.tag == .kTypeArray) &&
    (match t1.base with
     | some b => b.tag == .kTypeChar
     | none => false) && (t2.tag == .kTypeString)) ||
  ((t1.tag == .kTypeInt) && (t2.tag == .kTypeInt)) ||
  ((t1.tag == .kTypeChar) && (t2.tag == .kTypeString) && (yb == 2))

/-! ### Concrete inputs used by the examples -/

/-- Translation of `ORG_Open` applied to a state `s`. -/
def ORG_Open (s : CG) : CG := { s with pc := 1, rh := 0, strx := 0 }

/-- A code generator state right after `ORG_Open`, with cleared memory and no errors. -/
def cgStart : CG :=
  ORG_Open { pc := 0, varsize := 0, rh := 0, frame := 0, pool := fun _ => 0, strx := 0,
             mem := fun _ => 0, diag := { errcnt := 0, marks := [] } }

/-- An integer constant item as built by `ORG_MakeConst`. -/
def intConst (val : Int) : item_t :=
  ORG_MakeConst { mode := .kModeType, type := g_no_type, a := 0, b := 0, r := 0, rdo := false }
    g_int_type val

/-- An interpreter state with cleared registers and flags over the memory `mem`, about to
fetch from `pc`. -/
def vmAt (mem : Nat → Int) (pc : Int) : VM :=
  { pc := pc, ir := 0, reg := fun _ => 0, h := 0, flagN := false, flagZ := false,
    flagC := false, flagV := false, mem := mem,
    io := { reply := fun _ => 0, calls := 0, out := [] } }

/-- The instruction `CMP R0, R1` (format F0, opcode 9) at address 1, with `R0 = -2^31` and
`R1 = 1`: a comparison whose subtraction overflows. -/
def vmCmpOverflow : VM :=
  { vmAt (Function.update (fun _ => 0) 1 589825) 1 with
    reg := Function.update (Function.update (fun _ => 0) 0 (-2147483648)) 1 1 }

/-- A symbol table with an empty module scope on top of a universe that declares
`INTEGER`. -/
def tabDemo : SymTab :=
  { top_scope := [[], [object_t.mk "INTEGER" .kObjType g_int_type [] 0 false false 0]],
    diag := { errcnt := 0, marks := [] } }

/-- The type `A3 = ARRAY 3 OF INTEGER` as `ArrayType` and `TypeDecl` build it. -/
def typeA3 : type_t := .mk 100 (some g_int_type) (some "A3") [] 12 .kTypeArray 3

/-- The type `P0 = PROCEDURE (VAR a: A3)`: a variable parameter (`kObjParam`, not
read-only). -/
def typeP0 : type_t :=
  .mk 101 (some g_no_type) (some "P0")
    [object_t.mk "a" .kObjParam typeA3 [] 0 false false 0] 1 .kTypeProc 1

/-- The type `P1 = PROCEDURE (a: A3)`: a value parameter of array type, which `FPSection`
turns into a read-only reference parameter. -/
def typeP1 : type_t :=
  .mk 102 (some g_no_type) (some "P1")
    [object_t.mk "a" .kObjParam typeA3 [] 0 false true 0] 1 .kTypeProc 1

/-- The type `Q = PROCEDURE`. -/
def typeQ : type_t := .mk 103 (some g_no_type) (some "Q") [] 1 .kTypeProc 0

/-- The type `P2 = PROCEDURE (VAR f: Q)`. -/
def typeP2 : type_t :=
  .mk 104 (some g_no_type) (some "P2")
    [object_t.mk "f" .kObjParam typeQ [] 0 false false 0] 1 .kTypeProc 1

/-- The type `P3 = PROCEDURE (f: Q)`: a value parameter (`kObjVar`). -/
def typeP3 : type_t :=
  .mk 105 (some g_no_type) (some "P3")
    [object_t.mk "f" .kObjVar typeQ [] 0 false false 0] 1 .kTypeProc 1

/-- The item of a global variable of type `type` at offset `adr`, as `ORG_MakeItem` builds
it. -/
def globalVar (type : type_t) (adr : Int) : item_t :=
  { mode := .kModeDirect, type := type, a := adr, b := 0, r := 0, rdo := false }

/-- The code generator state after `ORG_Index` for `a[i]`, where `a : A3` is the global
variable at offset 0 and the index `i : INTEGER` is the global variable at offset 12. -/
def indexDemoCode : Option (item_t × CG) :=
  ORG_Index (globalVar typeA3 0) (globalVar g_int_type 12) cgStart

/-- The interpreter at the entry of the code of `indexDemoCode`, with the globals starting at
word 64 and the value `i` stored in the index variable (byte 4 * 64 + 12, word 67). -/
def indexDemoVM (i : Int) : VM :=
  interpInit 64 1
    (vmAt (Function.update (match indexDemoCode with
                            | some r => r.2.mem
                            | none => fun _ => 0) 67 i) 0)

/-- A generator state at address 3 in which address 1 holds `BC NE` and address 2 holds
`BC EQ`, both with the link 0: an F-chain and a T-chain of one branch each. -/
def cgChains : CG :=
  { cgStart with
    pc := 3
    mem := Function.update (Function.update (fun _ => 0) 1 (wordF3 kOpBc kCondNE 0)) 2
      (wordF3 kOpBc kCondEQ 0) }

/-- The condition item `LT` with the F-chain headed by address 1 and the T-chain headed by
address 2. -/
def condChained : item_t := { condItem kCondLT with a := 1, b := 2 }

/-- The code `STB R0, R1, 0` followed by `LDB R2, R1, 0`, as `Put2` emits it from address 1:
a byte store of `R0` to the address in `R1` and a byte load from the same address into
`R2`. -/
def byteStoreLoadCode : Option CG :=
  (Put2 (kOpStr + 1) 0 1 0 cgStart).bind fun s => Put2 (kOpLdr + 1) 2 1 0 s

/-- The code `STW R0, R1, 0` followed by `LDW R2, R1, 0`, emitted from address 1. -/
def wordStoreLoadCode : Option CG :=
  (Put2 kOpStr 0 1 0 cgStart).bind fun s => Put2 kOpLdr 2 1 0 s

/-- The interpreter at address 1 of the code `code`, with the word `old` in the memory word
that contains the byte address `n`, `R0 = r` and `R1 = n`. -/
def storeLoadVM (code : Option CG) (old n r : Int) : VM :=
  { vmAt (Function.update (match code with
                           | some s => s.mem
                           | none => fun _ => 0) (n / 4).toNat old) 1 with
    reg := Function.update (Function.update (fun _ => 0) 0 r) 1 n }

/-- The instruction `MUL R0, R0, R1` (format F0, opcode 10) at address 1, with `R0 = b` and
`R1 = n`. -/
def vmMul (b n : Int) : VM :=
  { vmAt (Function.update (fun _ => 0) 1 655361) 1 with
    reg := Function.update (Function.update (fun _ => 0) 0 b) 1 n }

/-! ### Type declarations with forward references (`orp.c`) -/

/-- The fields of a `type_s` in the pool that `PointerType`, `RecordType`, `TypeDecl` and
`Declarations` read and write; types are kept by address, `base` is an address or null. -/
structure type_cell where
  tag : form_t
  base : Option Nat
  typobj : Option String
  deriving DecidableEq, Repr

/-- The fields of an `object_s` on a scope that `PointerType` and `TypeDecl` read and write;
`type` is the address of the type. -/
structure obj_cell where
  name : String
  tag : class_t
  type : Nat
  level : Int
  deriving DecidableEq, Repr

/-- Structure `ptrBase_s`; `link` is the order of the list that holds the entry. -/
structure ptrBase_t where
  name : String
  type : Nat
  deriving DecidableEq, Repr

/-- The state that the type declarations work on: the types in the pool by address, the
address that the next `Pool_Alloc` of a type returns, the open scopes (innermost first),
`g_pbs_list` (head first), `g_level`, and the diagnostics. -/
structure Parser where
  heap : Nat → type_cell
  brk : Nat
  scopes : List (List obj_cell)
  pbs_list : List ptrBase_t
  level : Int
  diag : Diag

/-- A call of `ORS_Mark` from the parser. -/
def Parser.mark (msg : String) (p : Parser) : Parser := { p with diag := ORS_Mark msg p.diag }

/-- Translation of `CheckRecLevel`. -/
def CheckRecLevel (level : Int) (p : Parser) : Parser :=
  if level ≠ 0 then p.mark "ptr base must be global" else p

/-- The search of one scope by name, as in `ORB_This` and `ORB_New`. -/
def findCell (id : String) : List obj_cell → Option obj_cell
  | [] => none
  | it :: rest => if it.name = id then some it else findCell id rest

/-- The loop of `ORB_This` over the open scopes, on objects that hold type addresses. -/
def thisCell (id : String) : List (List obj_cell) → Option obj_cell
  | [] => none
  | sc :: rest =>
    match findCell id sc with
    | some it => some it
    | none => thisCell id rest

/-- Translation of `PointerType` for the tokens `POINTER TO id`: the address of the new
pointer type and the new state.  The storage that `Pool_Alloc` returns keeps its content
except for the fields assigned (`tag`, `base`). -/
def PointerType (id : String) (p : Parser) : Option (Nat × Parser) :=
  let type := p.brk
  let cell := { p.heap type with tag := .kTypePointer, base := some g_int_type.addr }
  let p := { p with brk := p.brk + 1, heap := Function.update p.heap type cell }
  match p.scopes with
  | [] => none
  | _ :: _ =>
    match thisCell id p.scopes with
    | some obj =>
      if obj.tag = .kObjType ∧
          ((p.heap obj.type).tag = .kTypeRecord ∨ (p.heap obj.type).tag = .kTypeNone) then
        let p := CheckRecLevel obj.level p
        some (type,
          { p with heap := Function.update p.heap type { p.heap type with base := some obj.type } })
      else if obj.tag = .kObjMod then some (type, p.mark "external base type not implemented")
      else some (type, p.mark "no valid base type")
    | none =>
      let p := CheckRecLevel p.level p
      some (type, { p with pbs_list := { name := id, type := type } :: p.pbs_list })

/-- Translation of `RecordType` for the tokens `RECORD END`: the address of the new record
type, without base type and without fields. -/
def RecordType (p : Parser) : Nat × Parser :=
  let new := p.brk
  let cell := { p.heap new with tag := .kTypeRecord, base := none }
  (new, { p with brk := p.brk + 1, heap := Function.update p.heap new cell })

/-- The loop of `TypeDecl` over `g_pbs_list` for the record type `type` declared under
`name`: the base of the first entry with that name is set, and the loop is left. -/
def fixForward (name : String) (type : Nat) :
    List ptrBase_t → (Nat → type_cell) → (Nat → type_cell)
  | [], heap => heap
  | it :: rest, heap =>
    if name = it.name then Function.update heap it.type { heap it.type with base := some type }
    else fixForward name type rest heap

/-- The assignments `obj->type = type; obj->level = g_level` to the object that `ORB_New`
returned for `id`, the first object of that name on the scope. -/
def setTypeOf (id : String) (type : Nat) (level : Int) : List obj_cell → List obj_cell
  | [] => []
  | it :: rest =>
    if it.name = id then { it with type := type, level := level } :: rest
    else it :: setTypeOf id type level rest

/-- The body of the `while` loop of `TypeDecl` after `type = Type()`: the new type object
(`ORB_New` reports "mult def" for a name already on the current scope and returns that
object), the type object of an anonymous type, and the resolution of a forward reference. -/
def TypeDeclEnter (id : String) (type : Nat) (p : Parser) : Option Parser :=
  match p.scopes with
  | [] => none
  | sc :: rest =>
    let p := match findCell id sc with
      | some _ => p.mark "mult def"
      | none =>
        let new : obj_cell := { name := id, tag := .kObjType, type := g_no_type.addr, level := 0 }
        { p with scopes := (sc ++ [new]) :: rest }
    let p := match p.scopes with
      | [] => p
      | sc :: rest => { p with scopes := setTypeOf id type p.level sc :: rest }
    let p := if (p.heap type).typobj = none then
        { p with heap := Function.update p.heap type { p.heap type with typobj := some id } }
      else p
    if (p.heap type).tag = .kTypeRecord then
      some { p with heap := fixForward id type p.pbs_list p.heap }
    else some p

/-- The right-hand sides of type declarations that the embedding covers. -/
inductive type_rhs where
  | pointerTo (id : String)
  | emptyRecord
  deriving DecidableEq, Repr

/-- Translation of the `while` loop of `TypeDecl` over the declarations `id = rhs;` of a
`TYPE` section. -/
def TypeDecl : List (String × type_rhs) → Parser → Option Parser
  | [], p => some p
  | (id, .pointerTo base) :: ds, p =>
    (PointerType base p).bind fun (type, p) => (TypeDeclEnter id type p).bind (TypeDecl ds)
  | (id, .emptyRecord) :: ds, p =>
    (TypeDeclEnter id (RecordType p).1 (RecordType p).2).bind (TypeDecl ds)

/-- The loop of `Declarations` that validates the forward references; `none` is the read
through a null `base`. -/
def checkForward : List ptrBase_t → Parser → Option Parser
  | [], p => some p
  | ptbase :: rest, p =>
    match (p.heap ptbase.type).base with
    | none => none
    | some b =>
      checkForward rest
        (if (p.heap b).tag = .kTypeInt then p.mark "undefined pointer base" else p)

/-- Translation of `Declarations` for a declaration part that consists of a `TYPE` section:
the list of forward references is emptied, the section is parsed, and the references are
validated. -/
def Declarations (ds : List (String × type_rhs)) (p : Parser) : Option Parser :=
  (TypeDecl ds { p with pbs_list := [] }).bind fun p => checkForward p.pbs_list p

/-- The pool with the predeclared types at the addresses of `g_byte_type` .. `g_str_type`,
and cleared storage elsewhere. -/
def heapStart : Nat → type_cell := fun a =>
  { tag := if a = g_byte_type.addr then .kTypeInt
           else if a = g_bool_type.addr then .kTypeBool
           else if a = g_char_type.addr then .kTypeChar
           else if a = g_int_type.addr then .kTypeInt
           else if a = g_set_type.addr then .kTypeSet
           else if a = g_nil_type.addr then .kTypeNil
           else if a = g_no_type.addr then .kTypeNone
           else if a = g_str_type.addr then .kTypeString
           else .kTypeByte
    base := none
    typobj := none }

/-- The parser at the start of the declarations of a module: an empty module scope on top of
a universe that declares `INTEGER`, level 0, the next type allocated at address 100. -/
def parserStart : Parser :=
  { heap := heapStart, brk := 100,
    scopes := [[], [{ name := "INTEGER", tag := .kObjType, type := g_int_type.addr, level := 0 }]],
    pbs_list := [], level := 0, diag := { errcnt := 0, marks := [] } }

/-- The section `TYPE P1 = POINTER TO R; P2 = POINTER TO R; R = RECORD END;`. -/
def twoPointersOneRecord : List (String × type_rhs) :=
  [("P1", .pointerTo "R"), ("P2", .pointerTo "R"), ("R", .emptyRecord)]

/-! ### The scanner (`ors.c`) -/

def kIdLen : Int := 32
def kStrBufSz : Int := 256
def kMaxLineLen : Int := 256

def kSymIn : Int := 15
def kSymIs : Int := 16
def kSymChar : Int := 19
def kSymInt : Int := 20
def kSymFalse : Int := 21
def kSymTrue : Int := 22
def kSymNil : Int := 23
def kSymString : Int := 24
def kSymIdent : Int := 29
def kSymIf : Int := 30
def kSymWhile : Int := 31
def kSymRepeat : Int := 32
def kSymCase : Int := 33
def kSymFor : Int := 34
def kSymThen : Int := 42
def kSymOf : Int := 43
def kSymDo : Int := 44
def kSymTo : Int := 45
def kSymBy : Int := 46
def kSymEnd : Int := 48
def kSymElse : Int := 50
def kSymElsif : Int := 51
def kSymUntil : Int := 52
def kSymReturn : Int := 53
def kSymArray : Int := 54
def kSymRecord : Int := 55
def kSymPointer : Int := 56
def kSymConst : Int := 57
def kSymType : Int := 58
def kSymVar : Int := 59
def kSymProcedure : Int := 60
def kSymBegin : Int := 61
def kSymImport : Int := 62
def kSymModule : Int := 63


/-- The bit masks of the character traits. -/
def kBlank : Nat := 1
def kBreak : Nat := 2
def kLetter : Nat := 4
def kDigit : Nat := 8
def kHex : Nat := 16

/-- The table `g_traits`, one entry for each of the 128 ASCII codes. -/
def g_traits : List Nat :=
  [0, 0, 0, 0,
   0, 0, 0, 0,
   0, kBlank, kBreak, kBlank,
   kBlank, kBreak, 0, 0,
   0, 0, 0, 0,
   0, 0, 0, 0,
   0, 0, 0, 0,
   0, 0, 0, 0,
   kBlank, 0, 0, 0,
   0, 0, 0, 0,
   0, 0, 0, 0,
   0, 0, 0, 0,
   kDigit + kHex, kDigit + kHex, kDigit + kHex, kDigit + kHex,
   kDigit + kHex, kDigit + kHex, kDigit + kHex, kDigit + kHex,
   kDigit + kHex, kDigit + kHex, 0, 0,
   0, 0, 0, 0,
   0, kHex + kLetter, kHex + kLetter, kHex + kLetter,
   kHex + kLetter, kHex + kLetter, kHex + kLetter, kLetter,
   kLetter, kLetter, kLetter, kLetter,
   kLetter, kLetter, kLetter, kLetter,
   kLetter, kLetter, kLetter, kLetter,
   kLetter, kLetter, kLetter, kLetter,
   kLetter, kLetter, kLetter, 0,
   0, 0, 0, 0,
   0, kLetter, kLetter, kLetter,
   kLetter, kLetter, kLetter, kLetter,
   kLetter, kLetter, kLetter, kLetter,
   kLetter, kLetter, kLetter, kLetter,
   kLetter, kLetter, kLetter, kLetter,
   kLetter, kLetter, kLetter, kLetter,
   kLetter, kLetter, kLetter, 0,
   0, 0, 0, 0]

/-- The access `g_traits[c]`; `none` outside the table. -/
def traits (c : Int) : Option Nat :=
  if 0 ≤ c ∧ c < 128 then g_traits.get? c.toNat else none

/-- Translation of `IsBlank`. -/
def IsBlank (c : Int) : Option Bool := (traits c).map fun t => decide (t / kBlank % 2 = 1)

/-- Translation of `IsLetter`. -/
def IsLetter (c : Int) : Option Bool := (traits c).map fun t => decide (t / kLetter % 2 = 1)

/-- Translation of `IsDigit`. -/
def IsDigit (c : Int) : Option Bool := (traits c).map fun t => decide (t / kDigit % 2 = 1)

/-- Translation of `IsHexDigit`. -/
def IsHexDigit (c : Int) : Option Bool := (traits c).map fun t => decide (t / kHex % 2 = 1)

/-- The reserved words `g_keytab_id`. -/
def g_keytab_id : List String :=
  ["ARRAY", "BEGIN", "BY", "CASE", "CONST", "DIV",
   "DO", "ELSE", "ELSIF", "END", "FALSE", "FOR",
   "IF", "IMPORT", "IN", "IS", "MOD", "MODULE",
   "NIL", "OF", "OR", "POINTER", "PROCEDURE", "RECORD",
   "REPEAT", "RETURN", "THEN", "TO", "TRUE", "TYPE",
   "UNTIL", "VAR", "WHILE"]

/-- The symbols `g_keytab_sym` for the reserved words. -/
def g_keytab_sym : List Int :=
  [kSymArray, kSymBegin, kSymBy, kSymCase, kSymConst, kSymDiv,
   kSymDo, kSymElse, kSymElsif, kSymEnd, kSymFalse, kSymFor,
   kSymIf, kSymImport, kSymIn, kSymIs, kSymMod, kSymModule,
   kSymNil, kSymOf, kSymOr, kSymPointer, kSymProcedure, kSymRecord,
   kSymRepeat, kSymReturn, kSymThen, kSymTo, kSymTrue, kSymType,
   kSymUntil, kSymVar, kSymWhile]

/-- The conversion of an `int` to `char` on assignment to a `char` object; `char` is signed,
as the comparison of stored characters with `EOF` in the scanner requires. -/
def toChar (c : Int) : Int := (c + 128) % 256 - 128

/-- The private state of the scanner that `Consume` works on (`g_ch`, `g_line`, `g_cc`,
`g_lineno`, and the bytes that `fgetc` has not yet returned from `g_fp`), together with the
diagnostics. -/
structure Input where
  ch : Int
  line : Nat → Int
  cc : Int
  lineno : Int
  file : List Int
  diag : Diag

/-- The state of the scanner: the input, the public variables `g_ival`, `g_id`, `g_str`,
`g_slen`, and the static buffer `buff` of `Number`. -/
structure Scanner where
  inp : Input
  ival : Int
  id : Nat → Int
  str : Nat → Int
  slen : Int
  buff : Nat → Int

/-- A call of `ORS_Mark` from the scanner. -/
def Input.mark (msg : String) (s : Input) : Input := { s with diag := ORS_Mark msg s.diag }

/-- The library function `fgetc`: the next byte of the file, or `EOF` at its end. -/
def fgetc (f : List Int) : Int × List Int :=
  match f with
  | [] => (kEOF, [])
  | b :: rest => (b, rest)

/-- The loop `do { ch = fgetc(g_fp); g_line[i++] = ch; } while (i != kMaxLineLen &&
ch != '\n' && ch != EOF)` of `Consume`: the final `i`, the last `ch`, the rest of the file and
the line buffer.  The first argument bounds the number of passes; the loop makes at most
`kMaxLineLen - i` of them. -/
def fillLine : Nat → Nat → List Int → (Nat → Int) → Nat × Int × List Int × (Nat → Int)
  | 0, i, f, line => (i, kEOF, f, line)
  | fuel + 1, i, f, line =>
    let ch := (fgetc f).1
    let line := Function.update line i (toChar ch)
    if i + 1 ≠ 256 ∧ ch ≠ 10 ∧ ch ≠ kEOF then fillLine fuel (i + 1) (fgetc f).2 line
    else (i + 1, ch, (fgetc f).2, line)

/-- Translation of `Consume`.  `none` is the exit of the program at the end of the file
("program incomplete"), or a read outside `g_line`. -/
def Consume (s : Input) : Option Input :=
  if s.ch = kEOF then none
  else
    let s :=
      if s.ch = 10 then
        let r := fillLine 256 0 s.file s.line
        let s1 := { s with lineno := s.lineno + 1, cc := 0, file := r.2.2.1, line := r.2.2.2 }
        let s2 := if r.1 = 256 ∧ r.2.1 ≠ 10 ∧ r.2.1 ≠ kEOF then s1.mark "line too long" else s1
        { s2 with line := Function.update s2.line r.1 0 }
      else s
    if s.cc < 0 ∨ 256 < s.cc then none
    else some { s with ch := s.line s.cc.toNat, cc := s.cc + 1 }

/-- A call of `Consume` from a scanner procedure. -/
def Scanner.consume (s : Scanner) : Option Scanner :=
  (Consume s.inp).map fun i => { s with inp := i }

/-- The state in which `ORS_Init` leaves the scanner for a source file with the bytes `file`:
the first character has been read. -/
def ORS_Init (file : List Int) : Option Scanner :=
  (Consume { ch := 10, line := fun _ => 0, cc := 0, lineno := 0, file := file,
             diag := { errcnt := 0, marks := [] } }).map fun i =>
    { inp := { i with diag := { errcnt := 0, marks := i.diag.marks } }, ival := 0,
      id := fun _ => 0,
      str := fun _ => 0, slen := 0, buff := fun _ => 0 }

/-- The characters of a C string held in a buffer from index `i` up to its terminating NUL,
each as the `unsigned char` that `strcmp` compares; at most `fuel` characters are read. -/
def cstring (buf : Nat → Int) : Nat → Nat → List Int
  | 0, _ => []
  | fuel + 1, i => if buf i = 0 then [] else buf i % 256 :: cstring buf fuel (i + 1)

/-- The characters of a string literal of the program text. -/
def cstr (w : String) : List Int := w.toList.map fun c => (c.toNat : Int)

/-- The library function `strcmp` on the characters of two C strings: the difference of the
first pair of characters that differ, the end of a string counting as the character 0. -/
def strcmp : List Int → List Int → Int
  | [], [] => 0
  | [], k :: _ => 0 - k
  | c :: _, [] => c - 0
  | c :: cs, k :: ks => if c = k then strcmp cs ks else c - k

/-- The loop of the library function `bsearch` (binary search of a sorted table) between
the bounds `l` and `u`, with `cmp idx` the result of the comparison function on the key and
the entry `idx`; at most `fuel` passes. -/
def bsearchLoop (cmp : Nat → Int) : Nat → Nat → Nat → Option Nat
  | 0, _, _ => none
  | fuel + 1, l, u =>
    if l < u then
      let idx := (l + u) / 2
      if cmp idx < 0 then bsearchLoop cmp fuel l idx
      else if cmp idx > 0 then bsearchLoop cmp fuel (idx + 1) u
      else some idx
    else none

/-- The call `bsearch(&g_id, g_keytab_id, 33, sizeof(char *), StrCmp)`: the index of the
reserved word found, if any. -/
def keywordIndex (id : Nat → Int) : Option Nat :=
  bsearchLoop (fun idx => strcmp (cstring id 32 0) (cstr (g_keytab_id.getD idx ""))) 34 0 33

/-- The `do ... while (IsLetter(g_ch) || IsDigit(g_ch))` loop of `Identifier`: the final `i`
and the state.  Every pass reads one character of `g_line`, which has 257 of them. -/
def identLoop : Nat → Int → Scanner → Option (Int × Scanner)
  | 0, _, _ => none
  | fuel + 1, i, s =>
    let r := if i < kIdLen - 1 then
        (i + 1, { s with id := Function.update s.id i.toNat (toChar s.inp.ch) })
      else (i, s)
    r.2.consume.bind fun s1 =>
      (IsLetter s1.inp.ch).bind fun l =>
        (IsDigit s1.inp.ch).bind fun d =>
          if l || d then identLoop fuel r.1 s1 else some (r.1, s1)

/-- Translation of `Identifier`: the returned symbol and the new state. -/
def Identifier (s : Scanner) : Option (Int × Scanner) :=
  if IsLetter s.inp.ch ≠ some true then none
  else
    (identLoop 258 0 s).bind fun (i, s1) =>
      let s2 := { s1 with id := Function.update s1.id i.toNat 0 }
      match keywordIndex s2.id with
      | some idx => (g_keytab_sym.get? idx).map fun sym => (sym, s2)
      | none => some (kSymIdent, s2)

/-- The loop `while (g_ch != EOF && g_ch != '"')` of `String`: the final `i` and the state;
at most `fuel` passes. -/
def stringLoop : Nat → Int → Scanner → Option (Int × Scanner)
  | 0, _, _ => none
  | fuel + 1, i, s =>
    if s.inp.ch ≠ kEOF ∧ s.inp.ch ≠ 34 then
      let r := if s.inp.ch ≥ 32 ∧ s.inp.ch < 127 then
          if i < kStrBufSz - 1 then
            (i + 1, { s with str := Function.update s.str i.toNat (toChar s.inp.ch) })
          else (i, { s with inp := s.inp.mark "string too long" })
        else (i, s)
      r.2.consume.bind fun s1 => stringLoop fuel r.1 s1
    else some (i, s)

/-- Translation of `String`: the returned symbol and the new state.  The loop reads one
character per pass; between two reads of a line it makes at most 257 passes, and every read
of a line takes a byte from the file or delivers `EOF`. -/
def String_ (s : Scanner) : Option (Int × Scanner) :=
  if s.inp.ch ≠ 34 then none
  else
    s.consume.bind fun s1 =>
      (stringLoop (257 * (s.inp.file.length + 2)) 0 s1).bind fun (i, s2) =>
        let s3 := { s2 with str := Function.update s2.str i.toNat 0 }
        s3.consume.bind fun s4 => some (kSymString, { s4 with slen := i + 1 })

/-- The loop of `Number` that fills `buff` with the digits: the final `n` and the state.
Every pass reads one character of `g_line`. -/
def digitLoop : Nat → Int → Scanner → Option (Int × Scanner)
  | 0, _, _ => none
  | fuel + 1, n, s =>
    let r := if n < 16 then (n + 1, { s with buff := Function.update s.buff n.toNat (s.inp.ch - 48) })
      else (0, { s with inp := s.inp.mark "too many digits" })
    r.2.consume.bind fun s1 =>
      (IsHexDigit s1.inp.ch).bind fun h =>
        if h then digitLoop fuel r.1 s1 else some (r.1, s1)

/-- The loop of `Number` that sums the hexadecimal digits `buff[0 .. n-1]`; `none` is a read
outside `buff` or an overflow of the `int` arithmetic. -/
def hexLoop (buff : Nat → Int) (n : Int) : Nat → Int → Int → Option Int
  | 0, _, _ => none
  | fuel + 1, i, sum =>
    if i < 0 ∨ 16 ≤ i then none
    else
      let h := if buff i.toNat ≥ 10 then buff i.toNat - 7 else buff i.toNat
      let sum := sum * 16 + h
      if sum < -2147483648 ∨ 2147483647 < sum then none
      else if i + 1 ≠ n then hexLoop buff n fuel (i + 1) sum else some sum

/-- The loop of `Number` that sums the decimal digits `buff[0 .. n-1]`: the sum and the
diagnostics; `none` is a read outside `buff` or an overflow of the `int` arithmetic. -/
def decLoop (buff : Nat → Int) (n : Int) : Nat → Int → Int → Input → Option (Int × Input)
  | 0, _, _, _ => none
  | fuel + 1, i, sum, inp =>
    if i < 0 ∨ 16 ≤ i then none
    else
      let d := buff i.toNat
      let r : Option (Int × Input) :=
        if d < 10 then
          if sum ≤ Int.tdiv (2147483647 - d) 10 then
            if sum * 10 + d < -2147483648 ∨ 2147483647 < sum * 10 + d then none
            else some (sum * 10 + d, inp)
          else some (0, inp.mark "too large")
        else some (sum, inp.mark "bad integer")
      r.bind fun (sum, inp) =>
        if i + 1 ≠ n then decLoop buff n fuel (i + 1) sum inp else some (sum, inp)

/-- Translation of `Number`: the returned symbol and the new state. -/
def Number (s : Scanner) : Option (Int × Scanner) :=
  if IsHexDigit s.inp.ch ≠ some true then none
  else
    (digitLoop 258 0 s).bind fun (n, s1) =>
      if s1.inp.ch = 72 ∨ s1.inp.ch = 82 ∨ s1.inp.ch = 88 then
        (hexLoop s1.buff n 17 0 0).bind fun sum =>
          if s1.inp.ch = 88 then
            let s2 := if sum < 256 then { s1 with ival := sum }
              else { s1 with inp := s1.inp.mark "illegal value", ival := 0 }
            s2.consume.bind fun s3 => some (kSymChar, s3)
          else if s1.inp.ch ≠ 72 then none
          else { s1 with ival := sum }.consume.bind fun s3 => some (kSymInt, s3)
      else
        (decLoop s1.buff n 17 0 0 s1.inp).bind fun (sum, inp) =>
          some (kSymInt, { s1 with inp := inp, ival := sum })

/-- The state after the calls of `Consume` that deliver the characters `cs` one after the
other; `none` when a call fails or delivers another character. -/
def reads : Input → List Int → Option Input
  | s, [] => some s
  | s, c :: cs => (Consume s).bind fun s1 => if s1.ch = c then reads s1 cs else none

/-- The `k`-th reserved word of `g_keytab_id` as a list of characters. -/
def keyword (k : Nat) : List Int := cstr (g_keytab_id.getD k "")

/-- Specification: the reserved words of the language, each with the token designated for
it. -/
def specKeywords : List (String × Int) :=
  [("ARRAY", kSymArray), ("BEGIN", kSymBegin), ("BY", kSymBy), ("CASE", kSymCase),
   ("CONST", kSymConst), ("DIV", kSymDiv), ("DO", kSymDo), ("ELSE", kSymElse),
   ("ELSIF", kSymElsif), ("END", kSymEnd), ("FALSE", kSymFalse), ("FOR", kSymFor),
   ("IF", kSymIf), ("IMPORT", kSymImport), ("IN", kSymIn), ("IS", kSymIs), ("MOD", kSymMod),
   ("MODULE", kSymModule), ("NIL", kSymNil), ("OF", kSymOf), ("OR", kSymOr),
   ("POINTER", kSymPointer), ("PROCEDURE", kSymProcedure), ("RECORD", kSymRecord),
   ("REPEAT", kSymRepeat), ("RETURN", kSymReturn), ("THEN", kSymThen), ("TO", kSymTo),
   ("TRUE", kSymTrue), ("TYPE", kSymType), ("UNTIL", kSymUntil), ("VAR", kSymVar),
   ("WHILE", kSymWhile)]

/-- The scanner after `ORS_Init` on a source file with the bytes `file`; a scanner with
cleared state if the first call of `Consume` fails. -/
def scannerOn (file : List Int) : Scanner :=
  match ORS_Init file with
  | some s => s
  | none =>
    { inp := { ch := kEOF, line := fun _ => 0, cc := 0, lineno := 0, file := [],
               diag := { errcnt := 0, marks := [] } },
      ival := 0, id := fun _ => 0, str := fun _ => 0, slen := 0, buff := fun _ => 0 }

/-- The bytes of the source line `BEGIN x`. -/
def textBegin : List Int := [66, 69, 71, 73, 78, 32, 120, 10]

/-- Specification: the value of a run of decimal digits, most significant digit first. -/
def decimalValue (ds : List Int) : Int := ds.foldl (fun a d => a * 10 + d) 0

/-- The bytes of the source line `2147483647;` (the largest `INTEGER`). -/
def textMaxInt : List Int := [50, 49, 52, 55, 52, 56, 51, 54, 52, 55, 59, 10]

/-- Specification: the characters of a string body that are printable ASCII (codes 32 to
126), in order. -/
def printable (body : List Int) : List Int := body.filter fun c => decide (32 ≤ c ∧ c < 127)

/-- The bytes of the two source lines `"a`, `b<TAB>c";`: a string literal with a line break
and a tabulator in its body. -/
def textString : List Int := [34, 97, 10, 98, 9, 99, 34, 59, 10]

/-- The bytes of the source line `1R;`: a digit with the suffix `R`. -/
def textSuffixR : List Int := [49, 82, 59, 10]

/-! ### The universe and the module SYSTEM (`orb.c`) -/

/-- Translation of `Enter`: a new object at the head of the list.  `raw` is the content of the
storage that `Pool_Alloc` returns, which fixes the fields that `Enter` does not assign
(`level`, `expo`, `rdo`).  The assignment `type->typobj = obj` for a type object is kept in
the type of the new object. -/
def Enter (raw : object_t) (list : List object_t) (name : String) (tag : class_t)
    (type : type_t) (n : Int) : List object_t :=
  let type := if tag = .kObjType then
      type_t.mk type.addr type.base (some name) type.dlink type.size type.tag type.len
    else type
  object_t.mk name tag type [] raw.level raw.expo raw.rdo n :: list

/-- Translation of `ORB_NewModule`; `raw` fixes the fields that it does not assign. -/
def ORB_NewModule (raw : object_t) (name : String) : object_t :=
  object_t.mk name .kObjMod g_no_type [] raw.level raw.expo false raw.val

/-- The list `g_system` that `ORB_Init` builds for the module `SYSTEM`. -/
def g_system (raw : object_t) : List object_t :=
  let l := Enter raw [] "COND" .kObjSFunc g_bool_type 131
  let l := Enter raw l "SIZE" .kObjSFunc g_int_type 121
  let l := Enter raw l "ADR" .kObjSFunc g_int_type 111
  let l := Enter raw l "VAL" .kObjSFunc g_int_type 102
  let l := Enter raw l "REG" .kObjSFunc g_int_type 91
  let l := Enter raw l "BIT" .kObjSFunc g_bool_type 82
  let l := Enter raw l "COPY" .kObjSProc g_no_type 103
  let l := Enter raw l "PUT" .kObjSProc g_no_type 92
  Enter raw l "GET" .kObjSProc g_no_type 82

/-- Translation of `ORB_Init`, applied to the state `t` of the symbol table: the universe
becomes the only open scope, with the module object `SYSTEM` at its head. -/
def ORB_Init (raw : object_t) (t : SymTab) : SymTab :=
  let l := Enter raw [] "ROR" .kObjSFunc g_int_type 72
  let l := Enter raw l "ASR" .kObjSFunc g_int_type 62
  let l := Enter raw l "LSL" .kObjSFunc g_int_type 52
  let l := Enter raw l "LEN" .kObjSFunc g_int_type 41
  let l := Enter raw l "CHR" .kObjSFunc g_char_type 31
  let l := Enter raw l "ORD" .kObjSFunc g_int_type 21
  let l := Enter raw l "ODD" .kObjSFunc g_bool_type 11
  let l := Enter raw l "ABS" .kObjSFunc g_int_type 1
  let l := Enter raw l "WriteLn" .kObjSProc g_no_type 71
  let l := Enter raw l "Write" .kObjSProc g_no_type 61
  let l := Enter raw l "Read" .kObjSProc g_no_type 51
  let l := Enter raw l "ASSERT" .kObjSProc g_no_type 41
  let l := Enter raw l "EXCL" .kObjSProc g_no_type 32
  let l := Enter raw l "INCL" .kObjSProc g_no_type 22
  let l := Enter raw l "DEC" .kObjSProc g_no_type 11
  let l := Enter raw l "INC" .kObjSProc g_no_type 1
  let l := Enter raw l "SET" .kObjType g_set_type 0
  let l := Enter raw l "BOOLEAN" .kObjType g_bool_type 0
  let l := Enter raw l "BYTE" .kObjType g_byte_type 0
  let l := Enter raw l "CHAR" .kObjType g_char_type 0
  let l := Enter raw l "INTEGER" .kObjType g_int_type 0
  let t := ORB_OpenScope { t with top_scope := [] }
  let m := ORB_NewModule raw "SYSTEM"
  let m := object_t.mk m.name m.tag m.type (g_system raw) m.level m.expo true m.val
  { t with top_scope := [m :: l] }

/-- Translation of `ORB_ThisImport` for the identifier `id` held in `g_id`.  The outer `none`
is the failed assertion that `mod` is a module object; the inner option is the returned
pointer. -/
def ORB_ThisImport (id : String) (mod : object_t) : Option (Option object_t) :=
  if mod.tag ≠ .kObjMod then none
  else if !mod.rdo then some none
  else some (findInScope id mod.dlink)

/-- The statement `nfp = func % 10` that opens `StandFunc` and `StandProc`: the expected
number of parameters. -/
def standArity (n : Int) : Int := Int.tmod n 10

/-- The statement `func = func / 10` that opens `StandFunc` and `StandProc`: the value on
which the `switch` dispatches. -/
def standTag (n : Int) : Int := Int.tdiv n 10

/-- The `switch (func)` of `StandFunc`: the built-in that each case handles, as named in the
comment of its `case` label; `none` is the `default` case `assert(0)`. -/
def StandFuncCase (func : Int) : Option String :=
  if func < 0 then none
  else ["ABS", "ODD", "ORD", "CHR", "LEN", "LSL", "ASR", "ROR", "BIT", "REG", "VAL", "ADR",
        "SIZE", "COND"].get? func.toNat

/-- The `switch (n)` of `StandProc`: the built-in that each case handles, as named in the
comment of its `case` label; `none` is the `default` case `assert(0)`. -/
def StandProcCase (n : Int) : Option String :=
  if n < 0 then none
  else ["INC", "DEC", "INCL", "EXCL", "ASSERT", "Read", "Write", "WriteLn", "GET", "PUT",
        "COPY"].get? n.toNat

/-- The result of a lookup reduced to what identifies a built-in: its class and its `val`. -/
def builtinOf (r : Option (Option object_t)) : Option (Option (class_t × Int)) :=
  r.map fun o => o.map fun obj => (obj.tag, obj.val)

/-- Specification: the standard functions of the universe with their identifiers. -/
def specUniverseFuncs : List (String × Int) :=
  [("ABS", 1), ("ODD", 11), ("ORD", 21), ("CHR", 31), ("LEN", 41), ("LSL", 52), ("ASR", 62),
   ("ROR", 72)]

/-- Specification: the standard procedures of the universe with their identifiers, the
input and output procedures under the names the code enters them with. -/
def specUniverseProcs : List (String × Int) :=
  [("INC", 1), ("DEC", 11), ("INCL", 22), ("EXCL", 32), ("ASSERT", 41), ("Read", 51),
   ("Write", 61), ("WriteLn", 71)]

/-- Specification: the standard functions of the module `SYSTEM` with their identifiers. -/
def specSystemFuncs : List (String × Int) :=
  [("BIT", 82), ("REG", 91), ("VAL", 102), ("ADR", 111), ("SIZE", 121), ("COND", 131)]

/-- Specification: the standard procedures of the module `SYSTEM` with their identifiers. -/
def specSystemProcs : List (String × Int) := [("GET", 82), ("PUT", 92), ("COPY", 103)]

/-- A content of freshly allocated storage, for the examples. -/
def rawObject : object_t := object_t.mk "" .kObjHead g_no_type [] 0 false false 0

/-- The symbol table before `ORB_Init`: no scope is open. -/
def tabEmpty : SymTab := { top_scope := [], diag := { errcnt := 0, marks := [] } }

/-! ### Array and record types (`orp.c`) -/

/-- Translation of `Align`: `((sz + 3) / 4) * 4` in `int` arithmetic. -/
def Align (sz : Int) : Int := Int.tdiv (wrap32 (sz + 3)) 4 * 4

/-- What `ArrayType` finds after the length: the symbol `OF` and the type that `Type`
returns, a comma and a further dimension (its length and what follows it), or any other
symbol. -/
inductive array_tail where
  | ofType (base : type_t)
  | comma (x : item_t) (rest : array_tail)
  | missing

/-- Translation of `ArrayType` for the length expression `x` and the rest of the declaration:
the new type and the diagnostics.  `addr` is the address that `Pool_Alloc` returns (the types
of further dimensions follow it) and `raw` the content of the storage, which fixes the fields
that `ArrayType` does not assign (`typobj`, `dlink`). -/
def ArrayType (raw : type_t) (x : item_t) : array_tail → Nat → Diag → type_t × Diag
  | tail, addr, d =>
    let d := if x.mode ≠ .kModeImmediate ∨ x.type.tag ≠ .kTypeInt ∨ x.a < 0 then
        ORS_Mark "not a valid length" d
      else d
    let len := x.a
    let r : type_t × Diag :=
      match tail with
      | .ofType b => (b, if IsOpenArray b then ORS_Mark "dynamic array not allowed" d else d)
      | .comma y rest => ArrayType raw y rest (addr + 1) d
      | .missing => (g_int_type, ORS_Mark "missing OF" d)
    (type_t.mk addr (some r.1) raw.typobj raw.dlink (Align (wrap32 (len * r.1.size)))
      .kTypeArray len, r.2)

/-- The size of the element type of an array type (`type->base->size`). -/
def elemSize (t : type_t) : Int :=
  match t.base with
  | some b => b.size
  | none => 0

/-! ### In-line functions (`org.c`) -/

/-- Translation of `ORG_Abs`.  `none` for the constant `-2^31` is the call `abs(INT_MIN)`. -/
def ORG_Abs (x : item_t) (s : CG) : Option (item_t × CG) :=
  if x.mode = .kModeImmediate then
    if x.a = -2147483648 then none else some ({ x with a := |x.a| }, s)
  else
    (Put1 kOpCmp x.r x.r 0 s).bind fun s1 =>
    (Put3 kOpBc kCondGE 2 s1).bind fun s2 =>
    (Put1 kOpMov s2.rh 0 0 s2).bind fun s3 =>
    (Put0 kOpSub x.r s3.rh x.r s3).bind fun s4 => some (x, s4)

/-- Translation of `ORG_Shift`; `y->a & 0x1F` is `y.a % 32`. -/
def ORG_Shift (fct : Int) (x y : item_t) (s : CG) : Option (item_t × CG) :=
  if fct ≠ 0 ∧ fct ≠ 1 ∧ fct ≠ 2 then none
  else
    let op := if fct = 0 then kOpLsl else if fct = 1 then kOpAsr else kOpRor
    if y.mode = .kModeImmediate then
      (Put1 op x.r x.r (y.a % 32) s).bind fun s1 => some (x, s1)
    else
      (Load y s).bind fun (y, s1) =>
      (Put0 op (s1.rh - 2) x.r y.r s1).bind fun s2 =>
        some ({ x with r := s2.rh - 1 - 1 }, { s2 with rh := s2.rh - 1 })

/-- The memory `mem` with the words `vals` stored from word `k` on. -/
def storeWords (mem : Nat → Int) : Nat → List Int → Nat → Int
  | _, [] => mem
  | k, v :: vs => storeWords (Function.update mem k v) (k + 1) vs

/-- The interpreter at the entry (address 1) of the code that a generator procedure has
emitted from `cgStart`, with the globals starting at word 64 and holding the words `vals`:
the global variable at offset `4 * i` holds `vals[i]`. -/
def globalsVM (code : Option (item_t × CG)) (vals : List Int) : VM :=
  interpInit 64 1
    (vmAt (storeWords (match code with
                       | some r => r.2.mem
                       | none => fun _ => 0) 64 vals) 0)

/-- What the examples observe of an interpreter state: `g_pc` and the registers R0 and R1. -/
def observe (vm : Option VM) : Option (Int × Int × Int) :=
  vm.map fun s => (s.pc, s.reg 0, s.reg 1)

/-- The code for `ABS(v)` followed by the `Load` of its result, where `v : INTEGER` is the
global variable at offset 0. -/
def absVarCode : Option (item_t × CG) :=
  (ORG_Abs (globalVar g_int_type 0) cgStart).bind fun r => Load r.1 r.2

/-- The code for `ABS(e)` where the operand has been loaded into a register before: `Load`
of the global variable at offset 0, then `ORG_Abs`. -/
def absRegCode : Option (item_t × CG) :=
  (Load (globalVar g_int_type 0) cgStart).bind fun r => ORG_Abs r.1 r.2

/-- The code for the shift `fct` of `v` by the constant `n`, followed by the `Load` of its
result, where `v : INTEGER` is the global variable at offset 0. -/
def shiftVarCode (fct n : Int) : Option (item_t × CG) :=
  (ORG_Shift fct (globalVar g_int_type 0) (intConst n) cgStart).bind fun r => Load r.1 r.2

/-- The code for the shift `fct` by the constant `n` of an operand that has been loaded into
a register before. -/
def shiftRegCode (fct n : Int) : Option (item_t × CG) :=
  (Load (globalVar g_int_type 0) cgStart).bind fun r => ORG_Shift fct r.1 (intConst n) r.2

/-- The code for the shift `fct` of an operand that has been loaded into a register before,
by the count held in the global variable at offset 4. -/
def shiftRegVarCode (fct : Int) : Option (item_t × CG) :=
  (Load (globalVar g_int_type 0) cgStart).bind fun r =>
    ORG_Shift fct r.1 (globalVar g_int_type 4) r.2

/-- The code for `(a + b) DIV d`, where `a`, `b` and `d` are the global `INTEGER` variables at
the offsets 0, 4 and 8. -/
def sumDivCode : Option (item_t × CG) :=
  (ORG_AddOp kSymPlus (globalVar g_int_type 0) (globalVar g_int_type 4) cgStart).bind fun r =>
    ORG_DivOp kSymDiv r.1 (globalVar g_int_type 8) r.2

/-- The code for `v * c`, where `v : INTEGER` is the global variable at offset 0 and `c` a
constant. -/
def mulConstCode (c : Int) : Option (item_t × CG) :=
  ORG_MulOp (globalVar g_int_type 0) (intConst c) cgStart

/-- The code for `c * v`, where `c` is a constant and `v : INTEGER` the global variable at
offset 0. -/
def constMulCode (c : Int) : Option (item_t × CG) :=
  ORG_MulOp (intConst c) (globalVar g_int_type 0) cgStart

/-- The code for `v DIV c`, where `v : INTEGER` is the global variable at offset 0 and `c` a
constant. -/
def divConstCode (c : Int) : Option (item_t × CG) :=
  ORG_DivOp kSymDiv (globalVar g_int_type 0) (intConst c) cgStart

/-! ### Hexadecimal strings (`ors.c`) and the string pool (`org.c`) -/

/-- The inner loop of `HexString` that skips the characters up to the blank and the character
`'\127'` (an octal escape: code 87). -/
def hexSkip : Nat → Scanner → Option Scanner
  | 0, _ => none
  | fuel + 1, s =>
    if s.inp.ch ≠ kEOF ∧ (s.inp.ch ≤ 32 ∨ s.inp.ch = 87) then s.consume.bind (hexSkip fuel)
    else some s

/-- The value `(g_ch & 0xF) + (g_ch >= 'A' ? 9 : 0)` of a hexadecimal digit. -/
def hexVal (c : Int) : Int := c % 16 + (if c ≥ 65 then 9 else 0)

/-- The outer loop of `HexString`: the final `i` and the state.  The byte `m` is a `char`. -/
def hexStringLoop : Nat → Int → Scanner → Option (Int × Scanner)
  | 0, _, _ => none
  | fuel + 1, i, s =>
    if s.inp.ch ≠ kEOF ∧ s.inp.ch ≠ 36 then
      (hexSkip fuel s).bind fun s1 =>
      (IsHexDigit s1.inp.ch).bind fun h1 =>
        let r1 : Int × Scanner := if h1 then (toChar (hexVal s1.inp.ch), s1)
          else (0, { s1 with inp := s1.inp.mark "hexdig expected" })
        r1.2.consume.bind fun s2 =>
        (IsHexDigit s2.inp.ch).bind fun h2 =>
          let r2 : Int × Scanner := if h2 then (toChar (16 * r1.1 + hexVal s2.inp.ch), s2)
            else (0, { s2 with inp := s2.inp.mark "hexdig expected" })
          let r3 : Int × Scanner := if i < kStrBufSz then
              (i + 1, { r2.2 with str := Function.update r2.2.str i.toNat r2.1 })
            else (i, { r2.2 with inp := r2.2.inp.mark "string too long" })
          r3.2.consume.bind fun s3 => hexStringLoop fuel r3.1 s3
    else some (i, s)

/-- Translation of `HexString`: the returned symbol and the new state.  Every pass of a loop
reads a character; the bound on the passes is that of `String_`. -/
def HexString (s : Scanner) : Option (Int × Scanner) :=
  if s.inp.ch ≠ 36 then none
  else
    s.consume.bind fun s1 =>
      (hexStringLoop (257 * (s.inp.file.length + 2)) 0 s1).bind fun (i, s2) =>
        s2.consume.bind fun s3 => some (kSymString, { s3 with slen := i })

/-- The loop `for (i = 0; len > 0; --len) g_pool[g_strx++] = g_str[i++]` of
`ORG_MakeString`. -/
def poolCopy (str : Nat → Int) : Nat → Nat → CG → CG
  | 0, _, s => s
  | len + 1, i, s =>
    poolCopy str len (i + 1)
      { s with pool := Function.update s.pool s.strx.toNat (str i), strx := s.strx + 1 }

/-- The loop `while (g_strx % 4) g_pool[g_strx++] = 0` of `ORG_MakeString`; it makes at most
three passes. -/
def poolPad : Nat → CG → CG
  | 0, s => s
  | fuel + 1, s =>
    if s.strx % 4 ≠ 0 then
      poolPad fuel { s with pool := Function.update s.pool s.strx.toNat 0, strx := s.strx + 1 }
    else s

/-- Translation of `ORG_MakeString` for the string of length `len` in the buffer `g_str` of
the scanner.  `none` is the failed assertion `len > 0`, a negative `g_strx`, or a read outside
`g_str`. -/
def ORG_MakeString (x : item_t) (len : Int) (str : Nat → Int) (s : CG) :
    Option (item_t × CG) :=
  if ¬ (len > 0) then none
  else
    let x := { x with mode := .kModeImmediate, type := g_str_type, a := s.strx, b := len }
    if s.strx + len + 4 ≥ kMaxStrx then some (x, s.mark "too many strings")
    else if s.strx < 0 ∨ kStrBufSz < len then none
    else some (x, poolPad 3 (poolCopy str len.toNat 0 s))

/-- The loop of `ORG_Close` that copies the string pool to `base[0 ..]`, where `base` is the
word index `g_pc + g_varsize / 4`.  Every entry of `g_pool` is a `char` and is widened to
`int` before it is shifted and combined with the word.  The loop makes `g_strx / 4` passes;
`none` is a word outside `g_mem`. -/
def poolToMem (base : Int) : Nat → Int → CG → Option CG
  | 0, _, _ => none
  | fuel + 1, i, s =>
    if i = s.strx then some s
    else if base + i / 4 < 0 ∨ kMemSz / 4 ≤ base + i / 4 ∨ i < 0 then none
    else
      let k := (base + i / 4).toNat
      let w := bitOr (s.mem k) (s.pool i.toNat)
      let w := bitOr w (shl (s.pool (i + 1).toNat) 8)
      let w := bitOr w (shl (s.pool (i + 2).toNat) 16)
      let w := bitOr w (shl (s.pool (i + 3).toNat) 24)
      poolToMem base fuel (i + 4) { s with mem := Function.update s.mem k w }

/-- Translation of `ORG_Close`.  The call `memset(g_mem+g_pc, 0, kMemSz-g_pc)` counts bytes
from a word address: it clears `g_mem` from word `g_pc` to its end and goes on for
`3 * g_pc` bytes behind the array; the embedding keeps its effect on `g_mem`.  `none` is also
the failed assertion `!(g_strx % 4)`. -/
def ORG_Close (s : CG) : Option CG :=
  (Put2 kOpLdr kRegLNK kRegSP 0 s).bind fun s1 =>
  (Put1 kOpAdd kRegSP kRegSP 4 s1).bind fun s2 =>
  (Put3 kOpBr kCondTrue kRegLNK s2).bind fun s3 =>
    let s4 := { s3 with mem := fun k => if s3.pc.toNat ≤ k then 0 else s3.mem k }
    if s4.strx % 4 ≠ 0 ∨ s4.strx < 0 then none
    else poolToMem (s4.pc + Int.tdiv s4.varsize 4) (kMaxStrx / 4 + 1).toNat 0 s4

/-- The first byte behind the area that the `memset` of `ORG_Close` clears, as a byte offset
into `g_mem`, for the value `pc` of `g_pc`. -/
def memsetEnd (pc : Int) : Int := 4 * pc + (kMemSz - pc)

/-- The bytes of the source line `$8041$;`: a hexadecimal string of the two bytes 80 and 41. -/
def textHexString : List Int := [36, 56, 48, 52, 49, 36, 59, 10]

/-- The bytes of the source line `"AB";`: a string of two letters. -/
def textTwoLetters : List Int := [34, 65, 66, 34, 59, 10]

/-- The generator state after `ORG_MakeString` for the string token `tok` that the scanner has
delivered, followed by `LDB R0, SB, g_varsize + x.a + i` (the byte load of byte `i` of the
string) and `ORG_Close`. -/
def poolCode (tok : Option (Int × Scanner)) (i : Int) : Option CG :=
  tok.bind fun r =>
  (ORG_MakeString (intConst 0) r.2.slen r.2.str cgStart).bind fun m =>
  (Put2 (kOpLdr + 1) 0 kRegSB (m.2.varsize + m.1.a + i) m.2).bind fun s => ORG_Close s

/-- The interpreter at address 1 of the code of `poolCode`, with `SB` set to the start of
the globals as `ORP_Compile` passes it (`g_sb = ORG_Here()` after `ORG_Close`). -/
def poolVM (code : Option CG) : VM :=
  match code with
  | some s => interpInit s.pc 1 (vmAt s.mem 0)
  | none => vmAt (fun _ => 0) 0

/-- The item of a value of type `INTEGER` held in register `r`. -/
def regItem (r : Int) : item_t :=
  { mode := .kModeReg, type := g_int_type, a := 0, b := 0, r := r, rdo := false }

/-- An interpreter state about to fetch from `pc` in which every register holds `v`. -/
def vmRegs (v pc : Int) : VM := { vmAt (fun _ => 0) pc with reg := fun _ => v }

/-- One field list `id {, id} : type` of a record declaration: the identifiers, each with the
result of `CheckExport`, and the type that `Type` returns. -/
structure field_list where
  names : List (String × Bool)
  type : type_t

/-- What `RecordType` finds after `RECORD`: no parenthesis, a parenthesis that is not followed
by an identifier, or the object that `QualIdent` returns for the identifier in it. -/
inductive record_base where
  | absent
  | notIdent
  | ident (obj : object_t)

/-- The inner loop of `RecordType` over the identifiers of a field list: every new field is
pushed onto the chain `start`; an identifier already on the chain is reported.  `raw` is the
content of the storage that `Pool_Alloc` returns, which fixes the fields not assigned. -/
def declFields (raw : object_t) : List (String × Bool) → List object_t → Diag →
    List object_t × Diag
  | [], start, d => (start, d)
  | (id, expo) :: rest, start, d =>
    declFields raw rest
      (object_t.mk id .kObjField raw.type raw.dlink 0 expo raw.rdo raw.val :: start)
      (if (findInScope id start).isSome then ORS_Mark "mult def" d else d)

/-- The loop `for (it = start; it != end; it = it->rlink)` of `RecordType` over the `n` new
fields at the head of the chain: each gets the type and the next lower offset. -/
def setFields (type : type_t) : Nat → Int → List object_t → List object_t
  | 0, _, l => l
  | _ + 1, _, [] => []
  | n + 1, off, it :: rest =>
    object_t.mk it.name it.tag type it.dlink it.level it.expo it.rdo (wrap32 (off - type.size))
      :: setFields type n (wrap32 (off - type.size)) rest

/-- One pass of the outer loop of `RecordType`, for a field list with correct separators, on
the variables `offset` and `end` and the diagnostics. -/
def fieldList (raw : object_t) (st : Int × List object_t × Diag) (fl : field_list) :
    Int × List object_t × Diag :=
  let r := declFields raw fl.names st.2.1 st.2.2
  let d := if IsOpenArray fl.type then ORS_Mark "dynamic array not allowed" r.2 else r.2
  let offset := if fl.type.size > 1 then Align st.1 else st.1
  let offset := wrap32 (offset + wrap32 ((fl.names.length : Int) * fl.type.size))
  (offset, setFields fl.type fl.names.length offset r.1, d)

/-- The variables of `RecordType` after the base type has been parsed: `new->base`,
`new->u.ext`, `offset`, `end`, and the diagnostics. -/
structure base_state where
  base : Option type_t
  ext : Int
  offset : Int
  chain : List object_t
  diag : Diag

/-- The part of `RecordType` that parses the base type. -/
def recordBase (level : Int) (base : record_base) (d : Diag) : base_state :=
  let lvl := if level ≠ 0 then ORS_Mark "extension of local types not implemented" d else d
  match base with
  | .absent => { base := none, ext := 0, offset := 0, chain := [], diag := d }
  | .notIdent =>
    { base := none, ext := 0, offset := 0, chain := [], diag := ORS_Mark "ident expected" lvl }
  | .ident obj =>
    if obj.tag ≠ .kObjType then
      { base := none, ext := 0, offset := 0, chain := [], diag := ORS_Mark "type expected" lvl }
    else if obj.type.tag ≠ .kTypeRecord then
      { base := some g_int_type, ext := wrap32 (g_int_type.len + 1), offset := g_int_type.size,
        chain := g_int_type.dlink, diag := ORS_Mark "invalid extension" lvl }
    else
      { base := some obj.type, ext := wrap32 (obj.type.len + 1), offset := obj.type.size,
        chain := obj.type.dlink, diag := lvl }

/-- Translation of `RecordType` for a declaration with the base `base` and the field lists
`fls`: the new type and the diagnostics.  `addr` is the address that `Pool_Alloc` returns for
the type, `rawT` and `raw` are the contents of the storage of the type and of the fields, and
`level` is `g_level`. -/
def RecordTypeDecl (raw : object_t) (rawT : type_t) (addr : Nat) (level : Int)
    (base : record_base) (fls : List field_list) (d : Diag) : type_t × Diag :=
  let b := recordBase level base d
  let st := fls.foldl (fieldList raw) (b.offset, b.chain, b.diag)
  (type_t.mk addr b.base rawT.typobj st.2.1 (Align st.1) .kTypeRecord b.ext, st.2.2)

/-- The fields of a record type in the order of their declaration, inherited fields first,
each as name, offset and size. -/
def fieldsOf (t : type_t) : List (String × Int × Int) :=
  t.dlink.reverse.map fun f => (f.name, f.val, f.type.size)

/-- The field lists `a, b : INTEGER; c : CHAR; d : INTEGER`. -/
def fieldsDemo : List field_list :=
  [{ names := [("a", false), ("b", false)], type := g_int_type },
   { names := [("c", false)], type := g_char_type },
   { names := [("d", false)], type := g_int_type }]

/-- The record type `R0 = RECORD a, b : INTEGER; c : CHAR; d : INTEGER END`. -/
def recordDemo : type_t :=
  (RecordTypeDecl rawObject g_no_type 200 0 .absent fieldsDemo { errcnt := 0, marks := [] }).1

/-- Specification: a chain of fields (the field declared last at its head) is laid out within
`size` bytes: every field lies in `[0, size)`, a field of more than one byte lies at a multiple
of 4, and every field ends at or below the offset of every field declared after it, so that
the byte ranges `[val, val + size)` are pairwise disjoint and ordered as declared. -/
@[reducible] def layoutOk (size : Int) (chain : List object_t) : Prop :=
  (∀ f ∈ chain, 0 ≤ f.val ∧ 0 ≤ f.type.size ∧ f.val + f.type.size ≤ size ∧
    (f.type.size > 1 → f.val % 4 = 0)) ∧
  chain.Pairwise fun g f => f.val + f.type.size ≤ g.val

/-- Specification: a bound on the offset that the field lists `fls` can reach from the offset
0, every list with the 3 bytes that `Align` may add. -/
def layoutBound (fls : List field_list) : Int :=
  (fls.map fun fl => 3 + (fl.names.length : Int) * fl.type.size).sum

/-- The type object that `TypeDecl` enters for the type `type` under the name `id`. -/
def typeObject (id : String) (type : type_t) : object_t :=
  object_t.mk id .kObjType type [] 0 false false 0

/-- The record type `R1 = RECORD (R0) e : CHAR; f, g : INTEGER END`, an extension of
`recordDemo`. -/
def recordExtDemo : type_t :=
  (RecordTypeDecl rawObject g_no_type 203 0 (.ident (typeObject "R0" recordDemo))
    [{ names := [("e", false)], type := g_char_type },
     { names := [("f", false), ("g", false)], type := g_int_type }]
    { errcnt := 0, marks := [] }).1

/-- The record type `E = RECORD END`. -/
def recordEmpty : type_t :=
  (RecordTypeDecl rawObject g_no_type 201 0 .absent [] { errcnt := 0, marks := [] }).1

/-- The record type `RECORD a, b : E END` with two fields of the empty record type. -/
def recordOfEmpty : type_t :=
  (RecordTypeDecl rawObject g_no_type 202 0 .absent
    [{ names := [("a", false), ("b", false)], type := recordEmpty }]
    { errcnt := 0, marks := [] }).1

/-- The word of a format-F2 instruction: `10uv | a | b | off`, as an `int32_t`; `op` is the
opcode 8 .. 11 that `Put2` is called with. -/
def wordF2 (op a b off : Int) : Int :=
  (op - 16) * 268435456 + a * 16777216 + b * 1048576 + off

/-! ### Negation, and the examples of folded and emitted arithmetic (`org.c`) -/

/-- Translation of `ORG_Neg`; `~x->a` is `bitNot`. -/
def ORG_Neg (x : item_t) (s : CG) : Option (item_t × CG) :=
  (if x.type.tag = .kTypeInt then
    if x.mode = .kModeImmediate then some ({ x with a := wrap32 (-x.a) }, s)
    else
      (Load x s).bind fun (x, s1) =>
      (Put1 kOpMov s1.rh 0 0 s1).bind fun s2 =>
      (Put0 kOpSub x.r s2.rh x.r s2).bind fun s3 => some (x, s3)
  else if x.type.tag ≠ .kTypeSet then none
  else
    if x.mode = .kModeImmediate then some ({ x with a := bitNot x.a }, s)
    else
      (Load x s).bind fun (x, s1) =>
      (Put1 kOpXor x.r x.r (-1) s1).bind fun s2 => some (x, s2)).bind assertImmOrReg

/-- The constant `-c` as `SimpleExpr` builds it for the text `-c`: the literal `c`, then
`ORG_Neg`. -/
def negConst (c : Int) : Option (item_t × CG) := ORG_Neg (intConst c) cgStart

/-- The code for `v MOD c`, where `v : INTEGER` is the global variable at offset 0 and `c` a
constant. -/
def modConstCode (c : Int) : Option (item_t × CG) :=
  ORG_DivOp kSymMod (globalVar g_int_type 0) (intConst c) cgStart

/-- What the examples observe of the result of a folded operation: the mode and the value of
the item, the program counter and the messages reported. -/
def folded (r : Option (item_t × CG)) : Option (mode_t × Int × Int × List String) :=
  r.map fun r => (r.1.mode, r.1.a, r.2.pc, r.2.diag.marks)

/-- The bytes of the source line `12345678901234567;`: a number of 17 digits. -/
def textSeventeenDigits : List Int :=
  [49, 50, 51, 52, 53, 54, 55, 56, 57, 48, 49, 50, 51, 52, 53, 54, 55, 59, 10]

/-- The bytes of the source line `1234567890123456;`: a number of 16 digits. -/
def textSixteenDigits : List Int :=
  [49, 50, 51, 52, 53, 54, 55, 56, 57, 48, 49, 50, 51, 52, 53, 54, 59, 10]

/-- The bytes of the source line `123456789012345678;`: a number of 18 digits. -/
def textEighteenDigits : List Int :=
  [49, 50, 51, 52, 53, 54, 55, 56, 57, 48, 49, 50, 51, 52, 53, 54, 55, 56, 59, 10]

/-- The bytes of the source line `00000000000000000H;`: 17 hexadecimal digits and the suffix
`H`. -/
def textSeventeenHexDigits : List Int :=
  [48, 48, 48, 48, 48, 48, 48, 48, 48, 48, 48, 48, 48, 48, 48, 48, 48, 72, 59, 10]

/-! ### The command line (`main.c`, `ORP_Compile` of `orp.c`) -/

/-- What `main` and `ORP_Compile` do that can be seen from outside, in the order of the
calls: the message "Illegal option: c", the help text, the disassembler `ORG_Decode`, the
interpreter `RISC_Interpret`, and the message "compilation FAILED". -/
inductive action_t where
  | illegalOption (ch : Int)
  | help
  | decode
  | interpret
  | failed
  deriving DecidableEq, Repr

/-- The local variables `sc`, `sflag` and `argc` of `main`, and what has been printed. -/
structure main_t where
  sc : Int
  sflag : Int
  argc : Int
  out : List action_t

/-- The loop `while ((ch = *++*argv))` of `main` over the characters of an argument that
follow its first one. -/
def optionChars : List Int → main_t → main_t
  | [], m => m
  | ch :: rest, m =>
    optionChars rest
      (if ch = 115 then { m with sflag := 1 }
       else if ch = 104 then { m with argc := 0 }
       else { m with out := m.out ++ [.illegalOption ch], sc := 1, argc := 0 })

/-- The loop `while (--argc > 0 && **++argv == '-')` of `main`.  The list holds the arguments
behind `*argv`, each the characters of a C string; the result is the state of the locals and
the arguments from `*argv` on.  `none` is the access to an argument behind the last one. -/
def optionArgs : List (List Int) → main_t → Option (main_t × List (List Int))
  | argv, m =>
    let m := { m with argc := m.argc - 1 }
    if m.argc > 0 then
      match argv with
      | [] => none
      | arg :: rest =>
        if arg.head? = some 45 then optionArgs rest (optionChars arg.tail m)
        else some (m, arg :: rest)
    else some (m, argv)

/-- Translation of `ORP_Compile`, given the value `errcnt` of `g_errcnt` with which the
parse of the file (`ORS_Init`, `Module`, and the handler of the out-of-memory exception) has
ended. -/
def ORP_Compile (errcnt : Int) (sflag : Int) : List action_t :=
  if errcnt = 0 then
    if sflag ≠ 0 then [.decode] else [.interpret]
  else [.failed]

/-- Translation of `main`: the returned value and what has been printed.  The arguments
`argv[1]`, ... are given as the list `argv`; `compile fname` is the error count with which the
parse of the file `fname` ends, or `none` when the process is ended from within (the call
`exit(1)` of the scanner), in which case `main` does not return. -/
def main (compile : List Int → Option Int) (argv : List (List Int)) :
    Option (Int × List action_t) :=
  (optionArgs argv { sc := 0, sflag := 0, argc := argv.length + 1, out := [] }).bind
    fun (m, rest) =>
      if m.argc ≠ 1 then some (m.sc, m.out ++ [.help])
      else
        match rest with
        | [] => none
        | fname :: _ => (compile fname).map fun n => (m.sc, m.out ++ ORP_Compile n m.sflag)

/-- What holds of the locals of `main` while the options are read: either nothing has been
reported and `sc` is 0, or an illegal option has been reported, `sc` is 1 and `argc` is no
longer positive. -/
def optionsInv (m : main_t) : Prop :=
  (m.out = [] ∧ m.sc = 0) ∨
  (m.argc ≤ 0 ∧ m.sc = 1 ∧ (∃ ch, action_t.illegalOption ch ∈ m.out) ∧
    ∀ a ∈ m.out, ∃ ch, a = action_t.illegalOption ch)

/-! ### Standard procedures (`orp.c`, `org.c`) -/

/-- The position of a type tag in the enumeration `form_t`. -/
def formIndex : form_t → Nat
  | .kTypeByte => 0
  | .kTypeBool => 1
  | .kTypeChar => 2
  | .kTypeInt => 3
  | .kTypeSet => 4
  | .kTypePointer => 5
  | .kTypeNil => 6
  | .kTypeNone => 7
  | .kTypeProc => 8
  | .kTypeString => 9
  | .kTypeArray => 10
  | .kTypeRecord => 11

/-- Translation of `CheckBool`. -/
def CheckBool (x : item_t) (s : CG) : item_t × CG :=
  if x.type.tag ≠ .kTypeBool then ({ x with type := g_bool_type }, s.mark "not a boolean")
  else (x, s)

/-- Translation of `CheckInt`. -/
def CheckInt (x : item_t) (s : CG) : item_t × CG :=
  if x.type.tag ≠ .kTypeInt then ({ x with type := g_int_type }, s.mark "not an integer")
  else (x, s)

/-- Translation of `CheckSet`. -/
def CheckSet (x : item_t) (s : CG) : item_t × CG :=
  if x.type.tag ≠ .kTypeSet then ({ x with type := g_set_type }, s.mark "not a set")
  else (x, s)

/-- Translation of `CheckSetVal`. -/
def CheckSetVal (x : item_t) (s : CG) : item_t × CG :=
  if x.type.tag ≠ .kTypeInt then ({ x with type := g_set_type }, s.mark "not an integer")
  else if x.mode = .kModeImmediate ∧ (x.a < 0 ∨ x.a ≥ 32) then (x, s.mark "invalid set")
  else (x, s)

/-- Translation of `CheckBasicType`. -/
def CheckBasicType (x : item_t) (s : CG) : item_t × CG :=
  if formIndex x.type.tag > formIndex .kTypeSet then
    ({ x with type := g_int_type }, s.mark "not a basic type")
  else (x, s)

/-- Translation of `CheckReadOnly`. -/
def CheckReadOnly (x : item_t) (s : CG) : CG :=
  if x.rdo then s.mark "read-only" else s

/-- Translation of `LoadAdr`. -/
def LoadAdr (x : item_t) (s : CG) : Option (item_t × CG) :=
  if x.mode = .kModeDirect then
    (if x.r > 0 then Put1a kOpAdd s.rh kRegSP (x.a + s.frame) s
     else Put1a kOpAdd s.rh kRegSB x.a s).bind fun s1 =>
      some ({ x with r := s1.rh, mode := .kModeReg }, IncR s1)
  else if x.mode = .kModeParam then
    (Put2 kOpLdr s.rh kRegSP (x.a + s.frame) s).bind fun s1 =>
    (if x.b ≠ 0 then Put1a kOpAdd s1.rh s1.rh x.b s1 else some s1).bind fun s2 =>
      some ({ x with r := s2.rh, mode := .kModeReg }, IncR s2)
  else if x.mode = .kModeRegI then
    (if x.a ≠ 0 then Put1a kOpAdd x.r x.r x.a s else some s).bind fun s1 =>
      some ({ x with mode := .kModeReg }, s1)
  else some ({ x with mode := .kModeReg }, s.mark "address error")

/-- Translation of `LoadStringAdr`. -/
def LoadStringAdr (x : item_t) (s : CG) : Option (item_t × CG) :=
  (Put1a kOpAdd s.rh kRegSB (s.varsize + x.a) s).bind fun s1 =>
    some ({ x with mode := .kModeReg, r := s1.rh }, IncR s1)

/-- Translation of `Store`. -/
def Store (x : item_t) (r : Int) (s : CG) : Option CG :=
  let op := if x.type.size = 1 then kOpStr + 1 else kOpStr
  if x.mode = .kModeDirect then
    if x.r > 0 then Put2 op r kRegSP (x.a + s.frame) s
    else Put2 op r kRegSB x.a s
  else if x.mode = .kModeParam then
    (Put2 kOpLdr s.rh kRegSP (x.a + s.frame) s).bind fun s1 => Put2 op r s1.rh x.b s1
  else if x.mode = .kModeRegI then
    (Put2 op r x.r x.a s).bind fun s1 => some { s1 with rh := s1.rh - 1 }
  else some (s.mark "bad mode in Store")

/-- Translation of `ORG_Store`; the state of the generator is returned, the items are not
used after the call. -/
def ORG_Store (x y : item_t) (s : CG) : Option CG :=
  (Load y s).bind fun (y, s1) =>
  (Store x y.r s1).bind fun s2 => some { s2 with rh := s2.rh - 1 }

/-- Translation of `ORG_StrToChar`; `none` is the failed assertion, or an index outside
`g_pool`. -/
def ORG_StrToChar (x : item_t) (s : CG) : Option (item_t × CG) :=
  if ¬ (x.type.tag = .kTypeString ∧ x.b = 2) then none
  else if x.a < 0 ∨ kMaxStrx ≤ x.a then none
  else some ({ x with type := g_char_type, a := s.pool x.a.toNat },
             { s with strx := s.strx - 4 })

/-- The part `z := x + y` that the two branches of `ORG_Increment` share. -/
def incrementBy (op zr : Int) (y : item_t) (s : CG) : Option CG :=
  if y.mode = .kModeImmediate then Put1a op zr zr y.a s
  else
    (Load y s).bind fun (y, s1) =>
    (Put0 op zr zr y.r s1).bind fun s2 => some { s2 with rh := s2.rh - 1 }

/-- Translation of `ORG_Increment`. -/
def ORG_Increment (dec : Bool) (x y : item_t) (s : CG) : Option CG :=
  if s.frame ≠ 0 then none
  else
    let op := if dec then kOpSub else kOpAdd
    let v : Int := if sameType (some x.type) (some g_byte_type) then 1 else 0
    let y := if y.type.tag = .kTypeNone then { y with mode := .kModeImmediate, a := 1 } else y
    if x.mode = .kModeDirect ∧ x.r > 0 then
      let zr := s.rh
      (Put2 (kOpLdr + v) zr kRegSP x.a s).bind fun s1 =>
      (incrementBy op zr y (IncR s1)).bind fun s2 =>
      (Put2 (kOpStr + v) zr kRegSP x.a s2).bind fun s3 => some { s3 with rh := s3.rh - 1 }
    else
      (LoadAdr x s).bind fun (x, s1) =>
      let zr := s1.rh
      (Put2 (kOpLdr + v) s1.rh x.r 0 s1).bind fun s2 =>
      (incrementBy op zr y (IncR s2)).bind fun s3 =>
      (Put2 (kOpStr + v) zr x.r 0 s3).bind fun s4 => some { s4 with rh := s4.rh - 2 }

/-- Translation of `ORG_Include`; `none` is also a shift `1 << y->a` by a count outside
0 .. 31. -/
def ORG_Include (excl : Bool) (x y : item_t) (s : CG) : Option CG :=
  (LoadAdr x s).bind fun (x, s1) =>
  let zr := s1.rh
  (Put2 kOpLdr s1.rh x.r 0 s1).bind fun s2 =>
  let s3 := IncR s2
  let op := if excl then kOpAnn else kOpIor
  (if y.mode = .kModeImmediate then
    if y.a < 0 ∨ 32 ≤ y.a then none else Put1a op zr zr (shl 1 y.a.toNat) s3
  else
    (Load y s3).bind fun (y, s4) =>
    (Put1 kOpMov s4.rh 0 1 s4).bind fun s5 =>
    (Put0 kOpLsl y.r s5.rh y.r s5).bind fun s6 =>
    (Put0 op zr zr y.r s6).bind fun s7 => some { s7 with rh := s7.rh - 1 }).bind fun s8 =>
  (Put2 kOpStr zr x.r 0 s8).bind fun s9 => some { s9 with rh := s9.rh - 2 }

/-- Translation of `ORG_Read`. -/
def ORG_Read (x : item_t) (s : CG) : Option CG :=
  if x.type.tag ≠ .kTypeInt ∧ x.type.tag ≠ .kTypeChar then
    some (s.mark "not an INTEGER or CHAR")
  else
    let addr : Int := if x.type.tag = .kTypeInt then -1 else -2
    (Put1 kOpMov s.rh 0 addr s).bind fun s1 =>
    let s2 := IncR s1
    (Put2 kOpLdr s2.rh (s2.rh - 1) 0 s2).bind fun s3 =>
    (Store x s3.rh s3).bind fun s4 => some { s4 with rh := s4.rh - 1 }

/-- The load of the operand of `ORG_Write` and the address of the output port for its type;
the inner `none` is an operand that cannot be written. -/
def writeOperand (x : item_t) (s : CG) : Option (Option (item_t × CG × Int)) :=
  if x.type.tag = .kTypeInt then (Load x s).map fun r => some (r.1, r.2, -1)
  else if x.type.tag = .kTypeChar then (Load x s).map fun r => some (r.1, r.2, -2)
  else if x.type.tag = .kTypeString then
    if x.mode ≠ .kModeImmediate then none
    else (LoadStringAdr x s).map fun r => some (r.1, r.2, -3)
  else
    (IsCharArray x).bind fun c =>
      if c then (LoadAdr x s).map fun r => some (r.1, r.2, -3)
      else some none

/-- The part `if (line) ...` that ends `ORG_Write`. -/
def writeLine (line : Bool) (x : item_t) (s : CG) : Option CG :=
  if line then
    (Put1 kOpMov s.rh 0 (-4) s).bind fun s1 => Put2 kOpStr x.r s1.rh 0 s1
  else some s

/-- Translation of `ORG_Write`. -/
def ORG_Write (line : Bool) (x : item_t) (s : CG) : Option CG :=
  if x.type.tag ≠ .kTypeNone then
    (writeOperand x s).bind fun r =>
      match r with
      | none => some (s.mark "not an INTEGER, CHAR (ARRAY) or STRING")
      | some (x, s1, addr) =>
        (Put1 kOpMov s1.rh 0 addr s1).bind fun s2 =>
        (Put2 kOpStr x.r s2.rh 0 s2).bind fun s3 =>
          writeLine line x { s3 with rh := s3.rh - 1 }
  else writeLine line x s

/-- Translation of `ORG_Get`. -/
def ORG_Get (put : Bool) (x y : item_t) (s : CG) : Option CG :=
  (Load x s).bind fun (x, s1) =>
    let x := { x with type := y.type, mode := .kModeRegI, a := 0 }
    if put then ORG_Store x y s1 else ORG_Store y x s1

/-- Translation of `ORG_Copy`. -/
def ORG_Copy (x y z : item_t) (s : CG) : Option CG :=
  (Load x s).bind fun (x, s1) =>
  (Load y s1).bind fun (y, s2) =>
  (if z.mode = .kModeImmediate then
    if z.a > 0 then Load z s2 else some (z, s2.mark "bad count")
  else
    (Load z s2).bind fun (z, s3) =>
    (Trap kCondLT kTrapIndexOutOfBounds s3).bind fun s4 =>
    (Put3 kOpBc kCondEQ 6 s4).bind fun s5 => some (z, s5)).bind fun (z, s6) =>
  (Put2 kOpLdr s6.rh x.r 0 s6).bind fun s7 =>
  (Put1 kOpAdd x.r x.r 4 s7).bind fun s8 =>
  (Put2 kOpStr s8.rh y.r 0 s8).bind fun s9 =>
  (Put1 kOpAdd y.r y.r 4 s9).bind fun s10 =>
  (Put1 kOpSub z.r z.r 1 s10).bind fun s11 =>
  (Put3 kOpBc kCondNE (-6) s11).bind fun s12 => some { s12 with rh := s12.rh - 3 }

/-- The outcome of the parse of the actual parameters in `StandProc`: the items that the
calls of `Expr` have delivered, in order (none when no `(` follows the name of the
procedure), and whether the `)` was found. -/
structure actuals_t where
  items : List item_t
  closed : Bool

/-- The `switch (n)` of `StandProc` on the items `x`, `y`, `z`. -/
def standProcBody (n : Int) (x y z : item_t) (s : CG) : Option CG :=
  if n = 0 ∨ n = 1 then
    let r := CheckInt x s
    let s1 := CheckReadOnly r.1 r.2
    let q := if y.type.tag ≠ .kTypeNone then CheckInt y s1 else (y, s1)
    ORG_Increment (decide (n ≠ 0)) r.1 q.1 q.2
  else if n = 2 ∨ n = 3 then
    let r := CheckSet x s
    let s1 := CheckReadOnly r.1 r.2
    let q := CheckSetVal y s1
    ORG_Include (decide (n - 2 ≠ 0)) r.1 q.1 q.2
  else if n = 4 then
    let r := CheckBool x s
    (ORG_Assert r.1 r.2).map fun q => q.2
  else if n = 5 then ORG_Read x (CheckReadOnly x s)
  else if n = 6 ∨ n = 7 then
    (if x.type.tag = .kTypeString ∧ x.b = 2 then ORG_StrToChar x s else some (x, s)).bind
      fun r => ORG_Write (decide (n - 6 ≠ 0)) r.1 r.2
  else if n = 8 ∨ n = 9 then
    let r := CheckInt x s
    let q := CheckBasicType y r.2
    ORG_Get (decide (n - 8 ≠ 0)) r.1 q.1 (CheckReadOnly q.1 q.2)
  else if n = 10 then
    let r := CheckInt x s
    let q := CheckInt y r.2
    let t := CheckInt z q.2
    ORG_Copy r.1 q.1 t.1 t.2
  else none

/-- Translation of `StandProc` from the point where the actual parameters have been parsed:
`s` is the state of the generator after the calls of `Expr`.  The locals `x`, `y`, `z` start
as `rx`, `ry`, `rz`, the content of their storage on entry; the third and further parameters
are all parsed into `z`.  The line that the C code prints on standard output before
"wrong nof parameters" is left out. -/
def StandProc (rx ry rz : item_t) (n : Int) (act : actuals_t) (s : CG) : Option CG :=
  let nfp := standArity n
  let n := standTag n
  let nap : Int := act.items.length
  let x := match act.items with
    | [] => { rx with type := g_no_type }
    | x :: _ => x
  let y := match act.items with
    | [] => ry
    | [_] => { ry with type := g_no_type }
    | _ :: y :: _ => y
  let z := match act.items with
    | [] => rz
    | [_] => rz
    | [_, _] => { rz with type := g_no_type }
    | _ :: _ :: z :: rest => (z :: rest).getLast (List.cons_ne_nil _ _)
  let s := if act.items.length ≠ 0 ∧ act.closed = false then s.mark "no )" else s
  if n ≠ 0 ∧ n ≠ 1 ∧ n ≠ 8 ∧ nap ≠ nfp then some (s.mark "wrong nof parameters")
  else standProcBody n x y z s

/-- The actual parameters `(e1, ..., en)` with the closing parenthesis. -/
def actuals (items : List item_t) : actuals_t := { items := items, closed := true }

/-- What the examples observe of the generator after a standard procedure: `g_pc`, `g_rh`
and the messages reported. -/
def generated (s : Option CG) : Option (Int × Int × List String) :=
  s.map fun s => (s.pc, s.rh, s.diag.marks)

/-! ### Chains of branch instructions of any kind -/

/-- An `int32_t` word whose two most significant bits are set, as `Fix` asserts it: an
instruction of format F3 (`BR`, `BLR`, `BC` or `BL`). -/
def isF3 (w : Int) : Bool :=
  decide (-2147483648 ≤ w ∧ w < 2147483648 ∧ asr w 30 % 4 = 3)

/-- `isLinked mem head addrs`: the chain that starts at `head` runs through the addresses
`addrs`, in this order.  Every address is one of `g_mem` other than 0 and holds an instruction
of format F3, the offset field of which (the low 24 bits) is the address of the next
instruction of the chain; the offset field of the last one is 0, and `head` is 0 for the
empty chain. -/
def isLinked (mem : Nat → Int) : Int → List Int → Bool
  | h, [] => decide (h = 0)
  | h, a :: rest =>
    decide (h = a) && decide (0 < a ∧ a < 1024) && isF3 (mem a.toNat) &&
    isLinked mem (mem a.toNat % 16777216) rest

/-- Specification: the word `w` with its offset field replaced by the low 24 bits of `off`. -/
def withOffset (w off : Int) : Int := w - w % 16777216 + off % 16777216

/-- Specification: the memory in which every instruction of `addrs` has been given the offset
that leads from it to `target`. -/
def retargeted (target : Int) : (Nat → Int) → List Int → (Nat → Int)
  | mem, [] => mem
  | mem, a :: rest =>
    retargeted target
      (Function.update mem a.toNat (withOffset (mem a.toNat) (target - a - 1))) rest

/-- A generator state at address 9 with the chain 7, 4, 2 (`BC LT`, `BL T`, `BC EQ`) and the
chain 6, 3 (`BC NE`, `BC GE`). -/
def cgLinked : CG :=
  { cgStart with
    pc := 9
    mem := Function.update (Function.update (Function.update (Function.update (Function.update
      (fun _ => 0) 7 (wordF3 kOpBc kCondLT 4)) 4 (wordF3 kOpBl kCondTrue 2))
      2 (wordF3 kOpBc kCondEQ 0)) 6 (wordF3 kOpBc kCondNE 3)) 3 (wordF3 kOpBc kCondGE 0) }

/-! ### Saving and restoring registers around a call (`org.c`) -/

/-- The loop `do { Put2(kOpStr, r0, kRegSP, (r-1-r0)*4); } while (++r0 != r)` of `SaveRegs`,
run for at most `fuel` passes. -/
def saveLoop (r : Int) : Nat → Int → CG → Option CG
  | 0, _, _ => none
  | fuel + 1, r0, s =>
    (Put2 kOpStr r0 kRegSP ((r - 1 - r0) * 4) s).bind fun s1 =>
      if r0 + 1 ≠ r then saveLoop r fuel (r0 + 1) s1 else some s1

/-- Translation of `SaveRegs`.  `Put2` asserts that its register is at most 15, so that the
loop makes at most 16 passes that return. -/
def SaveRegs (r : Int) (s : CG) : Option CG :=
  if ¬ (r > 0) then none
  else
    (Put1 kOpSub kRegSP kRegSP (r * 4) s).bind fun s1 =>
      saveLoop r 17 0 { s1 with frame := s1.frame + 4 * r }

/-- The loop `do { --r0; Put2(kOpLdr, r0, kRegSP, (r-1-r0)*4); } while (r0 != 0)` of
`RestoreRegs`, run for at most `fuel` passes. -/
def restoreLoop (r : Int) : Nat → Int → CG → Option CG
  | 0, _, _ => none
  | fuel + 1, r0, s =>
    (Put2 kOpLdr (r0 - 1) kRegSP ((r - 1 - (r0 - 1)) * 4) s).bind fun s1 =>
      if r0 - 1 ≠ 0 then restoreLoop r fuel (r0 - 1) s1 else some s1

/-- Translation of `RestoreRegs`. -/
def RestoreRegs (r : Int) (s : CG) : Option CG :=
  if ¬ (r > 0) then none
  else
    (restoreLoop r 17 r s).bind fun s1 =>
    (Put1 kOpAdd kRegSP kRegSP (r * 4) s1).bind fun s2 =>
      some { s2 with frame := s2.frame - 4 * r }

/-- The word index of the stack slot of register `j` among `r` saved registers, for the stack
pointer `sp` that `SaveRegs` leaves: the slot at `sp + 4 * (r - 1 - j)`. -/
def slotOf (sp : Int) (r j : Nat) : Nat := ((sp + 4 * ((r : Int) - 1 - j)) / 4).toNat

/-- The generator after `SaveRegs(2)` from `cgStart`. -/
def savedDemo : CG := (SaveRegs 2 cgStart).getD cgStart

/-- The generator after `SaveRegs(2)` followed by `RestoreRegs(2)`. -/
def restoredDemo : CG := (RestoreRegs 2 savedDemo).getD savedDemo

/-- An interpreter at the entry of the code of `restoredDemo`, with SP at the end of the
memory and `11 * (i + 1)` in every other register `i`. -/
def saveRestoreVM : VM :=
  { vmAt restoredDemo.mem 1 with reg := fun i => if i = 14 then 4096 else 11 * ((i : Int) + 1) }

/-- The interpreter state `vm` after code that has set every register but SP to 0. -/
def clobbered (vm : VM) : VM :=
  { vm with reg := fun i => if i = 14 then vm.reg 14 else 0 }

/-! ### The scanner: comments, operators and `ORS_Get` (`ors.c`) -/

def kSymArrow : Int := 17
def kSymPeriod : Int := 18
def kSymNot : Int := 25
def kSymLParen : Int := 26
def kSymLBrak : Int := 27
def kSymLBrace : Int := 28
def kSymComma : Int := 35
def kSymColon : Int := 36
def kSymBecomes : Int := 37
def kSymUpTo : Int := 38
def kSymRParen : Int := 39
def kSymRBrak : Int := 40
def kSymRBrace : Int := 41
def kSymSemicolon : Int := 47
def kSymBar : Int := 49
def kSymEot : Int := 64

/-- Translation of `Switch`. -/
def Switch (sym1 c sym2 : Int) (s : Scanner) : Option (Int × Scanner) :=
  s.consume.bind fun s1 =>
    if s1.inp.ch = c then s1.consume.bind fun s2 => some (sym2, s2)
    else some (sym1, s1)

/-- Translation of `Select`. -/
def Select (sym : Int) (s : Scanner) : Option (Int × Scanner) :=
  s.consume.bind fun s1 => some (sym, s1)

/-- The loop `while (g_ch == '*') Consume()` of `Comment`, run for at most `fuel` passes. -/
def commentStars : Nat → Input → Option Input
  | 0, _ => none
  | fuel + 1, s => if s.ch = 42 then (Consume s).bind (commentStars fuel) else some s

mutual
/-- Translation of `Comment`.  Every pass of a loop and every call takes one unit of `fuel`;
`none` is also the failure of an assertion. -/
def Comment : Nat → Input → Option Input
  | 0, _ => none
  | fuel + 1, s =>
    if s.ch ≠ 42 then none
    else
      (commentLoop fuel s).bind fun s1 =>
        if s1.ch ≠ kEOF then
          if s1.ch ≠ 41 then none else Consume s1
        else some (s1.mark "unterminated comment")
/-- The loop `do ... while (g_ch != ')' && g_ch != EOF)` of `Comment`. -/
def commentLoop : Nat → Input → Option Input
  | 0, _ => none
  | fuel + 1, s =>
    (commentInner fuel s).bind fun s1 =>
    (commentStars fuel s1).bind fun s2 =>
      if s2.ch ≠ 41 ∧ s2.ch ≠ kEOF then commentLoop fuel s2 else some s2
/-- The loop `while (g_ch != EOF && g_ch != '*')` of `Comment`, with the call of `Comment`
for a nested comment. -/
def commentInner : Nat → Input → Option Input
  | 0, _ => none
  | fuel + 1, s =>
    if s.ch ≠ kEOF ∧ s.ch ≠ 42 then
      if s.ch = 40 then
        (Consume s).bind fun s1 =>
          if s1.ch = 42 then (Comment fuel s1).bind (commentInner fuel)
          else commentInner fuel s1
      else (Consume s).bind (commentInner fuel)
    else some s
end

/-- The loop `while (g_ch != EOF && IsBlank(g_ch)) Consume()` of `ORS_Get`. -/
def skipBlanks : Nat → Input → Option Input
  | 0, _ => none
  | fuel + 1, s =>
    if s.ch ≠ kEOF then
      (IsBlank s.ch).bind fun b => if b then (Consume s).bind (skipBlanks fuel) else some s
    else some s

/-- The loop `for (;;)` of `ORS_Get`, run for at most `fuel` passes: the returned symbol and
the new state. -/
def getLoop : Nat → Scanner → Option (Int × Scanner)
  | 0, _ => none
  | fuel + 1, s0 =>
    (skipBlanks fuel s0.inp).bind fun i =>
      let s := { s0 with inp := i }
      let ch := i.ch
      if ch = 40 then
        s.consume.bind fun s1 =>
          if s1.inp.ch = 42 then
            (Comment fuel s1.inp).bind fun i2 => getLoop fuel { s1 with inp := i2 }
          else some (kSymLParen, s1)
      else if ch = 10 then s.consume.bind (getLoop fuel)
      else if ch = kEOF then some (kSymEot, s)
      else if ch = 34 then String_ s
      else if ch = 36 then HexString s
      else if ch = 46 then Switch kSymPeriod 46 kSymUpTo s
      else if ch = 58 then Switch kSymColon 61 kSymBecomes s
      else if ch = 60 then Switch kSymLss 61 kSymLeq s
      else if ch = 62 then Switch kSymGtr 61 kSymGeq s
      else if ch = 35 then Select kSymNeq s
      else if ch = 38 then Select kSymAnd s
      else if ch = 41 then Select kSymRParen s
      else if ch = 42 then Select kSymTimes s
      else if ch = 43 then Select kSymPlus s
      else if ch = 44 then Select kSymComma s
      else if ch = 45 then Select kSymMinus s
      else if ch = 47 then Select kSymRDiv s
      else if ch = 59 then Select kSymSemicolon s
      else if ch = 61 then Select kSymEql s
      else if ch = 91 then Select kSymLBrak s
      else if ch = 93 then Select kSymRBrak s
      else if ch = 94 then Select kSymArrow s
      else if ch = 123 then Select kSymLBrace s
      else if ch = 125 then Select kSymRBrace s
      else if ch = 124 then Select kSymBar s
      else if ch = 126 then Select kSymNot s
      else if ch = 127 then Select kSymUpTo s
      else if 48 ≤ ch ∧ ch ≤ 57 then Number s
      else if (97 ≤ ch ∧ ch ≤ 122) ∨ (65 ≤ ch ∧ ch ≤ 90) then Identifier s
      else s.consume.bind (getLoop fuel)

/-- The number of passes granted to the loops of `ORS_Get` and `Comment`.  Every pass of one
of these loops but the last reads a character, a nested call of `Comment` reads one before it
returns, between two reads of a line at most 257 characters are read, and every read of a
line takes a byte from the file or delivers `EOF`, after which `Consume` does not return. -/
def getFuel (s : Scanner) : Nat := 4 * (257 * (s.inp.file.length + 2)) + 4

/-- Translation of `ORS_Get`: the returned symbol and the new state. -/
def ORS_Get (s : Scanner) : Option (Int × Scanner) := getLoop (getFuel s) s

/-- The symbols that `n` calls of `ORS_Get` return one after the other, each with the first
two characters of `g_id`, the value `g_ival` and the number of errors reported so far. -/
def tokens : Nat → Scanner → List (Int × Int × Int × Int × Int)
  | 0, _ => []
  | n + 1, s =>
    match ORS_Get s with
    | none => []
    | some (sym, s1) => (sym, s1.id 0, s1.id 1, s1.ival, s1.inp.diag.errcnt) :: tokens n s1

/-- The bytes of the source line `(*)x*)y`. -/
def textShortComment : List Int := [40, 42, 41, 120, 42, 41, 121, 10]

/-- The bytes of the source line `(*(*)*)y`. -/
def textNestedShortComment : List Int := [40, 42, 40, 42, 41, 42, 41, 121, 10]

/-- The bytes of the source line `(*a(*b*)c*)y`. -/
def textNestedComment : List Int := [40, 42, 97, 40, 42, 98, 42, 41, 99, 42, 41, 121, 10]

/-- The bytes of the source lines `(*a`, `b**)y`: a comment over two lines that ends with two
asterisks. -/
def textLongComment : List Int := [40, 42, 97, 10, 98, 42, 42, 41, 121, 10]

/-- The bytes of the source line `(*a(*b*)c`: the text ends within the comment. -/
def textOpenComment : List Int := [40, 42, 97, 40, 42, 98, 42, 41, 99, 10]

/-- The bytes of the source line `100..256:=:<=<>=>.;`. -/
def textOperators : List Int :=
  [49, 48, 48, 46, 46, 50, 53, 54, 58, 61, 58, 60, 61, 60, 62, 61, 62, 46, 59, 10]

/-- The state of the input after the characters `cs` have been read from the state `i`. -/
def readAhead (i : Input) (cs : List Int) : Input := (reads i cs).getD i

/-- The characters `00..256:` that follow the first digit of the line `100..256:=:<=<>=>.;`. -/
def textRange : List Int := [48, 48, 46, 46, 50, 53, 54, 58]

/-- Specification: the four pairs of a one-character token and the two-character token that
starts with the same character: the first character, the second character of the pair, the
symbol of the single character and the symbol of the pair. -/
def specPairs : List (Int × Int × Int × Int) :=
  [(46, 46, kSymPeriod, kSymUpTo), (58, 61, kSymColon, kSymBecomes),
   (60, 61, kSymLss, kSymLeq), (62, 61, kSymGtr, kSymGeq)]

/-! ### Instructions without a result (`risc.c`) -/

/-- Translation of `ORG_Condition`. -/
def ORG_Condition (x : item_t) : Option item_t :=
  if x.mode ≠ .kModeImmediate then none else some (SetCC x x.a)

/-- The code of `IF SYSTEM.COND(c) THEN R0 := 1 END`: the item of `SYSTEM.COND(c)` as
`StandFunc` leaves it (`ORG_Condition` on the constant `c`, with the result type `BOOLEAN`),
the conditional jump of `ORG_CFJump`, one instruction `MOV R0, 1` for the statement, and
`ORG_Fixup`. -/
def condCode (c : Int) : Option CG :=
  (ORG_Condition (intConst c)).bind fun x =>
  (ORG_CFJump { x with type := g_bool_type } cgStart).bind fun r =>
  (Put1 kOpMov 0 0 1 r.2).bind fun s1 => ORG_Fixup r.1 s1

/-- The interpreter about to run the code of `condCode c` with the flags `n`, `z`, `cf`,
`v`. -/
def condVM (c : Int) (n z cf v : Bool) : VM :=
  { vmAt (match condCode c with
          | some s => s.mem
          | none => fun _ => 0) 1 with
    flagN := n, flagZ := z, flagC := cf, flagV := v }

/-- What the examples observe after the two instructions that follow the test: the PC and
R0, which is 1 when the statement has been executed. -/
def condRun (c : Int) (n z cf v : Bool) : Option (Int × Int) :=
  (stepN 2 (condVM c n z cf v)).map fun vm => (vm.pc, vm.reg 0)

/-- The bytes of the source line `"a?b";` in which `?` stands for the byte `c`. -/
def textStringWith (c : Int) : List Int := [34, 97, c, 98, 34, 59, 10]

/-! ### The command line, as the options read (`main.c`) -/

/-- Specification: the option characters that are read.  Options are read from the leading
arguments that begin with `-`, every character behind the `-`, one argument after the other
up to and including the first argument that holds a character other than `s`; arguments
behind that one and behind the first argument that does not begin with `-` are not read. -/
def specOptionsRead : List (List Int) → List Int
  | [] => []
  | arg :: rest =>
    if arg.head? = some 45 then
      if arg.tail.all (fun ch => ch == 115) then arg.tail ++ specOptionsRead rest
      else arg.tail
    else []

theorem bitOr_eq_add (i : Nat) (m x y : Int) (hm : m = 2 ^ i) (hi : i ≤ 32)
    (hx : x % m = 0) (hy : 0 ≤ y ∧ y < m)
    (hlo : -2147483648 ≤ x + y) (hhi : x + y < 2147483648) :
    bitOr x y = x + y := by
  subst hm
  unfold bitOr ofWord toWord
  have h32 : (4294967296 : Int) = 2 ^ i * 2 ^ (32 - i) := by
    rw [← pow_add]
    have : i + (32 - i) = 32 := by omega
    rw [this]; norm_num
  have hX : (x % 4294967296) % (2 ^ i : Int) = 0 := by
    rw [h32, Int.emod_emod_of_dvd x (dvd_mul_right _ _)]; exact hx
  have hXnn : 0 ≤ x % 4294967296 := Int.emod_nonneg _ (by norm_num)
  obtain ⟨q, hq⟩ : ∃ q : Nat, (x % 4294967296).toNat = 2 ^ i * q := by
    have hd : ((2 ^ i : Nat) : Int) ∣ ((x % 4294967296).toNat : Int) := by
      rw [Int.toNat_of_nonneg hXnn]; push_cast; exact Int.dvd_of_emod_eq_zero hX
    obtain ⟨q, hq⟩ := Int.natCast_dvd_natCast.mp hd
    exact ⟨q, hq⟩
  have hy4 : y % 4294967296 = y := by
    apply Int.emod_eq_of_lt hy.1
    have : (2 : Int) ^ i ≤ 2 ^ 32 := pow_le_pow_right₀ (by norm_num) hi
    norm_num at this; omega
  have hyN : y.toNat < 2 ^ i := by
    have : ((y.toNat : Nat) : Int) < ((2 ^ i : Nat) : Int) := by
      rw [Int.toNat_of_nonneg hy.1]; push_cast; exact hy.2
    exact_mod_cast this
  rw [hy4, hq, ← Nat.mul_add_lt_is_or hyN q, ← hq]
  push_cast
  rw [Int.toNat_of_nonneg hXnn, Int.toNat_of_nonneg hy.1]
  unfold wrap32
  omega

theorem headerF1_enum : ∀ a : Nat, a < 16 → ∀ b : Nat, b < 16 → ∀ o : Nat, o < 16 →
    ∀ m : Nat, m < 4 →
    bitOr (bitOr (shl ((a : Int) + 64) 24) (shl (b : Int) 20))
        (shl ((o : Int) + 4096 * (m : Int)) 16)
      = wordF1 (m : Int) (a : Int) (b : Int) (o : Int) 0 := by
  decide!

theorem headerF3_enum : ∀ op : Nat, op < 4 → ∀ c : Nat, c < 16 →
    bitOr (shl ((op : Int) + 12) 28) (shl (c : Int) 24) = wordF3 (op : Int) (c : Int) 0 := by
  decide!

theorem headerF1 (a b o m : Int) (ha : 0 ≤ a ∧ a ≤ 15) (hb : 0 ≤ b ∧ b ≤ 15)
    (ho : 0 ≤ o ∧ o ≤ 15) (hm : 0 ≤ m ∧ m ≤ 3) :
    bitOr (bitOr (shl (a + 64) 24) (shl b 20)) (shl (o + 4096 * m) 16) = wordF1 m a b o 0 := by
  obtain ⟨a, rfl⟩ := Int.eq_ofNat_of_zero_le ha.1
  obtain ⟨b, rfl⟩ := Int.eq_ofNat_of_zero_le hb.1
  obtain ⟨o, rfl⟩ := Int.eq_ofNat_of_zero_le ho.1
  obtain ⟨m, rfl⟩ := Int.eq_ofNat_of_zero_le hm.1
  exact headerF1_enum a (by omega) b (by omega) o (by omega) m (by omega)

theorem headerF3 (op c : Int) (hop : 0 ≤ op ∧ op ≤ 3) (hc : 0 ≤ c ∧ c ≤ 15) :
    bitOr (shl (op + 12) 28) (shl c 24) = wordF3 op c 0 := by
  obtain ⟨op, rfl⟩ := Int.eq_ofNat_of_zero_le hop.1
  obtain ⟨c, rfl⟩ := Int.eq_ofNat_of_zero_le hc.1
  exact headerF3_enum op (by omega) c (by omega)

/-- The word that `Put1` stores for the opcode `o` with the modifier bit `u` (`kModU`): the
modifier `v` is set when the immediate is negative. -/
theorem Put1_eq (op o u a b im : Int) (s : CG) (hop : op = o + 8192 * u)
    (ha : 0 ≤ a ∧ a ≤ 15) (hb : 0 ≤ b ∧ b ≤ 15)
    (ho : 0 ≤ o ∧ o ≤ 15) (hu : 0 ≤ u ∧ u ≤ 1) (hpc : 0 ≤ s.pc ∧ s.pc < 1024) :
    Put1 op a b im s =
      some { s with
        mem := Function.update s.mem s.pc.toNat
          (wordF1 (2 * u + (if im < 0 then 1 else 0)) a b o (im % 65536))
        pc := s.pc + 1 } := by
  subst hop
  have hpc' : ¬ (s.pc < 0 ∨ kMemSz / 4 ≤ s.pc) := by simp only [kMemSz]; omega
  have ha' : ¬ ¬ (0 ≤ a ∧ a ≤ 15) := not_not.mpr ha
  have hb' : ¬ ¬ (0 ≤ b ∧ b ≤ 15) := not_not.mpr hb
  have hop : (if im < 0 then o + 8192 * u + kModV else o + 8192 * u)
      = o + 4096 * (2 * u + (if im < 0 then 1 else 0)) := by
    simp only [kModV]; split <;> omega
  have hm : 0 ≤ 2 * u + (if im < 0 then (1 : Int) else 0) ∧
      2 * u + (if im < 0 then (1 : Int) else 0) ≤ 3 := by split <;> omega
  have hw : bitOr (wordF1 (2 * u + (if im < 0 then 1 else 0)) a b o 0) (im % 65536)
      = wordF1 (2 * u + (if im < 0 then 1 else 0)) a b o (im % 65536) := by
    rw [bitOr_eq_add 16 65536 _ _ (by norm_num) (by norm_num)]
    · simp only [wordF1]; omega
    · simp only [wordF1]; omega
    · omega
    · simp only [wordF1]; omega
    · simp only [wordF1]; omega
  have hw2 : wrap32 (wordF1 (2 * u + (if im < 0 then 1 else 0)) a b o (im % 65536))
      = wordF1 (2 * u + (if im < 0 then 1 else 0)) a b o (im % 65536) := by
    simp only [wrap32, wordF1]; omega
  simp only [Put1, ha', hb', if_false, hop, headerF1 a b o _ ha hb ho hm, hw, emit, hpc', hw2]

theorem decodeF1 (m a b o im : Int) (hm : 0 ≤ m ∧ m ≤ 3) (ha : 0 ≤ a ∧ a ≤ 15)
    (hb : 0 ≤ b ∧ b ≤ 15) (ho : 0 ≤ o ∧ o ≤ 15) (him : 0 ≤ im ∧ im < 65536) :
    insnMsb (wordF1 m a b o im) = false ∧ insnQ (wordF1 m a b o im) = true ∧
    insnU (wordF1 m a b o im) = decide (2 ≤ m) ∧
    insnV (wordF1 m a b o im) = decide (m % 2 = 1) ∧
    fieldA (wordF1 m a b o im) = a ∧ fieldB (wordF1 m a b o im) = b ∧
    fieldOp (wordF1 m a b o im) = o ∧ wordF1 m a b o im % 65536 = im := by
  simp only [insnMsb, insnQ, insnU, insnV, fieldA, fieldB, fieldOp, wordF1]
  refine ⟨?_, ?_, ?_, ?_, ?_, ?_, ?_, ?_⟩
  · simp only [decide_eq_false_iff_not]; omega
  · simp only [decide_eq_true_eq]; omega
  · simp only [decide_eq_decide]; omega
  · simp only [decide_eq_decide]; omega
  all_goals omega

/-- Execution of a format-F1 instruction: the second operand is the immediate, sign-extended
when `v` is set. -/
theorem step_F1 (vm : VM) (m a b o im : Int) (hm : 0 ≤ m ∧ m ≤ 3) (ha : 0 ≤ a ∧ a ≤ 15)
    (hb : 0 ≤ b ∧ b ≤ 15) (ho : 0 ≤ o ∧ o ≤ 15) (him : 0 ≤ im ∧ im < 65536)
    (hpc : 0 ≤ vm.pc ∧ vm.pc < 1024) (hw : vm.mem vm.pc.toNat = wordF1 m a b o im) :
    step vm =
      match execAlu { vm with ir := wordF1 m a b o im, pc := vm.pc + 1 } (wordF1 m a b o im) o
          (vm.reg b.toNat) (if m % 2 = 1 then wrap32 (im + 4294901760) else im) with
      | none => none
      | some (val, s1) =>
        some (setNZ { s1 with reg := Function.update s1.reg a.toNat (wrap32 val) } val) := by
  obtain ⟨h1, h2, _, h4, h5, h6, h7, h8⟩ := decodeF1 m a b o im hm ha hb ho him
  have hpc' : ¬ (vm.pc < 0 ∨ kMemSz / 4 ≤ vm.pc) := by simp only [kMemSz]; omega
  simp only [step, hpc', if_false, hw, h1, h2, h4, h5, h6, h7, h8, operandB, operandN,
    Bool.not_false, Bool.not_true, Bool.true_or, if_true, decide_eq_true_eq]
  rfl

/-- Execution of `MOV a, im` as emitted for a constant `c` that fits the immediate field. -/
theorem step_MOV_imm (vm : VM) (a c : Int) (ha : 0 ≤ a ∧ a ≤ 15)
    (hc : -65536 ≤ c ∧ c ≤ 65535) (hpc : 0 ≤ vm.pc ∧ vm.pc < 1024)
    (hw : vm.mem vm.pc.toNat = wordF1 (if c < 0 then 1 else 0) a 0 0 (c % 65536)) :
    step vm = some (setNZ { vm with ir := wordF1 (if c < 0 then 1 else 0) a 0 0 (c % 65536)
                                    pc := vm.pc + 1
                                    reg := Function.update vm.reg a.toNat c } c) := by
  have hm : 0 ≤ (if c < 0 then (1 : Int) else 0) ∧ (if c < 0 then (1 : Int) else 0) ≤ 3 := by
    split <;> omega
  have him : 0 ≤ c % 65536 ∧ c % 65536 < 65536 := by omega
  obtain ⟨_, _, h3, _, _, _, _, _⟩ :=
    decodeF1 (if c < 0 then 1 else 0) a 0 0 (c % 65536) hm ha (by omega) (by omega) him
  have hu : insnU (wordF1 (if c < 0 then 1 else 0) a 0 0 (c % 65536)) = false := by
    rw [h3]; simp only [decide_eq_false_iff_not]; split <;> omega
  have hn : (if (if c < 0 then (1 : Int) else 0) % 2 = 1 then wrap32 (c % 65536 + 4294901760)
      else c % 65536) = c := by
    unfold wrap32; split <;> split <;> omega
  have hwr : wrap32 c = c := by unfold wrap32; omega
  rw [step_F1 vm _ a 0 0 _ hm ha (by omega) (by omega) him hpc hw, hn]
  simp only [execAlu, kOpMov, if_true, hu, Bool.false_eq_true, if_false, hwr]

/-- Execution of `MOV a, im` with the `u` modifier: the immediate goes to the upper half. -/
theorem step_MOV_upper (vm : VM) (a im : Int) (ha : 0 ≤ a ∧ a ≤ 15)
    (him : 0 ≤ im ∧ im < 65536) (hpc : 0 ≤ vm.pc ∧ vm.pc < 1024)
    (hw : vm.mem vm.pc.toNat = wordF1 2 a 0 0 im) :
    step vm = some (setNZ { vm with ir := wordF1 2 a 0 0 im
                                    pc := vm.pc + 1
                                    reg := Function.update vm.reg a.toNat (wrap32 (im * 65536)) }
                      (wrap32 (im * 65536))) := by
  obtain ⟨_, h2, h3, _, _, _, _, _⟩ :=
    decodeF1 2 a 0 0 im (by omega) ha (by omega) (by omega) him
  have hu : insnU (wordF1 2 a 0 0 im) = true := by rw [h3]; decide
  have hwr : wrap32 (wrap32 (im * 65536)) = wrap32 (im * 65536) := by unfold wrap32; omega
  rw [step_F1 vm 2 a 0 0 im (by omega) ha (by omega) (by omega) him hpc hw]
  simp only [execAlu, kOpMov, if_true, hu, h2, shl, hwr]
  norm_num
  rw [hwr]

/-- Execution of `IOR a, a, im` on a register whose lower half is clear. -/
theorem step_IOR_lower (vm : VM) (a im : Int) (ha : 0 ≤ a ∧ a ≤ 15)
    (him : 0 ≤ im ∧ im < 65536) (hpc : 0 ≤ vm.pc ∧ vm.pc < 1024)
    (hw : vm.mem vm.pc.toNat = wordF1 0 a a 6 im)
    (hreg : vm.reg a.toNat % 65536 = 0)
    (hrng : -2147483648 ≤ vm.reg a.toNat ∧ vm.reg a.toNat < 2147483648) :
    step vm = some (setNZ { vm with ir := wordF1 0 a a 6 im
                                    pc := vm.pc + 1
                                    reg := Function.update vm.reg a.toNat (vm.reg a.toNat + im) }
                      (vm.reg a.toNat + im)) := by
  have hor : bitOr (vm.reg a.toNat) im = vm.reg a.toNat + im :=
    bitOr_eq_add 16 65536 _ _ (by norm_num) (by norm_num) hreg him (by omega) (by omega)
  have hwr : wrap32 (vm.reg a.toNat + im) = vm.reg a.toNat + im := by unfold wrap32; omega
  rw [step_F1 vm 0 a a 6 im (by omega) ha ha (by omega) him hpc hw]
  simp only [execAlu, kOpMov, kOpRor, kOpLsl, kOpAsr, kOpAnd, kOpAnn, kOpIor, hor, hwr]
  norm_num
  rw [hor, hwr]

/-- The word that `Put3` stores. -/
theorem Put3_eq (op cond off : Int) (s : CG) (hop : 0 ≤ op ∧ op ≤ 3)
    (hcond : 0 ≤ cond ∧ cond ≤ 15) (hpc : 0 ≤ s.pc ∧ s.pc < 1024) :
    Put3 op cond off s =
      some { s with
        mem := Function.update s.mem s.pc.toNat (wordF3 op cond (off % 16777216))
        pc := s.pc + 1 } := by
  have hpc' : ¬ (s.pc < 0 ∨ kMemSz / 4 ≤ s.pc) := by simp only [kMemSz]; omega
  have hc' : ¬ ¬ (0 ≤ cond ∧ cond ≤ 15) := not_not.mpr hcond
  have hw : bitOr (wordF3 op cond 0) (off % 16777216) = wordF3 op cond (off % 16777216) := by
    rw [bitOr_eq_add 24 16777216 _ _ (by norm_num) (by norm_num)]
    · simp only [wordF3]; omega
    · simp only [wordF3]; omega
    · omega
    · simp only [wordF3]; omega
    · simp only [wordF3]; omega
  have hw2 : wrap32 (wordF3 op cond (off % 16777216)) = wordF3 op cond (off % 16777216) := by
    simp only [wrap32, wordF3]; omega
  simp only [Put3, hc', if_false, headerF3 op cond hop hcond, hw, emit, hpc', hw2]

theorem decodeF3 (op cond off : Int) (hop : 0 ≤ op ∧ op ≤ 3) (hcond : 0 ≤ cond ∧ cond ≤ 15)
    (hoff : 0 ≤ off ∧ off < 16777216) :
    insnMsb (wordF3 op cond off) = true ∧ insnQ (wordF3 op cond off) = true ∧
    insnU (wordF3 op cond off) = decide (2 ≤ op) ∧
    insnV (wordF3 op cond off) = decide (op % 2 = 1) ∧
    fieldA (wordF3 op cond off) = cond ∧ wordF3 op cond off % 16777216 = off := by
  simp only [insnMsb, insnQ, insnU, insnV, fieldA, wordF3]
  refine ⟨?_, ?_, ?_, ?_, ?_, ?_⟩
  · simp only [decide_eq_true_eq]; omega
  · simp only [decide_eq_true_eq]; omega
  · simp only [decide_eq_decide]; omega
  · simp only [decide_eq_decide]; omega
  all_goals omega

/-- The interpreter's decoding of a branch offset recovers every distance `d` that fits in
16 bits from the 24-bit field. -/
theorem branch_offset (d : Int) (hd : -32768 ≤ d ∧ d < 32768) :
    asr (shl (d % 16777216) 16) 16 = d := by
  simp only [asr, shl, wrap32]
  norm_num
  omega

/-- Execution of the conditional branch `BC cond, off`. -/
theorem step_BC (vm : VM) (cond off : Int) (hcond : 0 ≤ cond ∧ cond ≤ 15)
    (hoff : 0 ≤ off ∧ off < 16777216) (hpc : 0 ≤ vm.pc ∧ vm.pc < 1024)
    (hw : vm.mem vm.pc.toNat = wordF3 2 cond off) :
    step vm =
      some (if IsTrue vm cond then
              { vm with ir := wordF3 2 cond off, pc := vm.pc + 1 + asr (shl off 16) 16 }
            else { vm with ir := wordF3 2 cond off, pc := vm.pc + 1 }) := by
  obtain ⟨h1, h2, h3, h4, h5, h6⟩ := decodeF3 2 cond off (by omega) hcond hoff
  have hpc' : ¬ (vm.pc < 0 ∨ kMemSz / 4 ≤ vm.pc) := by simp only [kMemSz]; omega
  have hu : insnU (wordF3 2 cond off) = true := by rw [h3]; decide
  have hv : insnV (wordF3 2 cond off) = false := by rw [h4]; decide
  have hT : IsTrue { vm with ir := wordF3 2 cond off, pc := vm.pc + 1 } cond = IsTrue vm cond :=
    rfl
  simp only [step, hpc', if_false, hw, h1, h2, h5, h6, hu, hv, hT, Bool.not_true,
    Bool.or_self, Bool.false_eq_true, if_true]
  split <;> rfl

/-! ### Branch chains -/

/-- The word that `Fix` stores over a `BC` instruction. -/
theorem Fix_eq (at_ with_ c link : Int) (s : CG) (hat : 0 ≤ at_ ∧ at_ < 1024)
    (hc : 0 ≤ c ∧ c ≤ 15) (hlink : 0 ≤ link ∧ link < 16777216)
    (hw : s.mem at_.toNat = wordF3 kOpBc c link) :
    Fix at_ with_ s =
      some { s with mem := (Function.update s.mem at_.toNat
                      (wordF3 kOpBc c (with_ % 16777216))) } := by
  have hat' : ¬ (at_ < 0 ∨ kMemSz / 4 ≤ at_) := by simp only [kMemSz]; omega
  have hfmt : ¬ ¬ (asr (wordF3 kOpBc c link) 30 % 4 = 3) := by
    simp only [asr, wordF3, kOpBc]; norm_num; omega
  have hclr : wordF3 kOpBc c link - wordF3 kOpBc c link % 16777216 = wordF3 kOpBc c 0 := by
    simp only [wordF3, kOpBc]; omega
  have hor : bitOr (wordF3 kOpBc c 0) (with_ % 16777216)
      = wordF3 kOpBc c (with_ % 16777216) := by
    rw [bitOr_eq_add 24 16777216 _ _ (by norm_num) (by norm_num)]
    · simp only [wordF3, kOpBc]; omega
    · simp only [wordF3, kOpBc]; omega
    · omega
    · simp only [wordF3, kOpBc]; omega
    · simp only [wordF3, kOpBc]; omega
  simp only [Fix, hat', if_false, hw, hfmt, hclr, hor]

theorem isChain_update (mem : Nat → Int) (n : Nat) (v : Int) :
    ∀ (l : List Int) (h : Int), (∀ a ∈ l, a.toNat ≠ n) →
      isChain (Function.update mem n v) h l = isChain mem h l := by
  intro l
  induction l with
  | nil => intro h _; rfl
  | cons a rest ih =>
    intro h hne
    have ha : a.toNat ≠ n := hne a (List.mem_cons_self _ _)
    simp only [isChain, Function.update_noteq ha]
    rw [ih _ (fun b hb => hne b (List.mem_cons_of_mem _ hb))]

theorem fixedMem_other (target : Int) (n : Nat) :
    ∀ (l : List Int) (mem : Nat → Int), (∀ a ∈ l, a.toNat ≠ n) →
      fixedMem target mem l n = mem n := by
  intro l
  induction l with
  | nil => intro mem _; rfl
  | cons a rest ih =>
    intro mem hne
    have ha : a.toNat ≠ n := hne a (List.mem_cons_self _ _)
    rw [fixedMem, ih _ (fun b hb => hne b (List.mem_cons_of_mem _ hb))]
    exact Function.update_noteq (Ne.symm ha) _ _

theorem isChain_bounds (mem : Nat → Int) :
    ∀ (l : List Int) (h : Int), isChain mem h l = true → ∀ a ∈ l, 0 < a ∧ a < 1024 := by
  intro l
  induction l with
  | nil => intro h _ a ha; cases ha
  | cons b rest ih =>
    intro h hch a ha
    simp only [isChain, Bool.and_eq_true, decide_eq_true_eq] at hch
    rcases List.mem_cons.mp ha with rfl | hmem
    · exact hch.1.1.2
    · exact ih _ hch.2 a hmem

/-- Every branch of a chain of distinct addresses ends up with the condition it had and the
offset that leads to `target`. -/
theorem fixedMem_chain (target : Int) :
    ∀ (l : List Int) (mem : Nat → Int) (h : Int), isChain mem h l = true → l.Nodup →
      ∀ a ∈ l, fixedMem target mem l a.toNat
        = wordF3 kOpBc (fieldA (mem a.toNat)) ((target - a - 1) % 16777216) := by
  intro l
  induction l with
  | nil => intro mem h _ _ a ha; cases ha
  | cons b rest ih =>
    intro mem h hch hnd a ha
    have hbnd := isChain_bounds mem (b :: rest) h hch
    have hb := hbnd b (List.mem_cons_self _ _)
    have hnotin : ∀ c ∈ rest, c.toNat ≠ b.toNat := by
      intro c hc heq
      have hcb := hbnd c (List.mem_cons_of_mem _ hc)
      have : c = b := by omega
      exact (List.nodup_cons.mp hnd).1 (this ▸ hc)
    simp only [isChain, Bool.and_eq_true, decide_eq_true_eq] at hch
    rw [fixedMem]
    rcases List.mem_cons.mp ha with rfl | hmem
    · rw [fixedMem_other target _ rest _ hnotin]
      exact Function.update_same _ _ _
    · have hab : a.toNat ≠ b.toNat := hnotin a hmem
      have hch' : isChain (Function.update mem b.toNat
          (wordF3 kOpBc (fieldA (mem b.toNat)) ((target - b - 1) % 16777216)))
          (mem b.toNat % 262144) rest = true := by
        rw [isChain_update mem b.toNat _ rest _ hnotin]; exact hch.2
      rw [ih _ _ hch' (List.nodup_cons.mp hnd).2 a hmem, Function.update_noteq hab]

/-- On a chain of distinct addresses the loop of `ORG_FixLink` ends, given one pass per
link, and redirects every branch of the chain to the current `pc`. -/
theorem FixLinkLoop_chain :
    ∀ (l : List Int) (fuel : Nat) (h : Int) (s : CG), isChain s.mem h l = true → l.Nodup →
      l.length ≤ fuel →
      FixLinkLoop fuel h s = some { s with mem := fixedMem s.pc s.mem l } := by
  intro l
  induction l with
  | nil =>
    intro fuel h s hch _ _
    simp only [isChain, decide_eq_true_eq] at hch
    subst hch
    cases fuel <;> simp [FixLinkLoop, fixedMem]
  | cons a rest ih =>
    intro fuel h s hch hnd hlen
    have hbnd := isChain_bounds s.mem (a :: rest) h hch
    have ha := hbnd a (List.mem_cons_self _ _)
    have hnotin : ∀ c ∈ rest, c.toNat ≠ a.toNat := by
      intro c hc heq
      have hcb := hbnd c (List.mem_cons_of_mem _ hc)
      have : c = a := by omega
      exact (List.nodup_cons.mp hnd).1 (this ▸ hc)
    simp only [isChain, Bool.and_eq_true, decide_eq_true_eq] at hch
    obtain ⟨⟨⟨hh, _⟩, hw⟩, hrest⟩ := hch
    subst hh
    cases fuel with
    | zero => simp at hlen
    | succ fuel =>
      have hne : h ≠ 0 := by omega
      have hb : ¬ (h < 0 ∨ kMemSz / 4 ≤ h) := by simp only [kMemSz]; omega
      have hF := Fix_eq h (s.pc - h - 1) (fieldA (s.mem h.toNat)) (s.mem h.toNat % 262144) s
        (by omega) (by simp only [fieldA]; omega) (by omega) hw
      have hch' : isChain (Function.update s.mem h.toNat
          (wordF3 kOpBc (fieldA (s.mem h.toNat)) ((s.pc - h - 1) % 16777216)))
          (s.mem h.toNat % 262144) rest = true := by
        rw [isChain_update s.mem h.toNat _ rest _ hnotin]; exact hrest
      have hih := ih fuel (s.mem h.toNat % 262144)
        { s with mem := (Function.update s.mem h.toNat
            (wordF3 kOpBc (fieldA (s.mem h.toNat)) ((s.pc - h - 1) % 16777216))) }
        hch' (List.nodup_cons.mp hnd).2 (by simpa using hlen)
      simp only [FixLinkLoop, hne, ne_eq, not_false_eq_true, if_true, hb, if_false, hF,
        Option.some_bind, hih, fixedMem]

theorem chain_length_le (mem : Nat → Int) (l : List Int) (h : Int)
    (hch : isChain mem h l = true) (hnd : l.Nodup) : l.length ≤ chainFuel := by
  have hsub : l.toFinset ⊆ Finset.Ioo (0 : Int) 1024 := by
    intro a ha
    have := isChain_bounds mem l h hch a (List.mem_toFinset.mp ha)
    exact Finset.mem_Ioo.mpr this
  have hcard := Finset.card_le_card hsub
  rw [List.toFinset_card_of_nodup hnd, Int.card_Ioo] at hcard
  simp only [chainFuel]
  omega

/-- `ORG_FixLink` on a chain of distinct addresses. -/
theorem ORG_FixLink_chain (l : List Int) (h : Int) (s : CG)
    (hch : isChain s.mem h l = true) (hnd : l.Nodup) :
    ORG_FixLink h s = some { s with mem := fixedMem s.pc s.mem l } :=
  FixLinkLoop_chain l chainFuel h s hch hnd (chain_length_le s.mem l h hch hnd)

theorem isChain_fixedMem (target : Int) :
    ∀ (l' : List Int) (mem : Nat → Int) (l : List Int) (h : Int),
      (∀ a ∈ l, ∀ b ∈ l', a.toNat ≠ b.toNat) →
      isChain (fixedMem target mem l') h l = isChain mem h l := by
  intro l'
  induction l' with
  | nil => intro mem l h _; rfl
  | cons b rest ih =>
    intro mem l h hdis
    rw [fixedMem, ih _ l h (fun a ha c hc => hdis a ha c (List.mem_cons_of_mem _ hc))]
    exact isChain_update mem b.toNat _ l h (fun a ha => hdis a ha b (List.mem_cons_self _ _))

/-- Execution of a `BC` whose offset field leads to `target`. -/
theorem step_BC_target (vm : VM) (cond target : Int) (hcond : 0 ≤ cond ∧ cond ≤ 15)
    (hpc : 0 ≤ vm.pc ∧ vm.pc < 1024)
    (hd : -32768 ≤ target - vm.pc - 1 ∧ target - vm.pc - 1 < 32768)
    (hw : vm.mem vm.pc.toNat = wordF3 kOpBc cond ((target - vm.pc - 1) % 16777216)) :
    step vm =
      some (if IsTrue vm cond then
              { vm with ir := wordF3 kOpBc cond ((target - vm.pc - 1) % 16777216), pc := target }
            else
              { vm with ir := wordF3 kOpBc cond ((target - vm.pc - 1) % 16777216)
                        pc := vm.pc + 1 }) := by
  rw [step_BC vm cond _ hcond (by omega) hpc hw, branch_offset _ hd]
  have : vm.pc + 1 + (target - vm.pc - 1) = target := by ring
  rw [this]
  rfl

/-- For the condition codes of relations, and for `TRUE` and `FALSE`, the negated code holds
exactly when the code does not. -/
theorem IsTrue_Negated (vm : VM) (r : Int)
    (hr : isRelCond r ∨ r = kCondTrue ∨ r = kCondFalse) :
    IsTrue vm (Negated r) = !IsTrue vm r := by
  rcases hr with (h | h | h | h | h | h) | h | h <;> subst h <;>
    cases hN : vm.flagN <;> cases hZ : vm.flagZ <;> cases hV : vm.flagV <;>
    simp [IsTrue, Negated, kCondEQ, kCondNE, kCondLT, kCondLE, kCondGT, kCondGE, kCondTrue,
      kCondFalse, kCondMI, kCondVS, kCondPL, kCondVC, hN, hZ, hV]

theorem emitAll_spec :
    ∀ (ws : List Int) (s : CG), 0 ≤ s.pc → s.pc + ws.length ≤ 1024 →
      ∃ s', emitAll ws s = some s' ∧ s'.pc = s.pc + ws.length ∧
        (∀ n : Nat, (n : Int) < s.pc → s'.mem n = s.mem n) ∧
        (∀ (i : Nat) (hi : i < ws.length), s'.mem (s.pc + i).toNat = wrap32 (ws.get ⟨i, hi⟩)) := by
  intro ws
  induction ws with
  | nil =>
    intro s _ _
    exact ⟨s, rfl, by simp, fun _ _ => rfl, fun i hi => by cases hi⟩
  | cons w rest ih =>
    intro s h0 hlen
    simp only [List.length_cons, Nat.cast_add, Nat.cast_one] at hlen
    have hb : ¬ (s.pc < 0 ∨ kMemSz / 4 ≤ s.pc) := by simp only [kMemSz]; omega
    obtain ⟨s', h1, h2, h3, h4⟩ := ih
      { s with mem := Function.update s.mem s.pc.toNat (wrap32 w), pc := s.pc + 1 }
      (by simp only; omega) (by simp only; omega)
    refine ⟨s', by simp only [emitAll, emit, hb, if_false, Option.some_bind, h1], ?_, ?_, ?_⟩
    · rw [h2]; simp only [List.length_cons, Nat.cast_add, Nat.cast_one]; ring
    · intro n hn
      rw [h3 n (by simp only; omega)]
      exact Function.update_noteq (by omega) _ _
    · intro i hi
      cases i with
      | zero =>
        simp only [Nat.cast_zero, add_zero, List.get_eq_getElem, List.getElem_cons_zero]
        rw [h3 s.pc.toNat (by simp only; omega)]
        exact Function.update_same _ _ _
      | succ j =>
        have := h4 j (by simpa using hi)
        simp only [List.get_eq_getElem, List.getElem_cons_succ] at this ⊢
        rw [← this]
        congr 2
        push_cast
        ring

theorem isChain_head (mem : Nat → Int) (l : List Int) (h : Int)
    (hch : isChain mem h l = true) : 0 ≤ h ∧ h < 1024 ∧ (h = 0 → l = []) := by
  cases l with
  | nil =>
    simp only [isChain, decide_eq_true_eq] at hch
    subst hch
    exact ⟨le_refl _, by norm_num, fun _ => rfl⟩
  | cons a rest =>
    simp only [isChain, Bool.and_eq_true, decide_eq_true_eq] at hch
    obtain ⟨⟨⟨hh, hb⟩, _⟩, _⟩ := hch
    subst hh
    exact ⟨by omega, hb.2, fun h0 => by omega⟩

/-- `ORG_Assert` on a condition without F-chain: one trap on the negated condition, and the
T-chain resolved to the address after it. -/
theorem ORG_Assert_direct (x : item_t) (s : CG) (tl : List Int)
    (hmode : x.mode = .kModeCond) (hr : 0 ≤ x.r ∧ x.r ≤ 15) (ha : x.a = 0)
    (hT : isChain s.mem x.b tl = true) (hnd : tl.Nodup) (hlt : ∀ a ∈ tl, a < s.pc)
    (hpc : 1 ≤ s.pc ∧ s.pc + 1 ≤ 1024) :
    ORG_Assert x s = some (x,
      { s with
        pc := s.pc + 1
        mem := fixedMem (s.pc + 1)
          (Function.update s.mem s.pc.toNat
            (wordF3 kOpBc (Negated x.r) ((kTrapAssert - s.pc - 1) % 16777216))) tl }) := by
  have hneg : 0 ≤ Negated x.r ∧ Negated x.r ≤ 15 := by
    unfold Negated; split <;> omega
  have hP := Put3_eq kOpBc (Negated x.r) (kTrapAssert - s.pc - 1) s (by simp [kOpBc]) hneg
    (by omega)
  have hbnd := isChain_bounds s.mem tl x.b hT
  have hch : isChain (Function.update s.mem s.pc.toNat
      (wordF3 kOpBc (Negated x.r) ((kTrapAssert - s.pc - 1) % 16777216))) x.b tl = true := by
    rw [isChain_update s.mem s.pc.toNat _ tl x.b]
    · exact hT
    · intro a ha'
      have := hlt a ha'; have := hbnd a ha'
      omega
  have hFL := ORG_FixLink_chain tl x.b
    { s with
      mem := (Function.update s.mem s.pc.toNat
        (wordF3 kOpBc (Negated x.r) ((kTrapAssert - s.pc - 1) % 16777216)))
      pc := s.pc + 1 } hch hnd
  have htrap : ¬ ¬ kTrapAssert < 0 := by simp [kTrapAssert]
  simp only [ORG_Assert, condOf, hmode, ne_eq, not_true_eq_false, if_false, Option.some_bind,
    ha, if_true, Trap, htrap, hP, hFL]

/-- `ORG_Assert` on a condition with an F-chain: a branch on the condition that joins the
T-chain, the F-chain resolved to the unconditional trap that follows, and the T-chain
resolved to the address after the trap. -/
theorem ORG_Assert_chained (x : item_t) (s : CG) (fl tl : List Int)
    (hmode : x.mode = .kModeCond) (hr : 0 ≤ x.r ∧ x.r ≤ 15) (ha : x.a ≠ 0)
    (hF : isChain s.mem x.a fl = true) (hT : isChain s.mem x.b tl = true)
    (hnd : (fl ++ tl).Nodup) (hlt : ∀ a ∈ fl ++ tl, a < s.pc)
    (hpc : 1 ≤ s.pc ∧ s.pc + 2 ≤ 1024) :
    ORG_Assert x s = some ({ x with b := s.pc },
      { s with
        pc := s.pc + 2
        mem := fixedMem (s.pc + 2)
          (Function.update
            (fixedMem (s.pc + 1)
              (Function.update s.mem s.pc.toNat (wordF3 kOpBc x.r x.b)) fl)
            (s.pc + 1).toNat
            (wordF3 kOpBc kCondTrue ((kTrapAssert - (s.pc + 1) - 1) % 16777216)))
          (s.pc :: tl) }) ∧
    isChain (Function.update s.mem s.pc.toNat (wordF3 kOpBc x.r x.b)) x.a fl = true ∧
    isChain (Function.update
        (fixedMem (s.pc + 1) (Function.update s.mem s.pc.toNat (wordF3 kOpBc x.r x.b)) fl)
        (s.pc + 1).toNat
        (wordF3 kOpBc kCondTrue ((kTrapAssert - (s.pc + 1) - 1) % 16777216))) s.pc
        (s.pc :: tl) = true ∧
    (Function.update
        (fixedMem (s.pc + 1) (Function.update s.mem s.pc.toNat (wordF3 kOpBc x.r x.b)) fl)
        (s.pc + 1).toNat
        (wordF3 kOpBc kCondTrue ((kTrapAssert - (s.pc + 1) - 1) % 16777216))) s.pc.toNat
      = wordF3 kOpBc x.r x.b := by
  have hndF : fl.Nodup := (List.nodup_append.mp hnd).1
  have hndT : tl.Nodup := (List.nodup_append.mp hnd).2.1
  have hdis : ∀ a ∈ fl, ∀ b ∈ tl, a ≠ b := fun a ha' b hb' heq =>
    (List.disjoint_of_nodup_append hnd) ha' (heq ▸ hb')
  have hbF := isChain_bounds s.mem fl x.a hF
  have hbT := isChain_bounds s.mem tl x.b hT
  have hltF : ∀ a ∈ fl, a < s.pc := fun a h => hlt a (List.mem_append_left _ h)
  have hltT : ∀ a ∈ tl, a < s.pc := fun a h => hlt a (List.mem_append_right _ h)
  obtain ⟨hb0, hb1, _⟩ := isChain_head s.mem tl x.b hT
  have hbm : x.b % 16777216 = x.b := by omega
  -- the branch on the condition
  have hP := Put3_eq kOpBc x.r x.b s (by simp [kOpBc]) hr (by omega)
  rw [hbm] at hP
  -- the F-chain
  have hchF : isChain (Function.update s.mem s.pc.toNat (wordF3 kOpBc x.r x.b)) x.a fl
      = true := by
    rw [isChain_update s.mem s.pc.toNat _ fl x.a]
    · exact hF
    · intro a ha'
      have := hltF a ha'; have := hbF a ha'
      omega
  have hFL1 := ORG_FixLink_chain fl x.a
    { s with mem := (Function.update s.mem s.pc.toNat (wordF3 kOpBc x.r x.b)), pc := s.pc + 1 }
    hchF hndF
  -- the trap
  have hP2 := Put3_eq kOpBc kCondTrue (kTrapAssert - (s.pc + 1) - 1)
    { s with
      mem := (fixedMem (s.pc + 1)
        (Function.update s.mem s.pc.toNat (wordF3 kOpBc x.r x.b)) fl)
      pc := s.pc + 1 }
    (by simp [kOpBc]) (by simp [kCondTrue]) (by simp only; omega)
  -- the T-chain, headed by the new branch
  have hwP : (Function.update
      (fixedMem (s.pc + 1) (Function.update s.mem s.pc.toNat (wordF3 kOpBc x.r x.b)) fl)
      (s.pc + 1).toNat
      (wordF3 kOpBc kCondTrue ((kTrapAssert - (s.pc + 1) - 1) % 16777216))) s.pc.toNat
      = wordF3 kOpBc x.r x.b := by
    rw [Function.update_noteq (by omega), fixedMem_other]
    · exact Function.update_same _ _ _
    · intro a ha'
      have := hltF a ha'; have := hbF a ha'
      omega
  have hfA : fieldA (wordF3 kOpBc x.r x.b) = x.r ∧ wordF3 kOpBc x.r x.b % 262144 = x.b := by
    simp only [fieldA, wordF3, kOpBc]; omega
  have hchT : isChain (Function.update
      (fixedMem (s.pc + 1) (Function.update s.mem s.pc.toNat (wordF3 kOpBc x.r x.b)) fl)
      (s.pc + 1).toNat
      (wordF3 kOpBc kCondTrue ((kTrapAssert - (s.pc + 1) - 1) % 16777216))) s.pc
      (s.pc :: tl) = true := by
    have hin : isChain (Function.update
        (fixedMem (s.pc + 1) (Function.update s.mem s.pc.toNat (wordF3 kOpBc x.r x.b)) fl)
        (s.pc + 1).toNat
        (wordF3 kOpBc kCondTrue ((kTrapAssert - (s.pc + 1) - 1) % 16777216))) x.b tl
        = true := by
      rw [isChain_update _ _ _ tl x.b, isChain_fixedMem _ fl _ tl x.b,
        isChain_update _ _ _ tl x.b]
      · exact hT
      · intro a ha'
        have := hltT a ha'; have := hbT a ha'
        omega
      · intro a ha' b hb' heq
        have := hbT a ha'; have := hbF b hb'
        exact hdis b hb' a ha' (by omega)
      · intro a ha'
        have := hltT a ha'; have := hbT a ha'
        omega
    simp only [isChain, hwP, hfA.1, hfA.2, hin, Bool.and_true, decide_True, Bool.true_and,
      decide_eq_true_eq]
    omega
  have hndPT : (s.pc :: tl).Nodup := by
    refine List.nodup_cons.mpr ⟨fun hmem => ?_, hndT⟩
    have := hltT s.pc hmem
    omega
  have hFL2 := ORG_FixLink_chain (s.pc :: tl) s.pc
    { s with
      mem := (Function.update
        (fixedMem (s.pc + 1) (Function.update s.mem s.pc.toNat (wordF3 kOpBc x.r x.b)) fl)
        (s.pc + 1).toNat
        (wordF3 kOpBc kCondTrue ((kTrapAssert - (s.pc + 1) - 1) % 16777216)))
      pc := s.pc + 1 + 1 } hchT hndPT
  have htrap : ¬ ¬ kTrapAssert < 0 := by simp [kTrapAssert]
  have h2 : s.pc + 1 + 1 = s.pc + 2 := by ring
  simp only [h2] at hFL2
  refine ⟨?_, hchF, hchT, hwP⟩
  simp only [ORG_Assert, condOf, hmode, ne_eq, not_true_eq_false, if_false, Option.some_bind,
    ha, hP, add_sub_cancel_right, hFL1, Trap, htrap, hP2, h2, hFL2]

/-- A resolved branch: with its condition true the next instruction is fetched from
`target`, otherwise from the following address. -/
theorem run_branch (vm : VM) (c target : Int) (hc : 0 ≤ c ∧ c ≤ 15)
    (hpc : 0 ≤ vm.pc ∧ vm.pc < 1024)
    (hd : -32768 ≤ target - vm.pc - 1 ∧ target - vm.pc - 1 < 32768)
    (hw : vm.mem vm.pc.toNat = wordF3 kOpBc c ((target - vm.pc - 1) % 16777216)) :
    (IsTrue vm c = true →
      ∃ vm', step vm = some vm' ∧ vm'.pc = target ∧ vm'.mem = vm.mem ∧
        ∀ r, IsTrue vm' r = IsTrue vm r) ∧
    (IsTrue vm c = false →
      ∃ vm', step vm = some vm' ∧ vm'.pc = vm.pc + 1 ∧ vm'.mem = vm.mem ∧
        ∀ r, IsTrue vm' r = IsTrue vm r) := by
  have hs := step_BC_target vm c target hc hpc hd hw
  constructor
  · intro hT
    simp only [hT, if_true] at hs
    exact ⟨_, hs, rfl, rfl, fun _ => rfl⟩
  · intro hF
    simp only [hF, Bool.false_eq_true, if_false] at hs
    exact ⟨_, hs, rfl, rfl, fun _ => rfl⟩

theorem fieldA_mod (w : Int) : 0 ≤ fieldA w ∧ fieldA w ≤ 15 := by
  simp only [fieldA]; omega

theorem fieldA_wordF3 (c off : Int) (hc : 0 ≤ c ∧ c ≤ 15) (hoff : 0 ≤ off ∧ off < 16777216) :
    fieldA (wordF3 kOpBc c off) = c := by
  simp only [fieldA, wordF3, kOpBc]; omega

/-! ### Loading a constant (C2) -/

/-- C2 (amended): for every signed 32-bit constant `c` and every register stack index `RH` in
0..11, `Load` of an Immediate item of non-procedure type with value `c` emits one `MOV` when
`-0x10000 <= c <= 0xFFFF` and otherwise `MOV` of the upper half followed, when the lower half
is not zero, by `IOR` of the lower half; executing what was emitted leaves register `RH`
equal to `c`; the item gets mode `Reg` with `r = RH`; and `rh` becomes `RH + 1` when
`RH < 11`, while for `RH = 11` it stays 11 and "register stack overflow" is reported. -/
theorem C2_load_immediate (c : Int) (x : item_t) (s : CG)
    (hc : -2147483648 ≤ c ∧ c < 2147483648)
    (hmode : x.mode = .kModeImmediate) (hty : x.type.tag ≠ .kTypeProc) (ha : x.a = c)
    (hrh : 0 ≤ s.rh ∧ s.rh ≤ 11) (hpc : 0 ≤ s.pc ∧ s.pc + 2 ≤ 1024) :
    ∃ x' s', Load x s = some (x', s') ∧
      x'.mode = .kModeReg ∧ x'.r = s.rh ∧
      s'.pc = s.pc + (if -65536 ≤ c ∧ c ≤ 65535 then 1 else if c % 65536 ≠ 0 then 2 else 1) ∧
      (s.rh < 11 → s'.rh = s.rh + 1 ∧ s'.diag = s.diag) ∧
      (s.rh = 11 → s'.rh = 11 ∧ s'.diag = ORS_Mark "register stack overflow" s.diag) ∧
      ∀ vm : VM, vm.pc = s.pc → vm.mem = s'.mem →
        ∃ vm', stepN (s'.pc - s.pc).toNat vm = some vm' ∧ vm'.pc = s'.pc ∧
          vm'.reg s.rh.toNat = c := by
  have hR : x.mode ≠ .kModeReg := by rw [hmode]; decide
  have hRI : x.mode ≠ .kModeRegI := by rw [hmode]; decide
  have hrh15 : 0 ≤ s.rh ∧ s.rh ≤ 15 := by omega
  have hIncR : ∀ s1 : CG, s1.rh = s.rh → s1.diag = s.diag →
      (s.rh < 11 → (IncR s1).rh = s.rh + 1 ∧ (IncR s1).diag = s.diag) ∧
      (s.rh = 11 → (IncR s1).rh = 11 ∧
        (IncR s1).diag = ORS_Mark "register stack overflow" s.diag) ∧
      (IncR s1).pc = s1.pc ∧ (IncR s1).mem = s1.mem := by
    intro s1 h1 h2
    by_cases h : s.rh < 11
    · have h' : s1.rh < kRegMT - 1 := by simp only [kRegMT, h1]; omega
      rw [IncR, if_pos h']
      exact ⟨fun _ => ⟨by simp only [h1], h2⟩, fun h11 => by omega, rfl, rfl⟩
    · have h' : ¬ s1.rh < kRegMT - 1 := by simp only [kRegMT, h1]; omega
      rw [IncR, if_neg h']
      refine ⟨fun hlt => absurd hlt h, fun _ => ⟨?_, ?_⟩, rfl, rfl⟩
      · simp only [CG.mark, h1]; omega
      · simp only [CG.mark, h2]
  by_cases hr : -65536 ≤ c ∧ c ≤ 65535
  · -- a single MOV
    have hr' : c ≤ 65535 ∧ c ≥ -65536 := ⟨hr.2, hr.1⟩
    have hP := Put1_eq kOpMov 0 0 s.rh 0 c s (by simp [kOpMov]) hrh15 (by omega) (by omega)
      (by omega) (by omega)
    simp only [mul_zero, zero_add] at hP
    have hL : Load x s = some ({ x with r := s.rh, mode := .kModeReg },
        IncR { s with
          mem := Function.update s.mem s.pc.toNat
            (wordF1 (if c < 0 then 1 else 0) s.rh 0 0 (c % 65536))
          pc := s.pc + 1 }) := by
      simp [Load, loadCode, hmode, hty, ha, hr', hP]
    obtain ⟨h1, h2, h3, h4⟩ := hIncR { s with
        mem := Function.update s.mem s.pc.toNat
          (wordF1 (if c < 0 then 1 else 0) s.rh 0 0 (c % 65536))
        pc := s.pc + 1 } rfl rfl
    refine ⟨_, _, hL, rfl, rfl, ?_, h1, h2, ?_⟩
    · rw [h3]; simp only [hr, and_self, if_true]
    · intro vm hvpc hvmem
      rw [h4] at hvmem
      rw [h3]
      have hn : (s.pc + 1 - s.pc).toNat = 1 := by
        have : s.pc + 1 - s.pc = 1 := by ring
        rw [this]; rfl
      have hw : vm.mem vm.pc.toNat = wordF1 (if c < 0 then 1 else 0) s.rh 0 0 (c % 65536) := by
        rw [hvmem, hvpc]; simp
      simp only [hn, stepN, step_MOV_imm vm s.rh c hrh15 hr (by omega) hw, Option.some_bind]
      exact ⟨_, rfl, by simp [setNZ, hvpc], by simp [setNZ]⟩
  · -- MOV of the upper half, then IOR of the lower half
    have hr' : ¬ (c ≤ 65535 ∧ c ≥ -65536) := fun h => hr ⟨h.2, h.1⟩
    have hhi : 0 ≤ asr c 16 % 65536 ∧ asr c 16 % 65536 < 65536 := by
      simp only [asr]; omega
    have hhi0 : ¬ asr c 16 % 65536 < 0 := by omega
    have hP1 := Put1_eq (kOpMov + kModU) 0 1 s.rh 0 (asr c 16 % 65536) s
      (by simp [kOpMov, kModU]) hrh15 (by omega) (by omega) (by omega) (by omega)
    simp only [hhi0, if_false, mul_one, add_zero] at hP1
    have hone : (s.pc + 1 - s.pc).toNat = 1 := by
      have : s.pc + 1 - s.pc = 1 := by ring
      rw [this]; rfl
    by_cases hlo : c % 65536 ≠ 0
    · have hlo0 : ¬ c % 65536 < 0 := by omega
      have hP2 := Put1_eq kOpIor 6 0 s.rh s.rh (c % 65536)
        { s with
          mem := Function.update s.mem s.pc.toNat (wordF1 2 s.rh 0 0 (asr c 16 % 65536))
          pc := s.pc + 1 }
        (by simp [kOpIor]) hrh15 hrh15 (by omega) (by omega) (by simp only; omega)
      simp only [hlo0, if_false, mul_zero, add_zero, Int.emod_emod_of_dvd c (dvd_refl 65536)]
        at hP2
      have hL : Load x s = some ({ x with r := s.rh, mode := .kModeReg },
          IncR { s with
            mem := Function.update
              (Function.update s.mem s.pc.toNat (wordF1 2 s.rh 0 0 (asr c 16 % 65536)))
              (s.pc + 1).toNat (wordF1 0 s.rh s.rh 6 (c % 65536))
            pc := s.pc + 1 + 1 }) := by
        simp [Load, loadCode, hmode, hty, ha, hr', hP1, hlo, hP2]
      obtain ⟨h1, h2, h3, h4⟩ := hIncR { s with
            mem := Function.update
              (Function.update s.mem s.pc.toNat (wordF1 2 s.rh 0 0 (asr c 16 % 65536)))
              (s.pc + 1).toNat (wordF1 0 s.rh s.rh 6 (c % 65536))
            pc := s.pc + 1 + 1 } rfl rfl
      refine ⟨_, _, hL, rfl, rfl, ?_, h1, h2, ?_⟩
      · rw [h3]; simp only [hr, if_false, hlo, if_true, ne_eq, not_false_eq_true]; ring
      · intro vm hvpc hvmem
        rw [h4] at hvmem
        rw [h3]
        have hn : (s.pc + 1 + 1 - s.pc).toNat = 2 := by
          have : s.pc + 1 + 1 - s.pc = 2 := by ring
          rw [this]; rfl
        have hne : s.pc.toNat ≠ (s.pc + 1).toNat := by omega
        have hw1 : vm.mem vm.pc.toNat = wordF1 2 s.rh 0 0 (asr c 16 % 65536) := by
          rw [hvmem, hvpc]; simp [Function.update_noteq hne]
        have hs1 := step_MOV_upper vm s.rh (asr c 16 % 65536) hrh15 hhi (by omega) hw1
        have hw2 : vm.mem (vm.pc + 1).toNat = wordF1 0 s.rh s.rh 6 (c % 65536) := by
          rw [hvmem, hvpc]; simp
        have hrnn : (s.rh.toNat : Int) = s.rh := Int.toNat_of_nonneg hrh.1
        have hs2 := step_IOR_lower
          (setNZ { vm with ir := wordF1 2 s.rh 0 0 (asr c 16 % 65536)
                           pc := vm.pc + 1
                           reg := Function.update vm.reg s.rh.toNat
                              (wrap32 (asr c 16 % 65536 * 65536)) }
            (wrap32 (asr c 16 % 65536 * 65536)))
          s.rh (c % 65536) hrh15 (by omega) (by simp only [setNZ]; omega)
          (by simpa [setNZ] using hw2)
          (by simp only [setNZ, Function.update_same, wrap32]; omega)
          (by simp only [setNZ, Function.update_same, wrap32]; omega)
        simp only [hn, stepN, hs1, Option.some_bind, hs2]
        refine ⟨_, rfl, by simp only [setNZ, hvpc], ?_⟩
        simp only [setNZ, Function.update_same, wrap32, asr]
        omega
    · have hlo' : c % 65536 = 0 := by omega
      have hL : Load x s = some ({ x with r := s.rh, mode := .kModeReg },
          IncR { s with
            mem := Function.update s.mem s.pc.toNat (wordF1 2 s.rh 0 0 (asr c 16 % 65536))
            pc := s.pc + 1 }) := by
        simp [Load, loadCode, hmode, hty, ha, hr', hP1, hlo']
      obtain ⟨h1, h2, h3, h4⟩ := hIncR { s with
            mem := Function.update s.mem s.pc.toNat (wordF1 2 s.rh 0 0 (asr c 16 % 65536))
            pc := s.pc + 1 } rfl rfl
      refine ⟨_, _, hL, rfl, rfl, ?_, h1, h2, ?_⟩
      · rw [h3]; simp only [hr, if_false, hlo, if_false]
      · intro vm hvpc hvmem
        rw [h4] at hvmem
        rw [h3]
        have hw1 : vm.mem vm.pc.toNat = wordF1 2 s.rh 0 0 (asr c 16 % 65536) := by
          rw [hvmem, hvpc]; simp
        have hs1 := step_MOV_upper vm s.rh (asr c 16 % 65536) hrh15 hhi (by omega) hw1
        simp only [hone, stepN, hs1, Option.some_bind]
        refine ⟨_, rfl, by simp only [setNZ, hvpc], ?_⟩
        simp only [setNZ, Function.update_same, wrap32, asr]
        omega

/-- Witness for C2: the constant `0x12345678` loaded with `rh = 0` after `ORG_Open`. -/
theorem C2_load_immediate_witness :
    ∃ x' s', Load (intConst 305419896) cgStart = some (x', s') ∧
      x'.mode = .kModeReg ∧ x'.r = cgStart.rh ∧
      s'.pc = cgStart.pc + (if -65536 ≤ (305419896 : Int) ∧ (305419896 : Int) ≤ 65535 then 1
        else if (305419896 : Int) % 65536 ≠ 0 then 2 else 1) ∧
      (cgStart.rh < 11 → s'.rh = cgStart.rh + 1 ∧ s'.diag = cgStart.diag) ∧
      (cgStart.rh = 11 →
        s'.rh = 11 ∧ s'.diag = ORS_Mark "register stack overflow" cgStart.diag) ∧
      ∀ vm : VM, vm.pc = cgStart.pc → vm.mem = s'.mem →
        ∃ vm', stepN (s'.pc - cgStart.pc).toNat vm = some vm' ∧ vm'.pc = s'.pc ∧
          vm'.reg cgStart.rh.toNat = 305419896 :=
  C2_load_immediate 305419896 (intConst 305419896) cgStart (by decide) rfl (by decide) rfl
    (by decide) (by decide)

/-- Counterexample to C2 as stated: with `rh = 11` the constant 0 is loaded into `R11`, the
item gets `r = 11`, and `rh` is still 11 afterwards, with one error reported. -/
theorem C2_counterexample_rh_eleven :
    (Load (intConst 0) { cgStart with rh := 11 }).map
        (fun r => (r.1.mode, r.1.r, r.2.rh, r.2.diag.marks))
      = some (.kModeReg, 11, 11, ["register stack overflow"]) := by
  decide

/-! ### Constant folding (C4) -/

/-- Folding of `+` and `-` on integer literals: no instruction, the exact value unless it
does not fit, and a report exactly when the sum does not fit. -/
theorem ORG_AddOp_literals (a b : Int) (x y : item_t) (s : CG)
    (ha : 0 ≤ a ∧ a ≤ 2147483647) (hb : 0 ≤ b ∧ b ≤ 2147483647)
    (hx : x.mode = .kModeImmediate ∧ x.type.tag = .kTypeInt ∧ x.a = a)
    (hy : y.mode = .kModeImmediate ∧ y.type.tag = .kTypeInt ∧ y.a = b) :
    ORG_AddOp kSymPlus x y s =
        some ({ x with a := wrap32 (a + b) },
              if a + b > 2147483647 then s.mark "overflow" else s) ∧
    (a + b ≤ 2147483647 → wrap32 (a + b) = a + b) ∧
    ORG_AddOp kSymMinus x y s = some ({ x with a := a - b }, s) := by
  obtain ⟨hx1, hx2, hx3⟩ := hx
  obtain ⟨hy1, hy2, hy3⟩ := hy
  refine ⟨?_, ?_, ?_⟩
  · by_cases h : a + b > 2147483647
    · have h1 : a > 0 ∧ b > 2147483647 - a := by omega
      simp [ORG_AddOp, assertImmOrReg, hx1, hx2, hx3, hy1, hy2, hy3, h, h1]
    · have h1 : ¬ (a > 0 ∧ b > 2147483647 - a) := by omega
      simp only [gt_iff_lt] at h1
      simp [ORG_AddOp, assertImmOrReg, hx1, hx2, hx3, hy1, hy2, hy3, h, h1]
  · intro h; unfold wrap32; omega
  · have h1 : ¬ a < 0 := by omega
    have h2 : wrap32 (a - b) = a - b := by unfold wrap32; omega
    simp [ORG_AddOp, assertImmOrReg, hx1, hx2, hx3, hy1, hy2, hy3, h1, h2, kSymMinus, kSymPlus]

/-- Folding of `DIV` and `MOD` on integer literals with a positive divisor: no instruction
and the exact quotient and remainder; a divisor 0 is reported. -/
theorem ORG_DivOp_literals (a b : Int) (x y : item_t) (s : CG)
    (ha : 0 ≤ a ∧ a ≤ 2147483647) (hb : 0 ≤ b ∧ b ≤ 2147483647)
    (hx : x.mode = .kModeImmediate ∧ x.type.tag = .kTypeInt ∧ x.a = a)
    (hy : y.mode = .kModeImmediate ∧ y.type.tag = .kTypeInt ∧ y.a = b) :
    (0 < b → ORG_DivOp kSymDiv x y s = some ({ x with a := a / b }, s) ∧
             ORG_DivOp kSymMod x y s = some ({ x with a := a % b }, s)) ∧
    (b = 0 → ORG_DivOp kSymDiv x y s = some (x, s.mark "bad divisor") ∧
             ORG_DivOp kSymMod x y s = some (x, s.mark "bad modulus")) := by
  obtain ⟨hx1, hx2, hx3⟩ := hx
  obtain ⟨hy1, hy2, hy3⟩ := hy
  refine ⟨fun hpos => ?_, fun h0 => ?_⟩
  · have h1 : ¬ b ≤ 0 := by omega
    have hd : Int.tdiv a b = a / b := Int.tdiv_eq_ediv ha.1 hb.1
    have hm : Int.tmod a b = a % b := Int.tmod_eq_emod ha.1 (by omega)
    have hq : 0 ≤ a / b ∧ a / b ≤ a := ⟨Int.ediv_nonneg ha.1 (by omega), Int.ediv_le_self b ha.1⟩
    have h2 : wrap32 (a / b) = a / b := by
      have := hq.1; have := hq.2; unfold wrap32; omega
    constructor
    · simp [ORG_DivOp, assertImmOrReg, hx1, hx2, hx3, hy1, hy2, hy3, h1, hd, h2]
    · simp [ORG_DivOp, assertImmOrReg, hx1, hx2, hx3, hy1, hy2, hy3, h1, hm, kSymMod, kSymDiv]
  · subst h0
    constructor
    · simp [ORG_DivOp, assertImmOrReg, hx1, hx2, hy1, hy2, hy3]
    · simp [ORG_DivOp, assertImmOrReg, hx1, hx2, hy1, hy2, hy3, kSymMod, kSymDiv]

/-- Folding of `*` on integer literals: no instruction, the product modulo 2^32, and never a
report, whatever the size of the product. -/
theorem ORG_MulOp_literals (x y : item_t) (s : CG)
    (hx : x.mode = .kModeImmediate ∧ x.type.tag = .kTypeInt)
    (hy : y.mode = .kModeImmediate ∧ y.type.tag = .kTypeInt) :
    ORG_MulOp x y s = some ({ x with a := wrap32 (x.a * y.a) }, s) := by
  simp [ORG_MulOp, assertImmOrReg, hx.1, hx.2, hy.1, hy.2]

/-- C4, the code at the failing input: for the literals 65536 and 65536 `ORG_MulOp` emits
nothing, leaves the immediate 0 (the product 2^32 does not fit) and reports no error. -/
theorem C4_mul_overflow_not_reported :
    (ORG_MulOp (intConst 65536) (intConst 65536) cgStart).map
        (fun r => (r.1.mode, r.1.a, r.2.pc, r.2.rh, r.2.diag.marks))
      = some (.kModeImmediate, 0, cgStart.pc, cgStart.rh, []) := by
  decide

/-! ### Traps (C6) -/

/-- C6: for a code address `pc` in 1 .. kMaxCode-1, a trap address `t` in -5 .. -1 and a
condition `cond`, the instruction that `Trap(cond, t)` emits at `pc`, executed in a flag state
where `cond` holds, sets the interpreter's PC to exactly `t`; the fetch-execute loop stops
there, and the report is the entry of the trap table for `t`.  When `cond` does not hold the
PC becomes `pc + 1`. -/
theorem C6_trap_sets_pc_and_message (s : CG) (cond t : Int)
    (hpc : 1 ≤ s.pc ∧ s.pc ≤ kMaxCode - 1) (ht : -5 ≤ t ∧ t ≤ -1)
    (hcond : 0 ≤ cond ∧ cond ≤ 15) :
    ∃ s', Trap cond t s = some s' ∧ s'.pc = s.pc + 1 ∧
      ∀ vm : VM, vm.mem = s'.mem → vm.pc = s.pc →
        ∃ vm', step vm = some vm' ∧
          (IsTrue vm cond = true →
            vm'.pc = t ∧
            ∀ (sb cnt : Int) (fuel : Nat), cnt ≠ kMaxSteps →
              interpLoop sb (fuel + 1) cnt vm = some (vm', cnt) ∧
              (t = -1 → finalReport vm'.pc cnt = some "Trap: nil pointer") ∧
              (t = -2 → finalReport vm'.pc cnt = some "Trap: index out of bounds") ∧
              (t = -3 → finalReport vm'.pc cnt = some "Trap: division by zero") ∧
              (t = -4 → finalReport vm'.pc cnt = some "Trap: assert failure") ∧
              (t = -5 → finalReport vm'.pc cnt = some "Trap: I/O exception")) ∧
          (IsTrue vm cond = false → vm'.pc = s.pc + 1) := by
  simp only [kMaxCode] at hpc
  have hP := Put3_eq kOpBc cond (t - s.pc - 1) s (by simp [kOpBc]) hcond (by omega)
  have ht' : ¬ ¬ t < 0 := by omega
  refine ⟨_, by simp only [Trap, ht', if_false]; exact hP, rfl, ?_⟩
  intro vm hmem hvpc
  have hw : vm.mem vm.pc.toNat = wordF3 2 cond ((t - s.pc - 1) % 16777216) := by
    rw [hmem, hvpc]; simp [kOpBc]
  have hs := step_BC vm cond ((t - s.pc - 1) % 16777216) hcond (by omega) (by omega) hw
  have hoff := branch_offset (t - s.pc - 1) (by omega)
  by_cases hT : IsTrue vm cond = true
  · simp only [hT, if_true, hoff] at hs
    refine ⟨_, hs, fun _ => ⟨by simp only [hvpc]; ring, ?_⟩, fun h => ?_⟩
    swap
    · rw [hT] at h; cases h
    intro sb cnt fuel hcnt
    have hpc1 : vm.pc + 1 + (t - s.pc - 1) = t := by rw [hvpc]; ring
    have hstop : ¬ (t > 0 ∧ t < sb) := by omega
    refine ⟨by simp only [interpLoop, hs, hpc1, hstop, if_false], ?_⟩
    simp only [hpc1]
    have hne : t ≠ 0 := by omega
    have hin : t < 0 ∧ t ≥ kTrapIO := by simp only [ kTrapIO]; omega
    simp only [finalReport, hne, ne_eq, not_false_eq_true, if_true, hcnt, if_false, hin,
      and_self]
    refine ⟨?_, ?_, ?_, ?_, ?_⟩ <;> intro h <;> subst h <;> rfl
  · have hF : IsTrue vm cond = false := by simpa using hT
    simp only [hF, Bool.false_eq_true, if_false] at hs
    refine ⟨_, hs, fun h => ?_, fun _ => by simp only [hvpc]⟩
    rw [hF] at h; cases h

/-- Witness for C6: `Trap(kCondTrue, kTrapAssert)` emitted at address 1. -/
theorem C6_trap_witness :
    ∃ s', Trap kCondTrue kTrapAssert cgStart = some s' ∧ s'.pc = cgStart.pc + 1 ∧
      ∀ vm : VM, vm.mem = s'.mem → vm.pc = cgStart.pc →
        ∃ vm', step vm = some vm' ∧
          (IsTrue vm kCondTrue = true →
            vm'.pc = kTrapAssert ∧
            ∀ (sb cnt : Int) (fuel : Nat), cnt ≠ kMaxSteps →
              interpLoop sb (fuel + 1) cnt vm = some (vm', cnt) ∧
              (kTrapAssert = -1 → finalReport vm'.pc cnt = some "Trap: nil pointer") ∧
              (kTrapAssert = -2 → finalReport vm'.pc cnt = some "Trap: index out of bounds") ∧
              (kTrapAssert = -3 → finalReport vm'.pc cnt = some "Trap: division by zero") ∧
              (kTrapAssert = -4 → finalReport vm'.pc cnt = some "Trap: assert failure") ∧
              (kTrapAssert = -5 → finalReport vm'.pc cnt = some "Trap: I/O exception")) ∧
          (IsTrue vm kCondTrue = false → vm'.pc = cgStart.pc + 1) :=
  C6_trap_sets_pc_and_message cgStart kCondTrue kTrapAssert (by decide) (by decide) (by decide)

/-! ### Scopes (C10) -/

theorem findInScope_eq_find (id : String) (sc : List object_t) :
    findInScope id sc = sc.find? (fun o => decide (o.name = id)) := by
  induction sc with
  | nil => rfl
  | cons o rest ih =>
    by_cases h : o.name = id
    · simp [findInScope, List.find?, h]
    · simp [findInScope, List.find?, h, ih]

theorem findInScope_none (id : String) (sc : List object_t)
    (h : ∀ o ∈ sc, o.name ≠ id) : findInScope id sc = none := by
  rw [findInScope_eq_find, List.find?_eq_none]
  intro o ho
  simpa using h o ho

theorem thisFrom_eq (id : String) (rest : List (List object_t)) :
    ∀ sc : List object_t,
      thisFrom id sc rest =
        ((sc :: rest).find? (fun sc => sc.any (fun o => decide (o.name = id)))).bind
          (fun sc => sc.find? (fun o => decide (o.name = id))) := by
  induction rest with
  | nil =>
    intro sc
    rw [thisFrom, findInScope_eq_find]
    by_cases h : sc.any (fun o => decide (o.name = id)) = true
    · simp [List.find?, h]
    · have hn : sc.find? (fun o => decide (o.name = id)) = none := by
        rw [List.find?_eq_none]
        intro o ho hc
        exact h (List.any_eq_true.mpr ⟨o, ho, hc⟩)
      simp [List.find?, h, hn]
  | cons up rest ih =>
    intro sc
    rw [thisFrom, findInScope_eq_find]
    by_cases h : sc.any (fun o => decide (o.name = id)) = true
    · obtain ⟨o, ho, hc⟩ := List.any_eq_true.mp h
      have hs : (sc.find? (fun o => decide (o.name = id))).isSome = true :=
        List.find?_isSome.mpr ⟨o, ho, hc⟩
      obtain ⟨it, hit⟩ := Option.isSome_iff_exists.mp hs
      simp [List.find?, h, hit]
    · have hn : sc.find? (fun o => decide (o.name = id)) = none := by
        rw [List.find?_eq_none]
        intro o ho hc
        exact h (List.any_eq_true.mpr ⟨o, ho, hc⟩)
      have h' : sc.any (fun o => decide (o.name = id)) = false := by simpa using h
      rw [hn, ih up]
      simp only [List.find?, h']

/-- C10: on a non-empty stack of open scopes `ORB_This` returns the object named `id` of the
innermost scope that declares `id`, and the null pointer when no open scope declares it.
Hence, starting from scopes none of which declares `id`: after open, declare `A`, open,
declare `B` the lookup yields `B`; after one close it yields `A`; after the second close the
state is the initial one and the lookup yields null.  A name is found through every inner
scope that does not declare it. -/
theorem C10_lookup_innermost_scope (id : String) (t : SymTab) (hne : t.top_scope ≠ []) :
    ORB_This id t =
      some ((t.top_scope.find? (fun sc => sc.any (fun o => decide (o.name = id)))).bind
        (fun sc => sc.find? (fun o => decide (o.name = id)))) ∧
    (ORB_This id t = some none ↔ ∀ sc ∈ t.top_scope, ∀ o ∈ sc, o.name ≠ id) ∧
    (∀ (rawA rawB : object_t) (tagA tagB : class_t),
      (∀ sc ∈ t.top_scope, ∀ o ∈ sc, o.name ≠ id) →
      ∃ A t2 B t4 t5,
        ORB_New rawA id tagA (ORB_OpenScope t) = some (A, t2) ∧
        ORB_New rawB id tagB (ORB_OpenScope t2) = some (B, t4) ∧
        A.name = id ∧ A.tag = tagA ∧ B.name = id ∧ B.tag = tagB ∧
        ORB_This id t4 = some (some B) ∧
        ORB_CloseScope t4 = some t5 ∧ ORB_This id t5 = some (some A) ∧
        ORB_CloseScope t5 = some t ∧ ORB_This id t = some none) ∧
    (∀ inner : List object_t, (∀ o ∈ inner, o.name ≠ id) →
      ORB_This id { t with top_scope := inner :: t.top_scope } = ORB_This id t) := by
  obtain ⟨top, diag⟩ := t
  cases top with
  | nil => exact absurd rfl hne
  | cons sc rest =>
    have hgen : ORB_This id { top_scope := sc :: rest, diag := diag } =
        some (((sc :: rest).find? (fun sc => sc.any (fun o => decide (o.name = id)))).bind
          (fun sc => sc.find? (fun o => decide (o.name = id)))) := by
      simp only [ORB_This, thisFrom_eq]
    have hnone : ORB_This id { top_scope := sc :: rest, diag := diag } = some none ↔
        ∀ sc' ∈ sc :: rest, ∀ o ∈ sc', o.name ≠ id := by
      rw [hgen]
      constructor
      · intro h sc' hsc' o ho hname
        have h1 : (Option.bind
            ((sc :: rest).find? (fun sc => sc.any (fun o => decide (o.name = id))))
            (fun sc => sc.find? (fun o => decide (o.name = id)))) = none := by
          simpa using h
        cases hfind : (sc :: rest).find? (fun sc => sc.any (fun o => decide (o.name = id))) with
        | none =>
          have := List.find?_eq_none.mp hfind sc' hsc'
          exact this (List.any_eq_true.mpr ⟨o, ho, by simpa using hname⟩)
        | some sc0 =>
          have hany := List.find?_some hfind
          obtain ⟨o0, ho0, hc0⟩ := List.any_eq_true.mp hany
          rw [hfind, Option.some_bind] at h1
          exact List.find?_eq_none.mp h1 o0 ho0 hc0
      · intro h
        have : (sc :: rest).find? (fun sc => sc.any (fun o => decide (o.name = id))) = none := by
          rw [List.find?_eq_none]
          intro sc' hsc' hany
          obtain ⟨o, ho, hc⟩ := List.any_eq_true.mp hany
          exact h sc' hsc' o ho (by simpa using hc)
        rw [this]; rfl
    refine ⟨hgen, hnone, ?_, ?_⟩
    · intro rawA rawB tagA tagB hno
      refine ⟨object_t.mk id tagA g_no_type [] rawA.level rawA.expo false rawA.val,
        { top_scope := [object_t.mk id tagA g_no_type [] rawA.level rawA.expo false rawA.val]
            :: sc :: rest, diag := diag },
        object_t.mk id tagB g_no_type [] rawB.level rawB.expo false rawB.val,
        { top_scope := [object_t.mk id tagB g_no_type [] rawB.level rawB.expo false rawB.val]
            :: [object_t.mk id tagA g_no_type [] rawA.level rawA.expo false rawA.val]
            :: sc :: rest, diag := diag },
        { top_scope := [object_t.mk id tagA g_no_type [] rawA.level rawA.expo false rawA.val]
            :: sc :: rest, diag := diag },
        ?_, ?_, rfl, rfl, rfl, rfl, ?_, rfl, ?_, rfl, hnone.mpr hno⟩
      · simp [ORB_New, ORB_OpenScope, findInScope]
      · simp [ORB_New, ORB_OpenScope, findInScope]
      · simp [ORB_This, thisFrom, findInScope, object_t.name]
      · simp [ORB_This, thisFrom, findInScope, object_t.name]
    · intro inner hinner
      simp only [ORB_This, thisFrom, findInScope_none id inner hinner]

/-- Witness for C10: the lookup of `INTEGER` from the module scope finds the object of the
universe, through the empty inner scope. -/
theorem C10_lookup_witness :
    ORB_This "INTEGER" tabDemo =
      some ((tabDemo.top_scope.find?
          (fun sc => sc.any (fun o => decide (o.name = "INTEGER")))).bind
        (fun sc => sc.find? (fun o => decide (o.name = "INTEGER")))) ∧
    ORB_This "INTEGER" tabDemo
      = some (some (object_t.mk "INTEGER" .kObjType g_int_type [] 0 false false 0)) :=
  ⟨(C10_lookup_innermost_scope "INTEGER" tabDemo (List.cons_ne_nil _ _)).1, rfl⟩

/-! ### Procedure signatures and assignment compatibility (C8, C9) -/

/-- `IsExtension` walks the base types of `t1` and finds `t0` exactly when the specification
says that `t1` is `t0` or an extension of it. -/
theorem isExtensionOf_eq_specExtends (t0 : type_t) :
    ∀ (n : Nat) (t1 : type_t), sizeOf t1 ≤ n → isExtensionOf (some t0) t1 = specExtends t1 t0 := by
  cases t0 with
  | mk a0 b0 o0 d0 sz0 tg0 l0 =>
  intro n
  induction n with
  | zero =>
    intro t1 h
    cases t1 with
    | mk a b o d sz tg l => simp only [type_t.mk.sizeOf_spec] at h; omega
  | succ n ih =>
    intro t1 h
    cases t1 with
    | mk a b o d sz tg l =>
      have hc : (a0 == a) = (a == a0) := by
        rw [Bool.eq_iff_iff, beq_iff_eq, beq_iff_eq]; exact eq_comm
      cases b with
      | none =>
        simp only [isExtensionOf, specExtends, sameType, type_t.addr, hc, Bool.or_false]
      | some b1 =>
        have hb : sizeOf b1 ≤ n := by
          simp only [type_t.mk.sizeOf_spec, Option.some.sizeOf_spec] at h; omega
        simp only [isExtensionOf, specExtends, sameType, type_t.addr, ih b1 hb, hc]

/-- `IsExtension` on two non-null types agrees with the specification. -/
theorem IsExtension_eq_specExtends (t0 t1 : type_t) :
    IsExtension (some t0) (some t1) = specExtends t1 t0 :=
  isExtensionOf_eq_specExtends t0 (sizeOf t1) t1 (Nat.le_refl _)

/-- `CompatibleTypes` for an assignment (no `VAR` parameter) is the disjunction of its six
tests, `m` being the outcome of `MatchingProcTypes`. -/
theorem CompatibleTypes_eq (t0 t1 : type_t) (m : Bool)
    (hm : MatchingProcTypes t0 t1 = some m) :
    CompatibleTypes t0 t1 false =
      some (sameType (some t0) (some t1) || MatchingArrayTypes t0 t1 ||
        MatchingRecordTypes t0 t1 || MatchingPointerTypes t0 t1 || m ||
        ((t0.tag == .kTypePointer || t0.tag == .kTypeProc) && (t1.tag == .kTypeNil))) := by
  unfold CompatibleTypes
  rw [hm]
  cases h1 : (sameType (some t0) (some t1) || MatchingArrayTypes t0 t1 ||
      MatchingRecordTypes t0 t1) <;>
    cases h2 : MatchingPointerTypes t0 t1 <;> cases m <;> simp

/-- `IsCharArray` on an item whose array type has an element type. -/
theorem IsCharArray_eq (x : item_t) (hx : x.type.tag = .kTypeArray → x.type.base ≠ none) :
    IsCharArray x = some ((x.type.tag == .kTypeArray) &&
      (match x.type.base with
       | some b => b.tag == .kTypeChar
       | none => false)) := by
  unfold IsCharArray
  by_cases h : x.type.tag = .kTypeArray
  · have hb := hx h
    cases hbase : x.type.base with
    | none => exact absurd hbase hb
    | some b => simp [h]
  · simp [h]

/-- `AssignmentStmt` reports "illegal assignment" exactly when all five tests of its
`if ... else if` chain fail. -/
theorem AssignmentStmt_accepts (x y : item_t) (c ca : Bool)
    (hc : CompatibleTypes x.type y.type false = some c) (hca : IsCharArray x = some ca) :
    ∃ r, AssignmentStmt x y = some r ∧
      (r ≠ .illegalAssignment ↔
        (c || (IsOpenArray y.type && (x.type.tag == .kTypeArray) &&
              sameType x.type.base y.type.base) ||
          (ca && (y.type.tag == .kTypeString)) ||
          ((x.type.tag == .kTypeInt) && (y.type.tag == .kTypeInt)) ||
          ((x.type.tag == .kTypeChar) && (y.type.tag == .kTypeString) && (y.b == 2))) = true) := by
  unfold AssignmentStmt
  rw [hc, hca]
  simp only [Option.some_bind]
  cases c
  · cases h1 : (IsOpenArray y.type && (x.type.tag == .kTypeArray) &&
        sameType x.type.base y.type.base)
    · cases h2 : (ca && (y.type.tag == .kTypeString))
      · by_cases h3 : x.type.tag = .kTypeInt ∧ y.type.tag = .kTypeInt
        · simp [h1, h2, h3]
        · by_cases h4 : x.type.tag = .kTypeChar ∧ y.type.tag = .kTypeString ∧ y.b = 2
          · simp [h1, h2, h3, h4]
          · simp [h1, h2, h3, h4]
            exact fun a b c => h4 ⟨a, b, c⟩
      · simp [h1, h2]
    · simp [h1]
  · simp only [if_true, Bool.true_or]
    split <;> simp

/-- Whenever `MatchingProcTypes` gives the answer of the specification on the two types,
`AssignmentStmt` accepts exactly the pairs of the compatibility table: the entry for
procedure types is the only one on which code and table can differ. -/
theorem AssignmentStmt_table (x y : item_t)
    (hx : x.type.tag = .kTypePointer ∨ x.type.tag = .kTypeArray → x.type.base ≠ none)
    (hy : y.type.tag = .kTypePointer → y.type.base ≠ none)
    (hsig : MatchingProcTypes x.type y.type =
      some ((x.type.tag == .kTypeProc) && (y.type.tag == .kTypeProc) &&
        specEqualSignatures x.type y.type)) :
    ∃ r, AssignmentStmt x y = some r ∧
      (r ≠ .illegalAssignment ↔ specAssignable x.type y.type y.b = true) := by
  have hc := CompatibleTypes_eq x.type y.type _ hsig
  have hca := IsCharArray_eq x (fun h => hx (Or.inr h))
  obtain ⟨r, hr, hiff⟩ := AssignmentStmt_accepts x y _ _ hc hca
  refine ⟨r, hr, hiff.trans ?_⟩
  have hrec := IsExtension_eq_specExtends x.type y.type
  have hptr : MatchingPointerTypes x.type y.type =
      ((x.type.tag == .kTypePointer) && (y.type.tag == .kTypePointer) &&
        (match x.type.base, y.type.base with
         | some b1, some b2 => specExtends b2 b1
         | _, _ => false)) := by
    unfold MatchingPointerTypes
    by_cases h1 : x.type.tag = .kTypePointer
    · by_cases h2 : y.type.tag = .kTypePointer
      · have hxb := hx (Or.inl h1)
        have hyb := hy h2
        cases hbx : x.type.base with
        | none => exact absurd hbx hxb
        | some b1 =>
          cases hby : y.type.base with
          | none => exact absurd hby hyb
          | some b2 => simp only [IsExtension_eq_specExtends b1 b2]
      · have h2f : (y.type.tag == form_t.kTypePointer) = false := beq_eq_false_iff_ne.mpr h2
        rw [h2f]; simp only [Bool.and_false, Bool.false_and]
    · have h1f : (x.type.tag == form_t.kTypePointer) = false := beq_eq_false_iff_ne.mpr h1
      rw [h1f]; simp only [Bool.false_and]
  rw [hptr]
  simp only [specAssignable, MatchingArrayTypes, MatchingRecordTypes, IsOpenArray, hrec]

/-- On well-formed procedure types `EqualSignatures` returns, and it returns `true` on every
pair that has equal signatures by the specification; stated together with the same fact for
parameter lists of equal length, by induction on the size of the first type. -/
theorem EqualSignatures_complete_aux : ∀ n : Nat,
    (∀ t0 t1 : type_t, sizeOf t0 ≤ n → wellFormed t0 = true → wellFormed t1 = true →
      t0.tag = .kTypeProc → t1.tag = .kTypeProc →
      ∃ b, EqualSignatures t0 t1 = some b ∧ (specEqualSignatures t0 t1 = true → b = true)) ∧
    (∀ ps0 ps1 : List object_t, sizeOf ps0 ≤ n → wellFormedParams ps0 = true →
      wellFormedParams ps1 = true → ps0.length = ps1.length →
      ∃ b, equalParams ps0 ps1 = some b ∧ (specEqualParams ps0 ps1 = true → b = true)) := by
  intro n
  induction n with
  | zero =>
    constructor
    · intro t0 t1 h
      cases t0 with
      | mk a b o d sz tg l => simp only [type_t.mk.sizeOf_spec] at h; omega
    · intro ps0 ps1 h
      cases ps0 with
      | nil => simp at h
      | cons p ps => simp only [List.cons.sizeOf_spec] at h; omega
  | succ n ih =>
    constructor
    · intro t0 t1 h hw0 hw1 hp0 hp1
      cases t0 with
      | mk a0 b0 o0 d0 sz0 tg0 l0 =>
        cases t1 with
        | mk a1 b1 o1 d1 sz1 tg1 l1 =>
          simp only [type_t.tag] at hp0 hp1
          subst hp0 hp1
          simp only [wellFormed, bne_self_eq_false, Bool.false_or, Bool.and_eq_true,
            beq_iff_eq] at hw0 hw1
          simp only [EqualSignatures, specEqualSignatures, type_t.tag, type_t.base, type_t.len,
            type_t.dlink, and_self, not_true_eq_false, if_false]
          by_cases hc : (!sameType b0 b1 || decide (l0 ≠ l1)) = true
          · refine ⟨false, by simp only [hc, if_true], ?_⟩
            intro hs
            simp only [Bool.and_eq_true, beq_iff_eq] at hs
            simp [hs.1.1, hs.1.2] at hc
          · have hd : sizeOf d0 ≤ n := by
              simp only [type_t.mk.sizeOf_spec] at h; omega
            have hl : l0 = l1 := by
              by_contra hne
              exact hc (by simp [hne])
            have hlen : d0.length = d1.length := by
              have := hw0.2.1; have := hw1.2.1; omega
            obtain ⟨b, hb, himp⟩ := ih.2 d0 d1 hd hw0.2.2 hw1.2.2 hlen
            refine ⟨b, by simp only [hc, if_false]; exact hb, ?_⟩
            intro hs
            simp only [Bool.and_eq_true] at hs
            exact himp hs.2
    · intro ps0 ps1 h hw0 hw1 hlen
      cases ps0 with
      | nil => exact ⟨true, by simp only [equalParams], fun _ => rfl⟩
      | cons p0 r0 =>
        cases ps1 with
        | nil => simp at hlen
        | cons p1 r1 =>
          cases p0 with
          | mk n0 tg0 ty0 dl0 lv0 e0 rd0 v0 =>
            cases p1 with
            | mk n1 tg1 ty1 dl1 lv1 e1 rd1 v1 =>
              simp only [wellFormedParams, Bool.and_eq_true] at hw0 hw1
              have hr : sizeOf r0 ≤ n := by
                simp only [List.cons.sizeOf_spec] at h; omega
              have hty : sizeOf ty0 ≤ n := by
                simp only [List.cons.sizeOf_spec, object_t.mk.sizeOf_spec] at h; omega
              have hlen1 : r0.length = r1.length := by simpa using hlen
              obtain ⟨br, hbr, himpr⟩ := ih.2 r0 r1 hr hw0.2 hw1.2 hlen1
              simp only [equalParams, specEqualParams, object_t.tag, object_t.rdo, object_t.type]
              by_cases hc : ((decide (tg0 ≠ tg1) || decide (rd0 ≠ rd1) ||
                  !sameType (some ty0) (some ty1)) && !MatchingArrayTypes ty0 ty1) = true
              · simp only [hc, if_true]
                by_cases hp : ty0.tag = .kTypeProc ∧ ty1.tag = .kTypeProc
                · obtain ⟨b, hb, himp⟩ := ih.1 ty0 ty1 hty hw0.1 hw1.1 hp.1 hp.2
                  simp only [hp, and_self, if_true, hb]
                  cases b with
                  | true =>
                    refine ⟨br, hbr, ?_⟩
                    intro hs
                    simp only [Bool.and_eq_true] at hs
                    exact himpr hs.2
                  | false =>
                    refine ⟨false, rfl, ?_⟩
                    intro hs
                    simp only [Bool.and_eq_true, Bool.or_eq_true, beq_iff_eq] at hs
                    obtain ⟨⟨⟨ht, hrd⟩, h3⟩, _⟩ := hs
                    simp only [Bool.and_eq_true, Bool.or_eq_true, decide_eq_true_eq,
                      Bool.not_eq_true'] at hc
                    obtain ⟨h1, hMA⟩ := hc
                    rcases h3 with (hsame | hma) | hproc
                    · rcases h1 with (h | h) | h
                      · exact absurd ht h
                      · exact absurd hrd h
                      · rw [hsame] at h; cases h
                    · rw [hMA] at hma; cases hma
                    · exact himp hproc.2
                · simp only [hp, if_false]
                  refine ⟨false, rfl, ?_⟩
                  intro hs
                  simp only [Bool.and_eq_true, Bool.or_eq_true, beq_iff_eq] at hs
                  obtain ⟨⟨⟨ht, hrd⟩, h3⟩, _⟩ := hs
                  simp only [Bool.and_eq_true, Bool.or_eq_true, decide_eq_true_eq,
                    Bool.not_eq_true'] at hc
                  obtain ⟨h1, hMA⟩ := hc
                  rcases h3 with (hsame | hma) | hproc
                  · rcases h1 with (h | h) | h
                    · exact absurd ht h
                    · exact absurd hrd h
                    · rw [hsame] at h; cases h
                  · rw [hMA] at hma; cases hma
                  · exact absurd hproc.1 hp
              · simp only [hc, if_false]
                refine ⟨br, hbr, ?_⟩
                intro hs
                simp only [Bool.and_eq_true] at hs
                exact himpr hs.2

/-- On well-formed procedure types `EqualSignatures` returns a result, and the result is
`true` whenever the two signatures are equal by the specification. -/
theorem EqualSignatures_complete (t0 t1 : type_t)
    (hw0 : wellFormed t0 = true) (hw1 : wellFormed t1 = true)
    (hp0 : t0.tag = .kTypeProc) (hp1 : t1.tag = .kTypeProc) :
    ∃ b, EqualSignatures t0 t1 = some b ∧ (specEqualSignatures t0 t1 = true → b = true) :=
  (EqualSignatures_complete_aux (sizeOf t0)).1 t0 t1 (Nat.le_refl _) hw0 hw1 hp0 hp1


/-- C9, the code at the failing input: `EqualSignatures` holds `PROCEDURE (VAR a: A3)` and
`PROCEDURE (a: A3)` to be equal although the read-only flags of the parameters differ, and
`PROCEDURE (VAR f: Q)` and `PROCEDURE (f: Q)` although the kinds of the parameters differ;
by the specification neither pair has equal signatures. -/
theorem C9_equal_signatures_ignores_kind :
    EqualSignatures typeP0 typeP1 = some true ∧
    typeP0.dlink.map object_t.rdo ≠ typeP1.dlink.map object_t.rdo ∧
    specEqualSignatures typeP0 typeP1 = false ∧
    EqualSignatures typeP2 typeP3 = some true ∧
    typeP2.dlink.map object_t.tag ≠ typeP3.dlink.map object_t.tag ∧
    specEqualSignatures typeP2 typeP3 = false := by
  decide

/-- C8, the code at the failing input: `AssignmentStmt` accepts `p := q` for
`p : PROCEDURE (VAR a: A3)` and `q : PROCEDURE (a: A3)` (it calls `ORG_Store`), a pair that
is not in the compatibility table. -/
theorem C8_assignment_accepts_unequal_signatures :
    AssignmentStmt (globalVar typeP0 0) (globalVar typeP1 4) = some .store ∧
    specAssignable typeP0 typeP1 (globalVar typeP1 4).b = false := by
  decide

/-! ### Array bounds check (C5) -/

/-- C5, the code at the failing input: for `a[i]` on `a : ARRAY 3 OF INTEGER` with a run-time
index, `ORG_Index` emits load, trap on `MI`, `CMP` with 3, trap on `GT`, shift and add (six
instructions from address 1).  With `i = 3` the interpreter passes both traps and reaches
address 5; with `i = 4` and with `i = -1` it goes to `kTrapIndexOutOfBounds`; with `i = 2` it
passes.  The compile-time check reports "bad index" for the immediate index 3. -/
theorem C5_index_equal_to_length_not_trapped :
    indexDemoCode.map (fun r => (r.1.mode, r.2.pc)) = some (.kModeRegI, 7) ∧
    (stepN 4 (indexDemoVM 3)).map (fun vm => vm.pc) = some 5 ∧
    (stepN 4 (indexDemoVM 4)).map (fun vm => vm.pc) = some kTrapIndexOutOfBounds ∧
    (stepN 2 (indexDemoVM (-1))).map (fun vm => vm.pc) = some kTrapIndexOutOfBounds ∧
    (stepN 4 (indexDemoVM 2)).map (fun vm => vm.pc) = some 5 ∧
    (ORG_Index (globalVar typeA3 0) (intConst 3) cgStart).map (fun r => r.2.diag.marks)
      = some ["bad index"] ∧
    (ORG_Index (globalVar typeA3 0) (intConst 2) cgStart).map (fun r => r.2.diag.marks)
      = some [] := by
  decide

/-! ### ASSERT (C7) -/

/-- The case of C7 without F-chain. -/
theorem assert_direct_runs (x : item_t) (s : CG) (tl : List Int)
    (hmode : x.mode = .kModeCond)
    (hrel : isRelCond x.r ∨ x.r = kCondTrue ∨ x.r = kCondFalse) (ha : x.a = 0)
    (hT : isChain s.mem x.b tl = true) (hnd : tl.Nodup) (hlt : ∀ a ∈ tl, a < s.pc)
    (hpc : 1 ≤ s.pc ∧ s.pc + 1 ≤ 1024) :
    ∃ x' s', ORG_Assert x s = some (x', s') ∧ s'.pc = s.pc + 1 ∧
      (∀ vm : VM, vm.mem = s'.mem → vm.pc = s.pc →
        (IsTrue vm x.r = true → ∃ vm', step vm = some vm' ∧ vm'.pc = s'.pc) ∧
        (IsTrue vm x.r = false → ∃ vm', step vm = some vm' ∧ vm'.pc = kTrapAssert)) ∧
      (∀ a ∈ tl, ∀ vm : VM, vm.mem = s'.mem → vm.pc = a →
        fieldA (s'.mem a.toNat) = fieldA (s.mem a.toNat) ∧
        (IsTrue vm (fieldA (s.mem a.toNat)) = true →
          ∃ vm', step vm = some vm' ∧ vm'.pc = s'.pc) ∧
        (IsTrue vm (fieldA (s.mem a.toNat)) = false →
          ∃ vm', step vm = some vm' ∧ vm'.pc = a + 1)) := by
  have hr : 0 ≤ x.r ∧ x.r ≤ 15 := by
    rcases hrel with (h | h | h | h | h | h) | h | h <;> rw [h] <;> decide
  have hneg : 0 ≤ Negated x.r ∧ Negated x.r ≤ 15 := by
    unfold Negated; split <;> omega
  have hbT := isChain_bounds s.mem tl x.b hT
  have hA := ORG_Assert_direct x s tl hmode hr ha hT hnd hlt hpc
  refine ⟨_, _, hA, rfl, ?_, ?_⟩
  · intro vm hmem hvpc
    have hw : vm.mem vm.pc.toNat
        = wordF3 kOpBc (Negated x.r) ((kTrapAssert - vm.pc - 1) % 16777216) := by
      rw [hmem, hvpc]
      simp only
      rw [fixedMem_other]
      · exact Function.update_same _ _ _
      · intro a ha'
        have := hlt a ha'; have := hbT a ha'
        omega
    have hrun := run_branch vm (Negated x.r) kTrapAssert hneg (by omega)
      (by simp only [kTrapAssert]; omega) hw
    rw [IsTrue_Negated vm x.r hrel] at hrun
    constructor
    · intro hT'
      obtain ⟨vm', h1, h2, _⟩ := hrun.2 (by simp [hT'])
      exact ⟨vm', h1, by rw [h2, hvpc]⟩
    · intro hF'
      obtain ⟨vm', h1, h2, _⟩ := hrun.1 (by simp [hF'])
      exact ⟨vm', h1, h2⟩
  · intro a ha' vm hmem hvpc
    have hch : isChain (Function.update s.mem s.pc.toNat
        (wordF3 kOpBc (Negated x.r) ((kTrapAssert - s.pc - 1) % 16777216))) x.b tl = true := by
      rw [isChain_update s.mem s.pc.toNat _ tl x.b]
      · exact hT
      · intro b hb
        have := hlt b hb; have := hbT b hb
        omega
    have hba := hbT a ha'
    have hla := hlt a ha'
    have hsame : (Function.update s.mem s.pc.toNat
        (wordF3 kOpBc (Negated x.r) ((kTrapAssert - s.pc - 1) % 16777216))) a.toNat
        = s.mem a.toNat := Function.update_noteq (by omega) _ _
    have hfix := fixedMem_chain (s.pc + 1) tl _ x.b hch hnd a ha'
    rw [hsame] at hfix
    have hw : vm.mem vm.pc.toNat
        = wordF3 kOpBc (fieldA (s.mem a.toNat)) ((s.pc + 1 - vm.pc - 1) % 16777216) := by
      rw [hmem, hvpc]; exact hfix
    have hrun := run_branch vm (fieldA (s.mem a.toNat)) (s.pc + 1) (fieldA_mod _) (by omega)
      (by omega) hw
    refine ⟨?_, ?_, ?_⟩
    · simp only
      rw [hfix, fieldA_wordF3 _ _ (fieldA_mod _) (by omega)]
    · intro hT'
      obtain ⟨vm', h1, h2, _⟩ := hrun.1 hT'
      exact ⟨vm', h1, h2⟩
    · intro hF'
      obtain ⟨vm', h1, h2, _⟩ := hrun.2 hF'
      exact ⟨vm', h1, by rw [h2, hvpc]⟩

/-- The case of C7 with an F-chain. -/
theorem assert_chained_runs (x : item_t) (s : CG) (fl tl : List Int)
    (hmode : x.mode = .kModeCond) (hr : 0 ≤ x.r ∧ x.r ≤ 15) (ha : x.a ≠ 0)
    (hF : isChain s.mem x.a fl = true) (hT : isChain s.mem x.b tl = true)
    (hnd : (fl ++ tl).Nodup) (hlt : ∀ a ∈ fl ++ tl, a < s.pc)
    (hpc : 1 ≤ s.pc ∧ s.pc + 2 ≤ 1024) :
    ∃ x' s', ORG_Assert x s = some (x', s') ∧ s'.pc = s.pc + 2 ∧
      (∀ vm : VM, vm.mem = s'.mem → vm.pc = s.pc →
        (IsTrue vm x.r = true → ∃ vm', step vm = some vm' ∧ vm'.pc = s'.pc) ∧
        (IsTrue vm x.r = false → ∃ vm', stepN 2 vm = some vm' ∧ vm'.pc = kTrapAssert)) ∧
      (∀ a ∈ fl, ∀ vm : VM, vm.mem = s'.mem → vm.pc = a →
        fieldA (s'.mem a.toNat) = fieldA (s.mem a.toNat) ∧
        (IsTrue vm (fieldA (s.mem a.toNat)) = true →
          ∃ vm', stepN 2 vm = some vm' ∧ vm'.pc = kTrapAssert) ∧
        (IsTrue vm (fieldA (s.mem a.toNat)) = false →
          ∃ vm', step vm = some vm' ∧ vm'.pc = a + 1)) ∧
      (∀ a ∈ tl, ∀ vm : VM, vm.mem = s'.mem → vm.pc = a →
        fieldA (s'.mem a.toNat) = fieldA (s.mem a.toNat) ∧
        (IsTrue vm (fieldA (s.mem a.toNat)) = true →
          ∃ vm', step vm = some vm' ∧ vm'.pc = s'.pc) ∧
        (IsTrue vm (fieldA (s.mem a.toNat)) = false →
          ∃ vm', step vm = some vm' ∧ vm'.pc = a + 1)) := by
  have hndF : fl.Nodup := (List.nodup_append.mp hnd).1
  have hndT : tl.Nodup := (List.nodup_append.mp hnd).2.1
  have hdis : ∀ a ∈ fl, ∀ b ∈ tl, a ≠ b := fun a ha' b hb' heq =>
    (List.disjoint_of_nodup_append hnd) ha' (heq ▸ hb')
  have hbF := isChain_bounds s.mem fl x.a hF
  have hbT := isChain_bounds s.mem tl x.b hT
  have hltF : ∀ a ∈ fl, a < s.pc := fun a h => hlt a (List.mem_append_left _ h)
  have hltT : ∀ a ∈ tl, a < s.pc := fun a h => hlt a (List.mem_append_right _ h)
  obtain ⟨hb0, hb1, _⟩ := isChain_head s.mem tl x.b hT
  have hndPT : (s.pc :: tl).Nodup := by
    refine List.nodup_cons.mpr ⟨fun hmem => ?_, hndT⟩
    have := hltT s.pc hmem
    omega
  obtain ⟨hA, hchF, hchT, hwP⟩ := ORG_Assert_chained x s fl tl hmode hr ha hF hT hnd hlt hpc
  -- the words of the final memory
  have hmemP : ∀ vm : VM, vm.mem = fixedMem (s.pc + 2)
      (Function.update
        (fixedMem (s.pc + 1) (Function.update s.mem s.pc.toNat (wordF3 kOpBc x.r x.b)) fl)
        (s.pc + 1).toNat
        (wordF3 kOpBc kCondTrue ((kTrapAssert - (s.pc + 1) - 1) % 16777216))) (s.pc :: tl) →
      vm.mem s.pc.toNat = wordF3 kOpBc x.r ((s.pc + 2 - s.pc - 1) % 16777216) ∧
      vm.mem (s.pc + 1).toNat
        = wordF3 kOpBc kCondTrue ((kTrapAssert - (s.pc + 1) - 1) % 16777216) := by
    intro vm hmem
    constructor
    · rw [hmem, fixedMem_chain (s.pc + 2) (s.pc :: tl) _ s.pc hchT hndPT s.pc
        (List.mem_cons_self _ _), hwP, fieldA_wordF3 _ _ hr (by omega)]
    · rw [hmem, fixedMem_other]
      · exact Function.update_same _ _ _
      · intro a ha'
        rcases List.mem_cons.mp ha' with rfl | h
        · omega
        · have := hltT a h; have := hbT a h
          omega
  -- the unconditional trap at `pc + 1`
  have htrap : ∀ vm : VM, vm.mem (s.pc + 1).toNat
        = wordF3 kOpBc kCondTrue ((kTrapAssert - (s.pc + 1) - 1) % 16777216) →
      vm.pc = s.pc + 1 → ∃ vm', step vm = some vm' ∧ vm'.pc = kTrapAssert := by
    intro vm hw hvpc
    have hw' : vm.mem vm.pc.toNat
        = wordF3 kOpBc kCondTrue ((kTrapAssert - vm.pc - 1) % 16777216) := by
      rw [hvpc]; exact hw
    have hrun := run_branch vm kCondTrue kTrapAssert (by simp [kCondTrue]) (by omega)
      (by simp only [kTrapAssert]; omega) hw'
    obtain ⟨vm', h1, h2, _⟩ := hrun.1 (by simp [IsTrue])
    exact ⟨vm', h1, h2⟩
  refine ⟨_, _, hA, rfl, ?_, ?_, ?_⟩
  · intro vm hmem hvpc
    obtain ⟨hw0, hw1⟩ := hmemP vm hmem
    have hw0' : vm.mem vm.pc.toNat
        = wordF3 kOpBc x.r ((s.pc + 2 - vm.pc - 1) % 16777216) := by
      rw [hvpc]; exact hw0
    have hrun := run_branch vm x.r (s.pc + 2) hr (by omega) (by omega) hw0'
    constructor
    · intro hT'
      obtain ⟨vm', h1, h2, _⟩ := hrun.1 hT'
      exact ⟨vm', h1, h2⟩
    · intro hF'
      obtain ⟨vm1, h1, h2, h3, _⟩ := hrun.2 hF'
      obtain ⟨vm2, h4, h5⟩ := htrap vm1 (by rw [h3]; exact hw1) (by rw [h2, hvpc])
      exact ⟨vm2, by simp only [stepN, h1, Option.some_bind, h4], h5⟩
  · intro a ha' vm hmem hvpc
    obtain ⟨_, hw1⟩ := hmemP vm hmem
    have hba := hbF a ha'
    have hla := hltF a ha'
    have hsame : (Function.update s.mem s.pc.toNat (wordF3 kOpBc x.r x.b)) a.toNat
        = s.mem a.toNat := Function.update_noteq (by omega) _ _
    have hfix := fixedMem_chain (s.pc + 1) fl _ x.a hchF hndF a ha'
    rw [hsame] at hfix
    have hwa : vm.mem a.toNat
        = wordF3 kOpBc (fieldA (s.mem a.toNat)) ((s.pc + 1 - a - 1) % 16777216) := by
      rw [hmem]
      dsimp only
      rw [fixedMem_other, Function.update_noteq (by omega), hfix]
      intro b hb
      rcases List.mem_cons.mp hb with rfl | h
      · omega
      · have := hbT b h
        have hne := hdis a ha' b h
        omega
    have hw : vm.mem vm.pc.toNat
        = wordF3 kOpBc (fieldA (s.mem a.toNat)) ((s.pc + 1 - vm.pc - 1) % 16777216) := by
      rw [hvpc]; exact hwa
    have hrun := run_branch vm (fieldA (s.mem a.toNat)) (s.pc + 1) (fieldA_mod _) (by omega)
      (by omega) hw
    refine ⟨?_, ?_, ?_⟩
    · have hg : fieldA (vm.mem a.toNat) = fieldA (s.mem a.toNat) := by
        rw [hwa, fieldA_wordF3 _ _ (fieldA_mod _) (by omega)]
      rw [hmem] at hg
      exact hg
    · intro hT'
      obtain ⟨vm1, h1, h2, h3, _⟩ := hrun.1 hT'
      obtain ⟨vm2, h4, h5⟩ := htrap vm1 (by rw [h3]; exact hw1) h2
      exact ⟨vm2, by simp only [stepN, h1, Option.some_bind, h4], h5⟩
    · intro hF'
      obtain ⟨vm', h1, h2, _⟩ := hrun.2 hF'
      exact ⟨vm', h1, by rw [h2, hvpc]⟩
  · intro a ha' vm hmem hvpc
    have hba := hbT a ha'
    have hla := hltT a ha'
    have hsame : (Function.update
        (fixedMem (s.pc + 1) (Function.update s.mem s.pc.toNat (wordF3 kOpBc x.r x.b)) fl)
        (s.pc + 1).toNat
        (wordF3 kOpBc kCondTrue ((kTrapAssert - (s.pc + 1) - 1) % 16777216))) a.toNat
        = s.mem a.toNat := by
      rw [Function.update_noteq (by omega), fixedMem_other, Function.update_noteq (by omega)]
      intro b hb
      have := hbF b hb
      have hne := hdis b hb a ha'
      omega
    have hfix := fixedMem_chain (s.pc + 2) (s.pc :: tl) _ s.pc hchT hndPT a
      (List.mem_cons_of_mem _ ha')
    rw [hsame] at hfix
    have hw : vm.mem vm.pc.toNat
        = wordF3 kOpBc (fieldA (s.mem a.toNat)) ((s.pc + 2 - vm.pc - 1) % 16777216) := by
      rw [hmem, hvpc]; exact hfix
    have hrun := run_branch vm (fieldA (s.mem a.toNat)) (s.pc + 2) (fieldA_mod _) (by omega)
      (by omega) hw
    refine ⟨?_, ?_, ?_⟩
    · simp only
      rw [hfix, fieldA_wordF3 _ _ (fieldA_mod _) (by omega)]
    · intro hT'
      obtain ⟨vm', h1, h2, _⟩ := hrun.1 hT'
      exact ⟨vm', h1, h2⟩
    · intro hF'
      obtain ⟨vm', h1, h2, _⟩ := hrun.2 hF'
      exact ⟨vm', h1, by rw [h2, hvpc]⟩

/-- C7: let `x` be a condition item with a relational condition code whose pending F-chain
and T-chain run through the distinct branch addresses `fl` and `tl` below `pc`.  `ORG_Assert`
emits one or two instructions, and on the interpreter: falling into the assert code, PC
becomes `kTrapAssert` (-4) when the condition code is false in the flags and the address
after the assert code when it is true; every branch of the F-chain, when taken, leads to
`kTrapAssert`; every branch of the T-chain, when taken, leads to the address after the assert
code; the branches keep their conditions.  For the constants, `ASSERT(FALSE)` always sets PC
to `kTrapAssert` and `ASSERT(TRUE)` never does. -/
theorem C7_assert_traps_iff_false (x : item_t) (s : CG) (fl tl : List Int)
    (hmode : x.mode = .kModeCond) (hrel : isRelCond x.r)
    (hF : isChain s.mem x.a fl = true) (hT : isChain s.mem x.b tl = true)
    (hnd : (fl ++ tl).Nodup) (hlt : ∀ a ∈ fl ++ tl, a < s.pc)
    (hpc : 1 ≤ s.pc ∧ s.pc + 2 ≤ 1024) :
    (∃ x' s', ORG_Assert x s = some (x', s') ∧
      s'.pc = s.pc + (if x.a = 0 then 1 else 2) ∧
      (∀ vm : VM, vm.mem = s'.mem → vm.pc = s.pc →
        (IsTrue vm x.r = true → ∃ vm', step vm = some vm' ∧ vm'.pc = s'.pc) ∧
        (IsTrue vm x.r = false →
          ∃ n vm', n ≤ 2 ∧ stepN n vm = some vm' ∧ vm'.pc = kTrapAssert)) ∧
      (∀ a ∈ fl, ∀ vm : VM, vm.mem = s'.mem → vm.pc = a →
        fieldA (s'.mem a.toNat) = fieldA (s.mem a.toNat) ∧
        (IsTrue vm (fieldA (s.mem a.toNat)) = true →
          ∃ vm', stepN 2 vm = some vm' ∧ vm'.pc = kTrapAssert) ∧
        (IsTrue vm (fieldA (s.mem a.toNat)) = false →
          ∃ vm', step vm = some vm' ∧ vm'.pc = a + 1)) ∧
      (∀ a ∈ tl, ∀ vm : VM, vm.mem = s'.mem → vm.pc = a →
        fieldA (s'.mem a.toNat) = fieldA (s.mem a.toNat) ∧
        (IsTrue vm (fieldA (s.mem a.toNat)) = true →
          ∃ vm', step vm = some vm' ∧ vm'.pc = s'.pc) ∧
        (IsTrue vm (fieldA (s.mem a.toNat)) = false →
          ∃ vm', step vm = some vm' ∧ vm'.pc = a + 1))) ∧
    (∀ v : Int, v = 0 ∨ v = 1 →
      ∃ x' s', ORG_Assert (boolConst v) s = some (x', s') ∧ s'.pc = s.pc + 1 ∧
        ∀ vm : VM, vm.mem = s'.mem → vm.pc = s.pc →
          ∃ vm', step vm = some vm' ∧
            vm'.pc = (if v = 1 then s.pc + 1 else kTrapAssert)) := by
  have hr : 0 ≤ x.r ∧ x.r ≤ 15 := by
    rcases hrel with h | h | h | h | h | h <;> rw [h] <;> decide
  constructor
  · by_cases ha : x.a = 0
    · have hfl : fl = [] := (isChain_head s.mem fl x.a hF).2.2 ha
      subst hfl
      obtain ⟨x', s', h1, h2, h3, h4⟩ := assert_direct_runs x s tl hmode (Or.inl hrel) ha hT
        (by simpa using hnd) (fun a h => hlt a (by simpa using h)) (by omega)
      refine ⟨x', s', h1, by simp only [ha, if_true, h2], ?_, ?_, h4⟩
      · intro vm hmem hvpc
        obtain ⟨g1, g2⟩ := h3 vm hmem hvpc
        refine ⟨g1, fun hF' => ?_⟩
        obtain ⟨vm', k1, k2⟩ := g2 hF'
        exact ⟨1, vm', by norm_num, by simp only [stepN, k1, Option.some_bind], k2⟩
      · intro a ha'
        cases ha'
    · obtain ⟨x', s', h1, h2, h3, h4, h5⟩ :=
        assert_chained_runs x s fl tl hmode hr ha hF hT hnd hlt hpc
      refine ⟨x', s', h1, by simp only [ha, if_false, h2], ?_, h4, h5⟩
      intro vm hmem hvpc
      obtain ⟨g1, g2⟩ := h3 vm hmem hvpc
      refine ⟨g1, fun hF' => ?_⟩
      obtain ⟨vm', k1, k2⟩ := g2 hF'
      exact ⟨2, vm', le_refl _, k1, k2⟩
  · intro v hv
    have hco : ORG_Assert (boolConst v) s = ORG_Assert (condItem (15 - v * 8)) s := by
      rcases hv with rfl | rfl <;>
        simp [ORG_Assert, condOf, LoadCond, boolConst, condItem, ORG_MakeConst, SetCC,
          g_bool_type, predeclared, type_t.tag]
    have hrc : isRelCond (condItem (15 - v * 8)).r ∨ (condItem (15 - v * 8)).r = kCondTrue ∨
        (condItem (15 - v * 8)).r = kCondFalse := by
      rcases hv with rfl | rfl
      · exact Or.inr (Or.inr (by simp [condItem, SetCC, kCondFalse]))
      · exact Or.inr (Or.inl (by simp [condItem, SetCC, kCondTrue]))
    obtain ⟨x', s', h1, h2, h3, _⟩ := assert_direct_runs (condItem (15 - v * 8)) s []
      rfl hrc rfl (by simp [condItem, SetCC, isChain]) List.nodup_nil
      (fun a h => by cases h) (by omega)
    refine ⟨x', s', by rw [hco]; exact h1, h2, ?_⟩
    intro vm hmem hvpc
    obtain ⟨g1, g2⟩ := h3 vm hmem hvpc
    rcases hv with rfl | rfl
    · obtain ⟨vm', k1, k2⟩ := g2 (by simp [condItem, SetCC, IsTrue, kCondTrue, kCondMI,
        kCondEQ, kCondVS, kCondLT, kCondLE, kCondPL, kCondNE, kCondVC, kCondGE, kCondGT])
      exact ⟨vm', k1, by simp [k2]⟩
    · obtain ⟨vm', k1, k2⟩ := g1 (by simp [condItem, SetCC, IsTrue, kCondTrue])
      exact ⟨vm', k1, by simp [k2, h2]⟩

/-- Witness for C7: the condition `LT` with an F-chain through address 1 and a T-chain
through address 2, asserted at address 3. -/
theorem C7_assert_witness :
    ∃ x' s', ORG_Assert condChained cgChains = some (x', s') ∧
      s'.pc = cgChains.pc + (if condChained.a = 0 then 1 else 2) ∧
      (∀ vm : VM, vm.mem = s'.mem → vm.pc = cgChains.pc →
        (IsTrue vm condChained.r = true → ∃ vm', step vm = some vm' ∧ vm'.pc = s'.pc) ∧
        (IsTrue vm condChained.r = false →
          ∃ n vm', n ≤ 2 ∧ stepN n vm = some vm' ∧ vm'.pc = kTrapAssert)) ∧
      (∀ a ∈ [(1 : Int)], ∀ vm : VM, vm.mem = s'.mem → vm.pc = a →
        fieldA (s'.mem a.toNat) = fieldA (cgChains.mem a.toNat) ∧
        (IsTrue vm (fieldA (cgChains.mem a.toNat)) = true →
          ∃ vm', stepN 2 vm = some vm' ∧ vm'.pc = kTrapAssert) ∧
        (IsTrue vm (fieldA (cgChains.mem a.toNat)) = false →
          ∃ vm', step vm = some vm' ∧ vm'.pc = a + 1)) ∧
      (∀ a ∈ [(2 : Int)], ∀ vm : VM, vm.mem = s'.mem → vm.pc = a →
        fieldA (s'.mem a.toNat) = fieldA (cgChains.mem a.toNat) ∧
        (IsTrue vm (fieldA (cgChains.mem a.toNat)) = true →
          ∃ vm', step vm = some vm' ∧ vm'.pc = s'.pc) ∧
        (IsTrue vm (fieldA (cgChains.mem a.toNat)) = false →
          ∃ vm', step vm = some vm' ∧ vm'.pc = a + 1)) :=
  (C7_assert_traps_iff_false condChained cgChains [1] [2] rfl
    (Or.inr (Or.inr (Or.inl rfl))) (by decide) (by decide) (by decide) (by decide)
    (by decide)).1

/-! ### Short-circuit evaluation (C3) -/

theorem ORG_FixLink_zero (s : CG) : ORG_FixLink 0 s = some s :=
  ORG_FixLink_chain [] 0 s rfl List.nodup_nil

theorem Negated_bounds (r : Int) (hr : 0 ≤ r ∧ r ≤ 15) : 0 ≤ Negated r ∧ Negated r ≤ 15 := by
  unfold Negated; split <;> omega

theorem isRelCond_bounds (r : Int) (hr : isRelCond r) : 0 ≤ r ∧ r ≤ 15 := by
  rcases hr with h | h | h | h | h | h <;> rw [h] <;> decide

/-- The code of `p & q` followed by a conditional jump and its fix-up. -/
theorem and_code_runs (p q : item_t) (s0 : CG) (qcode body : List Int)
    (hp : p.mode = .kModeCond ∧ p.a = 0 ∧ p.b = 0) (hpr : isRelCond p.r)
    (hq : q.mode = .kModeCond ∧ q.a = 0 ∧ q.b = 0) (hqr : isRelCond q.r)
    (hpc : 1 ≤ s0.pc) (hsz : s0.pc + qcode.length + body.length + 2 ≤ 1024) :
    ∃ x1 s1 s2 x2 s3 x3 s4 s5 s6,
      ORG_And1 p s0 = some (x1, s1) ∧ emitAll qcode s1 = some s2 ∧
      ORG_And2 x1 q s2 = some (x2, s3) ∧ ORG_CFJump x2 s3 = some (x3, s4) ∧
      emitAll body s4 = some s5 ∧ ORG_Fixup x3 s5 = some s6 ∧
      s1.pc = s0.pc + 1 ∧ s3.pc = s0.pc + 1 + qcode.length ∧ s4.pc = s3.pc + 1 ∧
      s5.pc = s4.pc + body.length ∧
      (∀ (i : Nat) (hi : i < qcode.length),
        s6.mem (s0.pc + 1 + i).toNat = wrap32 (qcode.get ⟨i, hi⟩)) ∧
      (∀ vm : VM, vm.mem = s6.mem → vm.pc = s0.pc →
        ∃ vm', step vm = some vm' ∧
          vm'.pc = (if IsTrue vm p.r then s0.pc + 1 else s5.pc)) ∧
      (∀ vm : VM, vm.mem = s6.mem → vm.pc = s3.pc →
        ∃ vm', step vm = some vm' ∧
          vm'.pc = (if IsTrue vm q.r then s4.pc else s5.pc)) := by
  obtain ⟨hp1, hp2, hp3⟩ := hp
  obtain ⟨hq1, hq2, hq3⟩ := hq
  have hrp := isRelCond_bounds p.r hpr
  have hrq := isRelCond_bounds q.r hqr
  have hnp := Negated_bounds p.r hrp
  have hnq := Negated_bounds q.r hrq
  have hlq : (0 : Int) ≤ qcode.length := Int.natCast_nonneg _
  have hlb : (0 : Int) ≤ body.length := Int.natCast_nonneg _
  -- And1
  have hP1 := Put3_eq kOpBc (Negated p.r) 0 s0 (by simp [kOpBc]) hnp (by omega)
  simp only [Int.zero_emod] at hP1
  have hA1 : ORG_And1 p s0 = some ({ p with a := s0.pc, b := 0 },
      { s0 with
        mem := (Function.update s0.mem s0.pc.toNat (wordF3 kOpBc (Negated p.r) 0))
        pc := s0.pc + 1 }) := by
    simp only [ORG_And1, condOf, hp1, ne_eq, not_true_eq_false, if_false, Option.some_bind,
      hp2, hP1, hp3, ORG_FixLink_zero, add_sub_cancel_right]
  -- code(q)
  obtain ⟨s2, hE1, hE1pc, hE1lo, hE1hi⟩ := emitAll_spec qcode
    { s0 with
      mem := (Function.update s0.mem s0.pc.toNat (wordF3 kOpBc (Negated p.r) 0))
      pc := s0.pc + 1 } (by simp only; omega) (by simp only; omega)
  simp only at hE1pc hE1lo hE1hi
  -- And2
  have hA2 : ORG_And2 { p with a := s0.pc, b := 0 } q s2
      = some ({ p with a := s0.pc, b := 0, r := q.r }, s2) := by
    have hne : s0.pc ≠ 0 := by omega
    simp [ORG_And2, condOf, hp1, hq1, hq2, hq3, Merged, hne]
  -- CFJump
  have hP2 := Put3_eq kOpBc (Negated q.r) s0.pc s2 (by simp [kOpBc]) hnq (by omega)
  have hLm : s0.pc % 16777216 = s0.pc := by omega
  rw [hLm] at hP2
  have hCF : ORG_CFJump { p with a := s0.pc, b := 0, r := q.r } s2
      = some ({ p with a := s2.pc, b := 0, r := q.r },
          { s2 with
            mem := (Function.update s2.mem s2.pc.toNat (wordF3 kOpBc (Negated q.r) s0.pc))
            pc := s2.pc + 1 }) := by
    simp only [ORG_CFJump, condOf, hp1, ne_eq, not_true_eq_false, if_false, Option.some_bind,
      hP2, ORG_FixLink_zero, add_sub_cancel_right]
  -- body
  obtain ⟨s5, hE2, hE2pc, hE2lo, _⟩ := emitAll_spec body
    { s2 with
      mem := (Function.update s2.mem s2.pc.toNat (wordF3 kOpBc (Negated q.r) s0.pc))
      pc := s2.pc + 1 } (by simp only; omega) (by simp only; omega)
  simp only at hE2pc hE2lo
  -- the two branches in the memory before the fix-up
  have hnat0 : ((s0.pc.toNat : Nat) : Int) = s0.pc := Int.toNat_of_nonneg (by omega)
  have hnat2 : ((s2.pc.toNat : Nat) : Int) = s2.pc := Int.toNat_of_nonneg (by omega)
  have hmM : s5.mem s2.pc.toNat = wordF3 kOpBc (Negated q.r) s0.pc := by
    rw [hE2lo s2.pc.toNat (by omega)]
    exact Function.update_same _ _ _
  have hmL : s5.mem s0.pc.toNat = wordF3 kOpBc (Negated p.r) 0 := by
    rw [hE2lo s0.pc.toNat (by omega), Function.update_noteq (by omega),
      hE1lo s0.pc.toNat (by omega)]
    exact Function.update_same _ _ _
  have hfM : fieldA (wordF3 kOpBc (Negated q.r) s0.pc) = Negated q.r ∧
      wordF3 kOpBc (Negated q.r) s0.pc % 262144 = s0.pc := by
    simp only [fieldA, wordF3, kOpBc]; omega
  have hfL : fieldA (wordF3 kOpBc (Negated p.r) 0) = Negated p.r ∧
      wordF3 kOpBc (Negated p.r) 0 % 262144 = 0 := by
    simp only [fieldA, wordF3, kOpBc]; omega
  have hch : isChain s5.mem s2.pc [s2.pc, s0.pc] = true := by
    simp only [isChain, hmM, hmL, hfM.1, hfM.2, hfL.1, hfL.2, decide_True, Bool.and_true,
      Bool.true_and, Bool.and_eq_true, decide_eq_true_eq]
    omega
  have hnd : [s2.pc, s0.pc].Nodup := by
    simp only [List.nodup_cons, List.mem_singleton, List.not_mem_nil, not_false_eq_true,
      List.nodup_nil, and_true]
    omega
  have hFU := ORG_FixLink_chain [s2.pc, s0.pc] s2.pc s5 hch hnd
  have hfixL := fixedMem_chain s5.pc [s2.pc, s0.pc] s5.mem s2.pc hch hnd s0.pc (by simp)
  have hfixM := fixedMem_chain s5.pc [s2.pc, s0.pc] s5.mem s2.pc hch hnd s2.pc (by simp)
  rw [hmL, hfL.1] at hfixL
  rw [hmM, hfM.1] at hfixM
  refine ⟨_, _, s2, _, s2, _, _, s5, _, hA1, hE1, hA2, hCF, hE2, hFU, rfl, ?_, rfl, ?_, ?_,
    ?_, ?_⟩
  · rw [hE1pc]
  · rw [hE2pc]
  · intro i hi
    have hi' : (i : Int) < qcode.length := by exact_mod_cast hi
    have hother : ∀ a ∈ [s2.pc, s0.pc], a.toNat ≠ (s0.pc + 1 + i).toNat := by
      intro a ha
      simp only [List.mem_cons, List.mem_singleton, List.not_mem_nil, or_false] at ha
      rcases ha with rfl | rfl <;> omega
    simp only
    rw [fixedMem_other s5.pc _ _ s5.mem hother, hE2lo _ (by omega),
      Function.update_noteq (by omega)]
    exact hE1hi i hi
  · intro vm hmem hvpc
    have hw : vm.mem vm.pc.toNat
        = wordF3 kOpBc (Negated p.r) ((s5.pc - vm.pc - 1) % 16777216) := by
      rw [hmem, hvpc]; exact hfixL
    have hrun := run_branch vm (Negated p.r) s5.pc hnp (by omega) (by omega) hw
    rw [IsTrue_Negated vm p.r (Or.inl hpr)] at hrun
    cases hT : IsTrue vm p.r
    · obtain ⟨vm', h1, h2, _⟩ := hrun.1 (by simp [hT])
      exact ⟨vm', h1, by simp [h2]⟩
    · obtain ⟨vm', h1, h2, _⟩ := hrun.2 (by simp [hT])
      exact ⟨vm', h1, by simp [h2, hvpc]⟩
  · intro vm hmem hvpc
    have hw : vm.mem vm.pc.toNat
        = wordF3 kOpBc (Negated q.r) ((s5.pc - vm.pc - 1) % 16777216) := by
      rw [hmem, hvpc]; exact hfixM
    have hrun := run_branch vm (Negated q.r) s5.pc hnq (by omega) (by omega) hw
    rw [IsTrue_Negated vm q.r (Or.inl hqr)] at hrun
    cases hT : IsTrue vm q.r
    · obtain ⟨vm', h1, h2, _⟩ := hrun.1 (by simp [hT])
      exact ⟨vm', h1, by simp [h2]⟩
    · obtain ⟨vm', h1, h2, _⟩ := hrun.2 (by simp [hT])
      exact ⟨vm', h1, by simp [h2, hvpc]⟩

/-- The code of `p OR q` followed by a conditional jump and its fix-up. -/
theorem or_code_runs (p q : item_t) (s0 : CG) (qcode body : List Int)
    (hp : p.mode = .kModeCond ∧ p.a = 0 ∧ p.b = 0) (hpr : isRelCond p.r)
    (hq : q.mode = .kModeCond ∧ q.a = 0 ∧ q.b = 0) (hqr : isRelCond q.r)
    (hpc : 1 ≤ s0.pc) (hsz : s0.pc + qcode.length + body.length + 2 ≤ 1024) :
    ∃ x1 s1 s2 x2 s3 x3 s4 s5 s6,
      ORG_Or1 p s0 = some (x1, s1) ∧ emitAll qcode s1 = some s2 ∧
      ORG_Or2 x1 q s2 = some (x2, s3) ∧ ORG_CFJump x2 s3 = some (x3, s4) ∧
      emitAll body s4 = some s5 ∧ ORG_Fixup x3 s5 = some s6 ∧
      s1.pc = s0.pc + 1 ∧ s3.pc = s0.pc + 1 + qcode.length ∧ s4.pc = s3.pc + 1 ∧
      s5.pc = s4.pc + body.length ∧
      (∀ (i : Nat) (hi : i < qcode.length),
        s6.mem (s0.pc + 1 + i).toNat = wrap32 (qcode.get ⟨i, hi⟩)) ∧
      (∀ vm : VM, vm.mem = s6.mem → vm.pc = s0.pc →
        ∃ vm', step vm = some vm' ∧
          vm'.pc = (if IsTrue vm p.r then s4.pc else s0.pc + 1)) ∧
      (∀ vm : VM, vm.mem = s6.mem → vm.pc = s3.pc →
        ∃ vm', step vm = some vm' ∧
          vm'.pc = (if IsTrue vm q.r then s4.pc else s5.pc)) := by
  obtain ⟨hp1, hp2, hp3⟩ := hp
  obtain ⟨hq1, hq2, hq3⟩ := hq
  have hrp := isRelCond_bounds p.r hpr
  have hrq := isRelCond_bounds q.r hqr
  have hnq := Negated_bounds q.r hrq
  have hlq : (0 : Int) ≤ qcode.length := Int.natCast_nonneg _
  have hlb : (0 : Int) ≤ body.length := Int.natCast_nonneg _
  -- Or1
  have hP1 := Put3_eq kOpBc p.r 0 s0 (by simp [kOpBc]) hrp (by omega)
  simp only [Int.zero_emod] at hP1
  have hO1 : ORG_Or1 p s0 = some ({ p with b := s0.pc, a := 0 },
      { s0 with
        mem := (Function.update s0.mem s0.pc.toNat (wordF3 kOpBc p.r 0))
        pc := s0.pc + 1 }) := by
    simp only [ORG_Or1, condOf, hp1, ne_eq, not_true_eq_false, if_false, Option.some_bind,
      hp2, hP1, hp3, ORG_FixLink_zero, add_sub_cancel_right]
  -- code(q)
  obtain ⟨s2, hE1, hE1pc, hE1lo, hE1hi⟩ := emitAll_spec qcode
    { s0 with
      mem := (Function.update s0.mem s0.pc.toNat (wordF3 kOpBc p.r 0))
      pc := s0.pc + 1 } (by simp only; omega) (by simp only; omega)
  simp only at hE1pc hE1lo hE1hi
  -- Or2
  have hO2 : ORG_Or2 { p with b := s0.pc, a := 0 } q s2
      = some ({ p with a := 0, b := s0.pc, r := q.r }, s2) := by
    have hne : s0.pc ≠ 0 := by omega
    simp [ORG_Or2, condOf, hp1, hq1, hq2, hq3, Merged, hne]
  -- CFJump: the jump on the negated condition of q, then the T-chain
  have hP2 := Put3_eq kOpBc (Negated q.r) 0 s2 (by simp [kOpBc]) hnq (by omega)
  simp only [Int.zero_emod] at hP2
  have hfL : fieldA (wordF3 kOpBc p.r 0) = p.r ∧ wordF3 kOpBc p.r 0 % 262144 = 0 := by
    simp only [fieldA, wordF3, kOpBc]; omega
  have hfM : fieldA (wordF3 kOpBc (Negated q.r) 0) = Negated q.r ∧
      wordF3 kOpBc (Negated q.r) 0 % 262144 = 0 := by
    simp only [fieldA, wordF3, kOpBc]; omega
  have hm3L : (Function.update s2.mem s2.pc.toNat (wordF3 kOpBc (Negated q.r) 0)) s0.pc.toNat
      = wordF3 kOpBc p.r 0 := by
    rw [Function.update_noteq (by omega), hE1lo s0.pc.toNat (by omega)]
    exact Function.update_same _ _ _
  have hchL : isChain (Function.update s2.mem s2.pc.toNat (wordF3 kOpBc (Negated q.r) 0))
      s0.pc [s0.pc] = true := by
    simp only [isChain, hm3L, hfL.1, hfL.2, decide_True, Bool.and_true, Bool.true_and,
      decide_eq_true_eq]
    omega
  have hFL := ORG_FixLink_chain [s0.pc] s0.pc
    { s2 with
      mem := (Function.update s2.mem s2.pc.toNat (wordF3 kOpBc (Negated q.r) 0))
      pc := s2.pc + 1 } hchL (List.nodup_singleton _)
  have hCF : ORG_CFJump { p with a := 0, b := s0.pc, r := q.r } s2
      = some ({ p with a := s2.pc, b := s0.pc, r := q.r },
          { s2 with
            mem := (fixedMem (s2.pc + 1)
              (Function.update s2.mem s2.pc.toNat (wordF3 kOpBc (Negated q.r) 0)) [s0.pc])
            pc := s2.pc + 1 }) := by
    simp only [ORG_CFJump, condOf, hp1, ne_eq, not_true_eq_false, if_false, Option.some_bind,
      hP2, hFL, add_sub_cancel_right]
  -- body
  obtain ⟨s5, hE2, hE2pc, hE2lo, _⟩ := emitAll_spec body
    { s2 with
      mem := (fixedMem (s2.pc + 1)
        (Function.update s2.mem s2.pc.toNat (wordF3 kOpBc (Negated q.r) 0)) [s0.pc])
      pc := s2.pc + 1 } (by simp only; omega) (by simp only; omega)
  simp only at hE2pc hE2lo
  have hnat0 : ((s0.pc.toNat : Nat) : Int) = s0.pc := Int.toNat_of_nonneg (by omega)
  have hnat2 : ((s2.pc.toNat : Nat) : Int) = s2.pc := Int.toNat_of_nonneg (by omega)
  have hmM : s5.mem s2.pc.toNat = wordF3 kOpBc (Negated q.r) 0 := by
    rw [hE2lo s2.pc.toNat (by omega), fixedMem_other]
    · exact Function.update_same _ _ _
    · intro a ha
      simp only [List.mem_singleton] at ha
      subst ha
      omega
  have hmL : s5.mem s0.pc.toNat
      = wordF3 kOpBc p.r ((s2.pc + 1 - s0.pc - 1) % 16777216) := by
    rw [hE2lo s0.pc.toNat (by omega),
      fixedMem_chain (s2.pc + 1) [s0.pc] _ s0.pc hchL (List.nodup_singleton _) s0.pc (by simp),
      hm3L, hfL.1]
  have hchM : isChain s5.mem s2.pc [s2.pc] = true := by
    simp only [isChain, hmM, hfM.1, hfM.2, decide_True, Bool.and_true, Bool.true_and,
      decide_eq_true_eq]
    omega
  have hFU := ORG_FixLink_chain [s2.pc] s2.pc s5 hchM (List.nodup_singleton _)
  have hfixM := fixedMem_chain s5.pc [s2.pc] s5.mem s2.pc hchM (List.nodup_singleton _) s2.pc
    (by simp)
  rw [hmM, hfM.1] at hfixM
  have hfixL : fixedMem s5.pc s5.mem [s2.pc] s0.pc.toNat
      = wordF3 kOpBc p.r ((s2.pc + 1 - s0.pc - 1) % 16777216) := by
    rw [fixedMem_other, hmL]
    intro a ha
    simp only [List.mem_singleton] at ha
    subst ha
    omega
  refine ⟨_, _, s2, _, s2, _, _, s5, _, hO1, hE1, hO2, hCF, hE2, hFU, rfl, ?_, rfl, ?_, ?_,
    ?_, ?_⟩
  · rw [hE1pc]
  · rw [hE2pc]
  · intro i hi
    have hi' : (i : Int) < qcode.length := by exact_mod_cast hi
    simp only
    rw [fixedMem_other s5.pc _ _ s5.mem, hE2lo _ (by omega), fixedMem_other,
      Function.update_noteq (by omega)]
    · exact hE1hi i hi
    · intro a ha
      simp only [List.mem_singleton] at ha
      subst ha
      omega
    · intro a ha
      simp only [List.mem_singleton] at ha
      subst ha
      omega
  · intro vm hmem hvpc
    have hw : vm.mem vm.pc.toNat
        = wordF3 kOpBc p.r ((s2.pc + 1 - vm.pc - 1) % 16777216) := by
      rw [hmem, hvpc]; exact hfixL
    have hrun := run_branch vm p.r (s2.pc + 1) hrp (by omega) (by omega) hw
    cases hT : IsTrue vm p.r
    · obtain ⟨vm', h1, h2, _⟩ := hrun.2 hT
      exact ⟨vm', h1, by simp [h2, hvpc]⟩
    · obtain ⟨vm', h1, h2, _⟩ := hrun.1 hT
      exact ⟨vm', h1, by simp [h2]⟩
  · intro vm hmem hvpc
    have hw : vm.mem vm.pc.toNat
        = wordF3 kOpBc (Negated q.r) ((s5.pc - vm.pc - 1) % 16777216) := by
      rw [hmem, hvpc]; exact hfixM
    have hrun := run_branch vm (Negated q.r) s5.pc hnq (by omega) (by omega) hw
    rw [IsTrue_Negated vm q.r (Or.inl hqr)] at hrun
    cases hT : IsTrue vm q.r
    · obtain ⟨vm', h1, h2, _⟩ := hrun.1 (by simp [hT])
      exact ⟨vm', h1, by simp [h2]⟩
    · obtain ⟨vm', h1, h2, _⟩ := hrun.2 (by simp [hT])
      exact ⟨vm', h1, by simp [h2, hvpc]⟩

/-- C3: let `p` be an atomic condition (mode `Cond`, empty chains, relational code) and let
the straight-line code `qcode` end in the atomic condition `q`.  In the code produced by
`ORG_And1(p)`, `qcode`, `ORG_And2(p, q)`, `ORG_CFJump`, any `body`, `ORG_Fixup`, the branch
emitted for `p` is followed by `qcode`, and executing it leads to `qcode` exactly when the
condition of `p` is true in the flags, and otherwise to the address at which `ORG_Fixup` was
called.  With `ORG_Or1` and `ORG_Or2` in place of `ORG_And1` and `ORG_And2` it leads to
`qcode` exactly when the condition of `p` is false, and otherwise to the address after the
conditional jump.  In both cases the conditional jump emitted for `q` leads to the fix-up
address exactly when the condition of `q` is false. -/
theorem C3_short_circuit (p q : item_t) (s0 : CG) (qcode body : List Int)
    (hp : p.mode = .kModeCond ∧ p.a = 0 ∧ p.b = 0) (hpr : isRelCond p.r)
    (hq : q.mode = .kModeCond ∧ q.a = 0 ∧ q.b = 0) (hqr : isRelCond q.r)
    (hpc : 1 ≤ s0.pc) (hsz : s0.pc + qcode.length + body.length + 2 ≤ 1024) :
    (∃ x1 s1 s2 x2 s3 x3 s4 s5 s6,
      ORG_And1 p s0 = some (x1, s1) ∧ emitAll qcode s1 = some s2 ∧
      ORG_And2 x1 q s2 = some (x2, s3) ∧ ORG_CFJump x2 s3 = some (x3, s4) ∧
      emitAll body s4 = some s5 ∧ ORG_Fixup x3 s5 = some s6 ∧
      s1.pc = s0.pc + 1 ∧ s3.pc = s0.pc + 1 + qcode.length ∧ s4.pc = s3.pc + 1 ∧
      s5.pc = s4.pc + body.length ∧
      (∀ (i : Nat) (hi : i < qcode.length),
        s6.mem (s0.pc + 1 + i).toNat = wrap32 (qcode.get ⟨i, hi⟩)) ∧
      (∀ vm : VM, vm.mem = s6.mem → vm.pc = s0.pc →
        ∃ vm', step vm = some vm' ∧
          vm'.pc = (if IsTrue vm p.r then s0.pc + 1 else s5.pc)) ∧
      (∀ vm : VM, vm.mem = s6.mem → vm.pc = s3.pc →
        ∃ vm', step vm = some vm' ∧
          vm'.pc = (if IsTrue vm q.r then s4.pc else s5.pc))) ∧
    (∃ x1 s1 s2 x2 s3 x3 s4 s5 s6,
      ORG_Or1 p s0 = some (x1, s1) ∧ emitAll qcode s1 = some s2 ∧
      ORG_Or2 x1 q s2 = some (x2, s3) ∧ ORG_CFJump x2 s3 = some (x3, s4) ∧
      emitAll body s4 = some s5 ∧ ORG_Fixup x3 s5 = some s6 ∧
      s1.pc = s0.pc + 1 ∧ s3.pc = s0.pc + 1 + qcode.length ∧ s4.pc = s3.pc + 1 ∧
      s5.pc = s4.pc + body.length ∧
      (∀ (i : Nat) (hi : i < qcode.length),
        s6.mem (s0.pc + 1 + i).toNat = wrap32 (qcode.get ⟨i, hi⟩)) ∧
      (∀ vm : VM, vm.mem = s6.mem → vm.pc = s0.pc →
        ∃ vm', step vm = some vm' ∧
          vm'.pc = (if IsTrue vm p.r then s4.pc else s0.pc + 1)) ∧
      (∀ vm : VM, vm.mem = s6.mem → vm.pc = s3.pc →
        ∃ vm', step vm = some vm' ∧
          vm'.pc = (if IsTrue vm q.r then s4.pc else s5.pc))) :=
  ⟨and_code_runs p q s0 qcode body hp hpr hq hqr hpc hsz,
   or_code_runs p q s0 qcode body hp hpr hq hqr hpc hsz⟩

/-- Witness for C3: `p` is `LT`, `q` is `EQ`, the code of `q` is one `CMP R0, R1`, and the
body is one word; generation starts at address 1. -/
theorem C3_short_circuit_witness :
    ∃ x1 s1 s2 x2 s3 x3 s4 s5 s6,
      ORG_And1 (condItem kCondLT) cgStart = some (x1, s1) ∧
      emitAll [589825] s1 = some s2 ∧
      ORG_And2 x1 (condItem kCondEQ) s2 = some (x2, s3) ∧
      ORG_CFJump x2 s3 = some (x3, s4) ∧
      emitAll [0] s4 = some s5 ∧ ORG_Fixup x3 s5 = some s6 ∧
      ∀ vm : VM, vm.mem = s6.mem → vm.pc = cgStart.pc →
        ∃ vm', step vm = some vm' ∧
          vm'.pc = (if IsTrue vm (condItem kCondLT).r then cgStart.pc + 1 else s5.pc) := by
  obtain ⟨x1, s1, s2, x2, s3, x3, s4, s5, s6, h1, h2, h3, h4, h5, h6, _, _, _, _, _, h12, _⟩ :=
    (C3_short_circuit (condItem kCondLT) (condItem kCondEQ) cgStart [589825] [0]
      ⟨rfl, rfl, rfl⟩ (Or.inr (Or.inr (Or.inl rfl))) ⟨rfl, rfl, rfl⟩ (Or.inl rfl)
      (by decide) (by decide)).1
  exact ⟨x1, s1, s2, x2, s3, x3, s4, s5, s6, h1, h2, h3, h4, h5, h6, h12⟩

/-! ### Comparison flags (C1) -/

theorem execAlu_sub (s : VM) (ir b n : Int) :
    execAlu s ir kOpSub b n =
      some (wrap32 (b - n),
        { s with flagV := decide ((b < 0 ∧ 0 ≤ n ∧ 0 ≤ wrap32 (b - n)) ∨
                                  (0 ≤ b ∧ n < 0 ∧ wrap32 (b - n) < 0)) }) := by
  unfold execAlu
  simp only [kOpSub, kOpMov, kOpRor, kOpLsl, kOpAsr, kOpAnd, kOpAnn, kOpIor, kOpXor, kOpAdd]
  norm_num
  by_cases h1 : b < 0 ∧ 0 ≤ n ∧ 0 ≤ wrap32 (b - n)
  · simp [h1]
  · by_cases h2 : 0 ≤ b ∧ n < 0 ∧ wrap32 (b - n) < 0
    · have h3 : ¬ b < 0 := by omega
      simp [h2, h3]
    · have e1 : (decide (b < 0) && (decide (0 ≤ n) && decide (0 ≤ wrap32 (b - n)))) = false := by
        simpa using h1
      have e2 : (decide (0 ≤ b) && (decide (n < 0) && decide (wrap32 (b - n) < 0))) = false := by
        simpa using h2
      simp only [h1, h2, if_false, e1, e2, Bool.or_self]

/-- C1: for signed 32-bit operands `b` and `n`, after the interpreter executes a SUB/CMP
instruction (either register format) the destination holds `b - n` modulo 2^32 and the branch
condition that `g_relmap` assigns to each of the six relations holds exactly when the
relation holds between the integers `b` and `n`, overflow of `b - n` included. -/
theorem C1_cmp_flags_decide_relations (s : VM) (b n : Int)
    (hpc : 0 ≤ s.pc ∧ s.pc < 1024)
    (hfmt : insnMsb (s.mem s.pc.toNat) = false)
    (hop : fieldOp (s.mem s.pc.toNat) = kOpCmp)
    (hb : operandB s (s.mem s.pc.toNat) = b)
    (hn : operandN s (s.mem s.pc.toNat) = n)
    (hbr : -2147483648 ≤ b ∧ b < 2147483648)
    (hnr : -2147483648 ≤ n ∧ n < 2147483648) :
    ∃ s', step s = some s' ∧ s'.pc = s.pc + 1 ∧
      s'.reg (fieldA (s.mem s.pc.toNat)).toNat = wrap32 (b - n) ∧
      (∃ c, relmapAt kSymEql = some c ∧ (IsTrue s' c = true ↔ b = n)) ∧
      (∃ c, relmapAt kSymNeq = some c ∧ (IsTrue s' c = true ↔ b ≠ n)) ∧
      (∃ c, relmapAt kSymLss = some c ∧ (IsTrue s' c = true ↔ b < n)) ∧
      (∃ c, relmapAt kSymLeq = some c ∧ (IsTrue s' c = true ↔ b ≤ n)) ∧
      (∃ c, relmapAt kSymGtr = some c ∧ (IsTrue s' c = true ↔ b > n)) ∧
      (∃ c, relmapAt kSymGeq = some c ∧ (IsTrue s' c = true ↔ b ≥ n)) := by
  have hb' : operandB { s with ir := s.mem s.pc.toNat, pc := s.pc + 1 } (s.mem s.pc.toNat) = b := hb
  have hn' : operandN { s with ir := s.mem s.pc.toNat, pc := s.pc + 1 } (s.mem s.pc.toNat) = n := hn
  have hlo : ¬ (s.pc < 0 ∨ kMemSz / 4 ≤ s.pc) := by
    simp only [kMemSz]; omega
  have hcmp : kOpCmp = kOpSub := rfl
  simp only [step, hlo, if_false, hfmt, hop, hb', hn', Bool.not_false, Bool.true_or, if_true,
    hcmp, execAlu_sub]
  clear hb hn hb' hn' hlo hcmp hop hfmt hpc
  refine ⟨_, rfl, rfl, ?_, ⟨kCondEQ, rfl, ?_⟩, ⟨kCondNE, rfl, ?_⟩, ⟨kCondLT, rfl, ?_⟩,
    ⟨kCondLE, rfl, ?_⟩, ⟨kCondGT, rfl, ?_⟩, ⟨kCondGE, rfl, ?_⟩⟩
  · simp [setNZ, wrap32]
  all_goals
    simp only [IsTrue, setNZ, kCondEQ, kCondNE, kCondLT, kCondLE, kCondGT, kCondGE, kCondTrue,
      kCondMI, kCondVS, kCondPL, kCondVC]
    norm_num
    by_cases hN : wrap32 (b - n) < 0 <;> by_cases hb0 : b < 0 <;> by_cases hn0 : n < 0 <;>
      (try simp [hN, hb0, hn0, not_lt.mp, le_of_lt]) <;> unfold wrap32 at * <;> omega

/-- Witness for C1: `CMP R0, R1` with `R0 = -2^31`, `R1 = 1`. -/
theorem C1_cmp_flags_witness :
    ∃ s', step vmCmpOverflow = some s' ∧ s'.pc = vmCmpOverflow.pc + 1 ∧
      s'.reg (fieldA (vmCmpOverflow.mem vmCmpOverflow.pc.toNat)).toNat
        = wrap32 (-2147483648 - 1) ∧
      (∃ c, relmapAt kSymEql = some c ∧ (IsTrue s' c = true ↔ (-2147483648 : Int) = 1)) ∧
      (∃ c, relmapAt kSymNeq = some c ∧ (IsTrue s' c = true ↔ (-2147483648 : Int) ≠ 1)) ∧
      (∃ c, relmapAt kSymLss = some c ∧ (IsTrue s' c = true ↔ (-2147483648 : Int) < 1)) ∧
      (∃ c, relmapAt kSymLeq = some c ∧ (IsTrue s' c = true ↔ (-2147483648 : Int) ≤ 1)) ∧
      (∃ c, relmapAt kSymGtr = some c ∧ (IsTrue s' c = true ↔ (-2147483648 : Int) > 1)) ∧
      (∃ c, relmapAt kSymGeq = some c ∧ (IsTrue s' c = true ↔ (-2147483648 : Int) ≥ 1)) :=
  C1_cmp_flags_decide_relations vmCmpOverflow (-2147483648) 1 (by decide) (by decide)
    (by decide) (by decide) (by decide) (by decide) (by decide)

/-! ### Declarations in a scope (C11) -/

theorem findInScope_some (id : String) (sc : List object_t)
    (h : ∃ o ∈ sc, o.name = id) :
    ∃ pre it post, sc = pre ++ it :: post ∧ it.name = id ∧ (∀ o ∈ pre, o.name ≠ id) ∧
      findInScope id sc = some it := by
  induction sc with
  | nil => obtain ⟨o, ho, _⟩ := h; cases ho
  | cons o rest ih =>
    by_cases hn : o.name = id
    · refine ⟨[], o, rest, rfl, hn, ?_, ?_⟩
      · intro p hp; cases hp
      · simp [findInScope, hn]
    · have h' : ∃ o ∈ rest, o.name = id := by
        obtain ⟨p, hp, hpn⟩ := h
        rcases List.mem_cons.mp hp with rfl | hp'
        · exact absurd hpn hn
        · exact ⟨p, hp', hpn⟩
      obtain ⟨pre, it, post, hsc, hit, hpre, hf⟩ := ih h'
      refine ⟨o :: pre, it, post, by rw [hsc]; rfl, hit, ?_, by simp [findInScope, hn, hf]⟩
      intro p hp
      rcases List.mem_cons.mp hp with rfl | hp'
      · exact hn
      · exact hpre p hp'

/-- C11: let `sc` be the current scope and `rest` the enclosing scopes.  If `sc` holds an
object named `id`, `ORB_New` reports "mult def" (the error count grows by one), returns the
first such object of `sc`, and leaves every scope as it was.  Otherwise, whatever the enclosing
scopes declare, it returns a new object named `id` with the given class, the type `g_no_type`
and `rdo = false`, and the current scope becomes `sc` followed by the new object; nothing is
reported. -/
theorem C11_new_reports_duplicates (raw : object_t) (id : String) (tag : class_t) (t : SymTab)
    (sc : List object_t) (rest : List (List object_t)) (ht : t.top_scope = sc :: rest) :
    ((∃ o ∈ sc, o.name = id) →
      ∃ pre it post t', sc = pre ++ it :: post ∧ it.name = id ∧ (∀ o ∈ pre, o.name ≠ id) ∧
        ORB_New raw id tag t = some (it, t') ∧ t'.top_scope = t.top_scope ∧
        t'.diag.errcnt = t.diag.errcnt + 1 ∧ t'.diag.marks = t.diag.marks ++ ["mult def"]) ∧
    ((∀ o ∈ sc, o.name ≠ id) →
      ∃ new t', ORB_New raw id tag t = some (new, t') ∧
        new.name = id ∧ new.tag = tag ∧ new.type = g_no_type ∧ new.rdo = false ∧
        t'.top_scope = (sc ++ [new]) :: rest ∧ t'.diag = t.diag) := by
  constructor
  · intro h
    obtain ⟨pre, it, post, hsc, hit, hpre, hf⟩ := findInScope_some id sc h
    refine ⟨pre, it, post, { t with diag := ORS_Mark "mult def" t.diag }, hsc, hit, hpre, ?_,
      rfl, rfl, rfl⟩
    simp only [ORB_New, ht, hf]
  · intro h
    have hf := findInScope_none id sc h
    refine ⟨object_t.mk id tag g_no_type [] raw.level raw.expo false raw.val,
      { t with top_scope :=
          (sc ++ [object_t.mk id tag g_no_type [] raw.level raw.expo false raw.val]) :: rest },
      ?_, rfl, rfl, rfl, rfl, rfl, rfl⟩
    simp only [ORB_New, ht, hf]

/-- Witness for C11: `INTEGER` is declared in the universe but not in the empty module scope
on top of it, so a declaration of `INTEGER` in the module scope is not a duplicate. -/
theorem C11_new_witness :
    ∃ new t', ORB_New (object_t.mk "" .kObjHead g_no_type [] 0 false false 0) "INTEGER"
          .kObjVar tabDemo = some (new, t') ∧
      new.name = "INTEGER" ∧ new.tag = .kObjVar ∧ new.type = g_no_type ∧ new.rdo = false ∧
      t'.top_scope = ([] ++ [new]) ::
        [[object_t.mk "INTEGER" .kObjType g_int_type [] 0 false false 0]] ∧
      t'.diag = tabDemo.diag :=
  (C11_new_reports_duplicates (object_t.mk "" .kObjHead g_no_type [] 0 false false 0) "INTEGER"
    .kObjVar tabDemo [] [[object_t.mk "INTEGER" .kObjType g_int_type [] 0 false false 0]]
    rfl).2 (fun _ h => by cases h)

/-! ### Byte and word access to memory (C16) -/

/-- C16, the code at the failing input: the word at byte address 400 holds `0x000000FF`, and
the byte 0 is stored to address 400.  The byte load that follows returns 255 and not 0: the
store has or-ed the new byte into the old one.  Storing `0x0F` over the byte `0xF0` gives
`0xFF`.  A byte stored into a zero byte (`0xAB` into byte 1 of `0x11220044`) is read back and
the other bytes of the word are kept; a word store followed by a word load returns the stored
word. -/
theorem C16_byte_store_keeps_old_bits :
    (stepN 2 (storeLoadVM byteStoreLoadCode 255 400 0)).map (fun vm => (vm.reg 2, vm.mem 100))
      = some (255, 255) ∧
    (stepN 2 (storeLoadVM byteStoreLoadCode 240 400 15)).map (fun vm => (vm.reg 2, vm.mem 100))
      = some (255, 255) ∧
    (stepN 2 (storeLoadVM byteStoreLoadCode 287440964 401 171)).map
        (fun vm => (vm.reg 2, vm.mem 100)) = some (171, 287484740) ∧
    (stepN 2 (storeLoadVM wordStoreLoadCode 287454020 400 (-5))).map
        (fun vm => (vm.reg 2, vm.mem 100)) = some (-5, -5) := by
  decide

/-! ### Condition codes (C17) -/

/-- For every condition code `c` in 0..15 other than the four carry-based codes 2 (CS),
4 (LS), 10 (CC) and 12 (HI), `IsTrue(c)` is the negation of `IsTrue((c + 8) mod 16)` in every
flag state; `IsTrue` is false for each of the four carry-based codes in every flag state.
`IsTrue(7)` holds in every flag state and `IsTrue(15)` in none.  `Negated(c)` is
`(c + 8) mod 16`, and `Negated(Negated(c)) = c`. -/
theorem IsTrue_pairs_without_carry (s : VM) (c : Int) (hc : 0 ≤ c ∧ c ≤ 15) :
    (c ≠ kCondCS ∧ c ≠ kCondLS ∧ c ≠ kCondCC ∧ c ≠ kCondHI →
      IsTrue s c = !IsTrue s ((c + 8) % 16)) ∧
    (c = kCondCS ∨ c = kCondLS ∨ c = kCondCC ∨ c = kCondHI → IsTrue s c = false) ∧
    IsTrue s kCondTrue = true ∧ IsTrue s kCondFalse = false ∧
    Negated c = (c + 8) % 16 ∧ Negated (Negated c) = c := by
  obtain ⟨h0, h15⟩ := hc
  refine ⟨?_, ?_, ?_, ?_, ?_, ?_⟩
  · intro hne
    simp only [kCondCS, kCondLS, kCondCC, kCondHI] at hne
    interval_cases c <;>
      first
      | (exfalso; omega)
      | (simp [IsTrue, kCondTrue, kCondMI, kCondEQ, kCondVS, kCondLT, kCondLE, kCondPL, kCondNE,
          kCondVC, kCondGE, kCondGT]
         try (cases s.flagN <;> cases s.flagZ <;> cases s.flagV <;> rfl))
  · intro h
    simp only [kCondCS, kCondLS, kCondCC, kCondHI] at h
    rcases h with h | h | h | h <;> subst h <;>
      simp [IsTrue, kCondTrue, kCondMI, kCondEQ, kCondVS, kCondLT, kCondLE, kCondPL, kCondNE,
        kCondVC, kCondGE, kCondGT]
  · simp [IsTrue]
  · simp [IsTrue, kCondTrue, kCondMI, kCondEQ, kCondVS, kCondLT, kCondLE, kCondPL, kCondNE,
      kCondVC, kCondGE, kCondGT, kCondFalse]
  · unfold Negated; split <;> omega
  · unfold Negated; split <;> split <;> omega

/-! ### Multiplication (C18) -/

/-- The `MUL` case of the interpreter: the result is the product reduced to 32 bits, and `H`
is 0 or -1 according to the sign of that 32-bit result. -/
theorem execAlu_mul (s : VM) (ir b n : Int) :
    execAlu s ir kOpMul b n =
      some (wrap32 (b * n), { s with h := if wrap32 (b * n) < 0 then -1 else 0 }) := by
  have hv : wrap32 (wrap32 (b * n) / 4294967296 % 4294967296) =
      if wrap32 (b * n) < 0 then -1 else 0 := by
    generalize b * n = p
    unfold wrap32
    split <;> omega
  simp only [execAlu, kOpMul, kOpMov, kOpRor, kOpLsl, kOpAsr, kOpAnd, kOpAnn, kOpIor, kOpXor,
    kOpAdd, kOpSub, hv]
  simp

/-- C18, the code at the failing input: `MUL` on `b = n = 65536`.  The product is 2^32:
its low 32 bits are 0 and its high 32 bits are 1.  The interpreter leaves 0 in the
destination and 0 in `H`.  On `b = 65536`, `n = 32768` (product 2^31) it leaves `-1` in `H`
where the high 32 bits are 0. -/
theorem C18_mul_high_word_lost :
    (step (vmMul 65536 65536)).map (fun s => (s.reg 0, s.h)) = some (0, 0) ∧
    (65536 : Int) * 65536 = 1 * 4294967296 + 0 ∧
    (step (vmMul 65536 32768)).map (fun s => (s.reg 0, s.h)) = some (-2147483648, -1) ∧
    (65536 : Int) * 32768 = 0 * 4294967296 + 2147483648 := by
  decide

/-! ### PC-relative branches (C19) -/

/-- Execution of a PC-relative branch (`BC` or `BL`) whose condition holds: the offset is
the sign extension of the low 16 bits of the offset field, and `BL` stores `4 * (pc + 1)` in
`LNK`. -/
theorem step_branch_taken (vm : VM) (op cond off : Int) (hop : op = kOpBc ∨ op = kOpBl)
    (hcond : 0 ≤ cond ∧ cond ≤ 15) (hoff : 0 ≤ off ∧ off < 16777216)
    (hpc : 0 ≤ vm.pc ∧ vm.pc < 1024) (hw : vm.mem vm.pc.toNat = wordF3 op cond off)
    (hT : IsTrue vm cond = true) :
    step vm =
      some { vm with
        ir := wordF3 op cond off
        pc := vm.pc + 1 + asr (shl off 16) 16
        reg := if op = kOpBl then Function.update vm.reg 15 ((vm.pc + 1) * 4) else vm.reg } := by
  have hpc' : ¬ (vm.pc < 0 ∨ kMemSz / 4 ≤ vm.pc) := by simp only [kMemSz]; omega
  have hlnk : wrap32 ((vm.pc + 1) * 4) = (vm.pc + 1) * 4 := by unfold wrap32; omega
  rcases hop with h | h
  · subst h
    obtain ⟨h1, h2, h3, h4, h5, h6⟩ := decodeF3 kOpBc cond off (by decide) hcond hoff
    have hu : insnU (wordF3 kOpBc cond off) = true := by rw [h3]; decide
    have hv : insnV (wordF3 kOpBc cond off) = false := by rw [h4]; decide
    have hT' : IsTrue { vm with ir := wordF3 kOpBc cond off, pc := vm.pc + 1 } cond = true := hT
    have hne : ¬ kOpBc = kOpBl := by decide
    simp only [step, hpc', if_false, hw, h1, h2, h5, h6, hu, hv, hT', Bool.not_true,
      Bool.or_self, Bool.false_eq_true, if_true, hne]
  · subst h
    obtain ⟨h1, h2, h3, h4, h5, h6⟩ := decodeF3 kOpBl cond off (by decide) hcond hoff
    have hu : insnU (wordF3 kOpBl cond off) = true := by rw [h3]; decide
    have hv : insnV (wordF3 kOpBl cond off) = true := by rw [h4]; decide
    have hT' : IsTrue { vm with ir := wordF3 kOpBl cond off, pc := vm.pc + 1 } cond = true := hT
    have h15 : kRegLNK.toNat = 15 := rfl
    simp only [step, hpc', if_false, hw, h1, h2, h5, h6, hu, hv, hT', Bool.not_true,
      Bool.or_self, Bool.false_eq_true, if_true, h15, hlnk]

theorem stepN_succ (k : Nat) (s s1 : VM) (h : step s = some s1) :
    stepN (k + 1) s = stepN k s1 := by
  simp only [stepN, h, Option.some_bind]

/-! ### Console input and output, and the instructions without a result -/

/-- The bound on the passes of the loop of `WriteStr` is never the reason for a missing
result: once the bound exceeds the number of bytes from the current one to the end of `g_mem`,
a larger bound gives the same result. -/
theorem writeStrLoop_fuel : ∀ (fuel : Nat) (base i : Int) (s : VM) (extra : Nat),
    0 ≤ i → i < 32 → i % 8 = 0 → 4 * (1024 - base) - i / 8 < fuel →
    writeStrLoop (fuel + extra) base i s = writeStrLoop fuel base i s := by
  intro fuel
  induction fuel with
  | zero =>
    intro base i s extra h0 h32 h8 hm
    cases extra with
    | zero => rfl
    | succ e =>
      have hb : base < 0 ∨ kMemSz / 4 ≤ base := by
        right; simp only [kMemSz]; push_cast at hm; omega
      simp only [Nat.zero_add, writeStrLoop, hb, if_true]
  | succ fuel ih =>
    intro base i s extra h0 h32 h8 hm
    have he : fuel + 1 + extra = (fuel + extra) + 1 := by omega
    rw [he]
    simp only [writeStrLoop]
    split
    · rfl
    · split
      · rfl
      · split
        · by_cases h : i + 8 = 32
          · simp only [h, if_true]
            exact ih _ _ _ _ (le_refl _) (by norm_num) (by norm_num) (by push_cast at hm; omega)
          · simp only [h, if_false]
            exact ih _ _ _ _ (by omega) (by omega) (by omega) (by push_cast at hm; omega)
        · rfl

/-- The bound in `WriteStr` suffices. -/
theorem WriteStr_fuel (a : Int) (s : VM) (extra : Nat) :
    writeStrLoop (kMemSz.toNat + 1 + extra) (Int.tdiv (s.reg a.toNat) 4) 0 s = WriteStr a s := by
  unfold WriteStr
  by_cases hb : Int.tdiv (s.reg a.toNat) 4 < 0
  · have he : kMemSz.toNat + 1 + extra = (kMemSz.toNat + extra) + 1 := by omega
    rw [he, writeStrLoop, if_pos (Or.inl hb), writeStrLoop, if_pos (Or.inl hb)]
  · exact writeStrLoop_fuel _ _ _ _ _ (le_refl _) (by norm_num) (by norm_num)
      (by simp only [kMemSz]; push_cast; norm_num; omega)

/-- The loop of `TypeDecl` sets the base of the first entry of `g_pbs_list` that carries the
name of the record and of no other entry: the entries behind it are not visited. -/
theorem fixForward_first (name : String) (type : Nat) (pre post : List ptrBase_t)
    (it : ptrBase_t) (heap : Nat → type_cell) (hpre : ∀ e ∈ pre, e.name ≠ name)
    (hit : it.name = name) :
    fixForward name type (pre ++ it :: post) heap =
      Function.update heap it.type { heap it.type with base := some type } := by
  induction pre with
  | nil => simp [fixForward, hit]
  | cons e pre ih =>
    have hne : ¬ name = e.name := fun h => hpre e (List.mem_cons_self _ _) h.symm
    simp only [List.cons_append, fixForward, hne, if_false]
    exact ih (fun e' he' => hpre e' (List.mem_cons_of_mem _ he'))

/-- C12, the code at the failing input: in
`TYPE P1 = POINTER TO R; P2 = POINTER TO R; R = RECORD END;` the types are allocated at the
addresses 100 (`P1`), 101 (`P2`) and 102 (`R`).  After the section the base of `P2` is `R`,
the base of `P1` is still the placeholder `INTEGER`, and `Declarations` reports "undefined
pointer base" although `R` is declared.  With a single pointer type the reference is
resolved and nothing is reported; a reference to a record that is never declared is
reported. -/
theorem C12_second_forward_reference_unresolved :
    (Declarations twoPointersOneRecord parserStart).map
        (fun p => ((p.heap 100).base, (p.heap 101).base, (p.heap 102).tag, p.diag.marks))
      = some (some g_int_type.addr, some 102, .kTypeRecord, ["undefined pointer base"]) ∧
    (Declarations [("P1", .pointerTo "R"), ("R", .emptyRecord)] parserStart).map
        (fun p => ((p.heap 100).base, (p.heap 101).tag, p.diag.marks))
      = some (some 101, .kTypeRecord, []) ∧
    (Declarations [("P1", .pointerTo "R")] parserStart).map
        (fun p => ((p.heap 100).base, p.diag.marks))
      = some (some g_int_type.addr, ["undefined pointer base"]) := by
  decide!

/-! ### The scanner: identifiers and reserved words (C13) -/

theorem reads_cons (s inp1 : Input) (c : Int) (cs : List Int)
    (h : reads s (c :: cs) = some inp1) :
    ∃ s1, Consume s = some s1 ∧ s1.ch = c ∧ reads s1 cs = some inp1 := by
  simp only [reads] at h
  cases hc : Consume s with
  | none => rw [hc] at h; cases h
  | some s1 =>
    rw [hc, Option.some_bind] at h
    by_cases hch : s1.ch = c
    · rw [if_pos hch] at h; exact ⟨s1, rfl, hch, h⟩
    · rw [if_neg hch] at h; cases h

/-- One pass of the loop of `Identifier` that stores the current character at index
`i < 31`. -/
theorem identLoop_store (fuel i : Nat) (s : Scanner) (s1 : Input) (l d : Bool) (hi : i < 31)
    (hc : Consume s.inp = some s1) (hl : IsLetter s1.ch = some l) (hd : IsDigit s1.ch = some d) :
    identLoop (fuel + 1) (i : Int) s =
      if l || d then
        identLoop fuel ((i + 1 : Nat) : Int)
          { s with inp := s1, id := Function.update s.id i (toChar s.inp.ch) }
      else some (((i + 1 : Nat) : Int),
          { s with inp := s1, id := Function.update s.id i (toChar s.inp.ch) }) := by
  have h31 : (i : Int) < kIdLen - 1 := by simp only [kIdLen]; omega
  simp only [identLoop, h31, if_true, Scanner.consume, hc, Option.map_some', Option.some_bind,
    hl, hd, Int.toNat_ofNat, Nat.cast_add, Nat.cast_one]

/-- One pass of the loop of `Identifier` that drops the current character, 31 characters
being stored. -/
theorem identLoop_drop (fuel i : Nat) (s : Scanner) (s1 : Input) (l d : Bool) (hi : 31 ≤ i)
    (hc : Consume s.inp = some s1) (hl : IsLetter s1.ch = some l) (hd : IsDigit s1.ch = some d) :
    identLoop (fuel + 1) (i : Int) s =
      if l || d then identLoop fuel (i : Int) { s with inp := s1 }
      else some ((i : Int), { s with inp := s1 }) := by
  have h31 : ¬ (i : Int) < kIdLen - 1 := by simp only [kIdLen]; omega
  simp only [identLoop, h31, if_false, Scanner.consume, hc, Option.map_some', Option.some_bind,
    hl, hd]

theorem letter_or_digit (c : Int) (h : IsLetter c = some true ∨ IsDigit c = some true) :
    ∃ l d, IsLetter c = some l ∧ IsDigit c = some d ∧ (l || d) = true := by
  cases ht : traits c with
  | none => simp [IsLetter, IsDigit, ht] at h
  | some t =>
    refine ⟨decide (t / kLetter % 2 = 1), decide (t / kDigit % 2 = 1), ?_, ?_, ?_⟩
    · simp [IsLetter, ht]
    · simp [IsDigit, ht]
    · simp only [IsLetter, IsDigit, ht, Option.map_some', Option.some.injEq] at h
      rcases h with h | h <;> simp [h]

/-- The loop of `Identifier` on the characters `cur :: rest` followed by `f`: all of them are
consumed, those that fit below index 31 are stored from index `i` on, and the entries of
`g_id` below `i` are kept. -/
theorem identLoop_run : ∀ (rest : List Int) (cur : Int) (fuel i : Nat) (s : Scanner)
    (f : Int) (inp1 : Input), rest.length + 1 ≤ fuel → i ≤ 31 → s.inp.ch = cur →
    (∀ c ∈ rest, IsLetter c = some true ∨ IsDigit c = some true) →
    IsLetter f = some false → IsDigit f = some false →
    reads s.inp (rest ++ [f]) = some inp1 →
    ∃ idf : Nat → Int,
      identLoop fuel (i : Int) s =
        some (((min (i + (rest.length + 1)) 31 : Nat) : Int), { s with inp := inp1, id := idf }) ∧
      (∀ j : Nat, j < i → idf j = s.id j) ∧
      (∀ k : Nat, k < rest.length + 1 → i + k < 31 →
        idf (i + k) = toChar ((cur :: rest).getD k 0)) := by
  intro rest
  induction rest with
  | nil =>
    intro cur fuel i s f inp1 hfuel hi hcur _ hfl hfd hr
    obtain ⟨s1, hc, hch, hr1⟩ := reads_cons s.inp inp1 f [] hr
    simp only [reads, Option.some.injEq] at hr1
    subst hr1
    obtain ⟨fuel, rfl⟩ : ∃ m, fuel = m + 1 := ⟨fuel - 1, by simp at hfuel; omega⟩
    rw [← hch] at hfl hfd
    by_cases h31 : i < 31
    · refine ⟨Function.update s.id i (toChar s.inp.ch), ?_, ?_, ?_⟩
      · rw [identLoop_store fuel i s s1 false false h31 hc hfl hfd]
        have hm : min (i + (([] : List Int).length + 1)) 31 = i + 1 := by
          simp only [List.length_nil]; omega
        simp only [Bool.or_self, Bool.false_eq_true, if_false, hm]
      · intro j hj
        rw [Function.update_noteq (by omega)]
      · intro k hk _
        have hk0 : k = 0 := by simpa using hk
        subst hk0
        simp only [Nat.add_zero, Function.update_same, List.getD_cons_zero, hcur]
    · refine ⟨s.id, ?_, fun _ _ => rfl, ?_⟩
      · rw [identLoop_drop fuel i s s1 false false (by omega) hc hfl hfd]
        have hm : min (i + (([] : List Int).length + 1)) 31 = i := by
          simp only [List.length_nil]; omega
        simp only [Bool.or_self, Bool.false_eq_true, if_false, hm]
      · intro k _ hk; omega
  | cons c rest ih =>
    intro cur fuel i s f inp1 hfuel hi hcur hrest hfl hfd hr
    obtain ⟨s1, hc, hch, hr1⟩ := reads_cons s.inp inp1 c (rest ++ [f]) hr
    obtain ⟨fuel, rfl⟩ : ∃ m, fuel = m + 1 := ⟨fuel - 1, by simp at hfuel; omega⟩
    have hfuel' : rest.length + 1 ≤ fuel := by simp at hfuel; omega
    have hrest' : ∀ c' ∈ rest, IsLetter c' = some true ∨ IsDigit c' = some true :=
      fun c' hc' => hrest c' (List.mem_cons_of_mem _ hc')
    obtain ⟨l, d, hl, hd, hld⟩ := letter_or_digit c (hrest c (List.mem_cons_self _ _))
    rw [← hch] at hl hd
    by_cases h31 : i < 31
    · obtain ⟨idf, hrun, hkeep, hnew⟩ := ih c fuel (i + 1)
        { s with inp := s1, id := Function.update s.id i (toChar s.inp.ch) } f inp1
        hfuel' (by omega) hch hrest' hfl hfd hr1
      refine ⟨idf, ?_, ?_, ?_⟩
      · rw [identLoop_store fuel i s s1 l d h31 hc hl hd, hld, if_pos rfl, hrun]
        have hm : min (i + 1 + (rest.length + 1)) 31 = min (i + ((c :: rest).length + 1)) 31 := by
          simp only [List.length_cons]; omega
        rw [hm]
      · intro j hj
        rw [hkeep j (by omega)]
        exact Function.update_noteq (by omega) _ _
      · intro k hk hk31
        rcases Nat.eq_zero_or_pos k with h0 | hpos
        · subst h0
          rw [Nat.add_zero, hkeep i (by omega)]
          simp only [Function.update_same, List.getD_cons_zero, hcur]
        · obtain ⟨k', rfl⟩ : ∃ k', k = k' + 1 := ⟨k - 1, by omega⟩
          have := hnew k' (by simp only [List.length_cons] at hk; omega) (by omega)
          have he : i + (k' + 1) = i + 1 + k' := by omega
          rw [he, this]
          simp only [List.getD_cons_succ]
    · have hi31 : i = 31 := by omega
      obtain ⟨idf, hrun, hkeep, hnew⟩ := ih c fuel i { s with inp := s1 } f inp1
        hfuel' hi hch hrest' hfl hfd hr1
      refine ⟨idf, ?_, hkeep, ?_⟩
      · rw [identLoop_drop fuel i s s1 l d (by omega) hc hl hd, hld, if_pos rfl, hrun]
        have hm : min (i + (rest.length + 1)) 31 = min (i + ((c :: rest).length + 1)) 31 := by
          simp only [List.length_cons]; omega
        rw [hm]
      · intro k _ hk; omega

theorem reads_last : ∀ (cs : List Int) (s inp1 : Input) (f : Int),
    reads s (cs ++ [f]) = some inp1 → inp1.ch = f := by
  intro cs
  induction cs with
  | nil =>
    intro s inp1 f h
    obtain ⟨s1, _, hch, hr⟩ := reads_cons s inp1 f [] h
    simp only [reads, Option.some.injEq] at hr
    rw [← hr]; exact hch
  | cons c cs ih =>
    intro s inp1 f h
    obtain ⟨s1, _, _, hr⟩ := reads_cons s inp1 c (cs ++ [f]) h
    exact ih s1 inp1 f hr

/-- A character with a defined trait is an ASCII character. -/
theorem traits_range (c : Int) (t : Nat) (h : traits c = some t) : 0 ≤ c ∧ c < 128 := by
  unfold traits at h
  by_cases hc : 0 ≤ c ∧ c < 128
  · exact hc
  · rw [if_neg hc] at h; cases h

/-- Letters and digits are ASCII characters other than NUL. -/
theorem letter_digit_range (c : Int) (h : IsLetter c = some true ∨ IsDigit c = some true) :
    0 < c ∧ c < 128 := by
  have h0 : IsLetter 0 = some false ∧ IsDigit 0 = some false := by decide
  have hne : c ≠ 0 := by
    rintro rfl
    rcases h with h | h
    · rw [h0.1] at h; cases h
    · rw [h0.2] at h; cases h
  cases ht : traits c with
  | none => simp [IsLetter, IsDigit, ht] at h
  | some t =>
    have := traits_range c t ht
    omega

/-- The C string in a buffer that holds the non-zero ASCII characters `w` from index `i` on,
followed by NUL. -/
theorem cstring_eq : ∀ (w : List Int) (buf : Nat → Int) (fuel i : Nat), w.length < fuel →
    (∀ k : Nat, k < w.length → buf (i + k) = w.getD k 0) → buf (i + w.length) = 0 →
    (∀ c ∈ w, 0 < c ∧ c < 128) → cstring buf fuel i = w := by
  intro w
  induction w with
  | nil =>
    intro buf fuel i hf _ h0 _
    obtain ⟨fuel, rfl⟩ : ∃ m, fuel = m + 1 := ⟨fuel - 1, by simp at hf; omega⟩
    simp only [List.length_nil, Nat.add_zero] at h0
    simp only [cstring, h0, if_true]
  | cons c w ih =>
    intro buf fuel i hf hw h0 hc
    obtain ⟨fuel, rfl⟩ : ∃ m, fuel = m + 1 := ⟨fuel - 1, by simp at hf; omega⟩
    have hci : buf i = c := by simpa using hw 0 (by simp)
    have hcr := hc c (List.mem_cons_self _ _)
    have hne : ¬ buf i = 0 := by rw [hci]; omega
    have hmod : buf i % 256 = c := by rw [hci]; omega
    have hrec := ih buf fuel (i + 1) (by simp at hf; omega)
      (fun k hk => by
        have := hw (k + 1) (by simp only [List.length_cons]; omega)
        simp only [List.getD_cons_succ] at this
        rw [← this]; congr 1; omega)
      (by rw [← h0]; congr 1; simp only [List.length_cons]; omega)
      (fun c' hc' => hc c' (List.mem_cons_of_mem _ hc'))
    simp only [cstring, hne, if_false, hmod, hrec]

/-- The binary search returns only an index within the bounds whose entry compares equal to
the key. -/
theorem bsearchLoop_sound (cmp : Nat → Int) : ∀ (fuel l u idx : Nat),
    bsearchLoop cmp fuel l u = some idx → l ≤ idx ∧ idx < u ∧ cmp idx = 0 := by
  intro fuel
  induction fuel with
  | zero => intro l u idx h; simp [bsearchLoop] at h
  | succ fuel ih =>
    intro l u idx h
    simp only [bsearchLoop] at h
    by_cases hlu : l < u
    · simp only [hlu, if_true] at h
      by_cases h1 : cmp ((l + u) / 2) < 0
      · simp only [h1, if_true] at h
        have := ih l ((l + u) / 2) idx h
        omega
      · simp only [h1, if_false] at h
        by_cases h2 : cmp ((l + u) / 2) > 0
        · simp only [h2, if_true] at h
          have := ih ((l + u) / 2 + 1) u idx h
          omega
        · simp only [h2, if_false, Option.some.injEq] at h
          subst h
          refine ⟨by omega, by omega, by omega⟩
    · simp only [hlu, if_false] at h; cases h

/-- Two C strings that `strcmp` finds equal have the same characters. -/
theorem strcmp_eq_zero : ∀ (a b : List Int), (∀ c ∈ a, c ≠ 0) → (∀ c ∈ b, c ≠ 0) →
    strcmp a b = 0 → a = b := by
  intro a
  induction a with
  | nil =>
    intro b _ hb h
    cases b with
    | nil => rfl
    | cons k ks =>
      simp only [strcmp] at h
      exact absurd (by omega) (hb k (List.mem_cons_self _ _))
  | cons c cs ih =>
    intro b ha hb h
    cases b with
    | nil =>
      simp only [strcmp] at h
      exact absurd (by omega) (ha c (List.mem_cons_self _ _))
    | cons k ks =>
      simp only [strcmp] at h
      by_cases hck : c = k
      · rw [if_pos hck] at h
        rw [hck, ih ks (fun c' hc' => ha c' (List.mem_cons_of_mem _ hc'))
          (fun c' hc' => hb c' (List.mem_cons_of_mem _ hc')) h]
      · rw [if_neg hck] at h
        exact absurd (by omega) hck

/-- The reserved words: each has fewer than 31 characters, none of them NUL, the table is
strictly ascending under `strcmp`, and the binary search for a reserved word finds its
index. -/
theorem keytab_facts : ∀ i : Nat, i < 33 →
    (keyword i).length < 31 ∧ (∀ c ∈ keyword i, 0 < c ∧ c < 128) ∧
    (∀ j : Nat, j < 33 → i < j → strcmp (keyword i) (keyword j) < 0) ∧
    bsearchLoop (fun idx => strcmp (keyword i) (keyword idx)) 34 0 33 = some i := by
  decide!

/-- Every character of a reserved word is a letter of the table `g_traits`, so the reserved
words are identifiers for the loop of `Identifier`. -/
theorem keyword_letters : ∀ i : Nat, i < 33 → ∀ c ∈ keyword i, IsLetter c = some true := by
  decide!

/-- A call of `Consume` on a character other than a line break reads `g_line[g_cc]` and
changes nothing but `g_ch` and `g_cc`. -/
theorem Consume_same_line (s s1 : Input) (h : Consume s = some s1) (hnl : s.ch ≠ 10) :
    0 ≤ s.cc ∧ s.cc ≤ 256 ∧ s1 = { s with ch := s.line s.cc.toNat, cc := s.cc + 1 } := by
  unfold Consume at h
  by_cases he : s.ch = kEOF
  · rw [if_pos he] at h; cases h
  · rw [if_neg he] at h
    simp only [hnl, if_false] at h
    by_cases hcc : s.cc < 0 ∨ 256 < s.cc
    · rw [if_pos hcc] at h; cases h
    · rw [if_neg hcc, Option.some.injEq] at h
      exact ⟨by omega, by omega, h.symm⟩

/-- Characters other than line breaks are read from one line: at most 257 calls of `Consume`
succeed in a row. -/
theorem reads_bound : ∀ (cs : List Int) (s inp1 : Input) (f : Int),
    reads s (cs ++ [f]) = some inp1 → s.ch ≠ 10 → (∀ c ∈ cs, c ≠ 10) →
    0 ≤ s.cc ∧ s.cc + cs.length + 1 ≤ 257 := by
  intro cs
  induction cs with
  | nil =>
    intro s inp1 f h hnl _
    obtain ⟨s1, hc, _, _⟩ := reads_cons s inp1 f [] h
    obtain ⟨h0, h256, _⟩ := Consume_same_line s s1 hc hnl
    simp only [List.length_nil, Nat.cast_zero]
    omega
  | cons c cs ih =>
    intro s inp1 f h hnl hcs
    obtain ⟨s1, hc, hch, hr⟩ := reads_cons s inp1 c (cs ++ [f]) h
    obtain ⟨h0, h256, hs1⟩ := Consume_same_line s s1 hc hnl
    have hc10 : s1.ch ≠ 10 := by rw [hch]; exact hcs c (List.mem_cons_self _ _)
    have := ih s1 inp1 f hr hc10 (fun c' hc' => hcs c' (List.mem_cons_of_mem _ hc'))
    have hcc : s1.cc = s.cc + 1 := by rw [hs1]
    simp only [List.length_cons, Nat.cast_add, Nat.cast_one]
    omega

/-- C13: the table `g_keytab_id` is strictly ascending under `strcmp` and aligned with
`g_keytab_sym` as the list of reserved words and their tokens.  In a state in which the
current character is the letter `cur` and `Consume` delivers the letters and digits `rest`
and then a character `f` that is neither, `Identifier` consumes all characters of the
identifier `cur :: rest` (the current character becomes `f`), leaves its first
`min(length, 31)` characters in `g_id`, followed by NUL, returns the token of the table for a
reserved word, and returns `kSymIdent` for an identifier that is not a reserved word. -/
theorem C13_identifier_and_keywords (s : Scanner) (cur : Int) (rest : List Int) (f : Int)
    (inp1 : Input) (hcur : s.inp.ch = cur) (hl : IsLetter cur = some true)
    (hrest : ∀ c ∈ rest, IsLetter c = some true ∨ IsDigit c = some true)
    (hf : IsLetter f = some false ∧ IsDigit f = some false)
    (hr : reads s.inp (rest ++ [f]) = some inp1) :
    (∀ i j : Nat, i < j → j < 33 → strcmp (keyword i) (keyword j) < 0) ∧
    g_keytab_id.zip g_keytab_sym = specKeywords ∧
    ∃ sym s', Identifier s = some (sym, s') ∧ s'.inp = inp1 ∧ s'.inp.ch = f ∧
      (∀ k : Nat, k < min (rest.length + 1) 31 → s'.id k = (cur :: rest).getD k 0) ∧
      s'.id (min (rest.length + 1) 31) = 0 ∧
      (∀ i : Nat, i < 33 → cur :: rest = keyword i → sym = g_keytab_sym.getD i 0) ∧
      ((∀ i : Nat, i < 33 → cur :: rest ≠ keyword i) → sym = kSymIdent) := by
  refine ⟨fun i j hij hj => (keytab_facts i (by omega)).2.2.1 j hj hij, by decide, ?_⟩
  obtain ⟨idf, hrun, _, hnew⟩ := identLoop_run rest cur 258 0 s f inp1
    (by
      have h10 : IsLetter 10 = some false ∧ IsDigit 10 = some false := by decide
      have hb := reads_bound rest s.inp inp1 f hr
        (by
          rw [hcur]; rintro rfl
          rw [h10.1] at hl; cases hl)
        (by
          rintro c hc rfl
          rcases hrest 10 hc with h | h
          · rw [h10.1] at h; cases h
          · rw [h10.2] at h; cases h)
      omega) (by omega) hcur hrest hf.1 hf.2 hr
  have hchars : ∀ c ∈ cur :: rest, 0 < c ∧ c < 128 := by
    intro c hc
    rcases List.mem_cons.mp hc with rfl | hc'
    · exact letter_digit_range c (Or.inl hl)
    · exact letter_digit_range c (hrest c hc')
  have hget : ∀ k : Nat, k < rest.length + 1 → 0 < (cur :: rest).getD k 0 ∧
      (cur :: rest).getD k 0 < 128 := by
    intro k hk
    have hk' : k < (cur :: rest).length := by simpa using hk
    rw [List.getD_eq_getElem _ _ hk']
    exact hchars _ (List.getElem_mem _)
  have hm0 : min (0 + (rest.length + 1)) 31 = min (rest.length + 1) 31 := by omega
  rw [hm0] at hrun
  have hid : ∀ k : Nat, k < min (rest.length + 1) 31 →
      Function.update idf (min (rest.length + 1) 31) 0 k = (cur :: rest).getD k 0 := by
    intro k hk
    rw [Function.update_noteq (by omega)]
    have h1 := hnew k (by omega) (by omega)
    rw [Nat.zero_add] at h1
    rw [h1]
    have := hget k (by omega)
    unfold toChar; omega
  have hkey : cstring (Function.update idf (min (rest.length + 1) 31) 0) 32 0 =
      (cur :: rest).take (min (rest.length + 1) 31) := by
    have hlen : ((cur :: rest).take (min (rest.length + 1) 31)).length
        = min (rest.length + 1) 31 := by
      simp only [List.length_take, List.length_cons]; omega
    apply cstring_eq
    · rw [hlen]; omega
    · intro k hk
      rw [hlen] at hk
      rw [Nat.zero_add, hid k hk]
      rw [List.getD_eq_getElem?_getD, List.getD_eq_getElem?_getD, List.getElem?_take_of_lt hk]
    · rw [hlen, Nat.zero_add, Function.update_same]
    · intro c hc
      exact hchars c (List.mem_of_mem_take hc)
  have hl' : ¬ IsLetter s.inp.ch ≠ some true := by rw [hcur]; simpa using hl
  have hrun' : identLoop 258 0 s = some (((min (rest.length + 1) 31 : Nat) : Int),
      { s with inp := inp1, id := idf }) := by
    have := hrun
    simpa using this
  have hkw : keywordIndex (Function.update idf (min (rest.length + 1) 31) 0) =
      bsearchLoop (fun idx =>
        strcmp ((cur :: rest).take (min (rest.length + 1) 31)) (keyword idx)) 34 0 33 := by
    simp only [keywordIndex, hkey, keyword]
  have htake : ∀ i : Nat, i < 33 →
      (cur :: rest).take (min (rest.length + 1) 31) = keyword i → cur :: rest = keyword i := by
    intro i hi h
    have hlen := congrArg List.length h
    have hk31 := (keytab_facts i hi).1
    simp only [List.length_take, List.length_cons] at hlen
    have hmin : min (rest.length + 1) 31 = rest.length + 1 := by omega
    rw [hmin] at h
    rw [← h, List.take_of_length_le (by simp)]
  have hfull : ∀ i : Nat, i < 33 → cur :: rest = keyword i →
      (cur :: rest).take (min (rest.length + 1) 31) = keyword i := by
    intro i hi h
    have hlen := congrArg List.length h
    have hk31 := (keytab_facts i hi).1
    simp only [List.length_cons] at hlen
    have hmin : min (rest.length + 1) 31 = rest.length + 1 := by omega
    rw [hmin, List.take_of_length_le (by simp)]
    exact h
  have hinp : inp1.ch = f := reads_last rest s.inp inp1 f hr
  cases hk : keywordIndex (Function.update idf (min (rest.length + 1) 31) 0) with
  | none =>
    have hI : Identifier s = some (kSymIdent,
        { s with inp := inp1, id := Function.update idf (min (rest.length + 1) 31) 0 }) := by
      simp only [Identifier, hl', if_false, hrun', Option.some_bind, Int.toNat_ofNat, hk]
    refine ⟨kSymIdent, _, hI, rfl, hinp, hid, Function.update_same _ _ _, ?_, fun _ => rfl⟩
    intro i hi ht
    exfalso
    rw [hkw, hfull i hi ht, (keytab_facts i hi).2.2.2] at hk
    cases hk
  | some idx =>
    have hk0 := hk
    rw [hkw] at hk
    obtain ⟨_, hidx, hcmp⟩ := bsearchLoop_sound _ 34 0 33 idx hk
    have heq := strcmp_eq_zero _ _
      (fun c hc => by have := hchars c (List.mem_of_mem_take hc); omega)
      (fun c hc => by have := (keytab_facts idx hidx).2.1 c hc; omega) hcmp
    have ht := htake idx hidx heq
    have hsym : g_keytab_sym.get? idx = some (g_keytab_sym.getD idx 0) := by
      have hlen : idx < g_keytab_sym.length := by
        have : g_keytab_sym.length = 33 := rfl
        omega
      rw [List.getD_eq_getElem _ _ hlen, List.get?_eq_getElem?, List.getElem?_eq_getElem hlen]
    have hI : Identifier s = some (g_keytab_sym.getD idx 0,
        { s with inp := inp1, id := Function.update idf (min (rest.length + 1) 31) 0 }) := by
      simp only [Identifier, hl', if_false, hrun', Option.some_bind, Int.toNat_ofNat, hk0, hsym,
        Option.map_some']
    refine ⟨_, _, hI, rfl, hinp, hid, Function.update_same _ _ _, ?_, ?_⟩
    · intro i hi hti
      have h1 := (keytab_facts i hi).2.2.2
      rw [← hfull i hi hti, hk, Option.some.injEq] at h1
      rw [h1]
    · intro hnone
      exact absurd ht (hnone idx hidx)

/-- Witness for C13: on the source line `BEGIN x` the scanner delivers the token of the
reserved word `BEGIN` and stops at the blank. -/
theorem C13_identifier_witness :
    ∃ sym s', Identifier (scannerOn textBegin) = some (sym, s') ∧ s'.inp.ch = 32 ∧
      sym = kSymBegin := by
  have h : (reads (scannerOn textBegin).inp ([69, 71, 73, 78] ++ [32])).isSome = true := by
    decide
  obtain ⟨sym, s', hI, _, hch, _, _, hkw, _⟩ :=
    (C13_identifier_and_keywords (scannerOn textBegin) 66 [69, 71, 73, 78] 32
      ((reads (scannerOn textBegin).inp ([69, 71, 73, 78] ++ [32])).get h)
      (by decide) (by decide) (by decide) (by decide) (Option.some_get h).symm).2.2
  exact ⟨sym, s', hI, hch, hkw 1 (by decide) (by decide)⟩

/-! ### The scanner: decimal numbers (C14) -/

/-- One pass of the first loop of `Number` that stores the current digit at index
`n < 16`. -/
theorem digitLoop_store (fuel n : Nat) (s : Scanner) (s1 : Input) (h : Bool) (hn : n < 16)
    (hc : Consume s.inp = some s1) (hh : IsHexDigit s1.ch = some h) :
    digitLoop (fuel + 1) (n : Int) s =
      if h then
        digitLoop fuel ((n + 1 : Nat) : Int)
          { s with inp := s1, buff := Function.update s.buff n (s.inp.ch - 48) }
      else some (((n + 1 : Nat) : Int),
          { s with inp := s1, buff := Function.update s.buff n (s.inp.ch - 48) }) := by
  have h16 : (n : Int) < 16 := by omega
  simp only [digitLoop, h16, if_true, Scanner.consume, hc, Option.map_some', Option.some_bind,
    hh, Int.toNat_ofNat, Nat.cast_add, Nat.cast_one]

/-- The first loop of `Number` on the hexadecimal digits `cur :: rest` followed by `f`, when
they fit into `buff`: all of them are consumed and stored from index `n` on. -/
theorem digitLoop_run : ∀ (rest : List Int) (cur : Int) (fuel n : Nat) (s : Scanner)
    (f : Int) (inp1 : Input), rest.length + 1 ≤ fuel → n + rest.length + 1 ≤ 16 →
    s.inp.ch = cur → (∀ c ∈ rest, IsHexDigit c = some true) → IsHexDigit f = some false →
    reads s.inp (rest ++ [f]) = some inp1 →
    ∃ bf : Nat → Int,
      digitLoop fuel (n : Int) s =
        some (((n + rest.length + 1 : Nat) : Int), { s with inp := inp1, buff := bf }) ∧
      (∀ k : Nat, k < rest.length + 1 → bf (n + k) = (cur :: rest).getD k 0 - 48) ∧
      (∀ j : Nat, j < n → bf j = s.buff j) := by
  intro rest
  induction rest with
  | nil =>
    intro cur fuel n s f inp1 hfuel hn hcur _ hfh hr
    obtain ⟨s1, hc, hch, hr1⟩ := reads_cons s.inp inp1 f [] hr
    simp only [reads, Option.some.injEq] at hr1
    subst hr1
    obtain ⟨fuel, rfl⟩ : ∃ m, fuel = m + 1 := ⟨fuel - 1, by simp at hfuel; omega⟩
    rw [← hch] at hfh
    refine ⟨Function.update s.buff n (s.inp.ch - 48), ?_, ?_, ?_⟩
    · rw [digitLoop_store fuel n s s1 false (by simp at hn; omega) hc hfh]
      simp only [Bool.false_eq_true, if_false, List.length_nil, Nat.add_zero]
    · intro k hk
      have hk0 : k = 0 := by simpa using hk
      subst hk0
      simp only [Nat.add_zero, Function.update_same, List.getD_cons_zero, hcur]
    · intro j hj
      exact Function.update_noteq (by omega) _ _
  | cons c rest ih =>
    intro cur fuel n s f inp1 hfuel hn hcur hrest hfh hr
    obtain ⟨s1, hc, hch, hr1⟩ := reads_cons s.inp inp1 c (rest ++ [f]) hr
    obtain ⟨fuel, rfl⟩ : ∃ m, fuel = m + 1 := ⟨fuel - 1, by simp at hfuel; omega⟩
    have hfuel' : rest.length + 1 ≤ fuel := by simp at hfuel; omega
    have hn' : n + 1 + rest.length + 1 ≤ 16 := by simp only [List.length_cons] at hn; omega
    have hch' : IsHexDigit s1.ch = some true := by
      rw [hch]; exact hrest c (List.mem_cons_self _ _)
    obtain ⟨bf, hrun, hnew, hkeep⟩ := ih c fuel (n + 1)
      { s with inp := s1, buff := Function.update s.buff n (s.inp.ch - 48) } f inp1
      hfuel' hn' hch (fun c' hc' => hrest c' (List.mem_cons_of_mem _ hc')) hfh hr1
    refine ⟨bf, ?_, ?_, ?_⟩
    · rw [digitLoop_store fuel n s s1 true (by omega) hc hch', if_pos rfl, hrun]
      have hm : n + 1 + rest.length + 1 = n + (c :: rest).length + 1 := by
        simp only [List.length_cons]; omega
      rw [hm]
    · intro k hk
      rcases Nat.eq_zero_or_pos k with h0 | hpos
      · subst h0
        rw [Nat.add_zero, hkeep n (by omega)]
        simp only [Function.update_same, List.getD_cons_zero, hcur]
      · obtain ⟨k', rfl⟩ : ∃ k', k = k' + 1 := ⟨k - 1, by omega⟩
        have := hnew k' (by simp only [List.length_cons] at hk; omega)
        have he : n + (k' + 1) = n + 1 + k' := by omega
        rw [he, this]
        simp only [List.getD_cons_succ]
    · intro j hj
      rw [hkeep j (by omega)]
      exact Function.update_noteq (by omega) _ _

/-- Appending digits to a non-negative number does not make it smaller. -/
theorem foldl_digits_ge : ∀ (ds : List Int) (a : Int), 0 ≤ a → (∀ d ∈ ds, 0 ≤ d ∧ d ≤ 9) →
    a ≤ ds.foldl (fun a d => a * 10 + d) a := by
  intro ds
  induction ds with
  | nil => intro a _ _; exact le_refl _
  | cons d ds ih =>
    intro a ha hd
    have hd0 := hd d (List.mem_cons_self _ _)
    have := ih (a * 10 + d) (by omega) (fun d' hd' => hd d' (List.mem_cons_of_mem _ hd'))
    simp only [List.foldl_cons]
    omega

/-- One pass of the decimal loop of `Number` on the digit `d` at index `i`: the test
`sum <= (INT_MAX - d) / 10` holds exactly when `sum * 10 + d` fits. -/
theorem decLoop_step (buff : Nat → Int) (n : Int) (fuel i : Nat) (sum : Int) (inp : Input)
    (hi : i < 16) (hd : 0 ≤ buff i ∧ buff i ≤ 9) (hs : 0 ≤ sum ∧ sum ≤ 2147483647) :
    decLoop buff n (fuel + 1) (i : Int) sum inp =
      if sum * 10 + buff i ≤ 2147483647 then
        if ((i + 1 : Nat) : Int) ≠ n then
          decLoop buff n fuel ((i + 1 : Nat) : Int) (sum * 10 + buff i) inp
        else some (sum * 10 + buff i, inp)
      else
        if ((i + 1 : Nat) : Int) ≠ n then
          decLoop buff n fuel ((i + 1 : Nat) : Int) 0 (inp.mark "too large")
        else some (0, inp.mark "too large") := by
  have hi' : ¬ ((i : Int) < 0 ∨ 16 ≤ (i : Int)) := by omega
  have hd10 : buff i < 10 := by omega
  have ht : Int.tdiv (2147483647 - buff i) 10 = (2147483647 - buff i) / 10 :=
    Int.tdiv_eq_ediv (by omega) (by norm_num)
  by_cases hfit : sum * 10 + buff i ≤ 2147483647
  · have h1 : sum ≤ (2147483647 - buff i) / 10 := by omega
    have h2 : ¬ (sum * 10 + buff i < -2147483648 ∨ 2147483647 < sum * 10 + buff i) := by omega
    simp only [decLoop, hi', if_false, Int.toNat_ofNat, hd10, if_true, ht, h1, h2,
      Option.some_bind, hfit, Nat.cast_add, Nat.cast_one]
  · have h1 : ¬ sum ≤ (2147483647 - buff i) / 10 := by omega
    simp only [decLoop, hi', if_false, Int.toNat_ofNat, hd10, if_true, ht, h1,
      Option.some_bind, hfit, Nat.cast_add, Nat.cast_one]

/-- The decimal loop of `Number` on the digits `ds` held in `buff[i .. n-1]`, entered with
`sum`: it returns a sum within the `int` range and only adds diagnostics; when the value of
the digits appended to `sum` fits, it returns that value and reports nothing; when it does
not fit, "too large" is reported. -/
theorem decLoop_run (buff : Nat → Int) (n : Nat) (hn : n ≤ 16) :
    ∀ (ds : List Int) (i fuel : Nat) (sum : Int) (inp : Input), ds ≠ [] →
      i + ds.length = n → ds.length ≤ fuel → (∀ k : Nat, k < ds.length → buff (i + k) = ds.getD k 0) →
      (∀ d ∈ ds, 0 ≤ d ∧ d ≤ 9) → 0 ≤ sum ∧ sum ≤ 2147483647 →
      ∃ sum' diag', decLoop buff (n : Int) fuel (i : Int) sum inp =
          some (sum', { inp with diag := diag' }) ∧
        0 ≤ sum' ∧ sum' ≤ 2147483647 ∧
        (∀ m ∈ inp.diag.marks, m ∈ diag'.marks) ∧ inp.diag.errcnt ≤ diag'.errcnt ∧
        (ds.foldl (fun a d => a * 10 + d) sum ≤ 2147483647 →
          sum' = ds.foldl (fun a d => a * 10 + d) sum ∧ diag' = inp.diag) ∧
        (2147483647 < ds.foldl (fun a d => a * 10 + d) sum →
          "too large" ∈ diag'.marks ∧ inp.diag.errcnt < diag'.errcnt) := by
  intro ds
  induction ds with
  | nil => intro i fuel sum inp h; exact absurd rfl h
  | cons d tl ih =>
    intro i fuel sum inp _ hlen hfuel hbuf hds hsum
    obtain ⟨fuel, rfl⟩ : ∃ m, fuel = m + 1 := ⟨fuel - 1, by simp at hfuel; omega⟩
    have hbi : buff i = d := by simpa using hbuf 0 (by simp)
    have hd := hds d (List.mem_cons_self _ _)
    have hi16 : i < 16 := by simp only [List.length_cons] at hlen; omega
    have hstep := decLoop_step buff (n : Int) fuel i sum inp hi16 (by rw [hbi]; exact hd) hsum
    rw [hbi] at hstep
    have htl : ∀ d' ∈ tl, 0 ≤ d' ∧ d' ≤ 9 := fun d' hd' => hds d' (List.mem_cons_of_mem _ hd')
    have hbuf' : ∀ k : Nat, k < tl.length → buff (i + 1 + k) = tl.getD k 0 := by
      intro k hk
      have := hbuf (k + 1) (by simp only [List.length_cons]; omega)
      simp only [List.getD_cons_succ] at this
      rw [← this]; congr 1; omega
    simp only [List.foldl_cons]
    cases tl with
    | nil =>
      have hlast : ((i + 1 : Nat) : Int) = (n : Int) := by
        simp only [List.length_cons, List.length_nil] at hlen
        exact_mod_cast hlen
      simp only [hlast, ne_eq, not_true_eq_false, if_false] at hstep
      simp only [List.foldl_nil]
      by_cases hfit : sum * 10 + d ≤ 2147483647
      · rw [if_pos hfit] at hstep
        refine ⟨sum * 10 + d, inp.diag, hstep, by omega, hfit, fun m hm => hm, le_refl _,
          fun _ => ⟨rfl, rfl⟩, fun h => absurd hfit (by omega)⟩
      · rw [if_neg hfit] at hstep
        refine ⟨0, ORS_Mark "too large" inp.diag, hstep, le_refl _, by norm_num, ?_, ?_,
          fun h => absurd h hfit, fun _ => ⟨?_, ?_⟩⟩
        · intro m hm; simp only [ORS_Mark, List.mem_append]; exact Or.inl hm
        · simp only [ORS_Mark]; omega
        · simp only [ORS_Mark, List.mem_append, List.mem_singleton, or_true]
        · simp only [ORS_Mark]; omega
    | cons d2 tl2 =>
      have hmore : ((i + 1 : Nat) : Int) ≠ (n : Int) := by
        simp only [List.length_cons] at hlen
        intro h
        have : i + 1 = n := by exact_mod_cast h
        omega
      simp only [hmore, ne_eq, not_false_eq_true, if_true] at hstep
      have hlen' : i + 1 + (d2 :: tl2).length = n := by
        simp only [List.length_cons] at hlen ⊢; omega
      have hfuel' : (d2 :: tl2).length ≤ fuel := by
        simp only [List.length_cons] at hfuel ⊢; omega
      by_cases hfit : sum * 10 + d ≤ 2147483647
      · rw [if_pos hfit] at hstep
        obtain ⟨sum', diag', hrun, h0, hmax, hmk, herr, hok, hbig⟩ :=
          ih (i + 1) fuel (sum * 10 + d) inp (List.cons_ne_nil _ _) hlen' hfuel' hbuf' htl
            ⟨by omega, hfit⟩
        exact ⟨sum', diag', by rw [hstep]; exact hrun, h0, hmax, hmk, herr, hok, hbig⟩
      · rw [if_neg hfit] at hstep
        obtain ⟨sum', diag', hrun, h0, hmax, hmk, herr, _, _⟩ :=
          ih (i + 1) fuel 0 (inp.mark "too large") (List.cons_ne_nil _ _) hlen' hfuel' hbuf' htl
            ⟨le_refl _, by norm_num⟩
        have hge := foldl_digits_ge (d2 :: tl2) (sum * 10 + d) (by omega) htl
        refine ⟨sum', diag', by rw [hstep]; exact hrun, h0, hmax, ?_, ?_, ?_, fun _ => ⟨?_, ?_⟩⟩
        · intro m hm
          apply hmk
          simp only [Input.mark, ORS_Mark, List.mem_append]; exact Or.inl hm
        · simp only [Input.mark, ORS_Mark] at herr; omega
        · intro h; exfalso; omega
        · apply hmk
          simp only [Input.mark, ORS_Mark, List.mem_append, List.mem_singleton, or_true]
        · simp only [Input.mark, ORS_Mark] at herr; omega

/-- Calls of `Consume` on characters other than line breaks read no line and report
nothing. -/
theorem reads_diag : ∀ (cs : List Int) (s inp1 : Input) (f : Int),
    reads s (cs ++ [f]) = some inp1 → s.ch ≠ 10 → (∀ c ∈ cs, c ≠ 10) →
    inp1.diag = s.diag := by
  intro cs
  induction cs with
  | nil =>
    intro s inp1 f h hnl _
    obtain ⟨s1, hc, _, hr⟩ := reads_cons s inp1 f [] h
    obtain ⟨_, _, hs1⟩ := Consume_same_line s s1 hc hnl
    simp only [reads, Option.some.injEq] at hr
    rw [← hr, hs1]
  | cons c cs ih =>
    intro s inp1 f h hnl hcs
    obtain ⟨s1, hc, hch, hr⟩ := reads_cons s inp1 c (cs ++ [f]) h
    obtain ⟨_, _, hs1⟩ := Consume_same_line s s1 hc hnl
    have hc10 : s1.ch ≠ 10 := by rw [hch]; exact hcs c (List.mem_cons_self _ _)
    rw [ih s1 inp1 f hr hc10 (fun c' hc' => hcs c' (List.mem_cons_of_mem _ hc')), hs1]

/-- The decimal digits are hexadecimal digits of the table `g_traits`. -/
theorem digit_is_hex (d : Int) (h0 : 0 ≤ d) (h9 : d ≤ 9) : IsHexDigit (48 + d) = some true := by
  interval_cases d <;> decide

/-- C14: in a state in which the current character is the decimal digit `d0` and `Consume`
delivers the decimal digits `dr` (at most 16 digits in all) and then a character `f` that is
neither a hexadecimal digit nor `H`, `R` or `X`, `Number` consumes the digits and returns
`kSymInt`; no intermediate sum leaves the `int` range.  If the value `v` of the digits is at
most 2^31 - 1, `g_ival` is `v` and nothing is reported; if `v` is larger, "too large" is
reported. -/
theorem C14_decimal_number (s : Scanner) (d0 : Int) (dr : List Int) (f : Int) (inp1 : Input)
    (hd : ∀ d ∈ d0 :: dr, 0 ≤ d ∧ d ≤ 9) (hlen : dr.length + 1 ≤ 16)
    (hcur : s.inp.ch = 48 + d0)
    (hf : IsHexDigit f = some false ∧ f ≠ 72 ∧ f ≠ 82 ∧ f ≠ 88)
    (hr : reads s.inp (dr.map (fun d => 48 + d) ++ [f]) = some inp1) :
    ∃ s', Number s = some (kSymInt, s') ∧ s'.inp.ch = f ∧
      (decimalValue (d0 :: dr) ≤ 2147483647 →
        s'.ival = decimalValue (d0 :: dr) ∧ s'.inp.diag = s.inp.diag) ∧
      (2147483647 < decimalValue (d0 :: dr) →
        "too large" ∈ s'.inp.diag.marks ∧ s.inp.diag.errcnt < s'.inp.diag.errcnt) := by
  have hd0 := hd d0 (List.mem_cons_self _ _)
  have hdr : ∀ d ∈ dr, 0 ≤ d ∧ d ≤ 9 := fun d h => hd d (List.mem_cons_of_mem _ h)
  have hrest : ∀ c ∈ dr.map (fun d => 48 + d), IsHexDigit c = some true := by
    intro c hc
    obtain ⟨d, hdm, rfl⟩ := List.mem_map.mp hc
    exact digit_is_hex d (hdr d hdm).1 (hdr d hdm).2
  have hrest10 : ∀ c ∈ dr.map (fun d => 48 + d), c ≠ 10 := by
    intro c hc
    obtain ⟨d, hdm, rfl⟩ := List.mem_map.mp hc
    have := hdr d hdm
    omega
  have hlm : (dr.map (fun d => 48 + d)).length = dr.length := List.length_map _ _
  obtain ⟨bf, hrun, hnew, _⟩ := digitLoop_run (dr.map (fun d => 48 + d)) (48 + d0) 258 0 s f
    inp1 (by rw [hlm]; omega) (by rw [hlm]; omega) hcur hrest hf.1 hr
  rw [hlm] at hrun hnew
  have hch : inp1.ch = f := reads_last _ s.inp inp1 f hr
  have hdiag : inp1.diag = s.inp.diag :=
    reads_diag _ s.inp inp1 f hr (by rw [hcur]; omega) hrest10
  have hbuf : ∀ k : Nat, k < (d0 :: dr).length → bf (0 + k) = (d0 :: dr).getD k 0 := by
    intro k hk
    rw [hnew k (by simpa using hk)]
    cases k with
    | zero => simp
    | succ k =>
      have hk' : k < dr.length := by simpa using hk
      simp only [List.getD_eq_getElem?_getD, List.getElem?_cons_succ, List.getElem?_map,
        List.getElem?_eq_getElem hk', Option.map_some', Option.getD_some]
      omega
  obtain ⟨sum', diag', hdec, _, _, _, _, hok, hbig⟩ :=
    decLoop_run bf (0 + dr.length + 1) (by omega) (d0 :: dr) 0 17 0 inp1 (List.cons_ne_nil _ _)
      (by simp only [List.length_cons]; omega) (by simp only [List.length_cons]; omega) hbuf hd
      ⟨le_refl _, by norm_num⟩
  have hh : ¬ IsHexDigit s.inp.ch ≠ some true := by
    rw [hcur]; simpa using digit_is_hex d0 hd0.1 hd0.2
  have hnot : ¬ (inp1.ch = 72 ∨ inp1.ch = 82 ∨ inp1.ch = 88) := by
    rw [hch]; rintro (h | h | h)
    · exact hf.2.1 h
    · exact hf.2.2.1 h
    · exact hf.2.2.2 h
  have hrun' : digitLoop 258 0 s =
      some (((0 + dr.length + 1 : Nat) : Int), { s with inp := inp1, buff := bf }) := by
    simpa using hrun
  have hdec' : decLoop bf ((0 + dr.length + 1 : Nat) : Int) 17 0 0 inp1 =
      some (sum', { inp1 with diag := diag' }) := by
    simpa using hdec
  refine ⟨{ s with inp := { inp1 with diag := diag' }, buff := bf, ival := sum' }, ?_, hch, ?_, ?_⟩
  · simp only [Number, hh, if_false, hrun', Option.some_bind, hnot, hdec']
  · intro hv
    obtain ⟨h1, h2⟩ := hok hv
    exact ⟨h1, by rw [← hdiag]; exact h2⟩
  · intro hv
    obtain ⟨h1, h2⟩ := hbig hv
    exact ⟨h1, by rw [← hdiag]; exact h2⟩

/-- Witness for C14: the scanner on the source line `2147483647;` delivers `kSymInt` with
`g_ival = 2^31 - 1` and reports nothing. -/
theorem C14_decimal_number_witness :
    ∃ s', Number (scannerOn textMaxInt) = some (kSymInt, s') ∧ s'.inp.ch = 59 ∧
      s'.ival = 2147483647 ∧ s'.inp.diag = (scannerOn textMaxInt).inp.diag := by
  have h : (reads (scannerOn textMaxInt).inp
      ([1, 4, 7, 4, 8, 3, 6, 4, 7].map (fun d => 48 + d) ++ [59])).isSome = true := by
    decide
  obtain ⟨s', hN, hch, hok, _⟩ :=
    C14_decimal_number (scannerOn textMaxInt) 2 [1, 4, 7, 4, 8, 3, 6, 4, 7] 59
      ((reads (scannerOn textMaxInt).inp
        ([1, 4, 7, 4, 8, 3, 6, 4, 7].map (fun d => 48 + d) ++ [59])).get h)
      (by decide) (by decide) (by decide) (by decide) (Option.some_get h).symm
  have hv := hok (by decide)
  exact ⟨s', hN, hch, hv.1, hv.2⟩

/-! ### The scanner: string literals (C15) -/

theorem reads_append : ∀ (xs ys : List Int) (s r : Input),
    reads s (xs ++ ys) = some r → ∃ m, reads s xs = some m ∧ reads m ys = some r := by
  intro xs
  induction xs with
  | nil => intro ys s r h; exact ⟨s, rfl, h⟩
  | cons x xs ih =>
    intro ys s r h
    obtain ⟨s1, hc, hch, hr⟩ := reads_cons s r x (xs ++ ys) h
    obtain ⟨m, h1, h2⟩ := ih ys s1 r hr
    refine ⟨m, ?_, h2⟩
    simp only [reads, hc, Option.some_bind, hch, if_true, h1]

/-- One pass of the loop of `String` on a printable character, stored at index
`i < 255`. -/
theorem stringLoop_store (fuel i : Nat) (s : Scanner) (s1 : Input) (hi : i < 255)
    (hch : s.inp.ch ≠ kEOF ∧ s.inp.ch ≠ 34) (hp : 32 ≤ s.inp.ch ∧ s.inp.ch < 127)
    (hc : Consume s.inp = some s1) :
    stringLoop (fuel + 1) (i : Int) s =
      stringLoop fuel ((i + 1 : Nat) : Int)
        { s with inp := s1, str := Function.update s.str i s.inp.ch } := by
  have hi' : (i : Int) < kStrBufSz - 1 := by simp only [kStrBufSz]; omega
  have hp' : s.inp.ch ≥ 32 ∧ s.inp.ch < 127 := hp
  have ht : toChar s.inp.ch = s.inp.ch := by unfold toChar; omega
  simp only [stringLoop, hch, ne_eq, not_false_eq_true, and_self, if_true, hp', hi',
    Scanner.consume, hc, Option.map_some', Option.some_bind, Int.toNat_ofNat, ht,
    Nat.cast_add, Nat.cast_one]

/-- One pass of the loop of `String` on a character outside 32 .. 126, which is dropped. -/
theorem stringLoop_skip (fuel : Nat) (i : Int) (s : Scanner) (s1 : Input)
    (hch : s.inp.ch ≠ kEOF ∧ s.inp.ch ≠ 34) (hp : ¬ (32 ≤ s.inp.ch ∧ s.inp.ch < 127))
    (hc : Consume s.inp = some s1) :
    stringLoop (fuel + 1) i s = stringLoop fuel i { s with inp := s1 } := by
  have hp' : ¬ (s.inp.ch ≥ 32 ∧ s.inp.ch < 127) := hp
  simp only [stringLoop, hch, ne_eq, not_false_eq_true, and_self, if_true, hp', if_false,
    Scanner.consume, hc, Option.map_some', Option.some_bind]

/-- The loop of `String` on the rest `body` of a string body followed by the closing quote:
the characters are consumed up to the quote, the printable ones are stored from index `i` on,
and the entries of `g_str` below `i` are kept. -/
theorem stringLoop_run : ∀ (body : List Int) (c0 : Int) (rest : List Int) (i fuel : Nat)
    (s : Scanner) (inpq : Input), body ++ [34] = c0 :: rest → s.inp.ch = c0 →
    reads s.inp rest = some inpq → (∀ c ∈ body, c ≠ 34 ∧ c ≠ kEOF) →
    i + (printable body).length ≤ 255 → body.length + 1 ≤ fuel →
    ∃ sf : Nat → Int,
      stringLoop fuel (i : Int) s =
        some (((i + (printable body).length : Nat) : Int), { s with inp := inpq, str := sf }) ∧
      (∀ k : Nat, k < (printable body).length → sf (i + k) = (printable body).getD k 0) ∧
      (∀ j : Nat, j < i → sf j = s.str j) := by
  intro body
  induction body with
  | nil =>
    intro c0 rest i fuel s inpq hsplit hcur hr _ _ hfuel
    simp only [List.nil_append, List.cons.injEq] at hsplit
    obtain ⟨hc0, hrest⟩ := hsplit
    subst hrest
    simp only [reads, Option.some.injEq] at hr
    obtain ⟨fuel, rfl⟩ : ∃ m, fuel = m + 1 := ⟨fuel - 1, by simp at hfuel; omega⟩
    refine ⟨s.str, ?_, ?_, fun _ _ => rfl⟩
    · have hq : ¬ (s.inp.ch ≠ kEOF ∧ s.inp.ch ≠ 34) := by
        rw [hcur, ← hc0]; simp
      simp only [stringLoop, hq, if_false, printable, List.filter_nil, List.length_nil,
        Nat.add_zero, ← hr]
    · intro k hk; simp [printable] at hk
  | cons c body ih =>
    intro c0 rest i fuel s inpq hsplit hcur hr hbody hlen hfuel
    simp only [List.cons_append, List.cons.injEq] at hsplit
    obtain ⟨hc0, hrest⟩ := hsplit
    subst hc0
    obtain ⟨fuel, rfl⟩ : ∃ m, fuel = m + 1 := ⟨fuel - 1, by simp at hfuel; omega⟩
    have hfuel' : body.length + 1 ≤ fuel := by simp at hfuel; omega
    obtain ⟨c1, rest', hsplit'⟩ : ∃ c1 rest', body ++ [34] = c1 :: rest' := by
      cases body with
      | nil => exact ⟨34, [], rfl⟩
      | cons b bs => exact ⟨b, bs ++ [34], List.cons_append _ _ _⟩
    rw [← hrest, hsplit'] at hr
    obtain ⟨s1, hc, hch1, hr1⟩ := reads_cons s.inp inpq c1 rest' hr
    have hcb := hbody c (List.mem_cons_self _ _)
    have hch : s.inp.ch ≠ kEOF ∧ s.inp.ch ≠ 34 := by rw [hcur]; exact ⟨hcb.2, hcb.1⟩
    have hbody' : ∀ c' ∈ body, c' ≠ 34 ∧ c' ≠ kEOF :=
      fun c' hc' => hbody c' (List.mem_cons_of_mem _ hc')
    by_cases hp : 32 ≤ c ∧ c < 127
    · have hpr : printable (c :: body) = c :: printable body := by
        simp only [printable, List.filter_cons, hp, and_self, decide_True, if_true]
      rw [hpr] at hlen ⊢
      simp only [List.length_cons] at hlen ⊢
      obtain ⟨sf, hrun, hnew, hkeep⟩ := ih c1 rest' (i + 1) fuel
        { s with inp := s1, str := Function.update s.str i s.inp.ch } inpq hsplit' hch1 hr1
        hbody' (by omega) hfuel'
      refine ⟨sf, ?_, ?_, ?_⟩
      · rw [stringLoop_store fuel i s s1 (by omega) hch (by rw [hcur]; exact hp) hc, hrun]
        have he : i + 1 + (printable body).length = i + ((printable body).length + 1) := by
          omega
        rw [he]
      · intro k hk
        rcases Nat.eq_zero_or_pos k with h0 | hpos
        · subst h0
          rw [Nat.add_zero, hkeep i (by omega)]
          simp only [Function.update_same, List.getD_cons_zero, hcur]
        · obtain ⟨k', rfl⟩ : ∃ k', k = k' + 1 := ⟨k - 1, by omega⟩
          have := hnew k' (by omega)
          have he : i + (k' + 1) = i + 1 + k' := by omega
          rw [he, this]
          simp only [List.getD_cons_succ]
      · intro j hj
        rw [hkeep j (by omega)]
        exact Function.update_noteq (by omega) _ _
    · have hpr : printable (c :: body) = printable body := by
        simp only [printable, List.filter_cons, hp, decide_False, Bool.false_eq_true, if_false]
      rw [hpr] at hlen ⊢
      obtain ⟨sf, hrun, hnew, hkeep⟩ := ih c1 rest' i fuel { s with inp := s1 } inpq hsplit'
        hch1 hr1 hbody' hlen hfuel'
      refine ⟨sf, ?_, hnew, hkeep⟩
      rw [stringLoop_skip fuel i s s1 hch (by rw [hcur]; exact hp) hc, hrun]

/-- In a state in which the current character is a double quote and `Consume` delivers the
characters `body` (at most 255 of them, none a double quote or `EOF`, which is also what the
byte 0xFF reads as), the closing quote and the character `f` behind it, `String` returns
`kSymString`, consumes the literal (the current character becomes `f`) and leaves in `g_str`
exactly the characters of `body` with codes 32 .. 126, in order, followed by NUL; the other
characters are dropped, and `g_slen` is the number of stored characters plus one. -/
theorem String_literal (s : Scanner) (body : List Int) (f : Int) (inp1 : Input)
    (hq : s.inp.ch = 34) (hlen : body.length ≤ 255)
    (hbody : ∀ c ∈ body, c ≠ 34 ∧ c ≠ kEOF)
    (hr : reads s.inp (body ++ [34, f]) = some inp1) :
    ∃ s', String_ s = some (kSymString, s') ∧ s'.inp = inp1 ∧ s'.inp.ch = f ∧
      (∀ k : Nat, k < (printable body).length → s'.str k = (printable body).getD k 0) ∧
      s'.str (printable body).length = 0 ∧
      s'.slen = ((printable body).length : Int) + 1 := by
  obtain ⟨c0, rest, hsplit⟩ : ∃ c0 rest, body ++ [34] = c0 :: rest := by
    cases body with
    | nil => exact ⟨34, [], rfl⟩
    | cons b bs => exact ⟨b, bs ++ [34], List.cons_append _ _ _⟩
  have hr' : reads s.inp (c0 :: (rest ++ [f])) = some inp1 := by
    have he : body ++ [34, f] = c0 :: (rest ++ [f]) := by
      have : body ++ [34, f] = (body ++ [34]) ++ [f] := by simp
      rw [this, hsplit]; rfl
    rw [← he]; exact hr
  obtain ⟨s1, hc, hch1, hr1⟩ := reads_cons s.inp inp1 c0 (rest ++ [f]) hr'
  obtain ⟨m, hm1, hm2⟩ := reads_append rest [f] s1 inp1 hr1
  obtain ⟨s2, hc2, hch2, hr2⟩ := reads_cons m inp1 f [] hm2
  simp only [reads, Option.some.injEq] at hr2
  subst hr2
  have hpl : (printable body).length ≤ body.length := List.length_filter_le _ _
  obtain ⟨sf, hrun, hnew, _⟩ := stringLoop_run body c0 rest 0 (257 * (s.inp.file.length + 2))
    { s with inp := s1 } m hsplit hch1 hm1 hbody (by omega) (by omega)
  simp only [Nat.zero_add] at hrun hnew
  have hq' : ¬ s.inp.ch ≠ 34 := by simpa using hq
  have hrun' : stringLoop (257 * (s.inp.file.length + 2)) 0 { s with inp := s1 } =
      some (((printable body).length : Int), { s with inp := m, str := sf }) := by
    simpa using hrun
  let sr : Scanner :=
    { s with
      inp := s2
      str := Function.update sf (printable body).length 0
      slen := ((printable body).length : Int) + 1 }
  refine ⟨sr, ?_, rfl, hch2, ?_, ?_, rfl⟩
  · simp only [String_, hq', if_false, Scanner.consume, hc, Option.map_some', Option.some_bind,
      hrun', Int.toNat_ofNat, hc2]
  · intro k hk
    show Function.update sf (printable body).length 0 k = _
    rw [Function.update_noteq (by omega), hnew k hk]
  · show Function.update sf (printable body).length 0 (printable body).length = 0
    exact Function.update_same _ _ _

/-- A string literal whose body holds a line break and a tabulator, which are dropped. -/
theorem String_literal_example :
    ∃ s', String_ (scannerOn textString) = some (kSymString, s') ∧ s'.inp.ch = 59 ∧
      s'.str 0 = 97 ∧ s'.str 1 = 98 ∧ s'.str 2 = 99 ∧ s'.str 3 = 0 ∧ s'.slen = 4 := by
  have h : (reads (scannerOn textString).inp ([97, 10, 98, 9, 99] ++ [34, 59])).isSome
      = true := by
    decide
  obtain ⟨s', hS, _, hch, hstr, h0, hslen⟩ :=
    String_literal (scannerOn textString) [97, 10, 98, 9, 99] 59
      ((reads (scannerOn textString).inp ([97, 10, 98, 9, 99] ++ [34, 59])).get h)
      (by decide) (by decide) (by decide) (Option.some_get h).symm
  exact ⟨s', hS, hch, hstr 0 (by decide), hstr 1 (by decide), hstr 2 (by decide), h0, hslen⟩

/-! ### The scanner: numbers with the suffix R (C30) -/

/-- Whenever the digits of a number end before the letter `R`, `Number` enters the branch of
the hexadecimal suffixes and does not return: the assertion `g_ch == 'H'` fails (or, before
that, the sum of the digits has left the range of `int`). -/
theorem Number_suffix_R (s : Scanner) (n : Int) (s1 : Scanner)
    (hd : digitLoop 258 0 s = some (n, s1)) (hR : s1.inp.ch = 82) : Number s = none := by
  unfold Number
  split
  · rfl
  · rw [hd]
    simp only [Option.some_bind, hR]
    cases hexLoop s1.buff n 17 0 0 with
    | none => rfl
    | some sum => simp

/-- C30 (code defect): on the source text `1R;` the scanner stores the digit 1, stops before the
suffix `R` with the hexadecimal sum 1 computed, and then `Number` fails its assertion
`g_ch == 'H'` instead of returning a number token. -/
theorem C30_suffix_R_fails_assertion :
    IsHexDigit (scannerOn textSuffixR).inp.ch = some true ∧
    (digitLoop 258 0 (scannerOn textSuffixR)).map (fun r => (r.1, r.2.inp.ch, r.2.buff 0))
      = some (1, 82, 1) ∧
    (digitLoop 258 0 (scannerOn textSuffixR)).bind (fun r => hexLoop r.2.buff r.1 17 0 0)
      = some 1 ∧
    Number (scannerOn textSuffixR) = none := by
  refine ⟨by decide, by decide, by decide, ?_⟩
  have h : (Number (scannerOn textSuffixR)).isSome = false := by decide
  cases hn : Number (scannerOn textSuffixR) with
  | none => rfl
  | some r => rw [hn] at h; cases h

/-! ### Identifiers of the built-ins (C27) -/

/-- C27 (as amended): after `ORB_Init`, whatever the fields left unassigned hold, every
standard function and procedure of the universe is found by `ORB_This` as an object of its
class whose `val` is the identifier of the list, the input and output procedures under the
names `Read`, `Write` and `WriteLn`; the built-ins of `SYSTEM` are found by `ORB_ThisImport`
on the module object `SYSTEM` and not by `ORB_This`; and for every identifier the value
`id / 10` on which `StandFunc` or `StandProc` dispatches selects the case of that built-in,
`id % 10` being the expected number of parameters. -/
theorem C27_builtin_identifiers (raw : object_t) (t : SymTab) :
    (∀ p ∈ specUniverseFuncs,
      builtinOf (ORB_This p.1 (ORB_Init raw t)) = some (some (.kObjSFunc, p.2)) ∧
      StandFuncCase (standTag p.2) = some p.1 ∧
      p.2 = standTag p.2 * 10 + standArity p.2 ∧ 0 ≤ standArity p.2 ∧ standArity p.2 < 10) ∧
    (∀ p ∈ specUniverseProcs,
      builtinOf (ORB_This p.1 (ORB_Init raw t)) = some (some (.kObjSProc, p.2)) ∧
      StandProcCase (standTag p.2) = some p.1 ∧
      p.2 = standTag p.2 * 10 + standArity p.2 ∧ 0 ≤ standArity p.2 ∧ standArity p.2 < 10) ∧
    ∃ mod, ORB_This "SYSTEM" (ORB_Init raw t) = some (some mod) ∧ mod.tag = .kObjMod ∧
      (∀ p ∈ specSystemFuncs,
        builtinOf (ORB_ThisImport p.1 mod) = some (some (.kObjSFunc, p.2)) ∧
        ORB_This p.1 (ORB_Init raw t) = some none ∧
        StandFuncCase (standTag p.2) = some p.1 ∧
        p.2 = standTag p.2 * 10 + standArity p.2 ∧ 0 ≤ standArity p.2 ∧
        standArity p.2 < 10) ∧
      (∀ p ∈ specSystemProcs,
        builtinOf (ORB_ThisImport p.1 mod) = some (some (.kObjSProc, p.2)) ∧
        ORB_This p.1 (ORB_Init raw t) = some none ∧
        StandProcCase (standTag p.2) = some p.1 ∧
        p.2 = standTag p.2 * 10 + standArity p.2 ∧ 0 ≤ standArity p.2 ∧
        standArity p.2 < 10) := by
  refine ⟨?_, ?_, _, rfl, rfl, ?_, ?_⟩
  · intro p hp
    simp only [specUniverseFuncs, List.mem_cons, List.mem_singleton, List.not_mem_nil,
      or_false] at hp
    rcases hp with rfl | rfl | rfl | rfl | rfl | rfl | rfl | rfl <;>
      exact ⟨rfl, rfl, by decide, by decide, by decide⟩
  · intro p hp
    simp only [specUniverseProcs, List.mem_cons, List.mem_singleton, List.not_mem_nil,
      or_false] at hp
    rcases hp with rfl | rfl | rfl | rfl | rfl | rfl | rfl | rfl <;>
      exact ⟨rfl, rfl, by decide, by decide, by decide⟩
  · intro p hp
    simp only [specSystemFuncs, List.mem_cons, List.mem_singleton, List.not_mem_nil,
      or_false] at hp
    rcases hp with rfl | rfl | rfl | rfl | rfl | rfl <;>
      exact ⟨rfl, rfl, rfl, by decide, by decide, by decide⟩
  · intro p hp
    simp only [specSystemProcs, List.mem_cons, List.mem_singleton, List.not_mem_nil,
      or_false] at hp
    rcases hp with rfl | rfl | rfl <;>
      exact ⟨rfl, rfl, rfl, by decide, by decide, by decide⟩

/-- C27 (counterexample): the names `READ`, `WRITE` and `WRITELN` of the list are not
declared after `ORB_Init`; `ORB_This` returns the null pointer for each of them. -/
theorem C27_counterexample_upper_case_names :
    builtinOf (ORB_This "READ" (ORB_Init rawObject tabEmpty)) = some none ∧
    builtinOf (ORB_This "WRITE" (ORB_Init rawObject tabEmpty)) = some none ∧
    builtinOf (ORB_This "WRITELN" (ORB_Init rawObject tabEmpty)) = some none ∧
    ORB_This "READ" (ORB_Init rawObject tabEmpty) ≠ ORB_This "Read" (ORB_Init rawObject tabEmpty) :=
  ⟨rfl, rfl, rfl, by
    intro h
    have h2 := congrArg builtinOf h
    exact absurd h2 (by decide)⟩

/-! ### The size of an array type (C28) -/

/-- `Align` rounds a size up to the next multiple of 4, as long as `sz + 3` is an `int`. -/
theorem Align_spec (sz : Int) (h0 : 0 ≤ sz) (h1 : sz + 3 ≤ 2147483647) :
    Align sz % 4 = 0 ∧ sz ≤ Align sz ∧ Align sz < sz + 4 := by
  have hw : wrap32 (sz + 3) = sz + 3 := by unfold wrap32; omega
  unfold Align
  rw [hw]
  have h2 : Int.tdiv (sz + 3) 4 = (sz + 3) / 4 := Int.tdiv_eq_ediv (by omega) (by omega)
  rw [h2]
  omega

/-- The base of the type that `ArrayType` returns, for each form of the declaration. -/
theorem ArrayType_fields (raw : type_t) (x : item_t) (tail : array_tail) (addr : Nat)
    (d : Diag) :
    (ArrayType raw x tail addr d).1.tag = .kTypeArray ∧
    (ArrayType raw x tail addr d).1.len = x.a ∧
    (ArrayType raw x tail addr d).1.size
      = Align (wrap32 (x.a * elemSize (ArrayType raw x tail addr d).1)) := by
  cases tail <;> exact ⟨rfl, rfl, rfl⟩

/-- C28 (as amended): the array type that `ArrayType` builds from a valid constant length
`len >= 0` and an element type of size `s >= 0` has the tag of arrays, the length `len`, and
as size the product `len * s` rounded up to the next multiple of 4, whatever the size of the
element, as long as `len * s + 3` is an `int`. -/
theorem C28_array_size_always_aligned (raw : type_t) (x : item_t) (tail : array_tail)
    (addr : Nat) (d : Diag)
    (hx : x.mode = .kModeImmediate ∧ x.type.tag = .kTypeInt ∧ 0 ≤ x.a)
    (hs : 0 ≤ elemSize (ArrayType raw x tail addr d).1)
    (hfit : x.a * elemSize (ArrayType raw x tail addr d).1 + 3 ≤ 2147483647) :
    (ArrayType raw x tail addr d).1.tag = .kTypeArray ∧
    (ArrayType raw x tail addr d).1.len = x.a ∧
    (ArrayType raw x tail addr d).1.size % 4 = 0 ∧
    x.a * elemSize (ArrayType raw x tail addr d).1 ≤ (ArrayType raw x tail addr d).1.size ∧
    (ArrayType raw x tail addr d).1.size
      < x.a * elemSize (ArrayType raw x tail addr d).1 + 4 := by
  obtain ⟨h1, h2, h3⟩ := ArrayType_fields raw x tail addr d
  have hp : 0 ≤ x.a * elemSize (ArrayType raw x tail addr d).1 := mul_nonneg hx.2.2 hs
  have hw : wrap32 (x.a * elemSize (ArrayType raw x tail addr d).1)
      = x.a * elemSize (ArrayType raw x tail addr d).1 := by unfold wrap32; omega
  rw [hw] at h3
  rw [h3]
  exact ⟨h1, h2, Align_spec _ hp hfit⟩

/-- C28 (witness): `ARRAY 3, 5 OF INTEGER` has the size 60 of three elements of size 20. -/
theorem C28_array_size_witness :
    (ArrayType g_no_type (intConst 3) (.comma (intConst 5) (.ofType g_int_type)) 100
        { errcnt := 0, marks := [] }).1.size = 60 ∧
    elemSize (ArrayType g_no_type (intConst 3) (.comma (intConst 5) (.ofType g_int_type)) 100
        { errcnt := 0, marks := [] }).1 = 20 ∧
    (ArrayType g_no_type (intConst 3) (.comma (intConst 5) (.ofType g_int_type)) 100
        { errcnt := 0, marks := [] }).1.size % 4 = 0 :=
  ⟨by decide, by decide,
    (C28_array_size_always_aligned g_no_type (intConst 3)
      (.comma (intConst 5) (.ofType g_int_type)) 100 { errcnt := 0, marks := [] }
      (by decide) (by decide) (by decide)).2.2.1⟩

/-- C28 (counterexample): `ARRAY 3 OF CHAR`, three elements of one byte, is declared without
error and has the size 4, not 3. -/
theorem C28_counterexample_array_of_char :
    elemSize (ArrayType g_no_type (intConst 3) (.ofType g_char_type) 100
        { errcnt := 0, marks := [] }).1 = 1 ∧
    (ArrayType g_no_type (intConst 3) (.ofType g_char_type) 100
        { errcnt := 0, marks := [] }).1.size = 4 ∧
    (ArrayType g_no_type (intConst 3) (.ofType g_char_type) 100
        { errcnt := 0, marks := [] }).2.errcnt = 0 := by
  decide

/-! ### ABS (C22) -/

/-- C22 (code defect): `ORG_Abs` does not load its operand.  For `ABS(v)` on a global variable
it emits `CMP`, `BC GE`, `MOV`, `SUB` on register `x->r` (the level 0 of the variable, that is
R0) and leaves the item in mode `Direct`, so that the following `Load` fetches `v` unchanged:
with `v = -5` the result register holds -5.  When the operand is in a register the same four
instructions give 5. -/
theorem C22_abs_of_variable_not_loaded :
    (ORG_Abs (globalVar g_int_type 0) cgStart).map (fun r => (r.1.mode, r.1.r, r.2.pc))
      = some (.kModeDirect, 0, 5) ∧
    absVarCode.map (fun r => (r.1.mode, r.1.r, r.2.pc)) = some (.kModeReg, 0, 6) ∧
    observe (stepN 3 (globalsVM absVarCode [-5])) = some (6, -5, 0) ∧
    absRegCode.map (fun r => (r.1.mode, r.1.r, r.2.pc)) = some (.kModeReg, 0, 6) ∧
    observe (stepN 5 (globalsVM absRegCode [-5])) = some (6, 5, 0) ∧
    observe (stepN 3 (globalsVM absRegCode [5])) = some (6, 5, 0) := by
  decide!

/-! ### Shifts (C23) -/

/-- C23 (code defect): `ORG_Shift` does not load its first operand.  For `LSL(v, 1)` on a
global variable it emits `LSL R0, R0, 1` and leaves the item in mode `Direct`, so that the
following `Load` fetches `v` unchanged: with `v = 3` the result register holds 3, not 6.
With a run-time count and `v` not in a register, `Load(y)` takes R0 and `Put0` is called with
the register index `g_rh - 2 = -1`, which fails its assertion.  When the operand is in a
register, the three shifts by 1 of 3 and of -8 give 6, 1, -2^31 + 1 and -16, -4, 2^31 - 4,
and a shift by a run-time count works as well; for `ROR` by the count 0 the interpreter
evaluates `b << 32`, which is outside the defined range of the C shift operators. -/
theorem C23_shift_of_variable_not_loaded :
    (ORG_Shift 0 (globalVar g_int_type 0) (intConst 1) cgStart).map
        (fun r => (r.1.mode, r.1.r, r.2.pc)) = some (.kModeDirect, 0, 2) ∧
    observe (stepN 2 (globalsVM (shiftVarCode 0 1) [3])) = some (3, 3, 0) ∧
    (ORG_Shift 0 (globalVar g_int_type 0) (globalVar g_int_type 4) cgStart).isSome = false ∧
    (Load (globalVar g_int_type 4) cgStart).map (fun r => r.2.rh - 2) = some (-1) ∧
    observe (stepN 2 (globalsVM (shiftRegCode 0 1) [3])) = some (3, 6, 0) ∧
    observe (stepN 2 (globalsVM (shiftRegCode 1 1) [3])) = some (3, 1, 0) ∧
    observe (stepN 2 (globalsVM (shiftRegCode 2 1) [3])) = some (3, -2147483647, 0) ∧
    observe (stepN 2 (globalsVM (shiftRegCode 0 1) [-8])) = some (3, -16, 0) ∧
    observe (stepN 2 (globalsVM (shiftRegCode 1 1) [-8])) = some (3, -4, 0) ∧
    observe (stepN 2 (globalsVM (shiftRegCode 2 1) [-8])) = some (3, 2147483644, 0) ∧
    observe (stepN 3 (globalsVM (shiftRegVarCode 0) [3, 4])) = some (4, 48, 4) ∧
    observe (stepN 2 (globalsVM (shiftRegCode 2 0) [3])) = none := by
  decide!

/-! ### Multiplication by a constant (C24) -/

/-- C24 (code defect): `ORG_MulOp` passes the constant to `Put1`, which keeps its low 16 bits
only, where `ORG_DivOp` uses `Put1a`.  For `v * 65537` the emitted instruction is
`MUL R0, R0, 1`: with `v = 3` the result register holds 3, not 196611, in either operand
order; `v * (-65537)` multiplies by -1.  Constants of 16 bits and powers of two are right:
`v * 7`, `v * (-3)`, `v * 65536`, `v * 1`, `v * 0`; and `v DIV 65537` is right. -/
theorem C24_mul_constant_truncated :
    (mulConstCode 65537).map (fun r => (r.1.mode, r.1.r, r.2.pc)) = some (.kModeReg, 0, 3) ∧
    (mulConstCode 65537).map (fun r => r.2.mem 2) = some (wordF1 0 0 0 kOpMul 1) ∧
    observe (stepN 2 (globalsVM (mulConstCode 65537) [3])) = some (3, 3, 0) ∧
    observe (stepN 2 (globalsVM (constMulCode 65537) [3])) = some (3, 3, 0) ∧
    wrap32 (3 * 65537) = 196611 ∧
    observe (stepN 2 (globalsVM (mulConstCode (-65537)) [3])) = some (3, -3, 0) ∧
    observe (stepN 2 (globalsVM (mulConstCode 7) [3])) = some (3, 21, 0) ∧
    observe (stepN 2 (globalsVM (constMulCode 7) [3])) = some (3, 21, 0) ∧
    observe (stepN 2 (globalsVM (mulConstCode (-3)) [3])) = some (3, -9, 0) ∧
    observe (stepN 2 (globalsVM (mulConstCode 65536) [3])) = some (3, 196608, 0) ∧
    observe (stepN 1 (globalsVM (mulConstCode 1) [3])) = some (2, 3, 0) ∧
    observe (stepN 2 (globalsVM (mulConstCode 0) [3])) = some (3, 0, 0) ∧
    observe (stepN 4 (globalsVM (divConstCode 65537) [196611])) = some (5, 3, 65537) := by
  decide!

/-! ### The check of a run-time divisor (C26) -/

/-- C26 (code defect): the check of a run-time divisor is `Load(y)` followed by
`Trap(kCondLE, kTrapDivByZero)`, and a load sets N and Z but leaves V as the last addition or
subtraction set it, while LE is `(N != V) | Z`.  In `(a + b) DIV d` with `a = 2^31 - 1`,
`b = 1` the addition sets V, and the positive divisor `d = 5` sends the interpreter to
`kTrapDivByZero`, while the negative divisor `d = -5` passes the check and is divided by.
With `a = 7`, `b = 8` (V clear) the divisor 5 passes and gives 3, and the divisors 0 and -5
trap. -/
theorem C26_positive_divisor_traps_when_V_set :
    sumDivCode.map (fun r => (r.1.mode, r.1.r, r.2.pc)) = some (.kModeReg, 0, 7) ∧
    (stepN 3 (globalsVM sumDivCode [2147483647, 1, 5])).map (fun vm => vm.flagV) = some true ∧
    observe (stepN 5 (globalsVM sumDivCode [2147483647, 1, 5]))
      = some (kTrapDivByZero, -2147483648, 5) ∧
    observe (stepN 6 (globalsVM sumDivCode [2147483647, 1, -5])) = some (7, 429496729, -5) ∧
    observe (stepN 6 (globalsVM sumDivCode [7, 8, 5])) = some (7, 3, 5) ∧
    observe (stepN 5 (globalsVM sumDivCode [7, 8, 0])) = some (kTrapDivByZero, 15, 0) ∧
    observe (stepN 5 (globalsVM sumDivCode [7, 8, -5])) = some (kTrapDivByZero, 15, -5) := by
  decide!

/-! ### The string pool in memory (C21) -/

/-- The area that the `memset` of `ORG_Close` clears ends behind `g_mem` (4096 bytes) for
every positive `g_pc`. -/
theorem memsetEnd_behind_memory (pc : Int) (h : 0 < pc) : kMemSz < memsetEnd pc := by
  simp only [memsetEnd, kMemSz]; omega

/-- C21 (code defect): `ORG_Close` widens the `char` entries of `g_pool` with their sign
before it combines them into a word.  For the hexadecimal string `$8041$` the scanner
stores the bytes 0x80 (the `char` -128) and 0x41; `ORG_MakeString` copies them to the pool
and pads it to 4 bytes; `ORG_Close` at `g_pc = 5` leaves the word 0xFFFFFF80 (-128) at
address 5, so that the byte load from `SB + 1` returns 0xFF and not pool byte 1 (0x41), and
the loads from `SB + 2`, `SB + 3` return 0xFF and not 0.  Byte 0 is read back as 0x80.  For
the string `"AB"` the word is 0x00004241 and the bytes are read back as stored. -/
theorem C21_pool_bytes_sign_extended :
    (HexString (scannerOn textHexString)).map (fun r => (r.1, r.2.slen, r.2.str 0, r.2.str 1))
      = some (kSymString, 2, -128, 65) ∧
    (poolCode (HexString (scannerOn textHexString)) 1).map
        (fun s => (s.pc, s.varsize, s.strx)) = some (5, 0, 4) ∧
    (poolCode (HexString (scannerOn textHexString)) 1).map
        (fun s => (s.pool 0 % 256, s.pool 1 % 256, s.pool 2 % 256, s.pool 3 % 256))
      = some (128, 65, 0, 0) ∧
    (poolCode (HexString (scannerOn textHexString)) 1).map (fun s => s.mem 5) = some (-128) ∧
    observe (stepN 1 (poolVM (poolCode (HexString (scannerOn textHexString)) 0)))
      = some (2, 128, 0) ∧
    observe (stepN 1 (poolVM (poolCode (HexString (scannerOn textHexString)) 1)))
      = some (2, 255, 0) ∧
    observe (stepN 1 (poolVM (poolCode (HexString (scannerOn textHexString)) 2)))
      = some (2, 255, 0) ∧
    observe (stepN 1 (poolVM (poolCode (HexString (scannerOn textHexString)) 3)))
      = some (2, 255, 0) ∧
    (poolCode (String_ (scannerOn textTwoLetters)) 1).map (fun s => (s.strx, s.mem 5))
      = some (4, 16961) ∧
    observe (stepN 1 (poolVM (poolCode (String_ (scannerOn textTwoLetters)) 0)))
      = some (2, 65, 0) ∧
    observe (stepN 1 (poolVM (poolCode (String_ (scannerOn textTwoLetters)) 1)))
      = some (2, 66, 0) ∧
    observe (stepN 1 (poolVM (poolCode (String_ (scannerOn textTwoLetters)) 2)))
      = some (2, 0, 0) := by
  refine ⟨?_, ?_, ?_, ?_, ?_, ?_, ?_, ?_, ?_, ?_, ?_, ?_⟩ <;> decide!

/-! ### Division and remainder by a power of two (C25) -/

/-- `Log2` of a power of two: the odd factor 1 and the exponent. -/
theorem Log2_pow_two : ∀ k : Nat, k < 31 → Log2 ((2 : Int) ^ k) = some (1, (k : Int)) := by
  decide!

/-- The bitwise AND with the mask `2^k - 1` is the non-negative residue modulo `2^k`. -/
theorem bitAnd_mask (v : Int) (k : Nat) (hk : k ≤ 31) :
    bitAnd v (2 ^ k - 1) = v % 2 ^ k := by
  have hp : (0 : Int) < 2 ^ k := by positivity
  have hle : (2 : Int) ^ k ≤ 2 ^ 31 := pow_le_pow_right₀ (by norm_num) hk
  have h32 : (4294967296 : Int) = 2 ^ k * 2 ^ (32 - k) := by
    rw [← pow_add]
    have : k + (32 - k) = 32 := by omega
    rw [this]; norm_num
  have hm : (2 ^ k - 1 : Int) % 4294967296 = 2 ^ k - 1 := by
    apply Int.emod_eq_of_lt <;> norm_num at hle <;> omega
  have ht : toWord (2 ^ k - 1) = 2 ^ k - 1 := by
    unfold toWord
    rw [hm]
    have : ((2 ^ k - 1 : Nat) : Int) = 2 ^ k - 1 := by
      have h1 : 1 ≤ 2 ^ k := Nat.one_le_two_pow
      push_cast [Nat.cast_sub h1]; rfl
    rw [← this]; exact Int.toNat_natCast _
  unfold bitAnd ofWord
  rw [ht, Nat.and_pow_two_sub_one_eq_mod]
  unfold toWord
  have hnn : 0 ≤ v % 4294967296 := Int.emod_nonneg _ (by norm_num)
  have hc : (((v % 4294967296).toNat % 2 ^ k : Nat) : Int) = v % 2 ^ k := by
    push_cast
    rw [Int.toNat_of_nonneg hnn, h32, Int.emod_emod_of_dvd v (dvd_mul_right _ _)]
  rw [hc]
  have h1 : 0 ≤ v % 2 ^ k := Int.emod_nonneg _ (by omega)
  have h2 : v % 2 ^ k < 2 ^ k := Int.emod_lt_of_pos _ hp
  unfold wrap32
  norm_num at hle
  omega

/-- The code of `ORG_DivOp` for `x DIV 2^k` with `x` in a register: `ASR x.r, x.r, k`. -/
theorem DivOp_div_pow_two (x y : item_t) (s : CG) (k : Nat) (hk : 1 ≤ k ∧ k ≤ 30)
    (hx : x.mode = .kModeReg ∧ x.type.tag = .kTypeInt ∧ 0 ≤ x.r ∧ x.r ≤ 15)
    (hy : y.mode = .kModeImmediate ∧ y.type.tag = .kTypeInt ∧ y.a = 2 ^ k)
    (hpc : 0 ≤ s.pc ∧ s.pc < 1024) :
    ORG_DivOp kSymDiv x y s =
      some (x, { s with
        mem := Function.update s.mem s.pc.toNat (wordF1 0 x.r x.r 2 k)
        pc := s.pc + 1 }) := by
  have hp : (2 : Int) ≤ 2 ^ k := by
    have : (2 : Int) ^ 1 ≤ 2 ^ k := pow_le_pow_right₀ (by norm_num) hk.1
    simpa using this
  have hlog := Log2_pow_two k (by omega)
  have hput := Put1_eq kOpAsr 2 0 x.r x.r k s (by simp [kOpAsr]) ⟨hx.2.2.1, hx.2.2.2⟩
    ⟨hx.2.2.1, hx.2.2.2⟩ (by omega) (by omega) hpc
  have hk0 : ¬ ((k : Int) < 0) := by omega
  have hkm : (k : Int) % 65536 = k := by omega
  simp only [hk0, if_false, hkm, mul_zero, add_zero] at hput
  have hy0 : ¬ ((2 : Int) ^ k ≤ 0) := by omega
  simp only [ORG_DivOp, hx.1, hx.2.1, hy.1, hy.2.1, hy.2.2, hy0, hp, hlog, Load,
    assertImmOrReg]
  simp [hput, hx.1]

/-- The code of `ORG_DivOp` for `x MOD 2^k` with `k <= 16` and `x` in a register:
`AND x.r, x.r, 2^k - 1`. -/
theorem DivOp_mod_pow_two_small (x y : item_t) (s : CG) (k : Nat) (hk : 1 ≤ k ∧ k ≤ 16)
    (hx : x.mode = .kModeReg ∧ x.type.tag = .kTypeInt ∧ 0 ≤ x.r ∧ x.r ≤ 15)
    (hy : y.mode = .kModeImmediate ∧ y.type.tag = .kTypeInt ∧ y.a = 2 ^ k)
    (hpc : 0 ≤ s.pc ∧ s.pc < 1024) :
    ORG_DivOp kSymMod x y s =
      some (x, { s with
        mem := Function.update s.mem s.pc.toNat (wordF1 0 x.r x.r 4 (2 ^ k - 1))
        pc := s.pc + 1 }) := by
  have hp : (2 : Int) ≤ 2 ^ k := by
    have : (2 : Int) ^ 1 ≤ 2 ^ k := pow_le_pow_right₀ (by norm_num) hk.1
    simpa using this
  have hq : (2 : Int) ^ k ≤ 65536 := by
    have : (2 : Int) ^ k ≤ 2 ^ 16 := pow_le_pow_right₀ (by norm_num) hk.2
    simpa using this
  have hlog := Log2_pow_two k (by omega)
  have hput := Put1_eq kOpAnd 4 0 x.r x.r (2 ^ k - 1) s (by simp [kOpAnd]) ⟨hx.2.2.1, hx.2.2.2⟩
    ⟨hx.2.2.1, hx.2.2.2⟩ (by omega) (by omega) hpc
  have hk0 : ¬ ((2 : Int) ^ k - 1 < 0) := by omega
  have hkm : ((2 : Int) ^ k - 1) % 65536 = 2 ^ k - 1 := by omega
  simp only [hk0, if_false, hkm, mul_zero, add_zero] at hput
  have hy0 : ¬ ((2 : Int) ^ k ≤ 0) := by omega
  have hk16 : (k : Int) ≤ 16 := by omega
  have hne : kSymMod ≠ kSymDiv := by decide
  simp only [ORG_DivOp, hx.1, hx.2.1, hy.1, hy.2.1, hy.2.2, hy0, hp, hlog, Load,
    assertImmOrReg, hne, hk16]
  simp [hput, hx.1, hk.2]

/-- The code of `ORG_DivOp` for `x MOD 2^k` with `k > 16` and `x` in a register:
`LSL x.r, x.r, 32 - k` followed by `ROR x.r, x.r, 32 - k`. -/
theorem DivOp_mod_pow_two_large (x y : item_t) (s : CG) (k : Nat) (hk : 17 ≤ k ∧ k ≤ 30)
    (hx : x.mode = .kModeReg ∧ x.type.tag = .kTypeInt ∧ 0 ≤ x.r ∧ x.r ≤ 15)
    (hy : y.mode = .kModeImmediate ∧ y.type.tag = .kTypeInt ∧ y.a = 2 ^ k)
    (hpc : 0 ≤ s.pc ∧ s.pc + 1 < 1024) :
    ORG_DivOp kSymMod x y s =
      some (x, { s with
        mem := Function.update
          (Function.update s.mem s.pc.toNat (wordF1 0 x.r x.r 1 (32 - k)))
          (s.pc + 1).toNat (wordF1 0 x.r x.r 3 (32 - k))
        pc := s.pc + 1 + 1 }) := by
  have hp : (2 : Int) ≤ 2 ^ k := by
    have : (2 : Int) ^ 1 ≤ 2 ^ k := pow_le_pow_right₀ (by norm_num) (by omega : 1 ≤ k)
    simpa using this
  have hlog := Log2_pow_two k (by omega)
  have hput1 := Put1_eq kOpLsl 1 0 x.r x.r (32 - k) s (by simp [kOpLsl])
    ⟨hx.2.2.1, hx.2.2.2⟩ ⟨hx.2.2.1, hx.2.2.2⟩ (by omega) (by omega) (by omega)
  have hk0 : ¬ ((32 : Int) - k < 0) := by omega
  have hkm : ((32 : Int) - k) % 65536 = 32 - k := by omega
  simp only [hk0, if_false, hkm, mul_zero, add_zero] at hput1
  have hput2 := Put1_eq kOpRor 3 0 x.r x.r (32 - k)
    { s with
      mem := Function.update s.mem s.pc.toNat (wordF1 0 x.r x.r 1 (32 - k))
      pc := s.pc + 1 } (by simp [kOpRor])
    ⟨hx.2.2.1, hx.2.2.2⟩ ⟨hx.2.2.1, hx.2.2.2⟩ (by omega) (by omega)
    (by show 0 ≤ s.pc + 1 ∧ s.pc + 1 < 1024; omega)
  simp only [hk0, if_false, hkm, mul_zero, add_zero] at hput2
  have hy0 : ¬ ((2 : Int) ^ k ≤ 0) := by omega
  have hk16 : ¬ ((k : Int) ≤ 16) := by omega
  have hne : kSymMod ≠ kSymDiv := by decide
  simp only [ORG_DivOp, hx.1, hx.2.1, hy.1, hy.2.1, hy.2.2, hy0, hp, hlog, Load,
    assertImmOrReg, hne, hk16]
  have hkn : ¬ (k ≤ 16) := by omega
  simp [hput1, hput2, hx.1, hkn]

/-- An arithmetic shift to the right keeps a value within the range of `int32_t`. -/
theorem asr_range (v : Int) (k : Nat) (hv : -2147483648 ≤ v ∧ v < 2147483648) :
    -2147483648 ≤ v / 2 ^ k ∧ v / 2 ^ k < 2147483648 := by
  have hp : (0 : Int) < 2 ^ k := by positivity
  have h1 : (1 : Int) ≤ 2 ^ k := by omega
  constructor
  · apply Int.le_ediv_of_mul_le hp
    nlinarith
  · apply Int.ediv_lt_of_lt_mul hp
    nlinarith

/-- Execution of `ASR a, a, k`: the register holds the floor of its old value divided by
`2^k`. -/
theorem step_ASR_imm (vm : VM) (a : Int) (k : Nat) (ha : 0 ≤ a ∧ a ≤ 15) (hk : k < 32)
    (hpc : 0 ≤ vm.pc ∧ vm.pc < 1024) (hw : vm.mem vm.pc.toNat = wordF1 0 a a 2 k)
    (hv : -2147483648 ≤ vm.reg a.toNat ∧ vm.reg a.toNat < 2147483648) :
    step vm = some (setNZ { vm with ir := wordF1 0 a a 2 k
                                    pc := vm.pc + 1
                                    reg := Function.update vm.reg a.toNat (vm.reg a.toNat / 2 ^ k) }
                      (vm.reg a.toNat / 2 ^ k)) := by
  have hr := asr_range (vm.reg a.toNat) k hv
  have hwr : wrap32 (vm.reg a.toNat / 2 ^ k) = vm.reg a.toNat / 2 ^ k := by
    unfold wrap32; omega
  rw [step_F1 vm 0 a a 2 k (by omega) ha ha (by omega) (by omega) hpc hw]
  simp only [execAlu, kOpMov, kOpRor, kOpLsl, kOpAsr, asr]
  norm_num
  rw [if_pos hk]
  simp only [hwr]

/-- The value that the interpreter computes for `ROR` by `32 - k` on a register that `LSL` has
shifted by `32 - k` before: the low `k` bits of the original value. -/
theorem ror_after_lsl (v : Int) (k n : Nat) (hkn : k + n = 32) (hk : 1 ≤ k) (hn : 1 ≤ n) :
    bitOr (bitAnd (asr (shl v n) n) (bitNot (shl (-1) k))) (shl (shl v n) k) = v % 2 ^ k := by
  have hpk : (0 : Int) < 2 ^ k := by positivity
  have hpn : (0 : Int) < 2 ^ n := by positivity
  have h32 : (2 : Int) ^ n * 2 ^ k = 4294967296 := by
    rw [← pow_add, add_comm, hkn]; norm_num
  have hk31 : (2 : Int) ^ k ≤ 2147483648 := by
    have : (2 : Int) ^ k ≤ 2 ^ 31 := pow_le_pow_right₀ (by norm_num) (by omega)
    simpa using this
  -- the shifted value and its quotient
  obtain ⟨q, hq⟩ : ∃ q : Int, shl v n = v * 2 ^ n - q * 4294967296 := by
    refine ⟨(v * 2 ^ n + 2147483648) / 4294967296, ?_⟩
    unfold shl wrap32
    have := Int.emod_add_ediv (v * 2 ^ n + 2147483648) 4294967296
    omega
  have hdiv : shl v n / 2 ^ n = v - q * 2 ^ k := by
    rw [hq, ← h32]
    have : v * 2 ^ n - q * (2 ^ n * 2 ^ k) = (v - q * 2 ^ k) * 2 ^ n := by ring
    rw [this, Int.mul_ediv_cancel _ (by omega)]
  have hmod : (v - q * 2 ^ k) % 2 ^ k = v % 2 ^ k := by
    rw [sub_eq_add_neg, ← neg_mul, Int.add_mul_emod_self]
  have hz : shl (shl v n) k = 0 := by
    have hd : (shl v n * 2 ^ k) % 4294967296 = 0 := by
      apply Int.emod_eq_zero_of_dvd
      refine ⟨v - q * 2 ^ k, ?_⟩
      rw [hq, ← h32]; ring
    show wrap32 (shl v n * 2 ^ k) = 0
    unfold wrap32
    omega
  have hnot : bitNot (shl (-1) k) = 2 ^ k - 1 := by
    have : shl (-1) k = -2 ^ k := by
      show wrap32 (-1 * 2 ^ k) = -2 ^ k
      unfold wrap32; omega
    rw [this]; unfold bitNot; ring
  have hr0 : 0 ≤ v % 2 ^ k := Int.emod_nonneg _ (by omega)
  have hr1 : v % 2 ^ k < 2 ^ k := Int.emod_lt_of_pos _ hpk
  rw [hz, hnot, bitAnd_mask _ k (by omega)]
  unfold asr
  rw [hdiv, hmod]
  have := bitOr_eq_add 0 1 (v % 2 ^ k) 0 (by norm_num) (by norm_num) (by omega) (by omega)
    (by omega) (by omega)
  rw [this, add_zero]

/-- Execution of `AND a, a, 2^k - 1`: the register holds the residue of its old value modulo
`2^k`. -/
theorem step_AND_mask (vm : VM) (a : Int) (k : Nat) (ha : 0 ≤ a ∧ a ≤ 15) (hk : k ≤ 16)
    (hpc : 0 ≤ vm.pc ∧ vm.pc < 1024)
    (hw : vm.mem vm.pc.toNat = wordF1 0 a a 4 (2 ^ k - 1)) :
    step vm = some (setNZ { vm with ir := wordF1 0 a a 4 (2 ^ k - 1)
                                    pc := vm.pc + 1
                                    reg := Function.update vm.reg a.toNat (vm.reg a.toNat % 2 ^ k) }
                      (vm.reg a.toNat % 2 ^ k)) := by
  have hp : (0 : Int) < 2 ^ k := by positivity
  have hq : (2 : Int) ^ k ≤ 65536 := by
    have : (2 : Int) ^ k ≤ 2 ^ 16 := pow_le_pow_right₀ (by norm_num) hk
    simpa using this
  have hr0 : 0 ≤ vm.reg a.toNat % 2 ^ k := Int.emod_nonneg _ (by omega)
  have hr1 : vm.reg a.toNat % 2 ^ k < 2 ^ k := Int.emod_lt_of_pos _ hp
  have hwr : wrap32 (vm.reg a.toNat % 2 ^ k) = vm.reg a.toNat % 2 ^ k := by
    unfold wrap32; omega
  rw [step_F1 vm 0 a a 4 (2 ^ k - 1) (by omega) ha ha (by omega) (by omega) hpc hw]
  simp only [execAlu, kOpMov, kOpRor, kOpLsl, kOpAsr, kOpAnd]
  norm_num
  rw [bitAnd_mask _ k (by omega)]
  simp only [hwr]

/-- Execution of `LSL a, a, n`. -/
theorem step_LSL_imm (vm : VM) (a : Int) (n : Nat) (ha : 0 ≤ a ∧ a ≤ 15) (hn : n < 32)
    (hpc : 0 ≤ vm.pc ∧ vm.pc < 1024) (hw : vm.mem vm.pc.toNat = wordF1 0 a a 1 n) :
    step vm = some (setNZ { vm with ir := wordF1 0 a a 1 n
                                    pc := vm.pc + 1
                                    reg := Function.update vm.reg a.toNat (shl (vm.reg a.toNat) n) }
                      (shl (vm.reg a.toNat) n)) := by
  have hwr : wrap32 (shl (vm.reg a.toNat) n) = shl (vm.reg a.toNat) n := by
    unfold shl wrap32; omega
  rw [step_F1 vm 0 a a 1 n (by omega) ha ha (by omega) (by omega) hpc hw]
  simp only [execAlu, kOpMov, kOpRor, kOpLsl]
  norm_num
  rw [if_pos hn]
  simp only [hwr]

/-- Execution of `ROR a, a, n` for `0 < n < 32`, with the value of the C expression
`((b >> n) & ~(~0 << (32 - n))) | (b << (32 - n))`. -/
theorem step_ROR_imm (vm : VM) (a : Int) (n : Nat) (ha : 0 ≤ a ∧ a ≤ 15)
    (hn : 0 < n ∧ n < 32)
    (hpc : 0 ≤ vm.pc ∧ vm.pc < 1024) (hw : vm.mem vm.pc.toNat = wordF1 0 a a 3 n) :
    step vm = some (setNZ { vm with ir := wordF1 0 a a 3 n
                                    pc := vm.pc + 1
                                    reg := Function.update vm.reg a.toNat
                                      (bitOr (bitAnd (asr (vm.reg a.toNat) n)
                                          (bitNot (shl (-1) (32 - n))))
                                        (shl (vm.reg a.toNat) (32 - n))) }
                      (bitOr (bitAnd (asr (vm.reg a.toNat) n) (bitNot (shl (-1) (32 - n))))
                        (shl (vm.reg a.toNat) (32 - n)))) := by
  have hwr : ∀ p q : Int, wrap32 (bitOr p q) = bitOr p q := by
    intro p q; unfold bitOr ofWord wrap32; omega
  have ht : Int.toNat 32 = 32 := rfl
  rw [step_F1 vm 0 a a 3 n (by omega) ha ha (by omega) (by omega) hpc hw]
  simp only [execAlu, kOpMov, kOpRor]
  norm_num
  rw [if_pos hn, ht]
  simp only [hwr]

/-- One instruction, as a run of `stepN`. -/
theorem stepN_one_of {a b : VM} (h : step a = some b) : stepN 1 a = some b := by
  show (step a).bind (stepN 0) = some b
  rw [h]; rfl

/-- Two instructions in a row, as a run of `stepN`. -/
theorem stepN_two_of {a b c : VM} (h1 : step a = some b) (h2 : step b = some c) :
    stepN 2 a = some c := by
  show (step a).bind (stepN 1) = some c
  rw [h1]
  exact stepN_one_of h2

/-- C25: for a value `v` in register `x.r` and a constant `2^k`, `1 <= k <= 30`, the code that
`ORG_DivOp` emits for `DIV` is the instruction `ASR x.r, x.r, k`, after which the register
holds the floor of `v / 2^k`; the code it emits for `MOD` is `AND x.r, x.r, 2^k - 1` for
`k <= 16` and `LSL x.r, x.r, 32 - k` followed by `ROR x.r, x.r, 32 - k` for `k > 16`, and
leaves the residue `v mod 2^k`, a value in `0 .. 2^k - 1`. -/
theorem C25_div_mod_power_of_two (x y : item_t) (s : CG) (vm : VM) (k : Nat)
    (hk : 1 ≤ k ∧ k ≤ 30)
    (hx : x.mode = .kModeReg ∧ x.type.tag = .kTypeInt ∧ 0 ≤ x.r ∧ x.r ≤ 15)
    (hy : y.mode = .kModeImmediate ∧ y.type.tag = .kTypeInt ∧ y.a = 2 ^ k)
    (hpc : 0 ≤ s.pc ∧ s.pc + 1 < 1024) (hvm : vm.pc = s.pc)
    (hv : -2147483648 ≤ vm.reg x.r.toNat ∧ vm.reg x.r.toNat < 2147483648) :
    (∃ s1 vm1, ORG_DivOp kSymDiv x y s = some (x, s1) ∧ s1.pc = s.pc + 1 ∧
      s1.mem s.pc.toNat = wordF1 0 x.r x.r kOpAsr k ∧
      step { vm with mem := s1.mem } = some vm1 ∧ vm1.pc = s1.pc ∧
      vm1.reg x.r.toNat = vm.reg x.r.toNat / 2 ^ k ∧
      2 ^ k * vm1.reg x.r.toNat ≤ vm.reg x.r.toNat ∧
      vm.reg x.r.toNat < 2 ^ k * (vm1.reg x.r.toNat + 1)) ∧
    (∃ s2 vm2, ORG_DivOp kSymMod x y s = some (x, s2) ∧
      s2.pc = s.pc + (if k ≤ 16 then 1 else 2) ∧
      (k ≤ 16 → s2.mem s.pc.toNat = wordF1 0 x.r x.r kOpAnd (2 ^ k - 1)) ∧
      (16 < k → s2.mem s.pc.toNat = wordF1 0 x.r x.r kOpLsl (32 - k) ∧
        s2.mem (s.pc + 1).toNat = wordF1 0 x.r x.r kOpRor (32 - k)) ∧
      stepN (if k ≤ 16 then 1 else 2) { vm with mem := s2.mem } = some vm2 ∧
      vm2.pc = s2.pc ∧
      vm2.reg x.r.toNat = vm.reg x.r.toNat % 2 ^ k ∧
      0 ≤ vm2.reg x.r.toNat ∧ vm2.reg x.r.toNat < 2 ^ k) := by
  have ha : 0 ≤ x.r ∧ x.r ≤ 15 := ⟨hx.2.2.1, hx.2.2.2⟩
  have hp : (0 : Int) < 2 ^ k := by positivity
  have hr0 : 0 ≤ vm.reg x.r.toNat % 2 ^ k := Int.emod_nonneg _ (by omega)
  have hr1 : vm.reg x.r.toNat % 2 ^ k < 2 ^ k := Int.emod_lt_of_pos _ hp
  constructor
  · -- DIV: one ASR
    have hstep := step_ASR_imm
      { vm with mem := Function.update s.mem s.pc.toNat (wordF1 0 x.r x.r 2 k) } x.r k ha
      (by omega) (by show 0 ≤ vm.pc ∧ vm.pc < 1024; omega)
      (by show Function.update s.mem s.pc.toNat _ vm.pc.toNat = _
          rw [hvm, Function.update_same]) hv
    refine ⟨_, _, DivOp_div_pow_two x y s k hk hx hy (by omega), rfl, ?_, hstep, ?_, ?_, ?_,
      ?_⟩
    · show Function.update s.mem s.pc.toNat _ s.pc.toNat = _
      rw [Function.update_same]; rfl
    · show vm.pc + 1 = s.pc + 1
      rw [hvm]
    · show Function.update vm.reg x.r.toNat _ x.r.toNat = _
      rw [Function.update_same]
    · show 2 ^ k * Function.update vm.reg x.r.toNat _ x.r.toNat ≤ _
      rw [Function.update_same]
      show 2 ^ k * (vm.reg x.r.toNat / 2 ^ k) ≤ vm.reg x.r.toNat
      exact Int.mul_ediv_self_le (by omega)
    · show _ < 2 ^ k * (Function.update vm.reg x.r.toNat _ x.r.toNat + 1)
      rw [Function.update_same]
      show vm.reg x.r.toNat < 2 ^ k * (vm.reg x.r.toNat / 2 ^ k + 1)
      rw [mul_add, mul_one]
      exact Int.lt_mul_ediv_self_add hp
  · by_cases h16 : k ≤ 16
    · -- MOD: one AND
      rw [if_pos h16, if_pos h16]
      have hstep := step_AND_mask
        { vm with mem := Function.update s.mem s.pc.toNat (wordF1 0 x.r x.r 4 (2 ^ k - 1)) }
        x.r k ha h16 (by show 0 ≤ vm.pc ∧ vm.pc < 1024; omega)
        (by show Function.update s.mem s.pc.toNat _ vm.pc.toNat = _
            rw [hvm, Function.update_same])
      have hstepN := stepN_one_of hstep
      refine ⟨_, _, DivOp_mod_pow_two_small x y s k ⟨hk.1, h16⟩ hx hy (by omega), rfl, ?_, ?_,
        hstepN, ?_, ?_, ?_, ?_⟩
      · intro _
        show Function.update s.mem s.pc.toNat _ s.pc.toNat = _
        rw [Function.update_same]; rfl
      · intro h
        omega
      · show vm.pc + 1 = s.pc + 1
        rw [hvm]
      · show Function.update vm.reg x.r.toNat _ x.r.toNat = _
        rw [Function.update_same]
      · show 0 ≤ Function.update vm.reg x.r.toNat _ x.r.toNat
        rw [Function.update_same]; exact hr0
      · show Function.update vm.reg x.r.toNat _ x.r.toNat < _
        rw [Function.update_same]; exact hr1
    · -- MOD: LSL, then ROR
      rw [if_neg h16, if_neg h16]
      have hn : ((32 - k : Nat) : Int) = 32 - (k : Int) := by omega
      have hne : (s.pc + 1).toNat ≠ s.pc.toNat := by omega
      have hstep1 := step_LSL_imm
        { vm with mem := (Function.update
            (Function.update s.mem s.pc.toNat (wordF1 0 x.r x.r 1 (32 - k)))
            (s.pc + 1).toNat (wordF1 0 x.r x.r 3 (32 - k))) } x.r (32 - k) ha (by omega)
        (by show 0 ≤ vm.pc ∧ vm.pc < 1024; omega)
        (by show Function.update (Function.update s.mem s.pc.toNat _) (s.pc + 1).toNat _
              vm.pc.toNat = _
            rw [hvm, Function.update_noteq hne.symm, Function.update_same, hn])
      have hstep2 := step_ROR_imm
        (setNZ { vm with
            mem := (Function.update
              (Function.update s.mem s.pc.toNat (wordF1 0 x.r x.r 1 (32 - k)))
              (s.pc + 1).toNat (wordF1 0 x.r x.r 3 (32 - k))),
            ir := wordF1 0 x.r x.r 1 ((32 - k : Nat) : Int),
            pc := vm.pc + 1,
            reg := Function.update vm.reg x.r.toNat (shl (vm.reg x.r.toNat) (32 - k)) }
          (shl (vm.reg x.r.toNat) (32 - k))) x.r (32 - k) ha (by omega)
        (by show 0 ≤ vm.pc + 1 ∧ vm.pc + 1 < 1024; omega)
        (by show Function.update (Function.update s.mem s.pc.toNat _) (s.pc + 1).toNat _
              (vm.pc + 1).toNat = _
            rw [hvm, Function.update_same, hn])
      have h32k : 32 - (32 - k) = k := by omega
      have hval := ror_after_lsl (vm.reg x.r.toNat) k (32 - k) (by omega) hk.1 (by omega)
      have hstepN := stepN_two_of hstep1 hstep2
      refine ⟨_, _, DivOp_mod_pow_two_large x y s k ⟨by omega, hk.2⟩ hx hy hpc, by ring, ?_, ?_,
        hstepN, ?_, ?_, ?_, ?_⟩
      · intro h
        exact absurd h h16
      · intro _
        constructor
        · show Function.update (Function.update s.mem s.pc.toNat _) (s.pc + 1).toNat _
            s.pc.toNat = _
          rw [Function.update_noteq hne.symm, Function.update_same]; rfl
        · show Function.update (Function.update s.mem s.pc.toNat _) (s.pc + 1).toNat _
            (s.pc + 1).toNat = _
          rw [Function.update_same]; rfl
      · show vm.pc + 1 + 1 = s.pc + 1 + 1
        rw [hvm]
      · show Function.update (Function.update vm.reg x.r.toNat _) x.r.toNat _ x.r.toNat = _
        rw [Function.update_same]
        show bitOr (bitAnd (asr (Function.update vm.reg x.r.toNat _ x.r.toNat) _) _)
          (shl (Function.update vm.reg x.r.toNat _ x.r.toNat) _) = _
        rw [Function.update_same, h32k]
        exact hval
      · show 0 ≤ Function.update (Function.update vm.reg x.r.toNat _) x.r.toNat _ x.r.toNat
        rw [Function.update_same]
        show 0 ≤ bitOr (bitAnd (asr (Function.update vm.reg x.r.toNat _ x.r.toNat) _) _)
          (shl (Function.update vm.reg x.r.toNat _ x.r.toNat) _)
        rw [Function.update_same, h32k, hval]; exact hr0
      · show Function.update (Function.update vm.reg x.r.toNat _) x.r.toNat _ x.r.toNat < _
        rw [Function.update_same]
        show bitOr (bitAnd (asr (Function.update vm.reg x.r.toNat _ x.r.toNat) _) _)
          (shl (Function.update vm.reg x.r.toNat _ x.r.toNat) _) < _
        rw [Function.update_same, h32k, hval]; exact hr1

/-- Witness for C25: for -5 in R0 the two instructions emitted for `MOD 2^20` leave
`2^20 - 5`, and the instruction emitted for `DIV 2^20` leaves -1. -/
theorem C25_div_mod_witness :
    (∃ s1 vm1, ORG_DivOp kSymDiv (regItem 0) (intConst 1048576) cgStart = some (regItem 0, s1) ∧
      step { vmRegs (-5) 1 with mem := s1.mem } = some vm1 ∧ vm1.reg 0 = -1) ∧
    (∃ s2 vm2, ORG_DivOp kSymMod (regItem 0) (intConst 1048576) cgStart = some (regItem 0, s2) ∧
      stepN 2 { vmRegs (-5) 1 with mem := s2.mem } = some vm2 ∧ vm2.reg 0 = 1048571) := by
  obtain ⟨⟨s1, vm1, h1, _, _, h3, _, h5, _, _⟩, s2, vm2, g1, _, _, _, g3, _, g5, _, _⟩ :=
    C25_div_mod_power_of_two (regItem 0) (intConst 1048576) cgStart (vmRegs (-5) 1) 20
      (by decide) (by decide) ⟨rfl, rfl, by decide⟩ (by decide) rfl (by decide)
  exact ⟨⟨s1, vm1, h1, h3, by rw [show vm1.reg 0 = _ from h5]; decide⟩,
    s2, vm2, g1, g3, by rw [show vm2.reg 0 = _ from g5]; decide⟩

/-! ### The layout of a record type (C29) -/

/-- A layout within `size` bytes is a layout within any larger size. -/
theorem layoutOk_mono (size size' : Int) (chain : List object_t) (h : layoutOk size chain)
    (hle : size ≤ size') : layoutOk size' chain :=
  ⟨fun f hf => ⟨(h.1 f hf).1, (h.1 f hf).2.1, le_trans (h.1 f hf).2.2.1 hle, (h.1 f hf).2.2.2⟩,
    h.2⟩

/-- The inner loop of `RecordType` pushes one new field per identifier onto the chain. -/
theorem declFields_chain (raw : object_t) : ∀ (names : List (String × Bool))
    (start : List object_t) (d : Diag),
    ∃ news : List object_t, (declFields raw names start d).1 = news ++ start ∧
      news.length = names.length ∧ news.reverse.map object_t.name = names.map Prod.fst := by
  intro names
  induction names with
  | nil => intro start d; exact ⟨[], rfl, rfl, rfl⟩
  | cons nm rest ih =>
    intro start d
    obtain ⟨id, expo⟩ := nm
    obtain ⟨news, h1, h2, h3⟩ := ih
      (object_t.mk id .kObjField raw.type raw.dlink 0 expo raw.rdo raw.val :: start)
      (if (findInScope id start).isSome then ORS_Mark "mult def" d else d)
    refine ⟨news ++ [object_t.mk id .kObjField raw.type raw.dlink 0 expo raw.rdo raw.val],
      ?_, ?_, ?_⟩
    · show (declFields raw rest _ _).1 = _
      rw [h1, List.append_assoc]; rfl
    · simp [h2]
    · simp only [List.reverse_append, List.reverse_cons, List.reverse_nil, List.nil_append,
        List.map_append, List.map_cons, List.map_nil, List.singleton_append, h3]
      rfl

/-- The loop of `RecordType` that sets types and offsets: the `n` new fields get the offsets
`off - s`, `off - 2 s`, ... down to `off - n s`, above the fields declared before. -/
theorem setFields_layout (type : type_t) (lo : Int) (rest : List object_t)
    (hs : 0 ≤ type.size) (hal : type.size > 1 → type.size % 4 = 0)
    (hrest : layoutOk lo rest) (hlo : 0 ≤ lo) :
    ∀ (news : List object_t) (off : Int), lo + (news.length : Int) * type.size ≤ off →
      off ≤ 2147483647 → (type.size > 1 → off % 4 = 0) →
      ∃ news' : List object_t, setFields type news.length off (news ++ rest) = news' ++ rest ∧
        news'.map object_t.name = news.map object_t.name ∧
        (∀ f ∈ news', off - (news.length : Int) * type.size ≤ f.val ∧ f.type = type) ∧
        layoutOk off (news' ++ rest) := by
  intro news
  induction news with
  | nil =>
    intro off h1 _ _
    refine ⟨[], rfl, rfl, ?_, ?_⟩
    · intro f hf
      cases hf
    · exact layoutOk_mono lo off rest hrest (by simpa using h1)
  | cons it news ih =>
    intro off h1 h2 h3
    have hlen : (((it :: news).length : Nat) : Int) = (news.length : Int) + 1 := by
      simp
    rw [hlen] at h1
    have hmul : ((news.length : Int) + 1) * type.size = (news.length : Int) * type.size
        + type.size := by ring
    have hnn : 0 ≤ (news.length : Int) * type.size := mul_nonneg (by omega) hs
    have hw : wrap32 (off - type.size) = off - type.size := by unfold wrap32; omega
    obtain ⟨news', g1, g2, g3, g4⟩ := ih (off - type.size) (by omega) (by omega)
      (fun h => by have := h3 h; have := hal h; omega)
    refine ⟨object_t.mk it.name it.tag type it.dlink it.level it.expo it.rdo
        (off - type.size) :: news', ?_, ?_, ?_, ?_⟩
    · show object_t.mk it.name it.tag type it.dlink it.level it.expo it.rdo
          (wrap32 (off - type.size)) :: setFields type news.length (wrap32 (off - type.size))
            (news ++ rest) = _
      rw [hw, g1]; rfl
    · simp only [List.map_cons, g2]; rfl
    · intro f hf
      rw [hlen]
      rcases List.mem_cons.mp hf with rfl | hf
      · exact ⟨by show off - _ ≤ off - type.size; omega, rfl⟩
      · exact ⟨by have := (g3 f hf).1; omega, (g3 f hf).2⟩
    · constructor
      · intro f hf
        simp only [List.cons_append] at hf
        rcases List.mem_cons.mp hf with rfl | hf
        · refine ⟨?_, hs, ?_, ?_⟩
          · show 0 ≤ off - type.size; omega
          · show off - type.size + type.size ≤ off; omega
          · intro h
            show (off - type.size) % 4 = 0
            have := h3 h; have := hal h; omega
        · obtain ⟨k1, k2, k3, k4⟩ := g4.1 f hf
          exact ⟨k1, k2, by omega, k4⟩
      · simp only [List.cons_append]
        rw [List.pairwise_cons]
        exact ⟨fun f hf => (g4.1 f hf).2.2.1, g4.2⟩

/-- One pass of the outer loop of `RecordType`: the new fields are pushed above the old
offset, and the layout is kept. -/
theorem fieldList_layout (raw : object_t) (st : Int × List object_t × Diag) (fl : field_list)
    (hl : layoutOk st.1 st.2.1) (h0 : 0 ≤ st.1)
    (hs : fl.type.size = 1 ∨ (0 ≤ fl.type.size ∧ fl.type.size % 4 = 0))
    (hfit : st.1 + (3 + (fl.names.length : Int) * fl.type.size) ≤ 2147483647) :
    ∃ news : List object_t, (fieldList raw st fl).2.1 = news ++ st.2.1 ∧
      news.reverse.map object_t.name = fl.names.map Prod.fst ∧
      (∀ f ∈ news, st.1 ≤ f.val ∧ f.type = fl.type) ∧
      layoutOk (fieldList raw st fl).1 (fieldList raw st fl).2.1 ∧
      st.1 ≤ (fieldList raw st fl).1 ∧
      (fieldList raw st fl).1 ≤ st.1 + (3 + (fl.names.length : Int) * fl.type.size) := by
  have hs0 : 0 ≤ fl.type.size := by omega
  have hal : fl.type.size > 1 → fl.type.size % 4 = 0 := by omega
  have hnn : 0 ≤ (fl.names.length : Int) * fl.type.size := mul_nonneg (by omega) hs0
  obtain ⟨a1, a2, a3⟩ := Align_spec st.1 h0 (by omega)
  -- the offset after the alignment
  obtain ⟨o1, ho1, hlo, hhi, h4⟩ : ∃ o1, (if fl.type.size > 1 then Align st.1 else st.1) = o1 ∧
      st.1 ≤ o1 ∧ o1 < st.1 + 4 ∧ (fl.type.size > 1 → o1 % 4 = 0) := by
    by_cases h : fl.type.size > 1
    · exact ⟨Align st.1, by rw [if_pos h], a2, a3, fun _ => a1⟩
    · exact ⟨st.1, by rw [if_neg h], le_refl _, by omega, fun h' => absurd h' h⟩
  have hw1 : wrap32 ((fl.names.length : Int) * fl.type.size)
      = (fl.names.length : Int) * fl.type.size := by unfold wrap32; omega
  have hw2 : wrap32 (o1 + (fl.names.length : Int) * fl.type.size)
      = o1 + (fl.names.length : Int) * fl.type.size := by unfold wrap32; omega
  have hoff : (fieldList raw st fl).1 = o1 + (fl.names.length : Int) * fl.type.size := by
    show wrap32 ((if fl.type.size > 1 then Align st.1 else st.1)
      + wrap32 ((fl.names.length : Int) * fl.type.size)) = _
    rw [ho1, hw1, hw2]
  obtain ⟨news, d1, d2, d3⟩ := declFields_chain raw fl.names st.2.1 st.2.2
  have hmod : fl.type.size > 1 → (o1 + (fl.names.length : Int) * fl.type.size) % 4 = 0 := by
    intro h
    have e1 := h4 h
    have e2 : (4 : Int) ∣ (fl.names.length : Int) * fl.type.size :=
      Dvd.dvd.mul_left (Int.dvd_of_emod_eq_zero (hal h)) _
    have e3 := Int.emod_eq_zero_of_dvd e2
    omega
  obtain ⟨news', g1, g2, g3, g4⟩ := setFields_layout fl.type o1 st.2.1 hs0 hal
    (layoutOk_mono st.1 o1 st.2.1 hl hlo) (by omega) news
    (o1 + (fl.names.length : Int) * fl.type.size) (by rw [d2]) (by omega) hmod
  have hchain : (fieldList raw st fl).2.1 = news' ++ st.2.1 := by
    show setFields fl.type fl.names.length (wrap32 ((if fl.type.size > 1 then Align st.1
      else st.1) + wrap32 ((fl.names.length : Int) * fl.type.size)))
      (declFields raw fl.names st.2.1 st.2.2).1 = _
    rw [ho1, hw1, hw2, d1]
    rw [d2] at g1
    exact g1
  refine ⟨news', hchain, ?_, ?_, ?_, ?_, ?_⟩
  · rw [List.map_reverse, g2, ← List.map_reverse, d3]
  · intro f hf
    have := g3 f hf
    rw [d2] at this
    exact ⟨by omega, this.2⟩
  · rw [hoff, hchain]; exact g4
  · rw [hoff]; omega
  · rw [hoff]; omega

/-- The bound of the specification is not negative for field types of size 1 or a multiple
of 4. -/
theorem layoutBound_nonneg (fls : List field_list)
    (hs : ∀ fl ∈ fls, fl.type.size = 1 ∨ (0 ≤ fl.type.size ∧ fl.type.size % 4 = 0)) :
    0 ≤ layoutBound fls := by
  induction fls with
  | nil => simp [layoutBound]
  | cons fl rest ih =>
    have h1 := hs fl (List.mem_cons_self _ _)
    have h2 := ih (fun g hg => hs g (List.mem_cons_of_mem _ hg))
    have h3 : 0 ≤ (fl.names.length : Int) * fl.type.size := mul_nonneg (by omega) (by omega)
    simp only [layoutBound, List.map_cons, List.sum_cons] at h2 ⊢
    omega

/-- The outer loop of `RecordType` over the field lists: the new fields are pushed above the
offset on entry, in the order of their declaration, and the layout is kept. -/
theorem fieldLists_layout (raw : object_t) : ∀ (fls : List field_list)
    (st : Int × List object_t × Diag),
    layoutOk st.1 st.2.1 → 0 ≤ st.1 →
    (∀ fl ∈ fls, fl.type.size = 1 ∨ (0 ≤ fl.type.size ∧ fl.type.size % 4 = 0)) →
    st.1 + layoutBound fls ≤ 2147483647 →
    ∃ news : List object_t, (fls.foldl (fieldList raw) st).2.1 = news ++ st.2.1 ∧
      news.reverse.map object_t.name = (fls.map fun fl => fl.names.map Prod.fst).flatten ∧
      (∀ f ∈ news, st.1 ≤ f.val) ∧
      layoutOk (fls.foldl (fieldList raw) st).1 (fls.foldl (fieldList raw) st).2.1 ∧
      st.1 ≤ (fls.foldl (fieldList raw) st).1 ∧
      (fls.foldl (fieldList raw) st).1 ≤ st.1 + layoutBound fls := by
  intro fls
  induction fls with
  | nil =>
    intro st hl h0 _ _
    refine ⟨[], rfl, rfl, ?_, hl, le_refl _, ?_⟩
    · intro f hf; cases hf
    · simp [layoutBound]
  | cons fl rest ih =>
    intro st hl h0 hs hfit
    have hs1 := hs fl (List.mem_cons_self _ _)
    have hs2 : ∀ g ∈ rest, g.type.size = 1 ∨ (0 ≤ g.type.size ∧ g.type.size % 4 = 0) :=
      fun g hg => hs g (List.mem_cons_of_mem _ hg)
    have hb := layoutBound_nonneg rest hs2
    have hbe : layoutBound (fl :: rest)
        = 3 + (fl.names.length : Int) * fl.type.size + layoutBound rest := by
      simp [layoutBound]
    rw [hbe] at hfit
    obtain ⟨n1, a1, a2, a3, a4, a5, a6⟩ := fieldList_layout raw st fl hl h0 hs1 (by omega)
    obtain ⟨n2, b1, b2, b3, b4, b5, b6⟩ := ih (fieldList raw st fl) a4 (by omega) hs2
      (by omega)
    refine ⟨n2 ++ n1, ?_, ?_, ?_, b4, ?_, ?_⟩
    · show (rest.foldl (fieldList raw) (fieldList raw st fl)).2.1 = _
      rw [b1, a1, List.append_assoc]
    · rw [List.reverse_append, List.map_append, a2, b2]
      simp
    · intro f hf
      rcases List.mem_append.mp hf with hf | hf
      · have := b3 f hf; omega
      · exact (a3 f hf).1
    · show st.1 ≤ (rest.foldl (fieldList raw) (fieldList raw st fl)).1
      omega
    · show (rest.foldl (fieldList raw) (fieldList raw st fl)).1 ≤ _
      rw [hbe]; omega

/-- C29 (as amended): for a record declaration without a base or with a base record that is
laid out as below (as every record built here is), and field lists whose types have sizes
that are 1 or a multiple of 4 (0 included), as long as the offsets stay within `int`: the
type is a record whose size is a multiple of 4; its extension depth is 0 without a base and
the depth of the base + 1 with one; its field chain is the new fields, in the reverse order
of their declaration, in front of the chain of the base; every new field has an offset not
below the size of the base; and all fields, inherited ones included, satisfy `layoutOk`:
each lies in `[0, size)`, each field of more than one byte lies at a multiple of 4, and each
field ends at or below the offset of every field declared after it, so that the byte ranges
are pairwise disjoint and the offsets do not decrease in the order of declaration (they
increase after every field of non-zero size).  The new record satisfies what is required of
a base record. -/
theorem C29_record_layout (raw : object_t) (rawT : type_t) (addr : Nat) (level : Int)
    (base : record_base) (fls : List field_list) (d : Diag)
    (hbase : base = .absent ∨ ∃ obj, base = .ident obj ∧ obj.tag = .kObjType ∧
      obj.type.tag = .kTypeRecord ∧ 0 ≤ obj.type.size ∧ obj.type.size % 4 = 0 ∧
      layoutOk obj.type.size obj.type.dlink ∧ 0 ≤ obj.type.len ∧ obj.type.len < 2147483647)
    (hs : ∀ fl ∈ fls, fl.type.size = 1 ∨ (0 ≤ fl.type.size ∧ fl.type.size % 4 = 0))
    (hfit : (recordBase level base d).offset + layoutBound fls + 3 ≤ 2147483647) :
    (RecordTypeDecl raw rawT addr level base fls d).1.tag = .kTypeRecord ∧
    (RecordTypeDecl raw rawT addr level base fls d).1.size % 4 = 0 ∧
    (base = .absent → (RecordTypeDecl raw rawT addr level base fls d).1.base = none ∧
      (RecordTypeDecl raw rawT addr level base fls d).1.len = 0) ∧
    (∀ obj, base = .ident obj →
      (RecordTypeDecl raw rawT addr level base fls d).1.base = some obj.type ∧
      (RecordTypeDecl raw rawT addr level base fls d).1.len = obj.type.len + 1 ∧
      (recordBase level base d).offset = obj.type.size ∧
      (recordBase level base d).chain = obj.type.dlink) ∧
    (∃ news : List object_t,
      (RecordTypeDecl raw rawT addr level base fls d).1.dlink
        = news ++ (recordBase level base d).chain ∧
      news.reverse.map object_t.name = (fls.map fun fl => fl.names.map Prod.fst).flatten ∧
      ∀ f ∈ news, (recordBase level base d).offset ≤ f.val) ∧
    layoutOk (RecordTypeDecl raw rawT addr level base fls d).1.size
      (RecordTypeDecl raw rawT addr level base fls d).1.dlink ∧
    0 ≤ (RecordTypeDecl raw rawT addr level base fls d).1.size := by
  -- the state after the base type
  have hb : layoutOk (recordBase level base d).offset (recordBase level base d).chain ∧
      0 ≤ (recordBase level base d).offset := by
    rcases hbase with rfl | ⟨obj, rfl, h1, h2, h3, _, h5, _, _⟩
    · refine ⟨⟨?_, List.Pairwise.nil⟩, le_refl _⟩
      intro f hf
      cases hf
    · have e1 : ¬ (obj.tag ≠ .kObjType) := not_not.mpr h1
      have e2 : ¬ (obj.type.tag ≠ .kTypeRecord) := not_not.mpr h2
      simp only [recordBase, e1, e2, if_false]
      exact ⟨h5, h3⟩
  obtain ⟨news, a1, a2, a3, a4, a5, a6⟩ := fieldLists_layout raw fls
    ((recordBase level base d).offset, (recordBase level base d).chain,
      (recordBase level base d).diag) hb.1 hb.2 hs (by show _ + _ ≤ _; omega)
  obtain ⟨c1, c2, c3⟩ := Align_spec
    (fls.foldl (fieldList raw) ((recordBase level base d).offset,
      (recordBase level base d).chain, (recordBase level base d).diag)).1
    (by omega) (by omega)
  refine ⟨rfl, c1, ?_, ?_, ⟨news, a1, a2, a3⟩, ?_, le_trans (le_trans hb.2 a5) c2⟩
  · rintro rfl
    exact ⟨rfl, rfl⟩
  · intro obj ho
    subst ho
    rcases hbase with h | ⟨obj', h, h1, h2, _, _, _, h6, h7⟩
    · cases h
    · cases h
      have e1 : ¬ (obj.tag ≠ .kObjType) := not_not.mpr h1
      have e2 : ¬ (obj.type.tag ≠ .kTypeRecord) := not_not.mpr h2
      have hw : wrap32 (obj.type.len + 1) = obj.type.len + 1 := by unfold wrap32; omega
      refine ⟨?_, ?_, ?_, ?_⟩
      · show (recordBase level (.ident obj) d).base = _
        simp only [recordBase, e1, e2, if_false]
      · show (recordBase level (.ident obj) d).ext = _
        simp only [recordBase, e1, e2, if_false, hw]
      · simp only [recordBase, e1, e2, if_false]
      · simp only [recordBase, e1, e2, if_false]
  · exact layoutOk_mono _ _ _ a4 c2

/-- Witness for C29: the extension `R1 = RECORD (R0) e : CHAR; f, g : INTEGER END` of
`R0 = RECORD a, b : INTEGER; c : CHAR; d : INTEGER END` has the size 28, the depth 1, and
the fields `a` to `g` at the offsets 0, 4, 8, 12, 16, 20, 24. -/
theorem C29_record_layout_witness :
    recordExtDemo.size % 4 = 0 ∧ recordExtDemo.len = recordDemo.len + 1 ∧
    layoutOk recordExtDemo.size recordExtDemo.dlink ∧
    fieldsOf recordExtDemo = [("a", 0, 4), ("b", 4, 4), ("c", 8, 1), ("d", 12, 4),
      ("e", 16, 1), ("f", 20, 4), ("g", 24, 4)] ∧
    recordExtDemo.size = 28 ∧ recordDemo.size = 16 := by
  obtain ⟨_, h2, _, h4, _, h6, _⟩ :=
    C29_record_layout rawObject g_no_type 203 0 (.ident (typeObject "R0" recordDemo))
      [{ names := [("e", false)], type := g_char_type },
       { names := [("f", false), ("g", false)], type := g_int_type }]
      { errcnt := 0, marks := [] }
      (Or.inr ⟨typeObject "R0" recordDemo, rfl, by decide, by decide, by decide, by decide,
        by decide, by decide, by decide⟩)
      (by decide) (by decide)
  exact ⟨h2, (h4 _ rfl).2.1, h6, by decide, by decide, by decide⟩

/-- C29 (counterexample): in `RECORD a, b : E END` with `E = RECORD END`, a type of size 0,
the fields `a` and `b` are declared one after the other and have the same offset 0. -/
theorem C29_counterexample_fields_of_size_zero :
    recordEmpty.size = 0 ∧ recordEmpty.tag = .kTypeRecord ∧
    fieldsOf recordOfEmpty = [("a", 0, 0), ("b", 0, 0)] := by
  decide

/-! ### Memory instructions -/

theorem headerF2_enum : ∀ op : Nat, op < 4 → ∀ a : Nat, a < 16 → ∀ b : Nat, b < 16 →
    bitOr (bitOr (shl ((op : Int) + 8) 28) (shl (a : Int) 24)) (shl (b : Int) 20)
      = wordF2 ((op : Int) + 8) (a : Int) (b : Int) 0 := by
  decide!

theorem headerF2 (op a b : Int) (hop : 8 ≤ op ∧ op ≤ 11) (ha : 0 ≤ a ∧ a ≤ 15)
    (hb : 0 ≤ b ∧ b ≤ 15) :
    bitOr (bitOr (shl op 28) (shl a 24)) (shl b 20) = wordF2 op a b 0 := by
  obtain ⟨o, ho⟩ := Int.eq_ofNat_of_zero_le (by omega : 0 ≤ op - 8)
  obtain ⟨a, rfl⟩ := Int.eq_ofNat_of_zero_le ha.1
  obtain ⟨b, rfl⟩ := Int.eq_ofNat_of_zero_le hb.1
  have hop' : op = (o : Int) + 8 := by omega
  subst hop'
  exact headerF2_enum o (by omega) a (by omega) b (by omega)

/-- The word that `Put2` stores: the offset is cut to 16 bits. -/
theorem Put2_eq (op a b off : Int) (s : CG) (hop : 8 ≤ op ∧ op ≤ 11)
    (ha : 0 ≤ a ∧ a ≤ 15) (hb : 0 ≤ b ∧ b ≤ 15) (hpc : 0 ≤ s.pc ∧ s.pc < 1024) :
    Put2 op a b off s =
      some { s with
        mem := Function.update s.mem s.pc.toNat (wordF2 op a b (off % 65536))
        pc := s.pc + 1 } := by
  have hpc' : ¬ (s.pc < 0 ∨ kMemSz / 4 ≤ s.pc) := by simp only [kMemSz]; omega
  have ha' : ¬ ¬ (0 ≤ a ∧ a ≤ 15) := not_not.mpr ha
  have hb' : ¬ ¬ (0 ≤ b ∧ b ≤ 15) := not_not.mpr hb
  have ho' : ¬ ¬ (op = kOpLdr ∨ op = kOpLdr + 1 ∨ op = kOpStr ∨ op = kOpStr + 1) := by
    simp only [kOpLdr, kOpStr]; omega
  have hw : bitOr (wordF2 op a b 0) (off % 65536) = wordF2 op a b (off % 65536) := by
    rw [bitOr_eq_add 16 65536 _ _ (by norm_num) (by norm_num)]
    · simp only [wordF2]; omega
    · simp only [wordF2]; omega
    · omega
    · simp only [wordF2]; omega
    · simp only [wordF2]; omega
  have hw2 : wrap32 (wordF2 op a b (off % 65536)) = wordF2 op a b (off % 65536) := by
    simp only [wrap32, wordF2]; omega
  simp only [Put2, ho', ha', hb', if_false, headerF2 op a b hop ha hb, hw, emit, hpc', hw2]

theorem decodeF2 (op a b off : Int) (hop : 8 ≤ op ∧ op ≤ 11) (ha : 0 ≤ a ∧ a ≤ 15)
    (hb : 0 ≤ b ∧ b ≤ 15) (hoff : 0 ≤ off ∧ off < 1048576) :
    insnMsb (wordF2 op a b off) = true ∧ insnQ (wordF2 op a b off) = false ∧
    insnU (wordF2 op a b off) = decide (10 ≤ op) ∧
    insnV (wordF2 op a b off) = decide (op % 2 = 1) ∧
    fieldA (wordF2 op a b off) = a ∧ fieldB (wordF2 op a b off) = b ∧
    wordF2 op a b off % 1048576 = off := by
  simp only [insnMsb, insnQ, insnU, insnV, fieldA, fieldB, wordF2]
  refine ⟨?_, ?_, ?_, ?_, ?_, ?_, ?_⟩
  · simp only [decide_eq_true_eq]; omega
  · simp only [decide_eq_false_iff_not]; omega
  · simp only [decide_eq_decide]; omega
  · simp only [decide_eq_decide]; omega
  all_goals omega

/-- Execution of a load: `R.a := Mem[R.b + off]`, a word for the opcode 8 and a byte for the
opcode 9; N and Z are set from the value, the other flags are kept. -/
theorem step_load (vm : VM) (op a b off : Int) (hop : op = 8 ∨ op = 9)
    (ha : 0 ≤ a ∧ a ≤ 15) (hb : 0 ≤ b ∧ b ≤ 15) (hoff : 0 ≤ off ∧ off < 1048576)
    (hpc : 0 ≤ vm.pc ∧ vm.pc < 1024) (hw : vm.mem vm.pc.toNat = wordF2 op a b off)
    (hn : 0 ≤ wrap32 (vm.reg b.toNat + off) ∧ wrap32 (vm.reg b.toNat + off) < 4096) :
    step vm = some (setNZ
      { vm with
        ir := wordF2 op a b off
        pc := vm.pc + 1
        reg := Function.update vm.reg a.toNat
          (wrap32 (if op = 9 then
              asr (vm.mem (wrap32 (vm.reg b.toNat + off) / 4).toNat)
                ((wrap32 (vm.reg b.toNat + off) % 4) * 8).toNat % 256
            else vm.mem (wrap32 (vm.reg b.toNat + off) / 4).toNat)) }
      (if op = 9 then
          asr (vm.mem (wrap32 (vm.reg b.toNat + off) / 4).toNat)
            ((wrap32 (vm.reg b.toNat + off) % 4) * 8).toNat % 256
        else vm.mem (wrap32 (vm.reg b.toNat + off) / 4).toNat)) := by
  obtain ⟨h1, h2, h3, h4, h5, h6, h7⟩ := decodeF2 op a b off (by omega) ha hb hoff
  have hpc' : ¬ (vm.pc < 0 ∨ kMemSz / 4 ≤ vm.pc) := by simp only [kMemSz]; omega
  have hu : insnU (wordF2 op a b off) = false := by
    rw [h3]; simp only [decide_eq_false_iff_not]; omega
  have hm : ¬ (kMemSz / 4 ≤ wrap32 (vm.reg b.toNat + off) / 4) := by
    simp only [kMemSz]; omega
  rcases hop with rfl | rfl
  · have hv : insnV (wordF2 8 a b off) = false := by rw [h4]; decide
    simp only [step, hpc', if_false, hw, h1, h2, hu, hv, h5, h6, h7, operandB,
      Bool.not_false, Bool.not_true, Bool.or_true, Bool.false_eq_true, if_true, hn.1, hm]
    norm_num
  · have hv : insnV (wordF2 9 a b off) = true := by rw [h4]; decide
    simp only [step, hpc', if_false, hw, h1, h2, hu, hv, h5, h6, h7, operandB,
      Bool.not_false, Bool.not_true, Bool.or_true, Bool.false_eq_true, if_true, hn.1, hm]

/-! ### Constant and run-time divisors -/

/-- A constant divisor or modulus that is not positive is reported and no code is emitted,
for a dividend that is a constant or in a register. -/
theorem DivOp_constant_not_positive (op : Int) (x y : item_t) (s : CG)
    (hop : op = kSymDiv ∨ op = kSymMod)
    (hx : x.type.tag = .kTypeInt ∧ (x.mode = .kModeImmediate ∨ x.mode = .kModeReg))
    (hy : y.type.tag = .kTypeInt ∧ y.mode = .kModeImmediate ∧ y.a ≤ 0) :
    ORG_DivOp op x y s
      = some (x, s.mark (if op = kSymDiv then "bad divisor" else "bad modulus")) := by
  have hne : kSymMod ≠ kSymDiv := by decide
  rcases hop with rfl | rfl
  · simp only [ORG_DivOp, hx.1, hy.1, hy.2.1, hy.2.2, assertImmOrReg]
    simp [hx.2]
  · simp only [ORG_DivOp, hx.1, hy.1, hy.2.1, hy.2.2, assertImmOrReg, hne]
    simp [hx.2]

/-- For a dividend that is a variable, the constant divisor that is not positive is reported
as well, no code is emitted, the item stays in mode `Direct`, and the assertion that closes
`ORG_DivOp` fails. -/
theorem DivOp_constant_not_positive_variable (op : Int) (x y : item_t) (s : CG)
    (hop : op = kSymDiv ∨ op = kSymMod)
    (hx : x.type.tag = .kTypeInt ∧ x.mode = .kModeDirect)
    (hy : y.type.tag = .kTypeInt ∧ y.mode = .kModeImmediate ∧ y.a ≤ 0) :
    ORG_DivOp op x y s = none := by
  have hne : kSymMod ≠ kSymDiv := by decide
  rcases hop with rfl | rfl
  · simp only [ORG_DivOp, hx.1, hy.1, hy.2.1, hy.2.2, assertImmOrReg]
    simp [hx.2]
  · simp only [ORG_DivOp, hx.1, hy.1, hy.2.1, hy.2.2, assertImmOrReg, hne]
    simp [hx.2]

/-- A value of `int32_t` is not changed by the reduction to 32 bits. -/
theorem wrap32_id (x : Int) (h0 : -2147483648 ≤ x) (h1 : x < 2147483648) : wrap32 x = x := by
  unfold wrap32; omega

/-- The condition LE of the interpreter: `(N != V) | Z`. -/
theorem IsTrue_LE (vm : VM) : IsTrue vm kCondLE = ((vm.flagN != vm.flagV) || vm.flagZ) := by
  simp [IsTrue, kCondLE, kCondTrue, kCondMI, kCondEQ, kCondVS, kCondLT, kCondPL, kCondNE,
    kCondVC, kCondGE, kCondGT]

/-- The check of a run-time divisor on the interpreter: a load of the divisor `d` into
register `a` followed by the branch on LE to `kTrapDivByZero`.  The trap is reached exactly
for `d <= 0` if V is clear on entry, and exactly for `d >= 0` if V is set; otherwise the
interpreter goes on behind the branch. -/
theorem divisor_check_steps (vm : VM) (a off : Int) (ha : 0 ≤ a ∧ a ≤ 15)
    (hoff : 0 ≤ off ∧ off < 65536) (hpc : 0 ≤ vm.pc ∧ vm.pc + 1 < 1024)
    (hw1 : vm.mem vm.pc.toNat = wordF2 8 a 13 off)
    (hw2 : vm.mem (vm.pc + 1).toNat
      = wordF3 kOpBc kCondLE ((kTrapDivByZero - (vm.pc + 1) - 1) % 16777216))
    (hn : 0 ≤ wrap32 (vm.reg 13 + off) ∧ wrap32 (vm.reg 13 + off) < 4096)
    (hd : -2147483648 ≤ vm.mem (wrap32 (vm.reg 13 + off) / 4).toNat ∧
      vm.mem (wrap32 (vm.reg 13 + off) / 4).toNat < 2147483648) :
    ∃ vm', stepN 2 vm = some vm' ∧
      vm'.reg a.toNat = vm.mem (wrap32 (vm.reg 13 + off) / 4).toNat ∧
      (vm'.pc = kTrapDivByZero ∨ vm'.pc = vm.pc + 2) ∧
      (vm.flagV = false →
        (vm'.pc = kTrapDivByZero ↔ vm.mem (wrap32 (vm.reg 13 + off) / 4).toNat ≤ 0)) ∧
      (vm.flagV = true →
        (vm'.pc = kTrapDivByZero ↔ 0 ≤ vm.mem (wrap32 (vm.reg 13 + off) / 4).toNat)) := by
  have h13 : (13 : Int).toNat = 13 := rfl
  have hs1 := step_load vm 8 a 13 off (Or.inl rfl) ha (by omega) (by omega) (by omega) hw1
    (by rw [h13]; exact hn)
  rw [h13] at hs1
  have hne : ¬ ((8 : Int) = 9) := by omega
  simp only [hne, if_false] at hs1
  have hwr : wrap32 (vm.mem (wrap32 (vm.reg 13 + off) / 4).toNat)
      = vm.mem (wrap32 (vm.reg 13 + off) / 4).toNat := wrap32_id _ hd.1 hd.2
  rw [hwr] at hs1
  obtain ⟨vm1, hvm1⟩ : ∃ vm1, vm1 = setNZ
      { vm with
        ir := wordF2 8 a 13 off
        pc := vm.pc + 1
        reg := Function.update vm.reg a.toNat (vm.mem (wrap32 (vm.reg 13 + off) / 4).toNat) }
      (vm.mem (wrap32 (vm.reg 13 + off) / 4).toNat) := ⟨_, rfl⟩
  rw [← hvm1] at hs1
  have p1 : vm1.pc = vm.pc + 1 := by rw [hvm1]; rfl
  have p2 : vm1.mem = vm.mem := by rw [hvm1]; rfl
  have p3 : vm1.reg a.toNat = vm.mem (wrap32 (vm.reg 13 + off) / 4).toNat := by
    rw [hvm1]; show Function.update vm.reg a.toNat _ a.toNat = _
    rw [Function.update_same]
  have p4 : vm1.flagV = vm.flagV := by rw [hvm1]; rfl
  have p5 : vm1.flagN = decide (vm.mem (wrap32 (vm.reg 13 + off) / 4).toNat < 0) := by
    rw [hvm1]; rfl
  have p6 : vm1.flagZ = decide (vm.mem (wrap32 (vm.reg 13 + off) / 4).toNat = 0) := by
    rw [hvm1]; rfl
  have hs2 := step_BC_target vm1 kCondLE kTrapDivByZero (by decide) (by rw [p1]; omega)
    (by rw [p1]; simp only [kTrapDivByZero]; omega) (by rw [p1, p2]; exact hw2)
  have hT := IsTrue_LE vm1
  rw [p4, p5, p6] at hT
  by_cases hc : IsTrue vm1 kCondLE = true
  · rw [if_pos hc] at hs2
    refine ⟨_, stepN_two_of hs1 hs2, p3, Or.inl rfl, ?_, ?_⟩
    · intro hv
      rw [hv, hc] at hT
      simp only [kTrapDivByZero, true_iff]
      by_contra hcon
      have e1 : ¬ (vm.mem (wrap32 (vm.reg 13 + off) / 4).toNat < 0) := by omega
      have e2 : ¬ (vm.mem (wrap32 (vm.reg 13 + off) / 4).toNat = 0) := by omega
      simp [e1, e2] at hT
    · intro hv
      rw [hv, hc] at hT
      simp only [kTrapDivByZero, true_iff]
      by_contra hcon
      have e1 : vm.mem (wrap32 (vm.reg 13 + off) / 4).toNat < 0 := by omega
      have e2 : ¬ (vm.mem (wrap32 (vm.reg 13 + off) / 4).toNat = 0) := by omega
      simp [e1, e2] at hT
  · have hc' : IsTrue vm1 kCondLE = false := by simpa using hc
    rw [if_neg hc] at hs2
    have hpcne : ¬ (vm1.pc + 1 = kTrapDivByZero) := by
      rw [p1]; simp only [kTrapDivByZero]; omega
    refine ⟨_, stepN_two_of hs1 hs2, p3, Or.inr (by show vm1.pc + 1 = _; rw [p1]; ring), ?_, ?_⟩
    · intro hv
      rw [hv, hc'] at hT
      constructor
      · intro h; exact absurd h hpcne
      · intro h
        exfalso
        by_cases e1 : vm.mem (wrap32 (vm.reg 13 + off) / 4).toNat < 0
        · simp [e1] at hT
        · have e2 : vm.mem (wrap32 (vm.reg 13 + off) / 4).toNat = 0 := by omega
          simp [e2] at hT
    · intro hv
      rw [hv, hc'] at hT
      constructor
      · intro h; exact absurd h hpcne
      · intro h
        exfalso
        by_cases e1 : vm.mem (wrap32 (vm.reg 13 + off) / 4).toNat = 0
        · simp [e1] at hT
        · have e2 : ¬ (vm.mem (wrap32 (vm.reg 13 + off) / 4).toNat < 0) := by omega
          simp [e1, e2] at hT

/-- The code of the check: for a global variable `y` of type `INTEGER`, `Load(y)` followed by
`Trap(kCondLE, kTrapDivByZero)`, the first two calls of `ORG_DivOp` for a run-time divisor,
emit the load of `y` into register `g_rh` and the branch on LE to `kTrapDivByZero`. -/
theorem divisor_check_code (y : item_t) (s : CG)
    (hy : y.mode = .kModeDirect ∧ y.r ≤ 0 ∧ y.type.size ≠ 1 ∧ 0 ≤ y.a ∧ y.a < 65536)
    (hrh : 0 ≤ s.rh ∧ s.rh ≤ 15) (hpc : 0 ≤ s.pc ∧ s.pc + 1 < 1024) :
    ∃ s1 s2, Load y s = some ({ y with r := s.rh, mode := .kModeReg }, s1) ∧
      Trap kCondLE kTrapDivByZero s1 = some s2 ∧ s2.pc = s.pc + 2 ∧
      s2.mem s.pc.toNat = wordF2 8 s.rh 13 y.a ∧
      s2.mem (s.pc + 1).toNat
        = wordF3 kOpBc kCondLE ((kTrapDivByZero - (s.pc + 1) - 1) % 16777216) := by
  have hm : y.mode ≠ .kModeReg ∧ y.mode ≠ .kModeRegI ∧ y.mode ≠ .kModeImmediate := by
    rw [hy.1]; decide
  have hr : ¬ (y.r > 0) := by omega
  have hya : y.a % 65536 = y.a := by omega
  have hP2 := Put2_eq kOpLdr s.rh kRegSB y.a s (by decide) hrh (by decide) (by omega)
  rw [hya] at hP2
  obtain ⟨sA, hsA⟩ : ∃ sA : CG, sA = IncR { s with
      mem := Function.update s.mem s.pc.toNat (wordF2 kOpLdr s.rh kRegSB y.a)
      pc := s.pc + 1 } := ⟨_, rfl⟩
  have hA1 : sA.pc = s.pc + 1 := by rw [hsA]; unfold IncR CG.mark; split <;> rfl
  have hA2 : sA.mem = Function.update s.mem s.pc.toNat (wordF2 kOpLdr s.rh kRegSB y.a) := by
    rw [hsA]; unfold IncR CG.mark; split <;> rfl
  have hL : Load y s = some ({ y with r := s.rh, mode := .kModeReg }, sA) := by
    simp only [Load, loadCode, hm.1, hm.2.1, hm.2.2, hy.1, hy.2.2.1, hr, if_false, if_true,
      hP2, Option.some_bind, hsA]
    rfl
  have hP3 := Put3_eq kOpBc kCondLE (kTrapDivByZero - sA.pc - 1) sA (by decide) (by decide)
    (by rw [hA1]; omega)
  have hT : Trap kCondLE kTrapDivByZero sA = some { sA with
      mem := Function.update sA.mem sA.pc.toNat
        (wordF3 kOpBc kCondLE ((kTrapDivByZero - sA.pc - 1) % 16777216))
      pc := sA.pc + 1 } := by
    have hneg : ¬ ¬ (kTrapDivByZero < 0) := by decide
    simp only [Trap, hneg, if_false]
    exact hP3
  have hne : (s.pc + 1).toNat ≠ s.pc.toNat := by omega
  refine ⟨sA, _, hL, hT, ?_, ?_, ?_⟩
  · show sA.pc + 1 = _
    rw [hA1]; ring
  · show Function.update sA.mem sA.pc.toNat _ s.pc.toNat = _
    rw [hA1, Function.update_noteq hne.symm, hA2, Function.update_same]
    rfl
  · show Function.update sA.mem sA.pc.toNat _ (s.pc + 1).toNat = _
    rw [hA1, Function.update_same]

/-! ### Folding of sums and differences of signed constants (C37) -/

/-- The reports of `ORG_AddOp` on two constants of 32 bits: for `+` exactly when the first is
positive and the sum exceeds 2^31 - 1; for `-` exactly when the first is negative and
`a + b` exceeds -2^31.  The value left is the result modulo 2^32. -/
theorem AddOp_constants (x y : item_t) (s : CG)
    (hx : x.mode = .kModeImmediate ∧ x.type.tag = .kTypeInt)
    (hy : y.mode = .kModeImmediate ∧ y.type.tag = .kTypeInt) :
    ORG_AddOp kSymPlus x y s =
        some ({ x with a := wrap32 (x.a + y.a) },
              if 0 < x.a ∧ 2147483647 < x.a + y.a then s.mark "overflow" else s) ∧
    ORG_AddOp kSymMinus x y s =
        some ({ x with a := wrap32 (x.a - y.a) },
              if x.a < 0 ∧ -2147483648 < x.a + y.a then s.mark "underflow" else s) := by
  obtain ⟨hx1, hx2⟩ := hx
  obtain ⟨hy1, hy2⟩ := hy
  constructor
  · by_cases h : 0 < x.a ∧ 2147483647 < x.a + y.a
    · have h1 : x.a > 0 ∧ y.a > 2147483647 - x.a := by omega
      simp [ORG_AddOp, assertImmOrReg, hx1, hx2, hy1, hy2, h, h1]
    · have h1 : ¬ (x.a > 0 ∧ y.a > 2147483647 - x.a) := by omega
      simp only [gt_iff_lt] at h1
      simp [ORG_AddOp, assertImmOrReg, hx1, hx2, hy1, hy2, h, h1]
  · by_cases h : x.a < 0 ∧ -2147483648 < x.a + y.a
    · have h1 : x.a < 0 ∧ y.a > -2147483648 - x.a := by omega
      simp [ORG_AddOp, assertImmOrReg, hx1, hx2, hy1, hy2, h, h1, kSymMinus, kSymPlus]
    · have h1 : ¬ (x.a < 0 ∧ y.a > -2147483648 - x.a) := by omega
      simp only [gt_iff_lt] at h1
      simp [ORG_AddOp, assertImmOrReg, hx1, hx2, hy1, hy2, h, h1, kSymMinus, kSymPlus]

/-- For a first operand that is not negative, `+` is reported exactly when the exact sum does
not fit (a second operand that is negative cannot take the sum below -2^31). -/
theorem AddOp_plus_exact (a b : Int) (ha : 0 ≤ a ∧ a ≤ 2147483647)
    (hb : -2147483648 ≤ b ∧ b ≤ 2147483647) :
    (0 < a ∧ 2147483647 < a + b) ↔ (a + b < -2147483648 ∨ 2147483647 < a + b) := by
  omega

/-- C37 (code defect): the test of `-` is `x->a < 0 && y->a > INT32_MIN - x->a`, which holds
whenever the first operand is negative and `a + b > -2^31`, whatever the difference.  For the
text `-1 - 0` the folded value is -1, within range, and "underflow" is reported; for
`-5 - 3` as well.  On the other side nothing is reported for `2147483647 - (-1)`, where the
difference 2^31 does not fit and the item is left with -2^31, nor for the sum
`-2147483647 + (-2)` (-2^31 - 1, left as 2^31 - 1).  The difference `-2147483647 - 2`, which
does not fit, is reported, and so is the sum `2147483647 + 1`; `5 + (-3)` and `5 - 3` are
not. -/
theorem C37_difference_of_negative_constant_reported :
    folded (negConst 1) = some (.kModeImmediate, -1, 1, []) ∧
    folded ((negConst 1).bind fun r => ORG_AddOp kSymMinus r.1 (intConst 0) r.2)
      = some (.kModeImmediate, -1, 1, ["underflow"]) ∧
    folded ((negConst 5).bind fun r => ORG_AddOp kSymMinus r.1 (intConst 3) r.2)
      = some (.kModeImmediate, -8, 1, ["underflow"]) ∧
    folded ((negConst 1).bind fun r => ORG_AddOp kSymMinus (intConst 2147483647) r.1 r.2)
      = some (.kModeImmediate, -2147483648, 1, []) ∧
    folded ((negConst 2147483647).bind fun r => ORG_AddOp kSymMinus r.1 (intConst 2) r.2)
      = some (.kModeImmediate, 2147483647, 1, ["underflow"]) ∧
    folded ((negConst 2147483647).bind fun r =>
        (ORG_Neg (intConst 2) r.2).bind fun q => ORG_AddOp kSymPlus r.1 q.1 q.2)
      = some (.kModeImmediate, 2147483647, 1, []) ∧
    folded (ORG_AddOp kSymPlus (intConst 2147483647) (intConst 1) cgStart)
      = some (.kModeImmediate, -2147483648, 1, ["overflow"]) ∧
    folded ((negConst 3).bind fun r => ORG_AddOp kSymPlus (intConst 5) r.1 r.2)
      = some (.kModeImmediate, 2, 1, []) ∧
    folded (ORG_AddOp kSymMinus (intConst 5) (intConst 3) cgStart)
      = some (.kModeImmediate, 2, 1, []) := by
  refine ⟨?_, ?_, ?_, ?_, ?_, ?_, ?_, ?_, ?_⟩ <;> decide

/-! ### Folded and emitted division (C38) -/

/-- C38 (code defect): for a negative dividend the folded quotient and remainder are those of
the C operators `/` and `%` (rounded towards zero), while the code emitted for a power of two
is `ASR` and `AND`, which round down.  `(-7) DIV 2` folds to -3 and `(-7) MOD 2` to -1; the
code for `v DIV 2` and `v MOD 2` with `v = -7` leaves -4 and 1.  With the divisor
131072 = 2^17 (`LSL`, `ROR`) the folded remainder is -7 and the emitted code leaves 131065.
For the divisor 3 both go through the division of C and agree (-2 and -1), and for the
dividend 7 they agree for every divisor. -/
theorem C38_folded_division_rounds_towards_zero :
    folded ((negConst 7).bind fun r => ORG_DivOp kSymDiv r.1 (intConst 2) r.2)
      = some (.kModeImmediate, -3, 1, []) ∧
    observe (stepN 2 (globalsVM (divConstCode 2) [-7])) = some (3, -4, 0) ∧
    folded ((negConst 7).bind fun r => ORG_DivOp kSymMod r.1 (intConst 2) r.2)
      = some (.kModeImmediate, -1, 1, []) ∧
    observe (stepN 2 (globalsVM (modConstCode 2) [-7])) = some (3, 1, 0) ∧
    folded ((negConst 7).bind fun r => ORG_DivOp kSymMod r.1 (intConst 131072) r.2)
      = some (.kModeImmediate, -7, 1, []) ∧
    observe (stepN 3 (globalsVM (modConstCode 131072) [-7])) = some (4, 131065, 0) ∧
    folded ((negConst 7).bind fun r => ORG_DivOp kSymDiv r.1 (intConst 3) r.2)
      = some (.kModeImmediate, -2, 1, []) ∧
    observe (stepN 2 (globalsVM (divConstCode 3) [-7])) = some (3, -2, 0) ∧
    folded ((negConst 7).bind fun r => ORG_DivOp kSymMod r.1 (intConst 3) r.2)
      = some (.kModeImmediate, -1, 1, []) ∧
    observe (stepN 3 (globalsVM (modConstCode 3) [-7])) = some (4, -1, 0) ∧
    folded (ORG_DivOp kSymDiv (intConst 7) (intConst 2) cgStart)
      = some (.kModeImmediate, 3, 1, []) ∧
    observe (stepN 2 (globalsVM (divConstCode 2) [7])) = some (3, 3, 0) ∧
    folded (ORG_DivOp kSymMod (intConst 7) (intConst 2) cgStart)
      = some (.kModeImmediate, 1, 1, []) ∧
    observe (stepN 2 (globalsVM (modConstCode 2) [7])) = some (3, 1, 0) := by
  refine ⟨?_, ?_, ?_, ?_, ?_, ?_, ?_, ?_, ?_, ?_, ?_, ?_, ?_, ?_⟩ <;> decide!

/-! ### Numbers of more than 16 digits (C40) -/

/-- With the digit count `n = 0` the decimal loop of `Number` has no exit: the test
`++i != n` holds after every pass, and the pass at index 16 is outside the buffer. -/
theorem decLoop_count_zero (buff : Nat → Int) : ∀ (fuel : Nat) (i sum : Int) (inp : Input),
    0 ≤ i → decLoop buff 0 fuel i sum inp = none := by
  intro fuel
  induction fuel with
  | zero => intro i sum inp _; rfl
  | succ fuel ih =>
    intro i sum inp hi
    unfold decLoop
    split
    · rfl
    · have hne : i + 1 ≠ 0 := by omega
      simp only [hne, ne_eq, not_false_eq_true, if_true]
      split
      · split
        · split
          · rfl
          · exact ih _ _ _ (by omega)
        · exact ih _ _ _ (by omega)
      · exact ih _ _ _ (by omega)

/-- The same for the hexadecimal loop. -/
theorem hexLoop_count_zero (buff : Nat → Int) : ∀ (fuel : Nat) (i sum : Int),
    0 ≤ i → hexLoop buff 0 fuel i sum = none := by
  intro fuel
  induction fuel with
  | zero => intro i sum _; rfl
  | succ fuel ih =>
    intro i sum hi
    unfold hexLoop
    split
    · rfl
    · have hne : i + 1 ≠ 0 := by omega
      simp only [hne, ne_eq, not_false_eq_true, if_true]
      have hi1 : 0 ≤ i + 1 := by omega
      split <;> split <;> first | rfl | exact ih _ _ hi1

/-- C40 (code defect): the 17th digit of a number makes `Number` report "too many digits" and
set `n = 0`.  On the source text `12345678901234567;` the loop that fills the buffer ends
with `n = 0`; the conversion loop `do ... while (++i != n)` then starts with `n = 0`, reads
`buff[0]` to `buff[15]` and goes on to `buff[16]`, outside the buffer of 16 entries, so that
`Number` has no result.  The same holds for 17 hexadecimal digits with the suffix `H`.  A
number of 16 digits is converted (and "too large" reported), and with 18 digits `n = 1` and
the value is the last digit. -/
theorem C40_seventeen_digits_read_outside_buffer :
    (digitLoop 258 0 (scannerOn textSeventeenDigits)).map
        (fun r => (r.1, r.2.inp.ch, r.2.inp.diag.marks, (List.range 16).map r.2.buff))
      = some (0, 59, ["too many digits"], [1, 2, 3, 4, 5, 6, 7, 8, 9, 0, 1, 2, 3, 4, 5, 6]) ∧
    (Number (scannerOn textSeventeenDigits)).isSome = false ∧
    (digitLoop 258 0 (scannerOn textSeventeenHexDigits)).map
        (fun r => (r.1, r.2.inp.ch, r.2.inp.diag.marks)) = some (0, 72, ["too many digits"]) ∧
    (Number (scannerOn textSeventeenHexDigits)).isSome = false ∧
    (Number (scannerOn textSixteenDigits)).map
        (fun r => (r.1, r.2.ival, r.2.inp.ch, r.2.inp.diag.marks))
      = some (kSymInt, 23456, 59, ["too large"]) ∧
    (Number (scannerOn textEighteenDigits)).map
        (fun r => (r.1, r.2.ival, r.2.inp.ch, r.2.inp.diag.marks))
      = some (kSymInt, 8, 59, ["too many digits"]) := by
  refine ⟨?_, ?_, ?_, ?_, ?_, ?_⟩ <;> decide!

/-! ### The value returned by `main` (C33) -/

theorem optionChars_inv : ∀ (cs : List Int) (m : main_t), optionsInv m →
    optionsInv (optionChars cs m) := by
  intro cs
  induction cs with
  | nil => intro m h; exact h
  | cons c cs ih =>
    intro m h
    rw [optionChars]
    apply ih
    by_cases h1 : c = 115
    · simp only [h1, if_true]
      exact h
    · by_cases h2 : c = 104
      · simp only [h1, h2, if_true, if_false]
        rcases h with h | h
        · exact Or.inl h
        · exact Or.inr ⟨le_refl _, h.2.1, h.2.2.1, h.2.2.2⟩
      · simp only [h1, h2, if_false]
        refine Or.inr ⟨le_refl _, rfl, ⟨c, by simp⟩, ?_⟩
        intro a ha
        rcases List.mem_append.mp ha with ha | ha
        · rcases h with h | h
          · rw [h.1] at ha; cases ha
          · exact h.2.2.2 a ha
        · exact ⟨c, by simpa using ha⟩

theorem optionArgs_inv : ∀ (argv : List (List Int)) (m m1 : main_t) (rest : List (List Int)),
    optionsInv m → optionArgs argv m = some (m1, rest) →
    optionsInv m1 ∧ ∀ f ∈ rest, f ∈ argv := by
  intro argv
  induction argv with
  | nil =>
    intro m m1 rest h hr
    have hdec : optionsInv { m with argc := m.argc - 1 } := by
      rcases h with h | h
      · exact Or.inl h
      · exact Or.inr ⟨by show m.argc - 1 ≤ 0; omega, h.2.1, h.2.2.1, h.2.2.2⟩
    unfold optionArgs at hr
    by_cases hpos : m.argc - 1 > 0
    · simp [hpos] at hr
    · simp only [hpos, if_false, Option.some.injEq, Prod.mk.injEq] at hr
      obtain ⟨rfl, rfl⟩ := hr
      exact ⟨hdec, fun f hf => hf⟩
  | cons arg argv ih =>
    intro m m1 rest h hr
    have hdec : optionsInv { m with argc := m.argc - 1 } := by
      rcases h with h | h
      · exact Or.inl h
      · exact Or.inr ⟨by show m.argc - 1 ≤ 0; omega, h.2.1, h.2.2.1, h.2.2.2⟩
    unfold optionArgs at hr
    by_cases hpos : m.argc - 1 > 0
    · by_cases hd : arg.head? = some 45
      · simp only [hpos, if_true, hd] at hr
        obtain ⟨h1, h2⟩ := ih _ m1 rest (optionChars_inv arg.tail _ hdec) hr
        exact ⟨h1, fun f hf => List.mem_cons_of_mem _ (h2 f hf)⟩
      · simp only [hpos, if_true, hd, if_false, Option.some.injEq, Prod.mk.injEq] at hr
        obtain ⟨rfl, rfl⟩ := hr
        exact ⟨hdec, fun f hf => hf⟩
    · simp only [hpos, if_false, Option.some.injEq, Prod.mk.injEq] at hr
      obtain ⟨rfl, rfl⟩ := hr
      exact ⟨hdec, fun f hf => hf⟩

/-- Whenever `main` returns, the value is 1 if it has reported an illegal option and 0
otherwise.  `ORP_Compile` has no result and `main` does not read the error
count: if a compilation has taken place, no illegal option has been met and `main` returns 0,
whether the error count is zero or not.  The compilation is that of an argument `fname`; with
the error count 0 it is followed by the disassembler (with `-s`) or by the interpreter, with
any other count by the message "compilation FAILED" alone. -/
theorem main_status_iff_reported (compile : List Int → Option Int)
    (argv : List (List Int)) (sc : Int) (out : List action_t)
    (h : main compile argv = some (sc, out)) :
    (sc = 0 ∨ sc = 1) ∧ (sc = 1 ↔ ∃ ch, action_t.illegalOption ch ∈ out) ∧
    ((action_t.decode ∈ out ∨ action_t.interpret ∈ out ∨ action_t.failed ∈ out) →
      sc = 0 ∧ ∃ fname n sflag, fname ∈ argv ∧ compile fname = some n ∧
        out = ORP_Compile n sflag ∧
        (n ≠ 0 → out = [action_t.failed]) ∧
        (n = 0 → out = [action_t.decode] ∨ out = [action_t.interpret])) := by
  unfold main at h
  cases ho : optionArgs argv { sc := 0, sflag := 0, argc := argv.length + 1, out := [] } with
  | none => rw [ho] at h; cases h
  | some r =>
    obtain ⟨m, rest⟩ := r
    rw [ho] at h
    simp only [Option.some_bind] at h
    obtain ⟨hinv, hrest⟩ := optionArgs_inv argv _ m rest (Or.inl ⟨rfl, rfl⟩) ho
    by_cases hargc : m.argc ≠ 1
    · simp only [hargc, ne_eq, not_false_eq_true, if_true, Option.some.injEq,
        Prod.mk.injEq] at h
      obtain ⟨rfl, rfl⟩ := h
      rcases hinv with hi | hi
      · rw [hi.1, hi.2]
        refine ⟨Or.inl rfl, ?_, ?_⟩
        · constructor
          · intro hc; cases hc
          · rintro ⟨ch, hch⟩; simp at hch
        · intro hc; simp at hc
      · refine ⟨Or.inr hi.2.1, ?_, ?_⟩
        · constructor
          · intro _
            obtain ⟨ch, hch⟩ := hi.2.2.1
            exact ⟨ch, List.mem_append_left _ hch⟩
          · intro _; exact hi.2.1
        · intro hc
          exfalso
          have hno : ∀ a, a ∈ m.out → a ≠ action_t.decode ∧ a ≠ action_t.interpret ∧
              a ≠ action_t.failed := by
            intro a ha
            obtain ⟨ch, rfl⟩ := hi.2.2.2 a ha
            exact ⟨by simp, by simp, by simp⟩
          rcases hc with hc | hc | hc
          · rcases List.mem_append.mp hc with hc | hc
            · exact (hno _ hc).1 rfl
            · simp at hc
          · rcases List.mem_append.mp hc with hc | hc
            · exact (hno _ hc).2.1 rfl
            · simp at hc
          · rcases List.mem_append.mp hc with hc | hc
            · exact (hno _ hc).2.2 rfl
            · simp at hc
    · have hone : m.argc = 1 := by
        by_contra hc; exact hargc hc
      simp only [hargc, if_false] at h
      have hi : m.out = [] ∧ m.sc = 0 := by
        rcases hinv with hi | hi
        · exact hi
        · omega
      cases rest with
      | nil => simp at h
      | cons fname rest =>
        simp only at h
        cases hc : compile fname with
        | none => rw [hc] at h; cases h
        | some n =>
          rw [hc] at h
          simp only [Option.map_some', Option.some.injEq, Prod.mk.injEq] at h
          obtain ⟨rfl, rfl⟩ := h
          rw [hi.1, hi.2, List.nil_append]
          have hout : ∀ ch, action_t.illegalOption ch ∉ ORP_Compile n m.sflag := by
            intro ch
            unfold ORP_Compile
            split
            · split <;> simp
            · simp
          refine ⟨Or.inl rfl, ?_, ?_⟩
          · constructor
            · intro hc; cases hc
            · rintro ⟨ch, hch⟩; exact absurd hch (hout ch)
          · intro _
            refine ⟨rfl, fname, n, m.sflag, hrest fname (List.mem_cons_self _ _), hc, rfl, ?_, ?_⟩
            · intro hn; simp [ORP_Compile, hn]
            · intro hn
              unfold ORP_Compile
              by_cases hs : m.sflag ≠ 0
              · left; simp [hn, hs]
              · right; simp [hn, hs]

/-- For the command line `oc M.Mod`, and a parse that ends with three errors, `main` prints
"compilation FAILED" and returns 0. -/
theorem main_status_example :
    main (fun _ => some 3) [cstr "M.Mod"] = some (0, [action_t.failed]) ∧
    ((0 : Int) = 0 ∨ (0 : Int) = 1) ∧
    ((0 : Int) = 1 ↔ ∃ ch, action_t.illegalOption ch ∈ [action_t.failed]) :=
  have h : main (fun _ => some 3) [cstr "M.Mod"] = some (0, [action_t.failed]) := by decide
  have hm := main_status_iff_reported (fun _ => some 3) [cstr "M.Mod"] 0
    [action_t.failed] h
  ⟨h, hm.1, hm.2.1⟩

/-- For every standard procedure other than `INC`, `DEC` and the one of the case 8 (`GET`),
a number of actual parameters that differs from `n % 10` is reported, and `StandProc` returns
without a call of the generator. -/
theorem StandProc_wrong_nof (rx ry rz : item_t) (n : Int) (act : actuals_t) (s : CG)
    (hn : standTag n ≠ 0 ∧ standTag n ≠ 1 ∧ standTag n ≠ 8)
    (hnap : (act.items.length : Int) ≠ standArity n) :
    StandProc rx ry rz n act s =
      some ((if act.items.length ≠ 0 ∧ act.closed = false then s.mark "no )" else s).mark
        "wrong nof parameters") := by
  unfold StandProc
  simp only [hn.1, hn.2.1, hn.2.2, hnap, ne_eq, not_false_eq_true, and_self, if_true]

/-- For the case 8 the number of actual parameters is not looked at. -/
theorem StandProc_case_eight (rx ry rz : item_t) (n : Int) (x y z : item_t) (s : CG)
    (hn : standTag n = 8) :
    StandProc rx ry rz n (actuals [x, y, z]) s = StandProc rx ry rz n (actuals [x, y]) s ∧
    StandProc rx ry rz n (actuals [x]) s
      = standProcBody 8 x { ry with type := g_no_type } rz s := by
  unfold StandProc
  simp only [hn, actuals]
  constructor
  · simp [standProcBody]
  · simp

/-- C39 (code defect): the test before the `switch` of `StandProc` exempts `n == 8` with the
comment "n == 8 (WriteLn) ... one parameter is optional", but 8 is the case of `GET` (82) and
`WriteLn` (71) is the case 7.  `GET(a, v, w)` with three parameters is compiled like
`GET(a, v)`: three instructions and no message.  `GET(a)` with one parameter is not reported
as "wrong nof parameters" either: the missing `y` has the type `g_no_type` and keeps the
other fields of its storage, "not a basic type" is reported, and two or three instructions
are emitted, depending on the mode found in `y`.  `PUT(a, v, w)` and `PUT(a)` are
reported and emit nothing, and so is `WriteLn` without a parameter, which the comment and
`ORG_Write` provide for. -/
theorem C39_get_arity_not_checked (rx ry rz : item_t) :
    (StandProcCase (standTag 82), standArity 82) = (some "GET", 2) ∧
    (StandProcCase (standTag 71), standArity 71) = (some "WriteLn", 1) ∧
    generated (StandProc rx ry rz 82
        (actuals [globalVar g_int_type 0, globalVar g_int_type 4, globalVar g_int_type 8])
        cgStart) = some (4, 0, []) ∧
    generated (StandProc rx ry rz 82
        (actuals [globalVar g_int_type 0, globalVar g_int_type 4]) cgStart) = some (4, 0, []) ∧
    generated (StandProc rx { ry with mode := .kModeImmediate, rdo := false } rz 82
        (actuals [globalVar g_int_type 0]) cgStart)
      = some (3, 0, ["not a basic type", "bad mode in Store"]) ∧
    generated (StandProc rx { ry with mode := .kModeDirect, rdo := false, r := 0 } rz 82
        (actuals [globalVar g_int_type 0]) cgStart)
      = some (4, 0, ["not a basic type"]) ∧
    generated (StandProc rx ry rz 92
        (actuals [globalVar g_int_type 0, globalVar g_int_type 4, globalVar g_int_type 8])
        cgStart) = some (1, 0, ["wrong nof parameters"]) ∧
    generated (StandProc rx ry rz 92 (actuals [globalVar g_int_type 0]) cgStart)
      = some (1, 0, ["wrong nof parameters"]) ∧
    generated (StandProc rx ry rz 71 (actuals []) cgStart)
      = some (1, 0, ["wrong nof parameters"]) := by
  refine ⟨by decide, by decide, ?_, ?_, ?_, ?_, ?_, ?_, ?_⟩
  · rfl
  · rfl
  · rfl
  · rfl
  · rfl
  · rfl
  · rfl

/-! ### Chains of branch instructions of any kind -/

theorem isF3_iff (w : Int) : isF3 w = true ↔ -1073741824 ≤ w ∧ w < 0 := by
  simp only [isF3, asr, decide_eq_true_eq]
  norm_num
  omega

/-- The word that `Fix` stores over an instruction of format F3. -/
theorem Fix_F3 (at_ with_ : Int) (s : CG) (hat : 0 ≤ at_ ∧ at_ < 1024)
    (hw : isF3 (s.mem at_.toNat) = true) :
    Fix at_ with_ s =
      some { s with mem := Function.update s.mem at_.toNat
                             (withOffset (s.mem at_.toNat) with_) } := by
  have hat' : ¬ (at_ < 0 ∨ kMemSz / 4 ≤ at_) := by simp only [kMemSz]; omega
  have hr := (isF3_iff _).mp hw
  have hfmt : ¬ ¬ (asr (s.mem at_.toNat) 30 % 4 = 3) := by
    simp only [asr]; norm_num; omega
  have hor : bitOr (s.mem at_.toNat - s.mem at_.toNat % 16777216) (with_ % 16777216)
      = withOffset (s.mem at_.toNat) with_ := by
    rw [bitOr_eq_add 24 16777216 _ _ (by norm_num) (by norm_num)]
    · rfl
    · omega
    · omega
    · omega
    · omega
  simp only [Fix, hat', if_false, hfmt, hor]

/-- The new word keeps the bits above the offset field, has the new offset field, and is of
format F3. -/
theorem withOffset_spec (w off : Int) (hw : isF3 w = true) :
    withOffset w off % 16777216 = off % 16777216 ∧
    withOffset w off / 16777216 = w / 16777216 ∧ isF3 (withOffset w off) = true := by
  have hr := (isF3_iff _).mp hw
  refine ⟨?_, ?_, ?_⟩
  · unfold withOffset; omega
  · unfold withOffset; omega
  · rw [isF3_iff]; unfold withOffset; omega

theorem isLinked_update (mem : Nat → Int) (n : Nat) (v : Int) :
    ∀ (l : List Int) (h : Int), (∀ a ∈ l, a.toNat ≠ n) →
      isLinked (Function.update mem n v) h l = isLinked mem h l := by
  intro l
  induction l with
  | nil => intro h _; rfl
  | cons a rest ih =>
    intro h hne
    have ha : a.toNat ≠ n := hne a (List.mem_cons_self _ _)
    simp only [isLinked, Function.update_noteq ha]
    rw [ih _ (fun b hb => hne b (List.mem_cons_of_mem _ hb))]

theorem retargeted_other (target : Int) (n : Nat) :
    ∀ (l : List Int) (mem : Nat → Int), (∀ a ∈ l, a.toNat ≠ n) →
      retargeted target mem l n = mem n := by
  intro l
  induction l with
  | nil => intro mem _; rfl
  | cons a rest ih =>
    intro mem hne
    have ha : a.toNat ≠ n := hne a (List.mem_cons_self _ _)
    rw [retargeted, ih _ (fun b hb => hne b (List.mem_cons_of_mem _ hb))]
    exact Function.update_noteq (Ne.symm ha) _ _

theorem isLinked_bounds (mem : Nat → Int) :
    ∀ (l : List Int) (h : Int), isLinked mem h l = true →
      ∀ a ∈ l, 0 < a ∧ a < 1024 ∧ isF3 (mem a.toNat) = true := by
  intro l
  induction l with
  | nil => intro h _ a ha; cases ha
  | cons b rest ih =>
    intro h hch a ha
    simp only [isLinked, Bool.and_eq_true, decide_eq_true_eq] at hch
    rcases List.mem_cons.mp ha with rfl | hmem
    · exact ⟨hch.1.1.2.1, hch.1.1.2.2, hch.1.2⟩
    · exact ih _ hch.2 a hmem

/-- The addresses of a chain other than its first differ from the first, if the addresses are
distinct. -/
theorem linked_tail_ne (mem : Nat → Int) (a : Int) (rest : List Int) (h : Int)
    (hch : isLinked mem h (a :: rest) = true) (hnd : (a :: rest).Nodup) :
    ∀ c ∈ rest, c.toNat ≠ a.toNat := by
  intro c hc heq
  have hbnd := isLinked_bounds mem (a :: rest) h hch
  have ha := hbnd a (List.mem_cons_self _ _)
  have hcb := hbnd c (List.mem_cons_of_mem _ hc)
  have : c = a := by omega
  exact (List.nodup_cons.mp hnd).1 (this ▸ hc)

/-- Every instruction of a chain of distinct addresses ends up with the offset that leads to
`target`, the other bits being kept. -/
theorem retargeted_at (target : Int) :
    ∀ (l : List Int) (mem : Nat → Int) (h : Int), isLinked mem h l = true → l.Nodup →
      ∀ a ∈ l, retargeted target mem l a.toNat = withOffset (mem a.toNat) (target - a - 1) := by
  intro l
  induction l with
  | nil => intro mem h _ _ a ha; cases ha
  | cons b rest ih =>
    intro mem h hch hnd a ha
    have hnotin := linked_tail_ne mem b rest h hch hnd
    simp only [isLinked, Bool.and_eq_true, decide_eq_true_eq] at hch
    rw [retargeted]
    rcases List.mem_cons.mp ha with rfl | hmem
    · rw [retargeted_other target _ rest _ hnotin]
      exact Function.update_same _ _ _
    · have hab : a.toNat ≠ b.toNat := hnotin a hmem
      have hch' : isLinked (Function.update mem b.toNat
          (withOffset (mem b.toNat) (target - b - 1))) (mem b.toNat % 16777216) rest = true := by
        rw [isLinked_update mem b.toNat _ rest _ hnotin]; exact hch.2
      rw [ih _ _ hch' (List.nodup_cons.mp hnd).2 a hmem, Function.update_noteq hab]

/-- The link that `ORG_FixLink` reads with the mask `0x3FFFF` is the offset field of the
instruction, for every chain within `g_mem`. -/
theorem linked_link (mem : Nat → Int) (a : Int) (rest : List Int) (h : Int)
    (hch : isLinked mem h (a :: rest) = true) :
    mem a.toNat % 262144 = mem a.toNat % 16777216 := by
  simp only [isLinked, Bool.and_eq_true, decide_eq_true_eq] at hch
  cases rest with
  | nil =>
    have h0 := hch.2
    simp only [isLinked, decide_eq_true_eq] at h0
    omega
  | cons b rest =>
    have h0 := hch.2
    simp only [isLinked, Bool.and_eq_true, decide_eq_true_eq] at h0
    have := h0.1.1.1
    have := h0.1.1.2
    omega

/-- On a chain of distinct addresses the loop of `ORG_FixLink` ends, given one pass per
link, and gives every instruction of the chain the offset that leads to the current `pc`. -/
theorem FixLinkLoop_linked :
    ∀ (l : List Int) (fuel : Nat) (h : Int) (s : CG), isLinked s.mem h l = true → l.Nodup →
      l.length ≤ fuel →
      FixLinkLoop fuel h s = some { s with mem := retargeted s.pc s.mem l } := by
  intro l
  induction l with
  | nil =>
    intro fuel h s hch _ _
    simp only [isLinked, decide_eq_true_eq] at hch
    subst hch
    cases fuel <;> simp [FixLinkLoop, retargeted]
  | cons a rest ih =>
    intro fuel h s hch hnd hlen
    have hnotin := linked_tail_ne s.mem a rest h hch hnd
    have hlink := linked_link s.mem a rest h hch
    have ha := isLinked_bounds s.mem (a :: rest) h hch a (List.mem_cons_self _ _)
    simp only [isLinked, Bool.and_eq_true, decide_eq_true_eq] at hch
    obtain ⟨⟨⟨hh, _⟩, hw⟩, hrest⟩ := hch
    subst hh
    cases fuel with
    | zero => simp at hlen
    | succ fuel =>
      have hne : h ≠ 0 := by omega
      have hb : ¬ (h < 0 ∨ kMemSz / 4 ≤ h) := by simp only [kMemSz]; omega
      have hF := Fix_F3 h (s.pc - h - 1) s (by omega) hw
      have hch' : isLinked (Function.update s.mem h.toNat
          (withOffset (s.mem h.toNat) (s.pc - h - 1))) (s.mem h.toNat % 16777216) rest
          = true := by
        rw [isLinked_update s.mem h.toNat _ rest _ hnotin]; exact hrest
      have hih := ih fuel (s.mem h.toNat % 16777216)
        { s with mem := (Function.update s.mem h.toNat
            (withOffset (s.mem h.toNat) (s.pc - h - 1))) }
        hch' (List.nodup_cons.mp hnd).2 (by simpa using hlen)
      simp only [FixLinkLoop, hne, ne_eq, not_false_eq_true, if_true, hb, if_false, hF,
        Option.some_bind, hlink, hih, retargeted]

/-- The same for the loop of `FixLinkWith` and the target `dst`. -/
theorem FixLinkWithLoop_linked (dst : Int) :
    ∀ (l : List Int) (fuel : Nat) (h : Int) (s : CG), isLinked s.mem h l = true → l.Nodup →
      l.length ≤ fuel →
      FixLinkWithLoop dst fuel h s = some { s with mem := retargeted dst s.mem l } := by
  intro l
  induction l with
  | nil =>
    intro fuel h s hch _ _
    simp only [isLinked, decide_eq_true_eq] at hch
    subst hch
    cases fuel <;> simp [FixLinkWithLoop, retargeted]
  | cons a rest ih =>
    intro fuel h s hch hnd hlen
    have hnotin := linked_tail_ne s.mem a rest h hch hnd
    have ha := isLinked_bounds s.mem (a :: rest) h hch a (List.mem_cons_self _ _)
    simp only [isLinked, Bool.and_eq_true, decide_eq_true_eq] at hch
    obtain ⟨⟨⟨hh, _⟩, hw⟩, hrest⟩ := hch
    subst hh
    cases fuel with
    | zero => simp at hlen
    | succ fuel =>
      have hne : h ≠ 0 := by omega
      have hb : ¬ (h < 0 ∨ kMemSz / 4 ≤ h) := by simp only [kMemSz]; omega
      have hF := Fix_F3 h (dst - h - 1) s (by omega) hw
      have hch' : isLinked (Function.update s.mem h.toNat
          (withOffset (s.mem h.toNat) (dst - h - 1))) (s.mem h.toNat % 16777216) rest
          = true := by
        rw [isLinked_update s.mem h.toNat _ rest _ hnotin]; exact hrest
      have hih := ih fuel (s.mem h.toNat % 16777216)
        { s with mem := (Function.update s.mem h.toNat
            (withOffset (s.mem h.toNat) (dst - h - 1))) }
        hch' (List.nodup_cons.mp hnd).2 (by simpa using hlen)
      simp only [FixLinkWithLoop, hne, ne_eq, not_false_eq_true, if_true, hb, if_false, hF,
        Option.some_bind, hih, retargeted]

theorem linked_length_le (mem : Nat → Int) (l : List Int) (h : Int)
    (hch : isLinked mem h l = true) (hnd : l.Nodup) : l.length ≤ chainFuel := by
  have hsub : l.toFinset ⊆ Finset.Ioo (0 : Int) 1024 := by
    intro a ha
    have := isLinked_bounds mem l h hch a (List.mem_toFinset.mp ha)
    exact Finset.mem_Ioo.mpr ⟨this.1, this.2.1⟩
  have hcard := Finset.card_le_card hsub
  rw [List.toFinset_card_of_nodup hnd, Int.card_Ioo] at hcard
  simp only [chainFuel]
  omega

/-- An instruction of format F3 with the bit `u` set is `BC` or `BL`, with the condition in
its field `a`. -/
theorem F3_relative (w : Int) (hw : isF3 w = true) (hu : insnU w = true) :
    ∃ op, (op = kOpBc ∨ op = kOpBl) ∧
      ∀ off, withOffset w off = wordF3 op (fieldA w) (off % 16777216) := by
  have hr := (isF3_iff _).mp hw
  simp only [insnU, decide_eq_true_eq] at hu
  by_cases hv : w / 268435456 % 2 = 1
  · refine ⟨kOpBl, Or.inr rfl, fun off => ?_⟩
    simp only [withOffset, wordF3, fieldA, kOpBl]
    omega
  · refine ⟨kOpBc, Or.inl rfl, fun off => ?_⟩
    simp only [withOffset, wordF3, fieldA, kOpBc]
    omega

/-- Execution of a retargeted PC-relative branch whose condition holds: the next instruction
is the one at `target`. -/
theorem step_retargeted (vm : VM) (w target : Int) (hw : isF3 w = true)
    (hu : insnU w = true) (hpc : 0 < vm.pc ∧ vm.pc < 1024)
    (ht : 0 ≤ target ∧ target ≤ 1024)
    (hm : vm.mem vm.pc.toNat = withOffset w (target - vm.pc - 1))
    (hT : IsTrue vm (fieldA w) = true) :
    ∃ vm1, step vm = some vm1 ∧ vm1.pc = target := by
  obtain ⟨op, hop, hword⟩ := F3_relative w hw hu
  rw [hword] at hm
  have hc : 0 ≤ fieldA w ∧ fieldA w ≤ 15 := by simp only [fieldA]; omega
  have hstep := step_branch_taken vm op (fieldA w) ((target - vm.pc - 1) % 16777216) hop hc
    (by omega) (by omega) hm hT
  refine ⟨_, hstep, ?_⟩
  show vm.pc + 1 + asr (shl ((target - vm.pc - 1) % 16777216) 16) 16 = target
  rw [branch_offset _ (by omega)]
  ring

/-! ### Resolution of a chain (C34) -/

/-- C34: on every chain of distinct addresses of instructions of format F3 that is linked
through the offset fields and ends with the link 0, `ORG_FixLink` and `FixLinkWith` return.
They change nothing but `g_mem`; every instruction of the chain ends up with the offset field
`(pc - addr - 1) mod 2^24` (with `dst` for `pc` in `FixLinkWith`) and its upper eight bits
(format, `u`, `v`, condition) as before; every other word of memory is as before; and on the
head 0 nothing changes.  A branch of the chain that is PC-relative (`BC`, `BL`) and whose
condition holds then leads the interpreter to `pc` (to `dst`), for targets within the
memory. -/
theorem C34_fix_link_retargets_chain (s : CG) (head dst : Int) (l : List Int)
    (hch : isLinked s.mem head l = true) (hnd : l.Nodup) :
    ∃ s1 s2, ORG_FixLink head s = some s1 ∧ FixLinkWith head dst s = some s2 ∧
      s1 = { s with mem := s1.mem } ∧ s2 = { s with mem := s2.mem } ∧
      (∀ a ∈ l,
        s1.mem a.toNat % 16777216 = (s.pc - a - 1) % 16777216 ∧
        s1.mem a.toNat / 16777216 = s.mem a.toNat / 16777216 ∧
        s2.mem a.toNat % 16777216 = (dst - a - 1) % 16777216 ∧
        s2.mem a.toNat / 16777216 = s.mem a.toNat / 16777216) ∧
      (∀ n : Nat, (∀ a ∈ l, a.toNat ≠ n) → s1.mem n = s.mem n ∧ s2.mem n = s.mem n) ∧
      ORG_FixLink 0 s = some s ∧ FixLinkWith 0 dst s = some s ∧
      (∀ a ∈ l, ∀ vm : VM, vm.pc = a → insnU (s.mem a.toNat) = true →
        IsTrue vm (fieldA (s.mem a.toNat)) = true →
        (0 ≤ s.pc ∧ s.pc ≤ 1024 → vm.mem a.toNat = s1.mem a.toNat →
          ∃ vm1, step vm = some vm1 ∧ vm1.pc = s.pc) ∧
        (0 ≤ dst ∧ dst ≤ 1024 → vm.mem a.toNat = s2.mem a.toNat →
          ∃ vm2, step vm = some vm2 ∧ vm2.pc = dst)) := by
  have hlen := linked_length_le s.mem l head hch hnd
  have h1 := FixLinkLoop_linked l chainFuel head s hch hnd hlen
  have h2 := FixLinkWithLoop_linked dst l chainFuel head s hch hnd hlen
  have hat := fun t => retargeted_at t l s.mem head hch hnd
  have hbnd := isLinked_bounds s.mem l head hch
  refine ⟨_, _, h1, h2, rfl, rfl, ?_, ?_, rfl, rfl, ?_⟩
  · intro a ha
    obtain ⟨_, _, hw⟩ := hbnd a ha
    obtain ⟨e1, e2, _⟩ := withOffset_spec (s.mem a.toNat) (s.pc - a - 1) hw
    obtain ⟨e3, e4, _⟩ := withOffset_spec (s.mem a.toNat) (dst - a - 1) hw
    show retargeted s.pc s.mem l a.toNat % 16777216 = _ ∧
      retargeted s.pc s.mem l a.toNat / 16777216 = _ ∧
      retargeted dst s.mem l a.toNat % 16777216 = _ ∧
      retargeted dst s.mem l a.toNat / 16777216 = _
    rw [hat s.pc a ha, hat dst a ha]
    exact ⟨e1, e2, e3, e4⟩
  · intro n hn
    exact ⟨retargeted_other s.pc n l s.mem hn, retargeted_other dst n l s.mem hn⟩
  · intro a ha vm hpc hu hT
    obtain ⟨hlo, hhi, hw⟩ := hbnd a ha
    subst hpc
    constructor
    · intro ht hm
      have hm' : vm.mem vm.pc.toNat = withOffset (s.mem vm.pc.toNat) (s.pc - vm.pc - 1) := by
        rw [hm]; exact hat s.pc vm.pc ha
      exact step_retargeted vm _ s.pc hw hu ⟨hlo, hhi⟩ ht hm' hT
    · intro ht hm
      have hm' : vm.mem vm.pc.toNat = withOffset (s.mem vm.pc.toNat) (dst - vm.pc - 1) := by
        rw [hm]; exact hat dst vm.pc ha
      exact step_retargeted vm _ dst hw hu ⟨hlo, hhi⟩ ht hm' hT

/-- Witness for C34: in `cgLinked` (`pc = 9`) the chain 7, 4, 2 is resolved by `ORG_FixLink`
to the offsets 1, 4, 6 and by `FixLinkWith` for the target 5 to the offsets -3, 0, 2 (modulo
2^24); the chain 6, 3 keeps its links. -/
theorem C34_fix_link_witness :
    isLinked cgLinked.mem 7 [7, 4, 2] = true ∧ [(7 : Int), 4, 2].Nodup ∧
    ∃ s1 s2, ORG_FixLink 7 cgLinked = some s1 ∧ FixLinkWith 7 5 cgLinked = some s2 ∧
      s1.mem 7 % 16777216 = 1 ∧ s1.mem 4 % 16777216 = 4 ∧ s1.mem 2 % 16777216 = 6 ∧
      s2.mem 7 % 16777216 = 16777213 ∧ s2.mem 4 % 16777216 = 0 ∧ s2.mem 2 % 16777216 = 2 ∧
      s1.mem 6 = wordF3 kOpBc kCondNE 3 ∧ s2.mem 3 = wordF3 kOpBc kCondGE 0 := by
  have hch : isLinked cgLinked.mem 7 [7, 4, 2] = true := by decide
  have hnd : [(7 : Int), 4, 2].Nodup := by decide
  obtain ⟨s1, s2, e1, e2, _, _, hin, hout, _⟩ :=
    C34_fix_link_retargets_chain cgLinked 7 5 [7, 4, 2] hch hnd
  have a7 := hin 7 (by decide)
  have a4 := hin 4 (by decide)
  have a2 := hin 2 (by decide)
  have o6 := hout 6 (by decide)
  have o3 := hout 3 (by decide)
  exact ⟨hch, hnd, s1, s2, e1, e2, a7.1, a4.1, a2.1, a7.2.2.1, a4.2.2.1, a2.2.2.1,
    o6.1, o3.2⟩

/-! ### Merging of two chains (C35) -/

/-- The loop of `Merged` finds the last address of a chain that is not empty. -/
theorem lastLink_linked (s : CG) :
    ∀ (l : List Int) (fuel : Nat) (h last : Int), isLinked s.mem h l = true →
      l.getLast? = some last → l.length ≤ fuel → lastLink s fuel h = some last := by
  intro l
  induction l with
  | nil => intro fuel h last _ hl; simp at hl
  | cons a rest ih =>
    intro fuel h last hch hl hlen
    have hlink := linked_link s.mem a rest h hch
    have ha := isLinked_bounds s.mem (a :: rest) h hch a (List.mem_cons_self _ _)
    simp only [isLinked, Bool.and_eq_true, decide_eq_true_eq] at hch
    obtain ⟨⟨⟨hh, _⟩, hw⟩, hrest⟩ := hch
    subst hh
    cases fuel with
    | zero => simp at hlen
    | succ fuel =>
      have hb : ¬ (h < 0 ∨ kMemSz / 4 ≤ h) := by simp only [kMemSz]; omega
      cases rest with
      | nil =>
        simp only [isLinked, decide_eq_true_eq] at hrest
        have h0 : s.mem h.toNat % 262144 = 0 := by omega
        simp only [List.getLast?_singleton, Option.some.injEq] at hl
        subst hl
        simp [lastLink, hb, h0]
      | cons b rest =>
        have hb' := isLinked_bounds s.mem (b :: rest) _ hrest b (List.mem_cons_self _ _)
        have hhead : s.mem h.toNat % 16777216 = b := by
          simp only [isLinked, Bool.and_eq_true, decide_eq_true_eq] at hrest
          exact hrest.1.1.1
        have hne : s.mem h.toNat % 262144 ≠ 0 := by omega
        have hne16 : ¬ s.mem h.toNat % 16777216 = 0 := by omega
        have hl' : (b :: rest).getLast? = some last := by
          rw [List.getLast?_cons_cons] at hl; exact hl
        have hih := ih fuel (s.mem h.toNat % 16777216) last hrest hl' (by simpa using hlen)
        simp only [lastLink, hb, if_false, hne, hne16, ne_eq, not_false_eq_true, if_true, hlink,
          hih]

/-- The link of the last instruction of a chain is 0. -/
theorem linked_last (mem : Nat → Int) :
    ∀ (l : List Int) (h last : Int), isLinked mem h l = true → l.getLast? = some last →
      last ∈ l ∧ mem last.toNat % 16777216 = 0 := by
  intro l
  induction l with
  | nil => intro h last _ hl; simp at hl
  | cons a rest ih =>
    intro h last hch hl
    simp only [isLinked, Bool.and_eq_true, decide_eq_true_eq] at hch
    cases rest with
    | nil =>
      simp only [List.getLast?_singleton, Option.some.injEq] at hl
      subst hl
      have h0 := hch.2
      simp only [isLinked, decide_eq_true_eq] at h0
      exact ⟨List.mem_cons_self _ _, h0⟩
    | cons b rest =>
      rw [List.getLast?_cons_cons] at hl
      obtain ⟨hm, h0⟩ := ih _ last hch.2 hl
      exact ⟨List.mem_cons_of_mem _ hm, h0⟩

/-- The chain `c0`, with the link `l1` to the chain `c1` stored in the offset field of its
last instruction, is the chain of the addresses of `c0` followed by those of `c1`. -/
theorem isLinked_append (l1 : Int) (c1 : List Int) (hl1 : 0 < l1 ∧ l1 < 1024) :
    ∀ (c0 : List Int) (mem : Nat → Int) (h last : Int), isLinked mem h c0 = true →
      isLinked mem l1 c1 = true → (c0 ++ c1).Nodup → c0.getLast? = some last →
      isLinked (Function.update mem last.toNat (withOffset (mem last.toNat) l1)) h (c0 ++ c1)
        = true := by
  intro c0
  induction c0 with
  | nil => intro mem h last _ _ _ hl; simp at hl
  | cons a rest ih =>
    intro mem h last hch h1 hnd hl
    have hbnd0 := isLinked_bounds mem (a :: rest) h hch
    have hbnd1 := isLinked_bounds mem c1 l1 h1
    have ha := hbnd0 a (List.mem_cons_self _ _)
    have hnd' : (a :: (rest ++ c1)).Nodup := hnd
    have hnotin : ∀ c ∈ rest ++ c1, c.toNat ≠ a.toNat := by
      intro c hc heq
      have hcb : 0 < c ∧ c < 1024 := by
        rcases List.mem_append.mp hc with hc | hc
        · have := hbnd0 c (List.mem_cons_of_mem _ hc); exact ⟨this.1, this.2.1⟩
        · have := hbnd1 c hc; exact ⟨this.1, this.2.1⟩
      have : c = a := by omega
      exact (List.nodup_cons.mp hnd').1 (this ▸ hc)
    simp only [isLinked, Bool.and_eq_true, decide_eq_true_eq] at hch
    obtain ⟨⟨⟨hh, hrange⟩, hw⟩, hrest⟩ := hch
    cases rest with
    | nil =>
      simp only [List.getLast?_singleton, Option.some.injEq] at hl
      subst hl
      obtain ⟨e1, _, e3⟩ := withOffset_spec (mem a.toNat) l1 hw
      have hoff : withOffset (mem a.toNat) l1 % 16777216 = l1 := by rw [e1]; omega
      simp only [List.singleton_append, isLinked, Function.update_same, hoff, hh, hrange, e3,
        decide_True, Bool.and_self, Bool.true_and, and_self]
      show isLinked (Function.update mem a.toNat (withOffset (mem a.toNat) l1)) l1 c1 = true
      rw [isLinked_update mem a.toNat _ c1 l1 (fun c hc => hnotin c (by simpa using hc))]
      exact h1
    | cons b rest =>
      rw [List.getLast?_cons_cons] at hl
      obtain ⟨hmem, _⟩ := linked_last mem (b :: rest) _ last hrest hl
      have hla : last.toNat ≠ a.toNat := hnotin last (List.mem_append_left _ hmem)
      have hih := ih mem (mem a.toNat % 16777216) last hrest h1 (List.nodup_cons.mp hnd').2 hl
      simp only [List.cons_append, isLinked, Function.update_noteq (Ne.symm hla), hh, hrange, hw,
        decide_True, Bool.and_self, Bool.true_and, and_self]
      exact hih

/-- C35: for two chains of instructions of format F3, with distinct addresses throughout and
the second one not empty, `Merged` returns.  It returns the head of a chain that runs through
the addresses of the first chain followed by those of the second.  It changes nothing but
`g_mem`, and there only the last instruction of the first chain: its offset field becomes
`l1`, and its upper eight bits are as before.  For `l0 = 0` it returns `l1` and leaves the
memory as it is. -/
theorem C35_merged_concatenates_chains (s : CG) (l0 l1 : Int) (c0 c1 : List Int)
    (h0 : isLinked s.mem l0 c0 = true) (h1 : isLinked s.mem l1 c1 = true) (hne : l1 ≠ 0)
    (hnd : (c0 ++ c1).Nodup) :
    ∃ h s1, Merged l0 l1 s = some (h, s1) ∧ s1 = { s with mem := s1.mem } ∧
      isLinked s1.mem h (c0 ++ c1) = true ∧
      (l0 = 0 → h = l1 ∧ s1.mem = s.mem) ∧ (l0 ≠ 0 → h = l0) ∧
      (∀ last, c0.getLast? = some last →
        s1.mem last.toNat % 16777216 = l1 ∧
        s1.mem last.toNat / 16777216 = s.mem last.toNat / 16777216) ∧
      (∀ n : Nat, (∀ last, c0.getLast? = some last → last.toNat ≠ n) →
        s1.mem n = s.mem n) := by
  have hl1 : 0 < l1 ∧ l1 < 1024 := by
    cases c1 with
    | nil => simp only [isLinked, decide_eq_true_eq] at h1; exact absurd h1 hne
    | cons b rest =>
      have hb := isLinked_bounds s.mem (b :: rest) l1 h1 b (List.mem_cons_self _ _)
      simp only [isLinked, Bool.and_eq_true, decide_eq_true_eq] at h1
      rw [h1.1.1.1]; exact ⟨hb.1, hb.2.1⟩
  cases c0 with
  | nil =>
    simp only [isLinked, decide_eq_true_eq] at h0
    subst h0
    refine ⟨l1, s, ?_, rfl, ?_, fun _ => ⟨rfl, rfl⟩, fun h => absurd rfl h, ?_, fun _ _ => rfl⟩
    · simp [Merged, hne]
    · simpa using h1
    · intro last hl; simp at hl
  | cons a rest =>
    have ha := isLinked_bounds s.mem (a :: rest) l0 h0 a (List.mem_cons_self _ _)
    have hhead : l0 = a := by
      simp only [isLinked, Bool.and_eq_true, decide_eq_true_eq] at h0
      exact h0.1.1.1
    have hl0 : l0 ≠ 0 := by omega
    obtain ⟨last, hlast⟩ : ∃ last, (a :: rest).getLast? = some last :=
      ⟨(a :: rest).getLast (List.cons_ne_nil _ _), List.getLast?_eq_getLast _ _⟩
    have hnd0 : (a :: rest).Nodup := (List.nodup_append.mp hnd).1
    have hll := lastLink_linked s (a :: rest) chainFuel l0 last h0 hlast
      (linked_length_le s.mem _ l0 h0 hnd0)
    obtain ⟨hmem, hzero⟩ := linked_last s.mem (a :: rest) l0 last h0 hlast
    obtain ⟨_, _, hwl⟩ := isLinked_bounds s.mem (a :: rest) l0 h0 last hmem
    have hr := (isF3_iff _).mp hwl
    have hnew : wrap32 (s.mem last.toNat + l1) = withOffset (s.mem last.toNat) l1 := by
      unfold wrap32 withOffset; omega
    obtain ⟨e1, e2, _⟩ := withOffset_spec (s.mem last.toNat) l1 hwl
    refine ⟨l0,
      { s with mem := (Function.update s.mem last.toNat (withOffset (s.mem last.toNat) l1)) },
      ?_, rfl, ?_, fun h => absurd h hl0, fun _ => rfl, ?_, ?_⟩
    · simp only [Merged, hne, if_false, hl0, ne_eq, not_false_eq_true, if_true, hll,
        Option.some_bind, hnew]
    · exact isLinked_append l1 c1 hl1 (a :: rest) s.mem l0 last h0 h1 hnd hlast
    · intro last' hl'
      rw [hlast] at hl'
      cases hl'
      show Function.update s.mem last.toNat _ last.toNat % 16777216 = l1 ∧
        Function.update s.mem last.toNat _ last.toNat / 16777216 = _
      rw [Function.update_same]
      exact ⟨by rw [e1]; omega, e2⟩
    · intro n hn
      exact Function.update_noteq (Ne.symm (hn last hlast)) _ _

/-- Witness for C35: in `cgLinked` the chains 7, 4, 2 and 6, 3 are merged into the chain
7, 4, 2, 6, 3 with the head 7; the instruction at address 2 gets the link 6. -/
theorem C35_merged_witness :
    isLinked cgLinked.mem 7 [7, 4, 2] = true ∧ isLinked cgLinked.mem 6 [6, 3] = true ∧
    ∃ s1, Merged 7 6 cgLinked = some (7, s1) ∧ isLinked s1.mem 7 [7, 4, 2, 6, 3] = true ∧
      s1.mem 2 = wordF3 kOpBc kCondEQ 6 ∧ s1.mem 7 = wordF3 kOpBc kCondLT 4 := by
  have h0 : isLinked cgLinked.mem 7 [7, 4, 2] = true := by decide
  have h1 : isLinked cgLinked.mem 6 [6, 3] = true := by decide
  obtain ⟨h, s1, e, _, hch, _, hh, _, _⟩ :=
    C35_merged_concatenates_chains cgLinked 7 6 [7, 4, 2] [6, 3] h0 h1 (by decide) (by decide)
  have hh7 : h = 7 := hh (by decide)
  subst hh7
  have hm : (Merged 7 6 cgLinked).map (fun r => (r.2.mem 2, r.2.mem 7))
      = some (wordF3 kOpBc kCondEQ 6, wordF3 kOpBc kCondLT 4) := by decide
  rw [e] at hm
  simp only [Option.map_some', Option.some.injEq, Prod.mk.injEq] at hm
  exact ⟨h0, h1, s1, e, hch, hm.1, hm.2⟩

/-! ### Store instructions, and additions to the stack pointer -/

/-- Execution of a word store: `Mem[R.b + off] := R.a`; registers and flags are kept. -/
theorem step_store (vm : VM) (a b off : Int)
    (ha : 0 ≤ a ∧ a ≤ 15) (hb : 0 ≤ b ∧ b ≤ 15) (hoff : 0 ≤ off ∧ off < 1048576)
    (hpc : 0 ≤ vm.pc ∧ vm.pc < 1024) (hw : vm.mem vm.pc.toNat = wordF2 kOpStr a b off)
    (hn : 0 ≤ wrap32 (vm.reg b.toNat + off) ∧ wrap32 (vm.reg b.toNat + off) < 4096) :
    step vm = some
      { vm with
        ir := wordF2 kOpStr a b off
        pc := vm.pc + 1
        mem := Function.update vm.mem (wrap32 (vm.reg b.toNat + off) / 4).toNat
                 (vm.reg a.toNat) } := by
  obtain ⟨h1, h2, h3, h4, h5, h6, h7⟩ := decodeF2 kOpStr a b off (by decide) ha hb hoff
  have hpc' : ¬ (vm.pc < 0 ∨ kMemSz / 4 ≤ vm.pc) := by simp only [kMemSz]; omega
  have hu : insnU (wordF2 kOpStr a b off) = true := by rw [h3]; decide
  have hv : insnV (wordF2 kOpStr a b off) = false := by rw [h4]; decide
  have hm : ¬ (kMemSz / 4 ≤ wrap32 (vm.reg b.toNat + off) / 4) := by
    simp only [kMemSz]; omega
  simp only [step, hpc', if_false, hw, h1, h2, hu, hv, h5, h6, h7, operandB,
    Bool.not_false, Bool.not_true, Bool.or_true, Bool.false_eq_true, if_true, hn.1, hm]

theorem execAlu_add (s : VM) (ir b n : Int) :
    execAlu s ir kOpAdd b n =
      some (wrap32 (b + n),
        { s with flagV := decide ((b < 0 ∧ n < 0 ∧ 0 ≤ wrap32 (b + n)) ∨
                                  (0 ≤ b ∧ 0 ≤ n ∧ wrap32 (b + n) < 0)) }) := by
  unfold execAlu
  simp only [kOpAdd, kOpMov, kOpRor, kOpLsl, kOpAsr, kOpAnd, kOpAnn, kOpIor, kOpXor]
  norm_num
  by_cases h1 : b < 0 ∧ n < 0 ∧ 0 ≤ wrap32 (b + n)
  · simp [h1]
  · by_cases h2 : 0 ≤ b ∧ 0 ≤ n ∧ wrap32 (b + n) < 0
    · have h3 : ¬ b < 0 := by omega
      simp [h2, h3]
    · have e1 : (decide (b < 0) && (decide (n < 0) && decide (0 ≤ wrap32 (b + n)))) = false := by
        simpa using h1
      have e2 : (decide (0 ≤ b) && (decide (0 ≤ n) && decide (wrap32 (b + n) < 0))) = false := by
        simpa using h2
      simp only [h1, h2, if_false, e1, e2, Bool.or_self]

/-- Execution of `SUB a, a, im` and of `ADD a, a, im` with an immediate of 16 bits: the
register changes by `im` (modulo 2^32), the other registers and the memory are kept. -/
theorem step_add_sub_imm (vm : VM) (o a im : Int) (ho : o = kOpAdd ∨ o = kOpSub)
    (ha : 0 ≤ a ∧ a ≤ 15) (him : 0 ≤ im ∧ im < 65536)
    (hpc : 0 ≤ vm.pc ∧ vm.pc < 1024) (hw : vm.mem vm.pc.toNat = wordF1 0 a a o im) :
    ∃ vm1, step vm = some vm1 ∧ vm1.pc = vm.pc + 1 ∧ vm1.mem = vm.mem ∧
      vm1.reg = Function.update vm.reg a.toNat
        (wrap32 (if o = kOpAdd then vm.reg a.toNat + im else vm.reg a.toNat - im)) := by
  have hstep := step_F1 vm 0 a a o im (by decide) ha ha
    (by rcases ho with h | h <;> subst h <;> decide) him hpc hw
  have hww : ∀ x, wrap32 (wrap32 x) = wrap32 x := by intro x; unfold wrap32; omega
  rcases ho with h | h
  · subst h
    have hv := execAlu_add { vm with ir := wordF1 0 a a kOpAdd im, pc := vm.pc + 1 }
      (wordF1 0 a a kOpAdd im) (vm.reg a.toNat) im
    simp only [show ((0 : Int) % 2 = 1) = False by norm_num, if_false] at hstep
    rw [hv] at hstep
    refine ⟨_, hstep, rfl, rfl, ?_⟩
    simp only [setNZ, hww, if_true]
  · subst h
    have hv := execAlu_sub { vm with ir := wordF1 0 a a kOpSub im, pc := vm.pc + 1 }
      (wordF1 0 a a kOpSub im) (vm.reg a.toNat) im
    simp only [show ((0 : Int) % 2 = 1) = False by norm_num, if_false] at hstep
    rw [hv] at hstep
    refine ⟨_, hstep, rfl, rfl, ?_⟩
    have hne : ¬ kOpSub = kOpAdd := by decide
    simp only [setNZ, hww, hne, if_false]

/-! ### Saving and restoring registers around a call (C36) -/

/-- The words that the loop of `SaveRegs` emits: `STW j, SP, 4 * (r - 1 - j)` for the
registers `j = r0, ..., r - 1`, one after the other. -/
theorem saveLoop_spec (r : Nat) (hr : r ≤ 16) :
    ∀ (k fuel r0 : Nat) (s : CG), 1 ≤ k → k ≤ fuel → r0 + k = r → 0 ≤ s.pc →
      s.pc + k ≤ 1024 →
      ∃ s1, saveLoop r fuel r0 s = some s1 ∧ s1.pc = s.pc + k ∧ s1.frame = s.frame ∧
        (∀ j : Nat, j < k → s1.mem (s.pc + j).toNat
          = wordF2 kOpStr ((r0 + j : Nat) : Int) kRegSP (4 * ((r : Int) - 1 - (r0 + j : Nat)))) ∧
        (∀ n : Nat, n < s.pc.toNat → s1.mem n = s.mem n) := by
  intro k
  induction k with
  | zero => intro fuel r0 s h; omega
  | succ k ih =>
    intro fuel r0 s _ hfuel hsum hpc0 hpc1
    cases fuel with
    | zero => omega
    | succ fuel =>
      have hput := Put2_eq kOpStr (r0 : Int) kRegSP (((r : Int) - 1 - r0) * 4) s (by decide)
        (by omega) (by decide) (by omega)
      have hoff : ((r : Int) - 1 - r0) * 4 % 65536 = 4 * ((r : Int) - 1 - r0) := by omega
      rw [hoff] at hput
      by_cases hk : k = 0
      · subst hk
        have hlast : ¬ ((r0 : Int) + 1 ≠ (r : Int)) := by omega
        refine ⟨{ s with mem := (Function.update s.mem s.pc.toNat
              (wordF2 kOpStr (r0 : Int) kRegSP (4 * ((r : Int) - 1 - r0)))), pc := s.pc + 1 },
          ?_, ?_, rfl, ?_, ?_⟩
        · simp only [saveLoop, hput, Option.some_bind, hlast, if_false]
        · show s.pc + 1 = s.pc + ((0 + 1 : Nat) : Int); norm_num
        · intro j hj
          have hj0 : j = 0 := by omega
          subst hj0
          have hidx : (s.pc + ((0 : Nat) : Int)).toNat = s.pc.toNat := by omega
          show Function.update s.mem s.pc.toNat _ (s.pc + ((0 : Nat) : Int)).toNat = _
          rw [hidx, Function.update_same]
          rfl
        · intro n hn
          exact Function.update_noteq (by omega) _ _
      · have hmore : (r0 : Int) + 1 ≠ (r : Int) := by omega
        obtain ⟨s1, e1, e2, e3, e4, e5⟩ := ih fuel (r0 + 1)
          { s with mem := (Function.update s.mem s.pc.toNat
              (wordF2 kOpStr (r0 : Int) kRegSP (4 * ((r : Int) - 1 - r0)))), pc := s.pc + 1 }
          (by omega) (by omega) (by omega) (by show 0 ≤ s.pc + 1; omega)
          (by show s.pc + 1 + (k : Int) ≤ 1024; push_cast at hpc1; omega)
        refine ⟨s1, ?_, ?_, e3, ?_, ?_⟩
        · simp only [saveLoop, hput, Option.some_bind, hmore, ne_eq, not_false_eq_true, if_true]
          have hc : ((r0 : Int) + 1) = ((r0 + 1 : Nat) : Int) := by push_cast; rfl
          rw [hc]; exact e1
        · rw [e2]; show s.pc + 1 + (k : Int) = s.pc + ((k + 1 : Nat) : Int); push_cast; ring
        · intro j hj
          cases j with
          | zero =>
            have := e5 s.pc.toNat (by show s.pc.toNat < (s.pc + 1).toNat; omega)
            simp only [Nat.cast_zero, add_zero]
            rw [this]
            exact Function.update_same _ _ _
          | succ j =>
            have := e4 j (by omega)
            have hidx : (s.pc + ((j + 1 : Nat) : Int)).toNat = (s.pc + 1 + (j : Int)).toNat := by
              push_cast; congr 1; ring
            have hreg : ((r0 + (j + 1) : Nat) : Int) = ((r0 + 1 + j : Nat) : Int) := by
              push_cast; ring
            rw [hidx, hreg]
            exact this
        · intro n hn
          rw [e5 n (by show n < (s.pc + 1).toNat; omega)]
          exact Function.update_noteq (by omega) _ _

/-- The words that the loop of `RestoreRegs` emits: `LDW j, SP, 4 * (r - 1 - j)` for the
registers `j = k - 1, ..., 0`, one after the other. -/
theorem restoreLoop_spec (r : Nat) (hr : r ≤ 16) :
    ∀ (k fuel : Nat) (s : CG), 1 ≤ k → k ≤ fuel → k ≤ r → 0 ≤ s.pc → s.pc + k ≤ 1024 →
      ∃ s1, restoreLoop r fuel k s = some s1 ∧ s1.pc = s.pc + k ∧ s1.frame = s.frame ∧
        (∀ j : Nat, j < k → s1.mem (s.pc + ((k : Int) - 1 - j)).toNat
          = wordF2 kOpLdr (j : Int) kRegSP (4 * ((r : Int) - 1 - j))) ∧
        (∀ n : Nat, n < s.pc.toNat → s1.mem n = s.mem n) := by
  intro k
  induction k with
  | zero => intro fuel s h; omega
  | succ k ih =>
    intro fuel s _ hfuel hkr hpc0 hpc1
    cases fuel with
    | zero => omega
    | succ fuel =>
      have hreg : ((k + 1 : Nat) : Int) - 1 = (k : Int) := by push_cast; ring
      have hput := Put2_eq kOpLdr (k : Int) kRegSP (((r : Int) - 1 - k) * 4) s (by decide)
        (by omega) (by decide) (by omega)
      have hoff : ((r : Int) - 1 - k) * 4 % 65536 = 4 * ((r : Int) - 1 - k) := by omega
      rw [hoff] at hput
      by_cases hk : k = 0
      · subst hk
        refine ⟨{ s with pc := s.pc + 1, mem := (Function.update s.mem s.pc.toNat
              (wordF2 kOpLdr ((0 : Nat) : Int) kRegSP (4 * ((r : Int) - 1 - (0 : Nat))))) },
          ?_, ?_, rfl, ?_, ?_⟩
        · simp only [restoreLoop, hreg, hput, Option.some_bind]
          simp
        · show s.pc + 1 = s.pc + ((0 + 1 : Nat) : Int); norm_num
        · intro j hj
          have hj0 : j = 0 := by omega
          subst hj0
          have hidx : (s.pc + (((0 + 1 : Nat) : Int) - 1 - ((0 : Nat) : Int))).toNat
              = s.pc.toNat := by omega
          show Function.update s.mem s.pc.toNat _ _ = _
          rw [hidx, Function.update_same]
        · intro n hn
          exact Function.update_noteq (by omega) _ _
      · have hmore : (k : Int) ≠ 0 := by omega
        obtain ⟨s1, e1, e2, e3, e4, e5⟩ := ih fuel
          { s with mem := (Function.update s.mem s.pc.toNat
              (wordF2 kOpLdr (k : Int) kRegSP (4 * ((r : Int) - 1 - k)))), pc := s.pc + 1 }
          (by omega) (by omega) (by omega) (by show 0 ≤ s.pc + 1; omega)
          (by show s.pc + 1 + (k : Int) ≤ 1024; push_cast at hpc1; omega)
        refine ⟨s1, ?_, ?_, e3, ?_, ?_⟩
        · simp only [restoreLoop, hreg, hput, Option.some_bind, hmore, ne_eq,
            not_false_eq_true, if_true]
          exact e1
        · rw [e2]; show s.pc + 1 + (k : Int) = s.pc + ((k + 1 : Nat) : Int); push_cast; ring
        · intro j hj
          by_cases hjk : j = k
          · subst hjk
            have hidx : (s.pc + (((j + 1 : Nat) : Int) - 1 - (j : Int))).toNat = s.pc.toNat := by
              omega
            rw [hidx, e5 s.pc.toNat (by show s.pc.toNat < (s.pc + 1).toNat; omega)]
            exact Function.update_same _ _ _
          · have := e4 j (by omega)
            have hidx : (s.pc + (((k + 1 : Nat) : Int) - 1 - (j : Int))).toNat
                = (s.pc + 1 + ((k : Int) - 1 - j)).toNat := by
              push_cast; congr 1; ring
            rw [hidx]
            exact this
        · intro n hn
          rw [e5 n (by show n < (s.pc + 1).toNat; omega)]
          exact Function.update_noteq (by omega) _ _

/-- The run of the stores of `SaveRegs` for the registers `r0, ..., r - 1`, the store of
register `j` being at address `base + j`: every register is written to its slot, the
registers are kept, and no word other than the slots changes.  The slots lie above the
code. -/
theorem run_stores (r : Nat) (base : Int) (hr : r ≤ 14) (hbase : 0 ≤ base) :
    ∀ (k r0 : Nat) (vm : VM), r0 + k = r → vm.pc = base + r0 →
      (∀ j : Nat, r0 ≤ j → j < r →
        vm.mem (base + j).toNat = wordF2 kOpStr (j : Int) kRegSP (4 * ((r : Int) - 1 - j))) →
      base + r ≤ vm.reg 14 / 4 → vm.reg 14 + 4 * r ≤ 4096 →
      ∃ vm1, stepN k vm = some vm1 ∧ vm1.pc = base + r ∧ vm1.reg = vm.reg ∧
        (∀ j : Nat, r0 ≤ j → j < r → vm1.mem (slotOf (vm.reg 14) r j) = vm.reg j) ∧
        (∀ n : Nat, (∀ j : Nat, r0 ≤ j → j < r → n ≠ slotOf (vm.reg 14) r j) →
          vm1.mem n = vm.mem n) := by
  intro k
  induction k with
  | zero =>
    intro r0 vm hsum hpc _ _ _
    refine ⟨vm, rfl, ?_, rfl, ?_, fun _ _ => rfl⟩
    · rw [hpc]; have : r0 = r := by omega
      rw [this]
    · intro j h1 h2; omega
  | succ k ih =>
    intro r0 vm hsum hpc hcode hsp hmem
    have hsp0 : 0 ≤ vm.reg 14 := by omega
    have h14 : kRegSP.toNat = 14 := rfl
    have hw := hcode r0 (le_refl _) (by omega)
    rw [← hpc] at hw
    have hwr : wrap32 (vm.reg kRegSP.toNat + 4 * ((r : Int) - 1 - r0))
        = vm.reg 14 + 4 * ((r : Int) - 1 - r0) := by
      rw [h14]; unfold wrap32; omega
    have hstep := step_store vm (r0 : Int) kRegSP (4 * ((r : Int) - 1 - r0)) (by omega)
      (by decide) (by omega) (by omega) hw (by rw [hwr]; omega)
    rw [hwr] at hstep
    have hslot : ((vm.reg 14 + 4 * ((r : Int) - 1 - r0)) / 4).toNat = slotOf (vm.reg 14) r r0 :=
      rfl
    rw [hslot, Int.toNat_ofNat] at hstep
    have hdist : ∀ j : Nat, j < r → j ≠ r0 → slotOf (vm.reg 14) r j ≠ slotOf (vm.reg 14) r r0 := by
      intro j hj hne
      simp only [slotOf]
      omega
    have habove : ∀ j : Nat, j < r → ∀ i : Nat, i < r → (base + i).toNat ≠ slotOf (vm.reg 14) r j := by
      intro j hj i hi
      simp only [slotOf]
      omega
    obtain ⟨vm1, e1, e2, e3, e4, e5⟩ := ih (r0 + 1)
      { vm with
        ir := wordF2 kOpStr (r0 : Int) kRegSP (4 * ((r : Int) - 1 - r0))
        pc := vm.pc + 1
        mem := (Function.update vm.mem (slotOf (vm.reg 14) r r0) (vm.reg r0)) }
      (by omega) (by show vm.pc + 1 = base + ((r0 + 1 : Nat) : Int); push_cast; omega)
      (by
        intro j h1 h2
        show Function.update vm.mem _ _ _ = _
        rw [Function.update_noteq (habove r0 (by omega) j h2)]
        exact hcode j (by omega) h2)
      hsp hmem
    refine ⟨vm1, ?_, e2, e3, ?_, ?_⟩
    · rw [stepN_succ k vm _ hstep]; exact e1
    · intro j h1 h2
      by_cases hj : j = r0
      · subst hj
        rw [e5 _ (fun i hi1 hi2 => (hdist i hi2 (by omega)).symm)]
        exact Function.update_same _ _ _
      · exact e4 j (by omega) h2
    · intro n hn
      rw [e5 n (fun j h1 h2 => hn j (by omega) h2)]
      exact Function.update_noteq (hn r0 (le_refl _) (by omega)) _ _

/-- The run of the loads of `RestoreRegs` for the registers `k - 1, ..., 0`, the load of
register `j` being at address `base + (r - 1 - j)`: every register receives the word of its
slot, the other registers and the memory are kept. -/
theorem run_loads (r : Nat) (base : Int) (hr : r ≤ 14) (hbase : 0 ≤ base ∧ base + r ≤ 1024) :
    ∀ (k : Nat) (vm : VM), k ≤ r → vm.pc = base + ((r : Int) - k) →
      (∀ j : Nat, j < k → vm.mem (base + ((r : Int) - 1 - j)).toNat
        = wordF2 kOpLdr (j : Int) kRegSP (4 * ((r : Int) - 1 - j))) →
      0 ≤ vm.reg 14 → vm.reg 14 + 4 * r ≤ 4096 →
      ∃ vm1, stepN k vm = some vm1 ∧ vm1.pc = base + r ∧ vm1.mem = vm.mem ∧
        (∀ j : Nat, j < k → vm1.reg j = wrap32 (vm.mem (slotOf (vm.reg 14) r j))) ∧
        (∀ i : Nat, k ≤ i → vm1.reg i = vm.reg i) := by
  intro k
  induction k with
  | zero =>
    intro vm _ hpc _ _ _
    refine ⟨vm, rfl, ?_, rfl, ?_, fun _ _ => rfl⟩
    · rw [hpc]; simp
    · intro j hj; omega
  | succ k ih =>
    intro vm hkr hpc hcode hsp0 hmem
    have h14 : kRegSP.toNat = 14 := rfl
    have hw := hcode k (by omega)
    have hpc' : vm.pc = base + ((r : Int) - 1 - k) := by rw [hpc]; push_cast; ring
    rw [← hpc'] at hw
    have hwr : wrap32 (vm.reg kRegSP.toNat + 4 * ((r : Int) - 1 - k))
        = vm.reg 14 + 4 * ((r : Int) - 1 - k) := by
      rw [h14]; unfold wrap32; omega
    have hstep := step_load vm 8 (k : Int) kRegSP (4 * ((r : Int) - 1 - k)) (Or.inl rfl)
      (by omega) (by decide) (by omega) (by omega) hw (by rw [hwr]; omega)
    rw [hwr] at hstep
    have hslot : ((vm.reg 14 + 4 * ((r : Int) - 1 - k)) / 4).toNat = slotOf (vm.reg 14) r k :=
      rfl
    simp only [show ¬ ((8 : Int) = 9) by decide, if_false, hslot, Int.toNat_ofNat] at hstep
    have hk14 : k ≠ 14 := by omega
    obtain ⟨vm1, e1, e2, e3, e4, e5⟩ := ih
      (setNZ { vm with
        ir := wordF2 8 (k : Int) kRegSP (4 * ((r : Int) - 1 - k))
        pc := vm.pc + 1
        reg := (Function.update vm.reg k (wrap32 (vm.mem (slotOf (vm.reg 14) r k)))) }
        (vm.mem (slotOf (vm.reg 14) r k)))
      (by omega) (by show vm.pc + 1 = base + ((r : Int) - k); rw [hpc]; push_cast; ring)
      (fun j hj => hcode j (by omega))
      (by show 0 ≤ Function.update vm.reg k _ 14
          rw [Function.update_noteq (Ne.symm hk14)]; exact hsp0)
      (by show Function.update vm.reg k _ 14 + 4 * (r : Int) ≤ 4096
          rw [Function.update_noteq (Ne.symm hk14)]; exact hmem)
    have hsp' : (setNZ { vm with
        ir := wordF2 8 (k : Int) kRegSP (4 * ((r : Int) - 1 - k))
        pc := vm.pc + 1
        reg := (Function.update vm.reg k (wrap32 (vm.mem (slotOf (vm.reg 14) r k)))) }
        (vm.mem (slotOf (vm.reg 14) r k))).reg 14 = vm.reg 14 := by
      show Function.update vm.reg k _ 14 = _
      exact Function.update_noteq (Ne.symm hk14) _ _
    rw [hsp'] at e4
    refine ⟨vm1, ?_, e2, e3, ?_, ?_⟩
    · rw [stepN_succ k vm _ hstep]; exact e1
    · intro j hj
      by_cases hjk : j = k
      · subst hjk
        rw [e5 j (le_refl _)]
        show Function.update vm.reg j _ j = _
        exact Function.update_same _ _ _
      · exact e4 j (by omega)
    · intro i hi
      rw [e5 i (by omega)]
      show Function.update vm.reg k _ i = _
      exact Function.update_noteq (by omega) _ _

/-- A run of `k` instructions followed by one more. -/
theorem stepN_snoc : ∀ (k : Nat) (a b c : VM), stepN k a = some b → step b = some c →
    stepN (k + 1) a = some c := by
  intro k
  induction k with
  | zero =>
    intro a b c h1 h2
    simp only [stepN, Option.some.injEq] at h1
    subst h1
    exact stepN_one_of h2
  | succ k ih =>
    intro a b c h1 h2
    cases ha : step a with
    | none => simp [stepN, ha] at h1
    | some a1 =>
      rw [stepN_succ k a a1 ha] at h1
      rw [stepN_succ (k + 1) a a1 ha]
      exact ih a1 b c h1 h2

/-- The code of `SaveRegs`: `SUB SP, SP, 4r`, then the stores of R0, ..., R(r-1); the frame
offset grows by `4r`. -/
theorem SaveRegs_spec (r : Nat) (s : CG) (hr : 1 ≤ r ∧ r ≤ 16)
    (hpc : 0 ≤ s.pc ∧ s.pc + r + 1 ≤ 1024) :
    ∃ s1, SaveRegs r s = some s1 ∧ s1.pc = s.pc + r + 1 ∧ s1.frame = s.frame + 4 * r ∧
      s1.mem s.pc.toNat = wordF1 0 kRegSP kRegSP kOpSub (4 * r) ∧
      (∀ j : Nat, j < r → s1.mem (s.pc + 1 + j).toNat
        = wordF2 kOpStr (j : Int) kRegSP (4 * ((r : Int) - 1 - j))) := by
  have hput := Put1_eq kOpSub kOpSub 0 kRegSP kRegSP ((r : Int) * 4) s (by norm_num)
    (by decide) (by decide) (by decide) (by decide) (by omega)
  have hneg : ¬ ((r : Int) * 4 < 0) := by omega
  have him : (r : Int) * 4 % 65536 = 4 * r := by omega
  simp only [hneg, if_false, him, mul_zero, add_zero] at hput
  obtain ⟨s1, e1, e2, e3, e4, e5⟩ := saveLoop_spec r hr.2 r 17 0
    { s with
      mem := (Function.update s.mem s.pc.toNat (wordF1 0 kRegSP kRegSP kOpSub (4 * r)))
      pc := s.pc + 1
      frame := s.frame + 4 * r }
    hr.1 (by omega) (by omega) (by show 0 ≤ s.pc + 1; omega)
    (by show s.pc + 1 + (r : Int) ≤ 1024; omega)
  have hpos : ¬ ¬ ((r : Int) > 0) := by omega
  refine ⟨s1, ?_, ?_, e3, ?_, ?_⟩
  · simp only [SaveRegs, hpos, if_false, hput, Option.some_bind]
    exact e1
  · rw [e2]; show s.pc + 1 + (r : Int) = s.pc + r + 1; ring
  · rw [e5 s.pc.toNat (by show s.pc.toNat < (s.pc + 1).toNat; omega)]
    exact Function.update_same _ _ _
  · intro j hj
    have := e4 j hj
    simp only [Nat.zero_add] at this
    exact this

/-- The code of `RestoreRegs`: the loads of R(r-1), ..., R0, then `ADD SP, SP, 4r`; the frame
offset shrinks by `4r`. -/
theorem RestoreRegs_spec (r : Nat) (s : CG) (hr : 1 ≤ r ∧ r ≤ 16)
    (hpc : 0 ≤ s.pc ∧ s.pc + r + 1 ≤ 1024) :
    ∃ s1, RestoreRegs r s = some s1 ∧ s1.pc = s.pc + r + 1 ∧ s1.frame = s.frame - 4 * r ∧
      (∀ j : Nat, j < r → s1.mem (s.pc + ((r : Int) - 1 - j)).toNat
        = wordF2 kOpLdr (j : Int) kRegSP (4 * ((r : Int) - 1 - j))) ∧
      s1.mem (s.pc + r).toNat = wordF1 0 kRegSP kRegSP kOpAdd (4 * r) := by
  obtain ⟨s1, e1, e2, e3, e4, e5⟩ := restoreLoop_spec r hr.2 r 17 s hr.1 (by omega)
    (le_refl _) hpc.1 (by omega)
  have hput := Put1_eq kOpAdd kOpAdd 0 kRegSP kRegSP ((r : Int) * 4) s1 (by norm_num)
    (by decide) (by decide) (by decide) (by decide) (by omega)
  have hneg : ¬ ((r : Int) * 4 < 0) := by omega
  have him : (r : Int) * 4 % 65536 = 4 * r := by omega
  simp only [hneg, if_false, him, mul_zero, add_zero] at hput
  have hpos : ¬ ¬ ((r : Int) > 0) := by omega
  refine ⟨{ s1 with
      mem := (Function.update s1.mem s1.pc.toNat (wordF1 0 kRegSP kRegSP kOpAdd (4 * r)))
      pc := s1.pc + 1
      frame := s1.frame - 4 * r }, ?_, ?_, ?_, ?_, ?_⟩
  · simp only [RestoreRegs, hpos, if_false, e1, hput, Option.some_bind]
  · show s1.pc + 1 = s.pc + r + 1; rw [e2]
  · show s1.frame - 4 * (r : Int) = s.frame - 4 * r; rw [e3]
  · intro j hj
    show Function.update s1.mem s1.pc.toNat _ _ = _
    rw [Function.update_noteq (by rw [e2]; omega)]
    exact e4 j hj
  · show Function.update s1.mem s1.pc.toNat _ _ = _
    rw [e2]
    exact Function.update_same _ _ _

/-- C36: for `1 <= r <= 14`, `SaveRegs(r)` and `RestoreRegs(r)` return, each emits `r + 1`
instructions, and the frame offset grows by `4r` in `SaveRegs` and shrinks by `4r` in
`RestoreRegs`.  Run on an interpreter whose SP leaves `4r` bytes of stack within the memory
and above the code, with 32-bit values in R0, ..., R(r-1), the code of `SaveRegs` lowers SP by
`4r`, keeps the other registers, leaves R(j) in the slot at `SP + 4 * (r - 1 - j)` and changes
no other word of the memory.  From
any later state with the same SP and the same content of the `r` slots, the code of
`RestoreRegs` restores R0, ..., R(r-1) from these slots and SP to their values before
`SaveRegs`, keeping the memory and the other registers. -/
theorem C36_save_restore_registers (r : Nat) (s s' : CG) (hr : 1 ≤ r ∧ r ≤ 14)
    (hpc : 0 ≤ s.pc ∧ s.pc + r + 1 ≤ 1024) (hpc' : 0 ≤ s'.pc ∧ s'.pc + r + 1 ≤ 1024) :
    ∃ s1 s3, SaveRegs r s = some s1 ∧ RestoreRegs r s' = some s3 ∧
      s1.pc = s.pc + r + 1 ∧ s3.pc = s'.pc + r + 1 ∧
      s1.frame = s.frame + 4 * r ∧ s3.frame = s'.frame - 4 * r ∧
      ∀ vm : VM, vm.pc = s.pc →
        (∀ k : Nat, s.pc.toNat ≤ k → k < s1.pc.toNat → vm.mem k = s1.mem k) →
        (∀ j : Nat, j < r → -2147483648 ≤ vm.reg j ∧ vm.reg j < 2147483648) →
        4 * (r : Int) ≤ vm.reg 14 ∧ vm.reg 14 ≤ 4096 →
        4 * s1.pc ≤ vm.reg 14 - 4 * r →
        ∃ vm1, stepN (r + 1) vm = some vm1 ∧ vm1.pc = s1.pc ∧
          vm1.reg 14 = vm.reg 14 - 4 * r ∧ (∀ i : Nat, i ≠ 14 → vm1.reg i = vm.reg i) ∧
          (∀ j : Nat, j < r → vm1.mem (slotOf (vm1.reg 14) r j) = vm.reg j) ∧
          (∀ n : Nat, (∀ j : Nat, j < r → n ≠ slotOf (vm1.reg 14) r j) → vm1.mem n = vm.mem n) ∧
          ∀ vm2 : VM, vm2.pc = s'.pc →
            (∀ k : Nat, s'.pc.toNat ≤ k → k < s3.pc.toNat → vm2.mem k = s3.mem k) →
            vm2.reg 14 = vm1.reg 14 →
            (∀ j : Nat, j < r →
              vm2.mem (slotOf (vm1.reg 14) r j) = vm1.mem (slotOf (vm1.reg 14) r j)) →
            ∃ vm3, stepN (r + 1) vm2 = some vm3 ∧ vm3.pc = s3.pc ∧
              vm3.reg 14 = vm.reg 14 ∧ (∀ j : Nat, j < r → vm3.reg j = vm.reg j) ∧
              (∀ i : Nat, r ≤ i → i ≠ 14 → vm3.reg i = vm2.reg i) ∧ vm3.mem = vm2.mem := by
  obtain ⟨s1, a1, a2, a3, a4, a5⟩ := SaveRegs_spec r s ⟨hr.1, by omega⟩ hpc
  obtain ⟨s3, b1, b2, b3, b4, b5⟩ := RestoreRegs_spec r s' ⟨hr.1, by omega⟩ hpc'
  refine ⟨s1, s3, a1, b1, a2, b2, a3, b3, ?_⟩
  intro vm hvpc hcode hregs hsp habove
  have h14 : kRegSP.toNat = 14 := rfl
  -- the subtraction
  have hw0 : vm.mem vm.pc.toNat = wordF1 0 kRegSP kRegSP kOpSub (4 * r) := by
    rw [hvpc, hcode s.pc.toNat (le_refl _) (by rw [a2]; omega)]; exact a4
  obtain ⟨va, c1, c2, c3, c4⟩ := step_add_sub_imm vm kOpSub kRegSP (4 * r) (Or.inr rfl)
    (by decide) (by omega) (by rw [hvpc]; omega) hw0
  have hne : ¬ kOpSub = kOpAdd := by decide
  have hwsp : wrap32 (vm.reg 14 - 4 * r) = vm.reg 14 - 4 * r := by unfold wrap32; omega
  simp only [hne, if_false, h14, hwsp] at c4
  have hva14 : va.reg 14 = vm.reg 14 - 4 * r := by rw [c4]; exact Function.update_same _ _ _
  have hvai : ∀ i : Nat, i ≠ 14 → va.reg i = vm.reg i := by
    intro i hi; rw [c4]; exact Function.update_noteq hi _ _
  -- the stores
  obtain ⟨vm1, d1, d2, d3, d4, d5⟩ := run_stores r (s.pc + 1) hr.2 (by omega) r 0 va
    (by omega) (by rw [c2, hvpc]; simp)
    (by
      intro j _ hj
      rw [c3, hcode _ (by omega) (by rw [a2]; omega)]
      exact a5 j hj)
    (by rw [hva14]; rw [a2] at habove; omega) (by rw [hva14]; omega)
  have hv1reg : ∀ i : Nat, vm1.reg i = va.reg i := fun i => by rw [d3]
  have hv114 : vm1.reg 14 = vm.reg 14 - 4 * r := by rw [hv1reg, hva14]
  refine ⟨vm1, ?_, ?_, hv114, ?_, ?_, ?_, ?_⟩
  · rw [stepN_succ r vm va c1]; exact d1
  · rw [d2, a2]; ring
  · intro i hi; rw [hv1reg, hvai i hi]
  · intro j hj
    rw [hv1reg 14, d4 j (Nat.zero_le _) hj]
    exact hvai j (by omega)
  · intro n hn
    rw [hv1reg 14] at hn
    rw [d5 n (fun j _ hj => hn j hj), c3]
  · intro vm2 hpc2 hcode2 hsp2 hslots
    have hsp2' : vm2.reg 14 = vm.reg 14 - 4 * r := by rw [hsp2, hv114]
    obtain ⟨vb, f1, f2, f3, f4, f5⟩ := run_loads r s'.pc hr.2 ⟨hpc'.1, by omega⟩ r vm2
      (le_refl _) (by rw [hpc2]; ring)
      (by
        intro j hj
        rw [hcode2 _ (by omega) (by rw [b2]; omega)]
        exact b4 j hj)
      (by rw [hsp2']; omega) (by rw [hsp2']; omega)
    have hwadd : vb.mem vb.pc.toNat = wordF1 0 kRegSP kRegSP kOpAdd (4 * r) := by
      rw [f3, f2, hcode2 _ (by omega) (by rw [b2]; omega)]; exact b5
    obtain ⟨vm3, g1, g2, g3, g4⟩ := step_add_sub_imm vb kOpAdd kRegSP (4 * r) (Or.inl rfl)
      (by decide) (by omega) (by rw [f2]; omega) hwadd
    have hvb14 : vb.reg 14 = vm.reg 14 - 4 * r := by rw [f5 14 (by omega)]; exact hsp2'
    have hwsp2 : wrap32 (vb.reg 14 + 4 * r) = vm.reg 14 := by
      rw [hvb14]; unfold wrap32; omega
    simp only [if_true, h14, hwsp2] at g4
    refine ⟨vm3, stepN_snoc r vm2 vb vm3 f1 g1, ?_, ?_, ?_, ?_, ?_⟩
    · rw [g2, f2, b2]
    · rw [g4]; exact Function.update_same _ _ _
    · intro j hj
      rw [g4, Function.update_noteq (by omega), f4 j hj, hsp2, hslots j hj, hv1reg 14,
        d4 j (Nat.zero_le _) hj, hvai j (by omega)]
      have := hregs j hj
      unfold wrap32; omega
    · intro i hi hi14
      rw [g4, Function.update_noteq hi14]
      exact f5 i hi
    · rw [g3, f3]

/-- Witness for C36: `SaveRegs(2)` and `RestoreRegs(2)` from `cgStart` emit six instructions
and leave the frame offset at 8 and then at 0.  With R0 = 11, R1 = 22 and SP = 4096 the first
three instructions leave SP = 4088 and the words 11 and 22 at the word addresses 1023 and
1022; after the registers have been cleared, the other three restore R0, R1 and SP. -/
theorem C36_save_restore_witness :
    ((1 : Nat) ≤ 2 ∧ 2 ≤ 14) ∧ (0 ≤ cgStart.pc ∧ cgStart.pc + (2 : Nat) + 1 ≤ 1024) ∧
    savedDemo.frame = 8 ∧ restoredDemo.frame = 0 ∧ restoredDemo.pc = 7 ∧
    ∃ vm1 vm3, stepN 3 saveRestoreVM = some vm1 ∧ stepN 3 (clobbered vm1) = some vm3 ∧
      vm1.reg 14 = 4088 ∧ vm1.mem 1023 = 11 ∧ vm1.mem 1022 = 22 ∧
      vm3.reg 0 = 11 ∧ vm3.reg 1 = 22 ∧ vm3.reg 14 = 4096 := by
  obtain ⟨s1, s3, hS, hR, _, _, _, _, hrun⟩ :=
    C36_save_restore_registers 2 cgStart savedDemo (by decide) (by decide) (by decide)
  have hs1 : s1 = savedDemo := by
    have : (SaveRegs 2 cgStart).getD cgStart = s1 := by
      rw [show SaveRegs 2 cgStart = some s1 from hS]; rfl
    exact this.symm
  have hs3 : s3 = restoredDemo := by
    have : (RestoreRegs 2 savedDemo).getD savedDemo = s3 := by
      rw [show RestoreRegs 2 savedDemo = some s3 from hR]; rfl
    exact this.symm
  subst hs1 hs3
  have hp1 : savedDemo.pc.toNat = 4 := by decide
  have hp3 : restoredDemo.pc.toNat = 7 := by decide
  obtain ⟨vm1, r1, r2, r3, r4, r5, r6, hrest⟩ := hrun saveRestoreVM rfl
    (by
      intro k h1 h2
      rw [hp1] at h2
      have h1' : 1 ≤ k := h1
      interval_cases k <;> decide)
    (by intro j hj; interval_cases j <;> decide)
    (by decide) (by decide)
  have hsp : vm1.reg 14 = 4088 := by rw [r3]; decide
  obtain ⟨vm3, t1, t2, t3, t4, _, _⟩ := hrest (clobbered vm1) r2
    (by
      intro k h1 h2
      rw [hp3] at h2
      have h1' : 4 ≤ k := by rw [hp1] at h1; exact h1
      have hm : vm1.mem k = saveRestoreVM.mem k := by
        apply r6
        intro j hj
        rw [hsp]
        interval_cases j <;> interval_cases k <;> decide
      show vm1.mem k = _
      rw [hm]
      interval_cases k <;> decide)
    rfl (fun j _ => rfl)
  have h0 := r5 0 (by decide)
  have h1 := r5 1 (by decide)
  rw [hsp] at h0 h1
  refine ⟨by decide, by decide, by decide, by decide, by decide, vm1, vm3, r1, t1, hsp, ?_, ?_,
    ?_, ?_, ?_⟩
  · exact h0
  · exact h1
  · exact t4 0 (by decide)
  · exact t4 1 (by decide)
  · exact t3

/-! ### The scanner: comments (C31) -/

/-- C31 (code defect): `Comment` is entered with the `*` of the opening bracket as the
current character and does not read past it before its loops start, so that the loop over a
run of asterisks takes it for the `*` of a closing bracket.  On the text `(*)x*)y` the comment
ends after `(*)`: the next symbols are the identifier `x`, `*`, `)` and the identifier `y`,
and nothing is reported.  On `(*(*)*)y` the nested `(*)` is taken for a whole comment, so
that the outer one ends at the `*)` that follows, and the next symbol is `y`.  Comments
without `(*)` are skipped as they should: `(*a(*b*)c*)y` and the two lines `(*a`, `b**)y`
deliver `y`; and for `(*a(*b*)c`, where the text ends within the comment, "unterminated
comment" is reported and the end of the text delivered. -/
theorem C31_comment_closed_by_its_opening_asterisk :
    tokens 5 (scannerOn textShortComment)
      = [(kSymIdent, 120, 0, 0, 0), (kSymTimes, 120, 0, 0, 0), (kSymRParen, 120, 0, 0, 0),
         (kSymIdent, 121, 0, 0, 0), (kSymEot, 121, 0, 0, 0)] ∧
    tokens 2 (scannerOn textNestedShortComment)
      = [(kSymIdent, 121, 0, 0, 0), (kSymEot, 121, 0, 0, 0)] ∧
    tokens 2 (scannerOn textNestedComment)
      = [(kSymIdent, 121, 0, 0, 0), (kSymEot, 121, 0, 0, 0)] ∧
    tokens 2 (scannerOn textLongComment)
      = [(kSymIdent, 121, 0, 0, 0), (kSymEot, 121, 0, 0, 0)] ∧
    (ORS_Get (scannerOn textOpenComment)).map (fun r => (r.1, r.2.inp.diag.marks))
      = some (kSymEot, ["unterminated comment"]) := by
  refine ⟨?_, ?_, ?_, ?_, ?_⟩ <;> decide!

/-! ### The scanner: tokens of two characters (C32) -/

/-- The loop over blanks returns at once at the end of the text and before a character that
is not a blank. -/
theorem skipBlanks_none (fuel : Nat) (i : Input) (h : i.ch = kEOF ∨ IsBlank i.ch = some false) :
    skipBlanks (fuel + 1) i = some i := by
  unfold skipBlanks
  rcases h with h | h
  · simp [h]
  · by_cases he : i.ch = kEOF
    · simp [he]
    · simp [he, h]

/-- On one of the characters `.`, `:`, `<`, `>` `ORS_Get` is the call of `Switch` for it. -/
theorem ORS_Get_switch (s : Scanner) (p : Int × Int × Int × Int) (hp : p ∈ specPairs)
    (hc : s.inp.ch = p.1) : ORS_Get s = Switch p.2.2.1 p.2.1 p.2.2.2 s := by
  unfold ORS_Get getFuel
  rw [getLoop]
  have hb : IsBlank s.inp.ch = some false := by
    simp only [specPairs, List.mem_cons, List.mem_singleton, List.not_mem_nil, or_false] at hp
    rcases hp with rfl | rfl | rfl | rfl <;> (rw [hc]; decide)
  rw [skipBlanks_none _ _ (Or.inr hb)]
  simp only [specPairs, List.mem_cons, List.mem_singleton, List.not_mem_nil, or_false] at hp
  rcases hp with rfl | rfl | rfl | rfl <;> simp [hc, kEOF]

/-- The decimal digits are not blanks. -/
theorem digit_not_blank (c : Int) (h1 : 48 ≤ c) (h2 : c ≤ 57) : IsBlank c = some false := by
  interval_cases c <;> decide

/-- On a decimal digit `ORS_Get` is the call of `Number`. -/
theorem ORS_Get_digit (s : Scanner) (h1 : 48 ≤ s.inp.ch) (h2 : s.inp.ch ≤ 57) :
    ORS_Get s = Number s := by
  unfold ORS_Get getFuel
  rw [getLoop, skipBlanks_none _ _ (Or.inr (digit_not_blank _ h1 h2))]
  simp only [Option.some_bind, kEOF]
  repeat rw [if_neg (by omega)]
  rw [if_pos ⟨h1, h2⟩]

/-- A call of `Switch` on a character that is not followed by `c`: the symbol of the single
character, one character consumed. -/
theorem Switch_single (sym1 c sym2 : Int) (s : Scanner) (i1 : Input)
    (h1 : Consume s.inp = some i1) (hne : i1.ch ≠ c) :
    Switch sym1 c sym2 s = some (sym1, { s with inp := i1 }) := by
  simp [Switch, Scanner.consume, h1, hne]

/-- A call of `Switch` on a character that is followed by `c`: the symbol of the pair, both
characters consumed. -/
theorem Switch_pair (sym1 c sym2 : Int) (s : Scanner) (i1 i2 : Input)
    (h1 : Consume s.inp = some i1) (hc : i1.ch = c) (h2 : Consume i1 = some i2) :
    Switch sym1 c sym2 s = some (sym2, { s with inp := i2 }) := by
  simp [Switch, Scanner.consume, h1, hc, h2]

/-- In a state in which the current character is the decimal digit `d0` and `Consume`
delivers the decimal digits `dr` (at most 16 digits in all) and then a character `f` that is
neither a hexadecimal digit nor `H`, `R` or `X`, with a value of the digits of at most
2^31 - 1: `Number` returns `kSymInt` in the state after the digits, with that value in
`g_ival`, and reports nothing. -/
theorem Number_decimal_fits (s : Scanner) (d0 : Int) (dr : List Int) (f : Int) (inp1 : Input)
    (hd : ∀ d ∈ d0 :: dr, 0 ≤ d ∧ d ≤ 9) (hlen : dr.length + 1 ≤ 16)
    (hcur : s.inp.ch = 48 + d0)
    (hf : IsHexDigit f = some false ∧ f ≠ 72 ∧ f ≠ 82 ∧ f ≠ 88)
    (hr : reads s.inp (dr.map (fun d => 48 + d) ++ [f]) = some inp1)
    (hv : decimalValue (d0 :: dr) ≤ 2147483647) :
    ∃ bf, Number s =
      some (kSymInt, { s with inp := inp1, buff := bf, ival := decimalValue (d0 :: dr) }) := by
  have hd0 := hd d0 (List.mem_cons_self _ _)
  have hdr : ∀ d ∈ dr, 0 ≤ d ∧ d ≤ 9 := fun d h => hd d (List.mem_cons_of_mem _ h)
  have hrest : ∀ c ∈ dr.map (fun d => 48 + d), IsHexDigit c = some true := by
    intro c hc
    obtain ⟨d, hdm, rfl⟩ := List.mem_map.mp hc
    exact digit_is_hex d (hdr d hdm).1 (hdr d hdm).2
  have hlm : (dr.map (fun d => 48 + d)).length = dr.length := List.length_map _ _
  obtain ⟨bf, hrun, hnew, _⟩ := digitLoop_run (dr.map (fun d => 48 + d)) (48 + d0) 258 0 s f
    inp1 (by rw [hlm]; omega) (by rw [hlm]; omega) hcur hrest hf.1 hr
  rw [hlm] at hrun hnew
  have hch : inp1.ch = f := reads_last _ s.inp inp1 f hr
  have hbuf : ∀ k : Nat, k < (d0 :: dr).length → bf (0 + k) = (d0 :: dr).getD k 0 := by
    intro k hk
    rw [hnew k (by simpa using hk)]
    cases k with
    | zero => simp
    | succ k =>
      have hk' : k < dr.length := by simpa using hk
      simp only [List.getD_eq_getElem?_getD, List.getElem?_cons_succ, List.getElem?_map,
        List.getElem?_eq_getElem hk', Option.map_some', Option.getD_some]
      omega
  obtain ⟨sum', diag', hdec, _, _, _, _, hok, _⟩ :=
    decLoop_run bf (0 + dr.length + 1) (by omega) (d0 :: dr) 0 17 0 inp1 (List.cons_ne_nil _ _)
      (by simp only [List.length_cons]; omega) (by simp only [List.length_cons]; omega) hbuf hd
      ⟨le_refl _, by norm_num⟩
  obtain ⟨hsum, hdg⟩ := hok hv
  have hh : ¬ IsHexDigit s.inp.ch ≠ some true := by
    rw [hcur]; simpa using digit_is_hex d0 hd0.1 hd0.2
  have hnot : ¬ (inp1.ch = 72 ∨ inp1.ch = 82 ∨ inp1.ch = 88) := by
    rw [hch]; rintro (h | h | h)
    · exact hf.2.1 h
    · exact hf.2.2.1 h
    · exact hf.2.2.2 h
  have hrun' : digitLoop 258 0 s =
      some (((0 + dr.length + 1 : Nat) : Int), { s with inp := inp1, buff := bf }) := by
    simpa using hrun
  have hdec' : decLoop bf ((0 + dr.length + 1 : Nat) : Int) 17 0 0 inp1 =
      some (decimalValue (d0 :: dr), inp1) := by
    rw [hsum, hdg] at hdec
    simpa [decimalValue] using hdec
  refine ⟨bf, ?_⟩
  simp only [Number, hh, if_false, hrun', Option.some_bind, hnot, hdec']

/-- C32: in every state of the scanner, for each of the pairs `..`, `:=`, `<=`, `>=`: when
the current character is the first of the pair and the next one is not the second, `ORS_Get`
returns Period, Colon, Lss or Gtr with one character consumed; when the next one is the
second, it returns UpTo, Becomes, Leq or Geq with both characters consumed.  And when the
current character starts a run of at most 16 decimal digits `d0 :: dr` that is followed by
`..`, a second such run `e0 :: er` and a character `f` that is neither a hexadecimal digit
nor `H`, `R` or `X`, both values being at most 2^31 - 1, three calls of `ORS_Get` return the
integer of the first run, UpTo and the integer of the second run, stop at `f` and report
nothing. -/
theorem C32_two_character_tokens (s : Scanner) :
    (∀ p ∈ specPairs, ∀ i1 : Input, s.inp.ch = p.1 → Consume s.inp = some i1 →
      (i1.ch ≠ p.2.1 → ORS_Get s = some (p.2.2.1, { s with inp := i1 })) ∧
      (i1.ch = p.2.1 → ∀ i2 : Input, Consume i1 = some i2 →
        ORS_Get s = some (p.2.2.2, { s with inp := i2 }))) ∧
    (∀ (d0 : Int) (dr : List Int) (e0 : Int) (er : List Int) (f : Int) (inp3 : Input),
      (∀ d ∈ d0 :: dr, 0 ≤ d ∧ d ≤ 9) → dr.length + 1 ≤ 16 →
      (∀ d ∈ e0 :: er, 0 ≤ d ∧ d ≤ 9) → er.length + 1 ≤ 16 →
      decimalValue (d0 :: dr) ≤ 2147483647 → decimalValue (e0 :: er) ≤ 2147483647 →
      (IsHexDigit f = some false ∧ f ≠ 72 ∧ f ≠ 82 ∧ f ≠ 88) →
      s.inp.ch = 48 + d0 →
      reads s.inp (dr.map (fun d => 48 + d) ++ [46, 46] ++ (e0 :: er).map (fun d => 48 + d) ++ [f])
        = some inp3 →
      ∃ s1 s2 s3, ORS_Get s = some (kSymInt, s1) ∧ s1.ival = decimalValue (d0 :: dr) ∧
        ORS_Get s1 = some (kSymUpTo, s2) ∧ s2.ival = s1.ival ∧ s2.inp.ch = 48 + e0 ∧
        ORS_Get s2 = some (kSymInt, s3) ∧ s3.ival = decimalValue (e0 :: er) ∧
        s3.inp = inp3 ∧ inp3.ch = f ∧ inp3.diag = s.inp.diag) := by
  constructor
  · intro p hp i1 hc h1
    rw [ORS_Get_switch s p hp hc]
    exact ⟨fun hne => Switch_single _ _ _ s i1 h1 hne,
      fun he i2 h2 => Switch_pair _ _ _ s i1 i2 h1 he h2⟩
  · intro d0 dr e0 er f inp3 hd hdl he hel hdv hev hf hcur hr
    have hd0 := hd d0 (List.mem_cons_self _ _)
    have he0 := he e0 (List.mem_cons_self _ _)
    have hsplit : dr.map (fun d => 48 + d) ++ [46, 46] ++ (e0 :: er).map (fun d => 48 + d) ++ [f]
        = (dr.map (fun d => 48 + d) ++ [46]) ++
          ([46, 48 + e0] ++ (er.map (fun d => 48 + d) ++ [f])) := by
      simp
    rw [hsplit] at hr
    obtain ⟨m1, hr1, hr'⟩ := reads_append _ _ _ _ hr
    obtain ⟨m2, hr2, hr3⟩ := reads_append _ _ _ _ hr'
    obtain ⟨i2, hc2, hch2, hr2'⟩ := reads_cons _ _ _ _ hr2
    obtain ⟨i3, hc3, hch3, hr2''⟩ := reads_cons _ _ _ _ hr2'
    simp only [reads, Option.some.injEq] at hr2''
    subst hr2''
    have hm1 : m1.ch = 46 := reads_last _ _ _ _ hr1
    have hne10 : ∀ (l : List Int), (∀ d ∈ l, 0 ≤ d ∧ d ≤ 9) →
        ∀ c ∈ l.map (fun d => 48 + d), c ≠ 10 := by
      intro l hl c hc
      obtain ⟨d, hdm, rfl⟩ := List.mem_map.mp hc
      have := hl d hdm
      omega
    have hdg1 : m1.diag = s.inp.diag :=
      reads_diag _ _ _ _ hr1 (by rw [hcur]; omega)
        (hne10 dr fun d h => hd d (List.mem_cons_of_mem _ h))
    have hdg2 : i2.diag = m1.diag := reads_diag [] m1 i2 46 (by simp [reads, hc2, hch2])
      (by rw [hm1]; decide) (by simp)
    have hdg3 : i3.diag = i2.diag := reads_diag [] i2 i3 (48 + e0) (by simp [reads, hc3, hch3])
      (by rw [hch2]; decide) (by simp)
    have hdg4 : inp3.diag = i3.diag :=
      reads_diag _ _ _ _ hr3 (by rw [hch3]; omega)
        (hne10 er fun d h => he d (List.mem_cons_of_mem _ h))
    obtain ⟨bf1, hN1⟩ := Number_decimal_fits s d0 dr 46 m1 hd hdl hcur (by decide) hr1 hdv
    obtain ⟨bf2, hN2⟩ := Number_decimal_fits
      { s with inp := i3, buff := bf1, ival := decimalValue (d0 :: dr) } e0 er f inp3 he hel
      hch3 hf hr3 hev
    refine ⟨{ s with inp := m1, buff := bf1, ival := decimalValue (d0 :: dr) },
      { s with inp := i3, buff := bf1, ival := decimalValue (d0 :: dr) },
      { s with inp := inp3, buff := bf2, ival := decimalValue (e0 :: er) },
      ?_, ?_, ?_, ?_, ?_, ?_, ?_, ?_, reads_last _ _ _ _ hr3, ?_⟩
    · rw [ORS_Get_digit s (by rw [hcur]; omega) (by rw [hcur]; omega)]
      exact hN1
    · rfl
    · rw [ORS_Get_switch _ (46, 46, kSymPeriod, kSymUpTo) (by simp [specPairs]) hm1]
      exact Switch_pair _ _ _ _ i2 i3 hc2 hch2 hc3
    · rfl
    · exact hch3
    · rw [ORS_Get_digit _ (by show 48 ≤ i3.ch; rw [hch3]; omega)
        (by show i3.ch ≤ 57; rw [hch3]; omega)]
      exact hN2
    · rfl
    · rfl
    · rw [hdg4, hdg3, hdg2, hdg1]

/-- When the characters `cs` can be read, `readAhead` is the state after them. -/
theorem reads_readAhead (i : Input) (cs : List Int) (h : (reads i cs).isSome = true) :
    reads i cs = some (readAhead i cs) := by
  unfold readAhead
  cases hh : reads i cs with
  | none => rw [hh] at h; cases h
  | some r => rfl

/-- Witness for C32: on the source line `100..256:=:<=<>=>.;` the first three calls of
`ORS_Get` return the integer 100, UpTo and the integer 256 and stop at the `:`; there the
pair `:=` follows, which is returned as Becomes with both characters consumed. -/
theorem C32_two_character_tokens_witness :
    (∃ s1 s2 s3, ORS_Get (scannerOn textOperators) = some (kSymInt, s1) ∧ s1.ival = 100 ∧
      ORS_Get s1 = some (kSymUpTo, s2) ∧ ORS_Get s2 = some (kSymInt, s3) ∧ s3.ival = 256 ∧
      s3.inp.ch = 58 ∧ s3.inp.diag.marks = [] ∧
      ∃ i1 i2, Consume s3.inp = some i1 ∧ i1.ch = 61 ∧ Consume i1 = some i2 ∧ i2.ch = 58 ∧
        ORS_Get s3 = some (kSymBecomes, { s3 with inp := i2 })) := by
  have hr := reads_readAhead (scannerOn textOperators).inp textRange (by decide)
  obtain ⟨s1, s2, s3, h1, hv1, h2, _, _, h3, hv3, hi3, hch, hdg⟩ :=
    (C32_two_character_tokens (scannerOn textOperators)).2 1 [0, 0] 2 [5, 6] 58
      (readAhead (scannerOn textOperators).inp textRange)
      (by decide) (by decide) (by decide) (by decide) (by decide) (by decide) (by decide)
      (by decide) hr
  have hc2 := reads_readAhead (readAhead (scannerOn textOperators).inp textRange) [61, 58]
    (by decide)
  obtain ⟨i1, hi1, hi1ch, hr1⟩ := reads_cons _ _ _ _ hc2
  obtain ⟨i2, hi2, hi2ch, _⟩ := reads_cons _ _ _ _ hr1
  rw [← hi3] at hi1
  refine ⟨s1, s2, s3, h1, by rw [hv1]; decide, h2, h3, by rw [hv3]; decide, by rw [hi3]; exact hch,
    by rw [hi3, hdg]; decide, i1, i2, hi1, hi1ch, hi2, hi2ch, ?_⟩
  exact ((C32_two_character_tokens s3).1 (58, 61, kSymColon, kSymBecomes)
    (by simp [specPairs]) i1 (by rw [hi3]; exact hch) hi1).2 hi1ch i2 hi2

/-! ### The budget on a program with console output -/

/-- C17 (code defect): `IsTrue` has no case for the four condition codes that `risc.h` defines
on the carry flag, `CS` (2, "C"), `LS` (4, "~C | Z"), `CC` (10, "~C") and `HI` (12,
"~(~C | Z)"): it is false for each of them in every state of the flags, so that `IsTrue(c)`
is not the negation of `IsTrue((c + 8) mod 16)` for these codes, which `Negated` pairs like
the others.  The codes reach the interpreter through `SYSTEM.COND`: in
`IF SYSTEM.COND(c) THEN R0 := 1 END` the jump over the statement carries the code
`Negated(c)` and is never taken for `c = 2` and for `c = 10`, whatever the flags, so that the
statement is executed under a condition and under its negation alike.  For `c = 1` (`EQ`) and
`c = 9` (`NE`) the statement is executed if and only if `Z` is set, respectively clear. -/
theorem C17_carry_conditions_never_hold :
    (∀ s : VM, IsTrue s kCondCS = false ∧ IsTrue s ((kCondCS + 8) % 16) = false ∧
      IsTrue s kCondLS = false ∧ IsTrue s ((kCondLS + 8) % 16) = false) ∧
    ((kCondCS + 8) % 16 = kCondCC ∧ (kCondLS + 8) % 16 = kCondHI ∧
      Negated kCondCS = kCondCC ∧ Negated kCondCC = kCondCS ∧
      Negated kCondLS = kCondHI ∧ Negated kCondHI = kCondLS) ∧
    ((condCode 2).map (fun s => (s.mem 1, s.mem 2))
        = some (wordF3 kOpBc kCondCC 1, wordF1 0 0 0 kOpMov 1) ∧
     (condCode 10).map (fun s => (s.mem 1, s.mem 2))
        = some (wordF3 kOpBc kCondCS 1, wordF1 0 0 0 kOpMov 1)) ∧
    (∀ n z cf v : Bool, condRun 2 n z cf v = some (3, 1) ∧ condRun 10 n z cf v = some (3, 1)) ∧
    (∀ n cf v : Bool,
      condRun 1 n true cf v = some (3, 1) ∧ condRun 9 n true cf v = some (4, 0) ∧
      condRun 1 n false cf v = some (4, 0) ∧ condRun 9 n false cf v = some (3, 1)) := by
  refine ⟨?_, by decide, by decide, by decide, by decide⟩
  intro s
  simp [IsTrue, kCondTrue, kCondMI, kCondEQ, kCondVS, kCondLT, kCondLE, kCondPL, kCondNE,
    kCondVC, kCondGE, kCondGT, kCondCS, kCondLS]

/-! ### The byte 0xFF in a string literal (C15) -/

/-- C15 (code defect): `Consume` passes every byte of the file through the `char` array
`g_line`, in which the byte 0xFF and the value `EOF` of `fgetc` are both -1.  In the string
literal `"a?b"` with the byte 0xFF for `?` the loop of `String` stores the `a` and ends at that
byte with `g_ch == EOF`, the characters `b"` of the line still unread and no error counted; the call of `Consume`
behind the loop then ends the program ("program incomplete"), so that neither `String` nor
`ORS_Get` returns a symbol.  The character is outside 32 .. 126 and is not dropped.  With the
bytes 0xFE, 0x7F or 0x09 in its place the character is dropped: `String` returns
`kSymString`, `g_str` is `ab` followed by NUL, `g_slen` is 3 and the next character is `;`. -/
theorem C15_byte_FF_ends_string :
    toChar 255 = kEOF ∧
    ((scannerOn (textStringWith 255)).consume.bind fun s1 => stringLoop 514 0 s1).map
        (fun r => (r.1, r.2.str 0, r.2.inp.ch, r.2.inp.line 3, r.2.inp.line 4,
          r.2.inp.diag.errcnt))
      = some (1, 97, kEOF, 98, 34, 0) ∧
    (((scannerOn (textStringWith 255)).consume.bind fun s1 => stringLoop 514 0 s1).bind
        fun r => Consume r.2.inp).isSome = false ∧
    (String_ (scannerOn (textStringWith 255))).isSome = false ∧
    (ORS_Get (scannerOn (textStringWith 255))).isSome = false ∧
    (∀ c ∈ [254, 127, 9],
      (String_ (scannerOn (textStringWith c))).map
          (fun r => (r.1, r.2.str 0, r.2.str 1, r.2.str 2, r.2.slen, r.2.inp.ch))
        = some (kSymString, 97, 98, 0, 3, 59)) := by
  refine ⟨?_, ?_, ?_, ?_, ?_, ?_⟩ <;> decide

/-! ### The value returned by `main`, from the options read (C33) -/

/-- Flags that `main` does not read: `oc -h -x` and `oc M.Mod -x` print the help text and
return 0; `oc -hx` and `oc -x M.Mod` report the illegal option and return 1. -/
theorem main_flags_not_read :
    main (fun _ => some 0) [cstr "-h", cstr "-x"] = some (0, [action_t.help]) ∧
    main (fun _ => some 0) [cstr "M.Mod", cstr "-x"] = some (0, [action_t.help]) ∧
    main (fun _ => some 0) [cstr "-hx"]
      = some (1, [action_t.illegalOption 120, action_t.help]) ∧
    main (fun _ => some 0) [cstr "-x", cstr "M.Mod"]
      = some (1, [action_t.illegalOption 120, action_t.help]) ∧
    specOptionsRead [cstr "-h", cstr "-x"] = [104] ∧
    specOptionsRead [cstr "M.Mod", cstr "-x"] = [] ∧
    specOptionsRead [cstr "-s", cstr "-hx", cstr "-y"] = [115, 104, 120] := by
  refine ⟨?_, ?_, ?_, ?_, ?_, ?_, ?_⟩ <;> decide

end Oberon
